import Mathlib

/-!
# FS3 storage driver: command codec, sector cache and file operations

A shallow embedding of `fs3_driver.c` and `fs3_cache.c`.

Conventions of the embedding

* C globals (`my_disk`, `fileHandleCounter`, `myCache`) become explicit state that
  every operation takes and returns.
* An operation whose C execution would be undefined (out-of-bounds array index,
  dereference of a NULL pointer, `memcpy` past the end of a buffer, overflow of a
  signed counter) returns `none`; every defined execution returns `some`.
* Unsigned machine integers are naturals reduced modulo `2 ^ w` where the C
  expression can wrap.
* A byte is `Option Nat`: `none` is an indeterminate byte of freshly `malloc`ed
  memory, `some b` a byte with a definite value. The code never branches on a
  byte, it only copies them.
* The constants of the absent header `fs3_controller.h` are the fields of `Config`.
-/

namespace FS3

/-! ## Constants -/

/-- Compile-time constants taken from the header `fs3_controller.h`, which is not
part of the sources: bytes per sector, sectors per track, tracks per disk. -/
structure Config where
  FS3_SECTOR_SIZE : Nat
  FS3_TRACK_SIZE : Nat
  FS3_MAX_TRACKS : Nat
deriving DecidableEq, Repr

/-- Constant `FS3_MAX_TOTAL_FILES` of `fs3_driver.h`. -/
def FS3_MAX_TOTAL_FILES : Nat := 1024

/-- Constant `FS3_MAX_PATH_LENGTH` of `fs3_driver.h`: the size of a record's `name` array. -/
def FS3_MAX_PATH_LENGTH : Nat := 128

/-- Constant `FS3_MAX_TRACK_SECTOR_PAIRS` of `fs3_driver.h`: the length of a file's `loc` array. -/
def FS3_MAX_TRACK_SECTOR_PAIRS (cfg : Config) : Nat :=
  cfg.FS3_MAX_TRACKS * cfg.FS3_TRACK_SIZE

/-- Modelled from the spec: opcode MOUNT of the absent header (section 6: MOUNT=1). -/
def FS3_OP_MOUNT : Nat := 1
/-- Modelled from the spec: opcode UNMOUNT of the absent header (section 6: UNMOUNT=2). -/
def FS3_OP_UMOUNT : Nat := 2
/-- Modelled from the spec: opcode SEEK-TRACK of the absent header (section 6: SEEK-TRACK=3). -/
def FS3_OP_TSEEK : Nat := 3
/-- Modelled from the spec: opcode READ-SECTOR of the absent header (section 6: READ-SECTOR=4). -/
def FS3_OP_RDSECT : Nat := 4
/-- Modelled from the spec: opcode WRITE-SECTOR of the absent header (section 6: WRITE-SECTOR=5). -/
def FS3_OP_WRSECT : Nat := 5

/-- Largest value of a C `int`. -/
def INT_MAX : Nat := 2147483647

/-- Reduction of a natural to a `uint32_t`. -/
def u32 (x : Nat) : Nat := x % 4294967296

/-- Reduction of a natural to a `uint16_t`. -/
def u16 (x : Nat) : Nat := x % 65536

/-- A byte of memory; `none` is an indeterminate (never written) byte. -/
abbrev Byte := Option Nat

/-- Fresh `malloc(n)`: `n` indeterminate bytes. -/
def malloc (n : Nat) : List Byte := List.replicate n none

/-- The C call `memcpy(&dst[dOff], &src[sOff], n)`; `none` when either range leaves
its buffer. -/
def memcpy (dst : List Byte) (dOff : Nat) (src : List Byte) (sOff n : Nat) :
    Option (List Byte) :=
  if dOff + n ≤ dst.length ∧ sOff + n ≤ src.length then
    some (dst.take dOff ++ ((src.drop sOff).take n ++ dst.drop (dOff + n)))
  else none

/-- Post-increment of a C `int` counter; overflow is undefined. -/
def incr (x : Nat) : Option Nat :=
  if x < INT_MAX then some (x + 1) else none

/-! ## Command codec (`fs3_driver.c`, lines 525-559) -/

/-- The four fields that `deconstruct_fs3cmdblock` writes through its pointers. -/
structure CmdFields where
  op : Nat
  sec : Nat
  trk : Nat
  ret : Nat
deriving DecidableEq, Repr

/-- Function `construct_fs3cmdblock`: every operand is cast to `uint64_t`, shifted and or-ed in. -/
def construct_fs3cmdblock (op sec trk ret : Nat) : Nat :=
  let cmdblock := (op <<< 60) % 2 ^ 64
  let cmdblock := cmdblock ||| ((sec <<< 44) % 2 ^ 64)
  let cmdblock := cmdblock ||| ((trk <<< 12) % 2 ^ 64)
  let cmdblock := cmdblock ||| ((ret <<< 11) % 2 ^ 64)
  cmdblock

/-- Function `deconstruct_fs3cmdblock`: the returned code and the value stored through each
non-NULL pointer (a caller that passes NULL for a field ignores that component). The
stores into `uint8_t` and `uint16_t` objects truncate. -/
def deconstruct_fs3cmdblock (cmdblock : Nat) : Int × CmdFields :=
  (0, { op := (((1 <<< 4) % 2 ^ 64 - 1) &&& (cmdblock >>> 60)) % 2 ^ 8
        sec := (((1 <<< 16) % 2 ^ 64 - 1) &&& (cmdblock >>> 44)) % 2 ^ 16
        trk := ((1 <<< 32) % 2 ^ 64 - 1) &&& (cmdblock >>> 12)
        ret := (((1 <<< 1) % 2 ^ 64 - 1) &&& (cmdblock >>> 11)) % 2 ^ 8 })

/-! ## Sector cache (`fs3_cache.h`, `fs3_cache.c`) -/

/-- Type `CACHE_SECTOR`: one entry of the presence index. -/
structure CACHE_SECTOR where
  contains : Nat
  loc : Nat
deriving DecidableEq, Repr

/-- Type `CACHE_LINE`; `sectorBytes = none` is the NULL pointer. -/
structure CACHE_LINE where
  trackIndex : Nat
  sectorIndex : Nat
  sectorBytes : Option (List Byte)
deriving DecidableEq, Repr

/-- Type `CACHE_STATS`. -/
structure CACHE_STATS where
  inserts : Nat
  gets : Nat
  hits : Nat
  misses : Nat
deriving DecidableEq, Repr

/-- Type `CACHE`; `cacheLines = none` is the NULL pointer, `containedSectors t s` is
`containedSectors[t][s]`. -/
structure CACHE where
  cacheLines : Option (List CACHE_LINE)
  size : Nat
  initialized : Nat
  stats : CACHE_STATS
  cacheLinesTaken : Nat
  lastAccessedLine : Nat
  containedSectors : Nat → Nat → CACHE_SECTOR

/-- The zero-initialised global `myCache` at program start. -/
def CACHE.zero : CACHE :=
  { cacheLines := none, size := 0, initialized := 0, stats := ⟨0, 0, 0, 0⟩,
    cacheLinesTaken := 0, lastAccessedLine := 0, containedSectors := fun _ _ => ⟨0, 0⟩ }

/-- Assignment `containedSectors[t][s] = v`. -/
def setSector (f : Nat → Nat → CACHE_SECTOR) (t s : Nat) (v : CACHE_SECTOR) :
    Nat → Nat → CACHE_SECTOR :=
  fun t' s' => if t' = t ∧ s' = s then v else f t' s'

/-- Function `fs3_init_cache`; `cachelines` is a `uint16_t`, `malloc` is taken to succeed. -/
def fs3_init_cache (c : CACHE) (cachelines : Nat) : CACHE × Int :=
  if c.initialized ≠ 1 then
    ({ c with
        cacheLines := some (List.replicate cachelines ⟨0, 0, none⟩)
        size := cachelines
        initialized := 1
        lastAccessedLine := 0
        stats := ⟨0, 0, 0, 0⟩ }, 0)
  else (c, -1)

/-- The loop of `fs3_close_cache`: free and clear `sectorBytes` of lines `0 .. n-1`. -/
def freeLines : Nat → List CACHE_LINE → Option (List CACHE_LINE)
  | 0, lines => some lines
  | n + 1, lines =>
    match freeLines n lines with
    | none => none
    | some ls =>
      match ls[n]? with
      | none => none
      | some line => some (ls.set n { line with sectorBytes := none })

/-- Function `fs3_close_cache`. -/
def fs3_close_cache (c : CACHE) : Option (CACHE × Int) :=
  if c.initialized = 1 then
    match c.cacheLines with
    | none => if c.cacheLinesTaken = 0 then some (c, 0) else none
    | some lines =>
      match freeLines c.cacheLinesTaken lines with
      | none => none
      | some _ => some ({ c with cacheLines := none }, 0)
  else some (c, -1)

/-- Function `fs3_put_cache`. -/
def fs3_put_cache (cfg : Config) (c : CACHE) (trk sct : Nat) (buf : List Byte) :
    Option (CACHE × Int) :=
  if c.initialized = 1 then
    if trk < cfg.FS3_MAX_TRACKS ∧ sct < cfg.FS3_TRACK_SIZE then
      if (c.containedSectors trk sct).contains = 1 then
        let loc := (c.containedSectors trk sct).loc
        match c.cacheLines with
        | none => none
        | some lines =>
          match lines[loc]? with
          | none => none
          | some line =>
            match line.sectorBytes with
            | none => none
            | some old =>
              match memcpy old 0 buf 0 cfg.FS3_SECTOR_SIZE with
              | none => none
              | some bytes =>
                some ({ c with
                          cacheLines := some (lines.set loc { line with sectorBytes := some bytes })
                          lastAccessedLine := loc }, 0)
      else
        match memcpy (malloc cfg.FS3_SECTOR_SIZE) 0 buf 0 cfg.FS3_SECTOR_SIZE with
        | none => none
        | some bytes =>
          let newCacheLine : CACHE_LINE := ⟨trk, sct, some bytes⟩
          match c.cacheLines with
          | none => none
          | some lines =>
            if c.cacheLinesTaken = c.size then
              match lines[c.lastAccessedLine]? with
              | none => none
              | some old =>
                if old.trackIndex < cfg.FS3_MAX_TRACKS ∧ old.sectorIndex < cfg.FS3_TRACK_SIZE then
                  let idx := setSector c.containedSectors old.trackIndex old.sectorIndex
                    { c.containedSectors old.trackIndex old.sectorIndex with contains := 0 }
                  match incr c.stats.inserts with
                  | none => none
                  | some ins =>
                    some ({ c with
                              cacheLines := some (lines.set c.lastAccessedLine newCacheLine)
                              containedSectors := setSector idx trk sct ⟨1, c.lastAccessedLine⟩
                              stats := { c.stats with inserts := ins } }, 0)
                else none
            else
              let taken := u16 (c.cacheLinesTaken + 1)
              if 0 < taken ∧ taken - 1 < lines.length then
                match incr c.stats.inserts with
                | none => none
                | some ins =>
                  some ({ c with
                            cacheLinesTaken := taken
                            cacheLines := some (lines.set (taken - 1) newCacheLine)
                            containedSectors := setSector c.containedSectors trk sct ⟨1, taken - 1⟩
                            stats := { c.stats with inserts := ins } }, 0)
              else none
    else none
  else some (c, -1)

/-- Function `fs3_get_cache`; the returned pointer is `none` for NULL, else the buffer it
points to. -/
def fs3_get_cache (cfg : Config) (c : CACHE) (trk sct : Nat) :
    Option (CACHE × Option (List Byte)) :=
  if c.initialized = 1 then
    match incr c.stats.gets with
    | none => none
    | some g =>
      if trk < cfg.FS3_MAX_TRACKS ∧ sct < cfg.FS3_TRACK_SIZE then
        if (c.containedSectors trk sct).contains = 1 then
          let loc := (c.containedSectors trk sct).loc
          match incr c.stats.hits with
          | none => none
          | some h =>
            match c.cacheLines with
            | none => none
            | some lines =>
              match lines[loc]? with
              | none => none
              | some line =>
                some ({ c with
                          lastAccessedLine := loc
                          stats := { c.stats with gets := g, hits := h } }, line.sectorBytes)
        else
          match incr c.stats.misses with
          | none => none
          | some m => some ({ c with stats := { c.stats with gets := g, misses := m } }, none)
      else none
  else some (c, none)

/-! ## Transport (`network_fs3_syscall`) -/

/-- What one `network_fs3_syscall(cmd, &ret, buf)` leaves behind: the returned code
(`0` or `-1`), the response word stored in `*ret`, the content of `buf` afterwards and
the new state of the remote end. -/
structure NetReply (σ : Type) where
  rc : Int
  ret : Nat
  buf : List Byte
  net : σ

/-- The socket exchange of `network_fs3_syscall` seen from the driver: a function of
the remote end's state, the command word and the payload buffer (`[]` for NULL). -/
abbrev Transport (σ : Type) := σ → Nat → List Byte → NetReply σ

/-! ## Storage driver (`fs3_driver.h`, `fs3_driver.c`) -/

/-- Type `TRACK_SECTOR_PAIR`. -/
structure TRACK_SECTOR_PAIR where
  trackIndex : Nat
  sectorIndex : Nat
deriving DecidableEq, Repr

/-- Type `FILE_INFO`; `isOpen` is the field `open`, `loc i` is `loc[i]`. Names are C
strings shorter than `FS3_MAX_PATH_LENGTH`. -/
structure FILE_INFO where
  name : String
  fileHandle : Int
  isOpen : Int
  loc : Nat → TRACK_SECTOR_PAIR
  pos : Nat
  length : Nat
  numOfSectors : Int

/-- Type `DISK`; `files i` is `files[i]`. -/
structure DISK where
  mounted : Int
  files : Nat → FILE_INFO
  currentTrackIndex : Nat
  nextSector : Nat
  nextTrack : Nat

/-- All process-wide state: the globals `my_disk`, `fileHandleCounter`, `myCache` and
the state `net` of the remote end of the connection. -/
structure State (σ : Type) where
  my_disk : DISK
  fileHandleCounter : Int
  myCache : CACHE
  net : σ

/-- A zero-initialised `FILE_INFO`. -/
def FILE_INFO.zero : FILE_INFO :=
  { name := "", fileHandle := 0, isOpen := 0, loc := fun _ => ⟨0, 0⟩, pos := 0,
    length := 0, numOfSectors := 0 }

/-- The zero-initialised global `my_disk` at program start. -/
def DISK.zero : DISK :=
  { mounted := 0, files := fun _ => FILE_INFO.zero, currentTrackIndex := 0,
    nextSector := 0, nextTrack := 0 }

/-- The state at program start, for a remote end in state `w`. -/
def State.start {σ : Type} (w : σ) : State σ :=
  { my_disk := DISK.zero, fileHandleCounter := 0, myCache := CACHE.zero, net := w }

/-- Assignment through a `FILE_INFO *` that points at `my_disk.files[i]`. -/
def setFile {σ : Type} (s : State σ) (i : Nat) (f : FILE_INFO) : State σ :=
  { s with my_disk := { s.my_disk with files := fun j => if j = i then f else s.my_disk.files j } }

/-- Assignment `loc[i] = p`. -/
def setLoc (loc : Nat → TRACK_SECTOR_PAIR) (i : Nat) (p : TRACK_SECTOR_PAIR) :
    Nat → TRACK_SECTOR_PAIR :=
  fun j => if j = i then p else loc j

/-- The macro `SECTOR_INDEX_NUMBER(x)`, `(int)(x/FS3_SECTOR_SIZE)`. -/
def SECTOR_INDEX_NUMBER (cfg : Config) (x : Nat) : Int :=
  ((x / cfg.FS3_SECTOR_SIZE : Nat) : Int)

/-- Subtraction of two `uint32_t` values. -/
def u32sub (a b : Nat) : Nat := u32 (a + 4294967296 - b)

/-- Function `get_file`: `none` when `fd` is outside the table, `some none` for the NULL
result, `some (some i)` for a pointer to `my_disk.files[i]`. -/
def get_file (d : DISK) (fd : Int) : Option (Option Nat) :=
  if 0 ≤ fd ∧ fd < FS3_MAX_TOTAL_FILES then
    if (d.files fd.toNat).fileHandle = fd then
      if (d.files fd.toNat).isOpen ≠ 0 then some (some fd.toNat) else some none
    else some none
  else none

/-- Function `tseek`. -/
def tseek {σ : Type} (sys : Transport σ) (s : State σ) (trackToSeek : Nat) : State σ × Int :=
  let cmd := construct_fs3cmdblock FS3_OP_TSEEK 0 trackToSeek 0
  let r := sys s.net cmd []
  if r.rc = -1 then ({ s with net := r.net }, -1)
  else
    let returnVal := (deconstruct_fs3cmdblock r.ret).2.ret
    if returnVal = 0 then
      ({ s with net := r.net, my_disk := { s.my_disk with currentTrackIndex := trackToSeek } }, 0)
    else ({ s with net := r.net }, -1)

/-- Function `get_free_track_sector_pair`: the new disk state, the pair written through the
pointer and the returned code. -/
def get_free_track_sector_pair (cfg : Config) (d : DISK) : DISK × TRACK_SECTOR_PAIR × Int :=
  let pair : TRACK_SECTOR_PAIR := ⟨d.nextTrack, d.nextSector⟩
  let nextSector := d.nextSector + 1
  if nextSector ≥ cfg.FS3_TRACK_SIZE then
    ({ d with nextSector := 0, nextTrack := d.nextTrack + 1 }, pair, 0)
  else ({ d with nextSector := nextSector }, pair, 0)

/-- Function `fs3_mount_disk`. -/
def fs3_mount_disk {σ : Type} (sys : Transport σ) (s : State σ) : State σ × Int :=
  if s.my_disk.mounted ≠ 1 then
    let cmd := construct_fs3cmdblock FS3_OP_MOUNT 0 0 0
    let r := sys s.net cmd []
    if r.rc = -1 then ({ s with net := r.net }, -1)
    else
      let returnVal := (deconstruct_fs3cmdblock r.ret).2.ret
      if returnVal = 0 then
        let s1 : State σ := { s with net := r.net, my_disk := { s.my_disk with mounted := 1 } }
        let s2 := (tseek sys s1 0).1
        ({ s2 with my_disk := { s2.my_disk with currentTrackIndex := 0 } }, 0)
      else ({ s with net := r.net, my_disk := { s.my_disk with mounted := 0 } }, -1)
  else (s, -1)

/-- Function `fs3_unmount_disk`. -/
def fs3_unmount_disk {σ : Type} (sys : Transport σ) (s : State σ) : State σ × Int :=
  if s.my_disk.mounted ≠ 0 then
    let cmd := construct_fs3cmdblock FS3_OP_UMOUNT 0 0 0
    let r := sys s.net cmd []
    if r.rc = -1 then ({ s with net := r.net }, -1)
    else
      let returnVal := (deconstruct_fs3cmdblock r.ret).2.ret
      if returnVal = 0 then
        ({ s with
            net := r.net
            my_disk := { s.my_disk with
              mounted := 0
              currentTrackIndex := 0
              files := fun i =>
                if i < FS3_MAX_TOTAL_FILES then { s.my_disk.files i with isOpen := 0, pos := 0 }
                else s.my_disk.files i } }, 0)
      else ({ s with net := r.net }, -1)
  else (s, -1)

/-- Function `fs3_open`; `none` when the search for an unused slot runs off the table or
when `strcpy` overruns the `name` array (a path of `FS3_MAX_PATH_LENGTH` bytes or more). -/
def fs3_open {σ : Type} (cfg : Config) (s : State σ) (path : String) : Option (State σ × Int) :=
  let fileHandle := s.fileHandleCounter
  match (List.range FS3_MAX_TOTAL_FILES).find? (fun i => (s.my_disk.files i).name = path) with
  | some i =>
    let file := s.my_disk.files i
    if file.isOpen = 1 then some (s, file.fileHandle)
    else some (setFile s i { file with isOpen := 1, pos := 0 }, file.fileHandle)
  | none =>
    match (List.range FS3_MAX_TOTAL_FILES).find? (fun i => (s.my_disk.files i).name = "") with
    | none => none
    | some i =>
      if path.utf8ByteSize ≥ FS3_MAX_PATH_LENGTH then none else
      let file : FILE_INFO :=
        { s.my_disk.files i with
            name := path, fileHandle := fileHandle, isOpen := 1, pos := 0, length := 0,
            numOfSectors := 0 }
      let s1 := setFile s i file
      let r := get_free_track_sector_pair cfg s1.my_disk
      if r.2.2 = 0 then
        let s2 : State σ := { s1 with my_disk := r.1 }
        let file2 : FILE_INFO :=
          { file with loc := setLoc file.loc 0 r.2.1, numOfSectors := file.numOfSectors + 1 }
        let s3 := setFile s2 i file2
        some ({ s3 with fileHandleCounter := s3.fileHandleCounter + 1 }, fileHandle)
      else some ({ s1 with my_disk := r.1 }, -1)

/-- Function `fs3_close`. -/
def fs3_close {σ : Type} (s : State σ) (fd : Int) : Option (State σ × Int) :=
  match get_file s.my_disk fd with
  | none => none
  | some none => some (s, -1)
  | some (some i) => some (setFile s i { s.my_disk.files i with isOpen := 0, pos := 0 }, 0)

/-- Function `fs3_seek`; `loc` is a `uint32_t`. -/
def fs3_seek {σ : Type} (s : State σ) (fd : Int) (loc : Nat) : Option (State σ × Int) :=
  match get_file s.my_disk fd with
  | none => none
  | some none => some (s, 0)
  | some (some i) =>
    let file := s.my_disk.files i
    if file.length ≥ loc then some (setFile s i { file with pos := loc }, 0)
    else some (s, -1)

/-- The local variables of `fs3_read` that its loop carries. -/
structure ReadVars where
  temp_buf : List Byte
  file_buf : List Byte
  totalBytesToRead : Int
  bytesRead : Nat

/-- Lines 306-314 of `fs3_read`: append the sector in `temp_buf` to `file_buf`. -/
def fs3_read_combine (cfg : Config) (v : ReadVars) : Option ReadVars :=
  if v.totalBytesToRead > cfg.FS3_SECTOR_SIZE then
    match memcpy v.file_buf v.bytesRead v.temp_buf 0 cfg.FS3_SECTOR_SIZE with
    | none => none
    | some fb =>
      some { v with
              file_buf := fb
              totalBytesToRead := v.totalBytesToRead - cfg.FS3_SECTOR_SIZE
              bytesRead := v.bytesRead + cfg.FS3_SECTOR_SIZE }
  else if v.totalBytesToRead < 0 then none
  else
    match memcpy v.file_buf v.bytesRead v.temp_buf 0 v.totalBytesToRead.toNat with
    | none => none
    | some fb => some { v with file_buf := fb }

/-- One iteration (index `i`) of the loop of `fs3_read` on the file in slot `fi`:
`.inl` is the early `return(-1)`, `.inr` the fall through to the next iteration. -/
def fs3_read_body {σ : Type} (cfg : Config) (sys : Transport σ) (fi i : Nat) (s : State σ)
    (v : ReadVars) : Option (State σ ⊕ (State σ × ReadVars)) :=
  if i < FS3_MAX_TRACK_SECTOR_PAIRS cfg then
    let p := (s.my_disk.files fi).loc i
    match fs3_get_cache cfg s.myCache p.trackIndex p.sectorIndex with
    | none => none
    | some (c1, cacheReturn) =>
      let s1 : State σ := { s with myCache := c1 }
      match cacheReturn with
      | none =>
        let s2 := if p.trackIndex ≠ s1.my_disk.currentTrackIndex then (tseek sys s1 p.trackIndex).1 else s1
        let cmd := construct_fs3cmdblock FS3_OP_RDSECT p.sectorIndex 0 0
        let r := sys s2.net cmd v.temp_buf
        let s3 : State σ := { s2 with net := r.net }
        if r.rc = -1 then some (.inl s3)
        else
          let returnVal := (deconstruct_fs3cmdblock r.ret).2.ret
          if returnVal = 0 then
            match fs3_put_cache cfg s3.myCache p.trackIndex p.sectorIndex r.buf with
            | none => none
            | some (c2, _) =>
              match fs3_read_combine cfg { v with temp_buf := r.buf } with
              | none => none
              | some v1 => some (.inr ({ s3 with myCache := c2 }, v1))
          else some (.inl s3)
      | some bytes =>
        match memcpy v.temp_buf 0 bytes 0 cfg.FS3_SECTOR_SIZE with
        | none => none
        | some tb =>
          match fs3_read_combine cfg { v with temp_buf := tb } with
          | none => none
          | some v1 => some (.inr (s1, v1))
  else none

/-- The `for` loop of `fs3_read`: `n` iterations starting at index `i`. -/
def fs3_read_loop {σ : Type} (cfg : Config) (sys : Transport σ) (fi : Nat) :
    Nat → Nat → State σ → ReadVars → Option (State σ ⊕ (State σ × ReadVars))
  | 0, _, s, v => some (.inr (s, v))
  | n + 1, i, s, v =>
    match fs3_read_body cfg sys fi i s v with
    | none => none
    | some (.inl s1) => some (.inl s1)
    | some (.inr (s1, v1)) => fs3_read_loop cfg sys fi n (i + 1) s1 v1

/-- Function `fs3_read` with `count ≥ 0`: the new state, the caller's buffer afterwards and the
returned value. -/
def fs3_read {σ : Type} (cfg : Config) (sys : Transport σ) (s : State σ) (fd : Int)
    (buf : List Byte) (count : Nat) : Option (State σ × List Byte × Int) :=
  match get_file s.my_disk fd with
  | none => none
  | some none => some (s, buf, -1)
  | some (some fi) =>
    let file := s.my_disk.files fi
    let totalBytesToRead : Int :=
      (1 + (SECTOR_INDEX_NUMBER cfg (u32 (file.pos + count)) - SECTOR_INDEX_NUMBER cfg file.pos))
        * cfg.FS3_SECTOR_SIZE
    if totalBytesToRead < 0 then none
    else
      let file_buf := malloc totalBytesToRead.toNat
      let temp_buf := malloc cfg.FS3_SECTOR_SIZE
      let endSector : Int :=
        if count % cfg.FS3_SECTOR_SIZE = 0 then SECTOR_INDEX_NUMBER cfg (u32 (file.pos + count)) - 1
        else SECTOR_INDEX_NUMBER cfg (u32 (file.pos + count))
      let start := SECTOR_INDEX_NUMBER cfg file.pos
      match fs3_read_loop cfg sys fi (endSector + 1 - start).toNat start.toNat s
          ⟨temp_buf, file_buf, totalBytesToRead, 0⟩ with
      | none => none
      | some (.inl s1) => some (s1, buf, -1)
      | some (.inr (s1, v)) =>
        let file1 := s1.my_disk.files fi
        let off := u32sub file1.pos (u32 ((SECTOR_INDEX_NUMBER cfg file1.pos).toNat * cfg.FS3_SECTOR_SIZE))
        if u32 (file1.pos + count) > file1.length then
          match memcpy buf 0 v.file_buf off (u32sub file1.length file1.pos) with
          | none => none
          | some b => some (setFile s1 fi { file1 with pos := file1.length }, b, count)
        else
          match memcpy buf 0 v.file_buf off count with
          | none => none
          | some b => some (setFile s1 fi { file1 with pos := u32 (file1.pos + count) }, b, count)

/-- One iteration of the `while` loop of `fs3_write` on the file in slot `fi`, with
`totalBytesWritten = total`: `.inl` is an early `return(-1)`, `.inr` carries the new
`totalBytesWritten`. -/
def fs3_write_body {σ : Type} (cfg : Config) (sys : Transport σ) (fd : Int) (fi : Nat)
    (buf : List Byte) (count : Nat) (s : State σ) (total : Nat) :
    Option (State σ ⊕ (State σ × Nat)) :=
  let originalPos := (s.my_disk.files fi).pos
  let idx := SECTOR_INDEX_NUMBER cfg originalPos
  match fs3_seek s fd (u32 (idx.toNat * cfg.FS3_SECTOR_SIZE)) with
  | none => none
  | some (s1, rc) =>
    if rc ≠ -1 then
      let temp_buf := malloc cfg.FS3_SECTOR_SIZE
      let file := s1.my_disk.files fi
      let pre : Option (State σ × List Byte) :=
        if idx < file.numOfSectors - 1 then
          match fs3_read cfg sys s1 fd temp_buf cfg.FS3_SECTOR_SIZE with
          | none => none
          | some (s2, tb, _) => some (s2, tb)
        else if idx = file.numOfSectors - 1 then
          match fs3_read cfg sys s1 fd temp_buf
              (u32sub file.length (u32 (idx.toNat * cfg.FS3_SECTOR_SIZE))) with
          | none => none
          | some (s2, tb, _) => some (s2, tb)
        else
          let r := get_free_track_sector_pair cfg s1.my_disk
          let s2 : State σ := { s1 with my_disk := r.1 }
          if r.2.2 = 0 then
            if 0 ≤ file.numOfSectors ∧ file.numOfSectors < FS3_MAX_TRACK_SECTOR_PAIRS cfg then
              some (setFile s2 fi
                { file with
                    loc := setLoc file.loc file.numOfSectors.toNat r.2.1
                    numOfSectors := file.numOfSectors + 1 }, temp_buf)
            else none
          else some (s2, temp_buf)
      match pre with
      | none => none
      | some (s2, temp_buf) =>
        match fs3_seek s2 fd originalPos with
        | none => none
        | some (s3, _) =>
          match memcpy (malloc (count - total)) 0 buf total (count - total) with
          | none => none
          | some write_buf =>
            let pos := (s3.my_disk.files fi).pos
            let room := cfg.FS3_SECTOR_SIZE - pos % cfg.FS3_SECTOR_SIZE
            let bytesWritten := if count - total > room then room else count - total
            match memcpy temp_buf (pos % cfg.FS3_SECTOR_SIZE) write_buf 0 bytesWritten with
            | none => none
            | some temp_buf1 =>
              let total1 := total + bytesWritten
              if SECTOR_INDEX_NUMBER cfg pos < FS3_MAX_TRACK_SECTOR_PAIRS cfg then
                let p := (s3.my_disk.files fi).loc (SECTOR_INDEX_NUMBER cfg pos).toNat
                let s4 := if p.trackIndex ≠ s3.my_disk.currentTrackIndex then (tseek sys s3 p.trackIndex).1 else s3
                let cmd := construct_fs3cmdblock FS3_OP_WRSECT p.sectorIndex 0 0
                let r := sys s4.net cmd temp_buf1
                let s5 : State σ := { s4 with net := r.net }
                if r.rc = -1 then some (.inl s5)
                else
                  match fs3_put_cache cfg s5.myCache p.trackIndex p.sectorIndex r.buf with
                  | none => none
                  | some (c, _) =>
                    let s6 : State σ := { s5 with myCache := c }
                    let returnVal := (deconstruct_fs3cmdblock r.ret).2.ret
                    if returnVal = 0 then
                      let file6 := s6.my_disk.files fi
                      let pos1 := u32 (file6.pos + bytesWritten)
                      let len1 := if pos1 > file6.length then pos1 else file6.length
                      some (.inr (setFile s6 fi { file6 with pos := pos1, length := len1 }, total1))
                    else some (.inl s6)
              else none
    else some (.inl s1)

/-- The `while (totalBytesWritten < count)` loop of `fs3_write`; `none` also when the
`fuel` iterations allowed do not finish it. -/
def fs3_write_loop {σ : Type} (cfg : Config) (sys : Transport σ) (fd : Int) (fi : Nat)
    (buf : List Byte) (count : Nat) : Nat → State σ → Nat → Option (State σ × Int)
  | 0, s, total => if total < count then none else some (s, (total : Int))
  | fuel + 1, s, total =>
    if total < count then
      match fs3_write_body cfg sys fd fi buf count s total with
      | none => none
      | some (.inl s1) => some (s1, -1)
      | some (.inr (s1, total1)) => fs3_write_loop cfg sys fd fi buf count fuel s1 total1
    else some (s, (total : Int))

/-- Function `fs3_write` with `count ≥ 0`. Every iteration that falls through consumes
at least one byte, so the `count` iterations allowed always suffice
(`fs3_write_loop_fuel`). -/
def fs3_write {σ : Type} (cfg : Config) (sys : Transport σ) (s : State σ) (fd : Int)
    (buf : List Byte) (count : Nat) : Option (State σ × Int) :=
  match get_file s.my_disk fd with
  | none => none
  | some none => some (s, -1)
  | some (some fi) => fs3_write_loop cfg sys fd fi buf count count s 0

/-! ## A faithful remote controller -/

/-- Modelled from the spec: the state of the remote controller, which is not part of
the sources: its current track and the content of every sector. -/
structure Controller where
  track : Nat
  disk : Nat → Nat → List Byte

/-- Modelled from the spec: a transport and controller that never fail and store
sectors faithfully (sections 4.2 and 6): SEEK-TRACK moves to the track field,
WRITE-SECTOR stores one sector of payload at the sector field of the current track,
READ-SECTOR returns that sector in the payload buffer, every response carries status 0. -/
def controller (cfg : Config) : Transport Controller := fun w cmd buf =>
  let f := (deconstruct_fs3cmdblock cmd).2
  let ok := construct_fs3cmdblock f.op f.sec f.trk 0
  if f.op = FS3_OP_TSEEK then ⟨0, ok, buf, { w with track := f.trk }⟩
  else if f.op = FS3_OP_RDSECT then
    ⟨0, ok, (w.disk w.track f.sec).take cfg.FS3_SECTOR_SIZE ++ buf.drop cfg.FS3_SECTOR_SIZE, w⟩
  else if f.op = FS3_OP_WRSECT then
    ⟨0, ok, buf,
      { w with disk := fun t s =>
          if t = w.track ∧ s = f.sec then buf.take cfg.FS3_SECTOR_SIZE else w.disk t s }⟩
  else ⟨0, ok, buf, w⟩

/-- A controller on track 0 whose sectors all hold zero bytes. -/
def Controller.blank (cfg : Config) : Controller :=
  { track := 0, disk := fun _ _ => List.replicate cfg.FS3_SECTOR_SIZE (some 0) }

/-! ## Runs of cache calls and their consistency -/

/-- A call of the cache interface after initialisation. -/
inductive CacheOp where
  | put (trk sct : Nat) (buf : List Byte)
  | get (trk sct : Nat)

/-- The cache after one call; `none` when the call is undefined. -/
def cacheStep (cfg : Config) (c : CACHE) : CacheOp → Option CACHE
  | .put t s b => (fs3_put_cache cfg c t s b).map (fun r => r.1)
  | .get t s => (fs3_get_cache cfg c t s).map (fun r => r.1)

/-- The cache after a sequence of calls. -/
def cacheRun (cfg : Config) : CACHE → List CacheOp → Option CACHE
  | c, [] => some c
  | c, op :: ops =>
    match cacheStep cfg c op with
    | none => none
    | some c1 => cacheRun cfg c1 ops

/-- Consistency of an initialised cache whose line array is `ls`. -/
structure CacheInv (cfg : Config) (c : CACHE) (ls : List CACHE_LINE) : Prop where
  init : c.initialized = 1
  lines : c.cacheLines = some ls
  len : ls.length = c.size
  size_lt : c.size < 65536
  taken_le : c.cacheLinesTaken ≤ c.size
  last : c.lastAccessedLine < c.cacheLinesTaken ∨ c.lastAccessedLine = 0
  slot : ∀ j, j < c.cacheLinesTaken → ∃ line b, ls[j]? = some line ∧
    line.trackIndex < cfg.FS3_MAX_TRACKS ∧ line.sectorIndex < cfg.FS3_TRACK_SIZE ∧
    c.containedSectors line.trackIndex line.sectorIndex = ⟨1, j⟩ ∧
    line.sectorBytes = some b ∧ b.length = cfg.FS3_SECTOR_SIZE
  index : ∀ t s, (c.containedSectors t s).contains = 1 →
    (c.containedSectors t s).loc < c.cacheLinesTaken ∧
    ∃ line, ls[(c.containedSectors t s).loc]? = some line ∧
      line.trackIndex = t ∧ line.sectorIndex = s

/-- The in-range keys that the presence index reports as resident. -/
def residentKeys (cfg : Config) (c : CACHE) : Finset (Nat × Nat) :=
  (Finset.range cfg.FS3_MAX_TRACKS ×ˢ Finset.range cfg.FS3_TRACK_SIZE).filter
    (fun k => (c.containedSectors k.1 k.2).contains = 1)

/-- The key a cache call names. -/
def CacheOp.key : CacheOp → Nat × Nat
  | .put t s _ => (t, s)
  | .get t s => (t, s)

/-- The slot marked last-accessed as the eviction policy describes it: the slot of the
most recent call (get or put) whose key was resident when it was made, `hot` if there
was none. -/
def lastTouched (cfg : Config) : CACHE → Nat → List CacheOp → Nat
  | _, hot, [] => hot
  | c, hot, op :: ops =>
    let hot' := if (c.containedSectors op.key.1 op.key.2).contains = 1
      then (c.containedSectors op.key.1 op.key.2).loc else hot
    match cacheStep cfg c op with
    | none => hot'
    | some c1 => lastTouched cfg c1 hot' ops

/-- The number of puts in a run whose key was not resident when the put was made. -/
def newEntryPuts (cfg : Config) : CACHE → List CacheOp → Nat
  | _, [] => 0
  | c, op :: ops =>
    let n := match op with
      | .put t s _ => if (c.containedSectors t s).contains = 1 then 0 else 1
      | .get _ _ => 0
    match cacheStep cfg c op with
    | none => n
    | some c1 => n + newEntryPuts cfg c1 ops

/-- The constants customary for the FS3 controller: 1024-byte sectors, 1024 sectors
per track, 64 tracks. Only the concrete evaluations below use them. -/
def Config.standard : Config := ⟨1024, 1024, 64⟩

/-- A sector filled with the byte `b`. -/
def sectorOf (cfg : Config) (b : Nat) : List Byte := List.replicate cfg.FS3_SECTOR_SIZE (some b)

/-- A call with an in-range key and, for a put, a buffer of at least one sector. -/
def CacheOp.wellFormed (cfg : Config) : CacheOp → Prop
  | .put t s b => t < cfg.FS3_MAX_TRACKS ∧ s < cfg.FS3_TRACK_SIZE ∧ cfg.FS3_SECTOR_SIZE ≤ b.length
  | .get t s => t < cfg.FS3_MAX_TRACKS ∧ s < cfg.FS3_TRACK_SIZE

/-! ## Example states and call sequences -/

/-- The cache that the calls `ops` reach from `fs3_init_cache(C)` on the start-up
cache (the start-up cache itself if one of the calls is undefined). -/
def cacheAfter (cfg : Config) (C : Nat) (ops : List CacheOp) : CACHE :=
  (cacheRun cfg (fs3_init_cache CACHE.zero C).1 ops).getD CACHE.zero

/-- A driver started against a blank faithful controller, mounted, with `a.txt`
opened; the second component is the handle returned by `fs3_open`. -/
def openedFile (cfg : Config) : Option (State Controller × Int) :=
  fs3_open cfg (fs3_mount_disk (controller cfg) (State.start (Controller.blank cfg))).1 "a.txt"

/-- The state of `openedFile` after `data` has been written to the new file. -/
def fileWith (cfg : Config) (data : List Byte) : Option (State Controller × Int) :=
  match openedFile cfg with
  | none => none
  | some (s, fd) =>
    match fs3_write cfg (controller cfg) s fd data data.length with
    | none => none
    | some (s1, _) => some (s1, fd)

/-- The state component of `fileWith` (the start state if it is undefined). -/
def fileState (cfg : Config) (data : List Byte) : State Controller :=
  ((fileWith cfg data).getD (State.start (Controller.blank cfg), 0)).1

/-- The call sequence `seek(fd, P); write(fd, data, N); seek(fd, P); read(fd, buf, N)`:
the value returned by the write, the value returned by the read, and `buf` afterwards. -/
def writeThenRead {σ : Type} (cfg : Config) (sys : Transport σ) (s : State σ) (fd : Int)
    (P : Nat) (data : List Byte) (N : Nat) (buf : List Byte) : Option (Int × Int × List Byte) :=
  match fs3_seek s fd P with
  | none => none
  | some (s1, _) =>
    match fs3_write cfg sys s1 fd data N with
    | none => none
    | some (s2, w) =>
      match fs3_seek s2 fd P with
      | none => none
      | some (s3, _) =>
        match fs3_read cfg sys s3 fd buf N with
        | none => none
        | some (_, b, r) => some (w, r, b)

/-- The call sequence `seek(fd, p); read(fd, buf, count)`: the value returned by the
read, the file's position and length afterwards, and `buf` afterwards. -/
def seekThenRead {σ : Type} (cfg : Config) (sys : Transport σ) (s : State σ) (fd : Int)
    (p : Nat) (buf : List Byte) (count : Nat) : Option (Int × Nat × Nat × List Byte) :=
  match fs3_seek s fd p with
  | none => none
  | some (s1, _) =>
    match fs3_read cfg sys s1 fd buf count with
    | none => none
    | some (s2, b, r) =>
      some (r, (s2.my_disk.files fd.toNat).pos, (s2.my_disk.files fd.toNat).length, b)

/-- The five bytes of the text HELLO. -/
def hello : List Byte := [some 72, some 69, some 76, some 76, some 79]

/-! ## Runs of driver calls, request logs and refusing transports -/

/-- A transport that behaves like `sys` and appends every command word it is asked to
send to a log kept next to the state of the remote end. -/
def traced {σ : Type} (sys : Transport σ) : Transport (σ × List Nat) := fun w cmd buf =>
  let r := sys w.1 cmd buf
  ⟨r.rc, r.ret, r.buf, (r.net, w.2 ++ [cmd])⟩

/-- The driver state `s` with the request log `log` attached to its remote end. -/
def withLog {σ : Type} (s : State σ) (log : List Nat) : State (σ × List Nat) :=
  { my_disk := s.my_disk, fileHandleCounter := s.fileHandleCounter, myCache := s.myCache,
    net := (s.net, log) }

/-- A transport that behaves like `sys` except that a request with opcode `op` is not
carried out and is answered with the status flag set (protocol failure). -/
def refusing {σ : Type} (op : Nat) (sys : Transport σ) : Transport σ := fun w cmd buf =>
  if (deconstruct_fs3cmdblock cmd).2.op = op then ⟨0, construct_fs3cmdblock op 0 0 1, buf, w⟩
  else sys w cmd buf

/-- A transport that behaves like `sys` except that a request with opcode `op` fails in
the transport itself (`network_fs3_syscall` returns -1). -/
def dropping {σ : Type} (op : Nat) (sys : Transport σ) : Transport σ := fun w cmd buf =>
  if (deconstruct_fs3cmdblock cmd).2.op = op then ⟨-1, 0, buf, w⟩
  else sys w cmd buf

/-- A call of the driver interface. -/
inductive DriverOp where
  | mount
  | unmount
  | fopen (path : String)
  | fclose (fd : Int)
  | fread (fd : Int) (buf : List Byte) (count : Nat)
  | fwrite (fd : Int) (buf : List Byte) (count : Nat)
  | fseek (fd : Int) (loc : Nat)

/-- The driver state after one call; `none` when the call is undefined. -/
def driverStep {σ : Type} (cfg : Config) (sys : Transport σ) (s : State σ) :
    DriverOp → Option (State σ)
  | .mount => some (fs3_mount_disk sys s).1
  | .unmount => some (fs3_unmount_disk sys s).1
  | .fopen path => (fs3_open cfg s path).map (fun r => r.1)
  | .fclose fd => (fs3_close s fd).map (fun r => r.1)
  | .fread fd buf count => (fs3_read cfg sys s fd buf count).map (fun r => r.1)
  | .fwrite fd buf count => (fs3_write cfg sys s fd buf count).map (fun r => r.1)
  | .fseek fd loc => (fs3_seek s fd loc).map (fun r => r.1)

/-- The driver state after a sequence of calls. -/
def driverRun {σ : Type} (cfg : Config) (sys : Transport σ) : State σ → List DriverOp →
    Option (State σ)
  | s, [] => some s
  | s, op :: ops =>
    match driverStep cfg sys s op with
    | none => none
    | some s1 => driverRun cfg sys s1 ops

/-- The state at program start of the driver for any cache `c` and remote end `w`. -/
def State.boot {σ : Type} (c : CACHE) (w : σ) : State σ :=
  { my_disk := DISK.zero, fileHandleCounter := 0, myCache := c, net := w }

/-- The pair `p` lies lexicographically below the position `(t, s)`. -/
def below (p : TRACK_SECTOR_PAIR) (t s : Nat) : Prop :=
  p.trackIndex < t ∨ (p.trackIndex = t ∧ p.sectorIndex < s)

/-- The allocation cursor of `d'` is lexicographically at or after that of `d`. -/
def cursorLe (d d' : DISK) : Prop :=
  d.nextTrack < d'.nextTrack ∨ (d.nextTrack = d'.nextTrack ∧ d.nextSector ≤ d'.nextSector)

/-- The disk after `k` calls of `get_free_track_sector_pair`. -/
def allocAfter (cfg : Config) : Nat → DISK → DISK
  | 0, d => d
  | k + 1, d => (get_free_track_sector_pair cfg (allocAfter cfg k d)).1

/-- A sequence of `fs3_open` calls: the final state and the handles returned, in order. -/
def openRun {σ : Type} (cfg : Config) : State σ → List String → Option (State σ × List Int)
  | s, [] => some (s, [])
  | s, p :: ps =>
    match fs3_open cfg s p with
    | none => none
    | some (s1, h) =>
      match openRun cfg s1 ps with
      | none => none
      | some (s2, hs) => some (s2, h :: hs)

/-- The names of `paths` not in `seen`, appended to `seen` in order of first appearance. -/
def firstSeen : List String → List String → List String
  | seen, [] => seen
  | seen, p :: ps => if p ∈ seen then firstSeen seen ps else firstSeen (seen ++ [p]) ps

/-- The scenario `mount(); fd = open("a.txt"); write(fd, "HELLO", 5); seek(fd, 0);
read(fd, buf, 5); close(fd); unmount()` from the start-up state with cache `c`: the
values returned by the seven calls in order and `buf` after the read. -/
def helloScenario {σ : Type} (cfg : Config) (sys : Transport σ) (c : CACHE) (w : σ) :
    Option (List Int × List Byte) :=
  let s0 : State σ := State.boot c w
  let r1 := fs3_mount_disk sys s0
  match fs3_open cfg r1.1 "a.txt" with
  | none => none
  | some (s2, fd) =>
    match fs3_write cfg sys s2 fd hello 5 with
    | none => none
    | some (s3, w3) =>
      match fs3_seek s3 fd 0 with
      | none => none
      | some (s4, k4) =>
        match fs3_read cfg sys s4 fd (List.replicate 5 (some 0)) 5 with
        | none => none
        | some (s5, buf, r5) =>
          match fs3_close s5 fd with
          | none => none
          | some (s6, c6) =>
            let r7 := fs3_unmount_disk sys s6
            some ([r1.2, fd, w3, k4, r5, c6, r7.2], buf)

/-- Consistency of the file table with the handle counter and the allocation cursor:
the first `fileHandleCounter` slots hold the created files, each with a non-empty name
of its own and its slot number as handle, all later slots are unnamed; open flags are
0 or 1; positions do not exceed lengths; the allocated `(track, sector)` pairs lie
below the cursor and are pairwise distinct. -/
structure DriverInv {σ : Type} (s : State σ) : Prop where
  counter : 0 ≤ s.fileHandleCounter ∧ s.fileHandleCounter ≤ FS3_MAX_TOTAL_FILES
  named : ∀ i : Nat, (i : Int) < s.fileHandleCounter →
    (s.my_disk.files i).name ≠ "" ∧ (s.my_disk.files i).fileHandle = i
  unnamed : ∀ i : Nat, s.fileHandleCounter ≤ (i : Int) → (s.my_disk.files i).name = ""
  unique : ∀ i j : Nat, (i : Int) < s.fileHandleCounter → (j : Int) < s.fileHandleCounter →
    (s.my_disk.files i).name = (s.my_disk.files j).name → i = j
  flag : ∀ i : Nat, (s.my_disk.files i).isOpen = 0 ∨ (s.my_disk.files i).isOpen = 1
  posLe : ∀ i : Nat, (s.my_disk.files i).pos ≤ (s.my_disk.files i).length
  belowCursor : ∀ i j : Nat, (j : Int) < (s.my_disk.files i).numOfSectors →
    below ((s.my_disk.files i).loc j) s.my_disk.nextTrack s.my_disk.nextSector
  distinct : ∀ i j i' j' : Nat, (j : Int) < (s.my_disk.files i).numOfSectors →
    (j' : Int) < (s.my_disk.files i').numOfSectors →
    (s.my_disk.files i).loc j = (s.my_disk.files i').loc j' → i = i' ∧ j = j'

/-- The states `s` and `s'` have the same file table, allocation cursor, mount flag and
handle counter (the current track, the cache and the remote end may differ). -/
def SameTable {σ : Type} (s s' : State σ) : Prop :=
  s'.my_disk.files = s.my_disk.files ∧ s'.my_disk.nextTrack = s.my_disk.nextTrack ∧
  s'.my_disk.nextSector = s.my_disk.nextSector ∧
  s'.fileHandleCounter = s.fileHandleCounter ∧ s'.my_disk.mounted = s.my_disk.mounted

/-- The driver state that the calls `ops` reach from the start-up state over the
faithful controller (the start-up state itself if one of the calls is undefined). -/
def driverAfter (cfg : Config) (ops : List DriverOp) : State Controller :=
  (driverRun cfg (controller cfg) (State.boot CACHE.zero (Controller.blank cfg)) ops).getD
    (State.boot CACHE.zero (Controller.blank cfg))

/-- The handles that a sequence of opens must return when `seen` lists the names of the
files created so far, in creation order: a name seen before gets the handle it has, its
position in `seen`; an unseen name gets the next handle, the number of names seen. -/
def specHandles : List String → List String → List Int
  | _, [] => []
  | seen, p :: ps =>
    if p ∈ seen then (seen.indexOf p : Int) :: specHandles seen ps
    else (seen.length : Int) :: specHandles (seen ++ [p]) ps

/-- The names of the created files of a driver state, in slot order. -/
def tableNames {σ : Type} (s : State σ) : List String :=
  (List.range s.fileHandleCounter.toNat).map (fun i => (s.my_disk.files i).name)

/-- The opcodes of the command words of a request log. -/
def opcodes (log : List Nat) : List Nat :=
  log.map (fun cmd => (deconstruct_fs3cmdblock cmd).2.op)

/-- The scenario `mount(); fd = open("a.txt"); write(fd, "HELLO", 5); write(fd, "X", 1)`
from the start-up state (cache not initialised) against the faithful controller behind
a transport on which every READ-SECTOR request is refused: the value returned by the
second write, the opcodes of the requests it issued, the first six bytes of sector
(0, 0) on the controller afterwards, and the position and length of the file. -/
def writeAfterRefusedRead (cfg : Config) : Option (Int × List Nat × List Byte × Nat × Nat) :=
  let sys := traced (refusing FS3_OP_RDSECT (controller cfg))
  let r1 := fs3_mount_disk sys (State.start (Controller.blank cfg, []))
  match fs3_open cfg r1.1 "a.txt" with
  | none => none
  | some (s2, fd) =>
    match fs3_write cfg sys s2 fd hello 5 with
    | none => none
    | some (s3, _) =>
      match fs3_write cfg sys s3 fd [some 88] 1 with
      | none => none
      | some (s4, rc) =>
        some (rc, opcodes (s4.net.2.drop s3.net.2.length), (s4.net.1.disk 0 0).take 6,
          (s4.my_disk.files fd.toNat).pos, (s4.my_disk.files fd.toNat).length)

/-- The scenario `mount(); open("a"); fb = open("b"); write(fb, "HELLO", 5)` from the
start-up state (cache not initialised) against the faithful controller behind a
transport on which every SEEK-TRACK request is refused (`refuse = true`) or lost in the
transport (`refuse = false`): the `(track, sector)` of the first sector of `b`, the
value returned by the write, the opcodes of the requests it issued, the first five
bytes of sector 0 of track 0 on the controller afterwards, and the current track of the
driver and of the controller. -/
def writeAfterFailedSeek (cfg : Config) (refuse : Bool) :
    Option (TRACK_SECTOR_PAIR × Int × List Nat × List Byte × Nat × Nat) :=
  let sys := traced (if refuse then refusing FS3_OP_TSEEK (controller cfg)
                     else dropping FS3_OP_TSEEK (controller cfg))
  let r1 := fs3_mount_disk sys (State.start (Controller.blank cfg, []))
  match fs3_open cfg r1.1 "a" with
  | none => none
  | some (s2, _) =>
    match fs3_open cfg s2 "b" with
    | none => none
    | some (s3, fb) =>
      match fs3_write cfg sys s3 fb hello 5 with
      | none => none
      | some (s4, rc) =>
        some ((s4.my_disk.files fb.toNat).loc 0, rc, opcodes (s4.net.2.drop s3.net.2.length),
          (s4.net.1.disk 0 0).take 5, s4.my_disk.currentTrackIndex, s4.net.1.track)

/-- The calls `mount(); open("a.txt"); write(0, "HELLO", 5); close(0)`. -/
def closedFileOps : List DriverOp :=
  [.mount, .fopen "a.txt", .fwrite 0 hello 5, .fclose 0]

/-- The calls `mount(); open("a"); open("b"); write(0, "HELLO", 5); write(1, "HELLO", 5);
seek(0, 2); read(1, buf, 3)`. -/
def twoFileOps : List DriverOp :=
  [.mount, .fopen "a", .fopen "b", .fwrite 0 hello 5, .fwrite 1 hello 5, .fseek 0 2,
   .fread 1 (List.replicate 3 (some 0)) 3]

/-- The scenario `mount(); fd = open("a.txt"); write(fd, "HELLO", 5); close(fd);
fd2 = open("a.txt"); read(fd2, buf, 5)` against the faithful controller: the two
handles, the value returned by the read and `buf` after it. -/
def reopenScenario (cfg : Config) : Option (Int × Int × Int × List Byte) :=
  let sys := controller cfg
  let r1 := fs3_mount_disk sys (State.start (Controller.blank cfg))
  match fs3_open cfg r1.1 "a.txt" with
  | none => none
  | some (s2, fd) =>
    match fs3_write cfg sys s2 fd hello 5 with
    | none => none
    | some (s3, _) =>
      match fs3_close s3 fd with
      | none => none
      | some (s4, _) =>
        match fs3_open cfg s4 "a.txt" with
        | none => none
        | some (s5, fd2) =>
          match fs3_read cfg sys s5 fd2 (List.replicate 5 (some 0)) 5 with
          | none => none
          | some (_, buf, r) => some (fd, fd2, r, buf)

/-- The calls `mount(); open("a.txt"); write(0, "HELLO", 5)`. -/
def openFileOps : List DriverOp :=
  [.mount, .fopen "a.txt", .fwrite 0 hello 5]

/-- The state after `fs3_unmount_disk` in the state reached by `openFileOps`. -/
def unmountedState : State Controller :=
  (fs3_unmount_disk (controller Config.standard) (driverAfter Config.standard openFileOps)).1

/-- What `fs3_close_cache` leaves behind on the cache `c`: the value it returns, the
`initialized` flag and `cacheLinesTaken` afterwards, the value returned by a second
`fs3_close_cache` (`none` if that call is undefined) and the value returned by a
following `fs3_init_cache(lines)`. -/
def closeLifecycle (c : CACHE) (lines : Nat) : Option (Int × Nat × Nat × Option Int × Int) :=
  (fs3_close_cache c).map (fun r =>
    (r.2, r.1.initialized, r.1.cacheLinesTaken, (fs3_close_cache r.1).map Prod.snd,
      (fs3_init_cache r.1 lines).2))

/-- After `fs3_close_cache` on the cache `c`: whether the index still marks `(t, s)` as
present, and the buffer returned by `fs3_get_cache(t, s)` (`none` if that call is
undefined). -/
def closeThenGet (cfg : Config) (c : CACHE) (t s : Nat) :
    Option (Nat × Option (Option (List Byte))) :=
  (fs3_close_cache c).map (fun r =>
    ((r.1.containedSectors t s).contains, (fs3_get_cache cfg r.1 t s).map Prod.snd))
/-- The five bytes of the text JELLY. -/
def jelly : List Byte := [some 74, some 69, some 76, some 76, some 89]

/-- The buffer that `fs3_get_cache(t, s)` returns on the cache `c` (`none` for NULL or
an undefined call). -/
def cachedSector (cfg : Config) (c : CACHE) (t s : Nat) : Option (List Byte) :=
  (fs3_get_cache cfg c t s).bind Prod.snd

/-- The scenario `mount(); fd = open("a.txt"); write(fd, "HELLO", 5)` with a cache of 4
lines, against the faithful controller behind a transport on which every WRITE-SECTOR
request is refused (status flag set): the value returned by the write, the insert
counter of the cache and the presence mark of key (0, 0) afterwards, the first five
bytes cached for (0, 0) and the first five bytes of sector (0, 0) on the controller. -/
def refusedFirstWrite (cfg : Config) :
    Option (Int × Nat × Nat × Option (List Byte) × List Byte) :=
  let bad := refusing FS3_OP_WRSECT (controller cfg)
  let r1 := fs3_mount_disk bad
    (State.boot (fs3_init_cache CACHE.zero 4).1 (Controller.blank cfg))
  match fs3_open cfg r1.1 "a.txt" with
  | none => none
  | some (s2, fd) =>
    match fs3_write cfg bad s2 fd hello 5 with
    | none => none
    | some (s3, rc) =>
      some (rc, s3.myCache.stats.inserts, (s3.myCache.containedSectors 0 0).contains,
        (cachedSector cfg s3.myCache 0 0).map (fun b => b.take 5), (s3.net.disk 0 0).take 5)

/-- The scenario `mount(); fd = open("a.txt"); write(fd, "HELLO", 5); seek(fd, 0);
write(fd, "JELLY", 5); read(fd, buf, 5)` with a cache of 4 lines against the faithful
controller, where only the second write goes through a transport on which every
WRITE-SECTOR request is refused: the value returned by the second write, the first
five bytes cached for (0, 0) and the first five bytes of sector (0, 0) on the
controller after it, the value returned by the read and `buf` after the read. -/
def refusedOverwrite (cfg : Config) :
    Option (Int × Option (List Byte) × List Byte × Int × List Byte) :=
  let good := controller cfg
  let bad := refusing FS3_OP_WRSECT (controller cfg)
  let r1 := fs3_mount_disk good
    (State.boot (fs3_init_cache CACHE.zero 4).1 (Controller.blank cfg))
  match fs3_open cfg r1.1 "a.txt" with
  | none => none
  | some (s2, fd) =>
    match fs3_write cfg good s2 fd hello 5 with
    | none => none
    | some (s3, _) =>
      match fs3_seek s3 fd 0 with
      | none => none
      | some (s4, _) =>
        match fs3_write cfg bad s4 fd jelly 5 with
        | none => none
        | some (s5, rc) =>
          match fs3_read cfg good s5 fd (List.replicate 5 (some 0)) 5 with
          | none => none
          | some (_, buf, rr) =>
            some (rc, (cachedSector cfg s5.myCache 0 0).map (fun b => b.take 5),
              (s5.net.disk 0 0).take 5, rr, buf)
/-- The READ-SECTOR requests of a request log: the sector field of each, in order. -/
def sectorsRead (log : List Nat) : List Nat :=
  (log.filter (fun cmd => (deconstruct_fs3cmdblock cmd).2.op = FS3_OP_RDSECT)).map
    (fun cmd => (deconstruct_fs3cmdblock cmd).2.sec)

/-- The scenario `mount(); fd = open("a.txt"); write(fd, data, |data|); seek(fd, p);
read(fd, buf, count)` with the cache not initialised, against the faithful controller
behind a logging transport: the number of sectors allocated to the file, the value
returned by the read and the sectors that the read requested from the controller. The
file is the only one, so its list index `i` is sector `i` of track 0. -/
def readRequests (cfg : Config) (data : List Byte) (p count : Nat) :
    Option (Int × Int × List Nat) :=
  let sys := traced (controller cfg)
  let r1 := fs3_mount_disk sys (State.start (Controller.blank cfg, []))
  match fs3_open cfg r1.1 "a.txt" with
  | none => none
  | some (s2, fd) =>
    match fs3_write cfg sys s2 fd data data.length with
    | none => none
    | some (s3, _) =>
      match fs3_seek s3 fd p with
      | none => none
      | some (s4, _) =>
        match fs3_read cfg sys s4 fd (List.replicate count (some 0)) count with
        | none => none
        | some (s5, _, rc) =>
          some ((s5.my_disk.files fd.toNat).numOfSectors, rc,
            sectorsRead (s5.net.2.drop s4.net.2.length))

/-- The scenario `mount(); open("a"); fb = open("b"); write(fb, "HELLO", 5);
seek(fb, 0); read(fb, buf, count)` with the cache not initialised, against the faithful
controller behind a logging transport: the pair `loc[0]` of `b`, the number of sectors
allocated to `b`, the value returned by the read and the sectors of track 0 that the
read requested. -/
def readPastEnd (cfg : Config) (count : Nat) :
    Option (TRACK_SECTOR_PAIR × Int × Int × List Nat) :=
  let sys := traced (controller cfg)
  let r1 := fs3_mount_disk sys (State.start (Controller.blank cfg, []))
  match fs3_open cfg r1.1 "a" with
  | none => none
  | some (s2, _) =>
    match fs3_open cfg s2 "b" with
    | none => none
    | some (s3, fb) =>
      match fs3_write cfg sys s3 fb hello 5 with
      | none => none
      | some (s4, _) =>
        match fs3_seek s4 fb 0 with
        | none => none
        | some (s5, _) =>
          match fs3_read cfg sys s5 fb (List.replicate count (some 0)) count with
          | none => none
          | some (s6, _, rc) =>
            some ((s6.my_disk.files fb.toNat).loc 0, (s6.my_disk.files fb.toNat).numOfSectors,
              rc, sectorsRead (s6.net.2.drop s5.net.2.length))

/-! ## Never-failing transports and the sectors a file needs -/

/-- A transport and controller that never fail: every `network_fs3_syscall` returns 0
and every response carries status flag 0. -/
def NeverFails {σ : Type} (sys : Transport σ) : Prop :=
  ∀ (w : σ) (cmd : Nat) (buf : List Byte),
    (sys w cmd buf).rc ≠ -1 ∧ (deconstruct_fs3cmdblock (sys w cmd buf).ret).2.ret = 0

/-- The number of sectors a file of length `L` needs, as the specification puts it:
`max(1, ceil(L / FS3_SECTOR_SIZE))`. -/
def sectorsFor (cfg : Config) (L : Nat) : Nat :=
  max 1 ((L + cfg.FS3_SECTOR_SIZE - 1) / cfg.FS3_SECTOR_SIZE)

/-- The number of bytes that one iteration of the loop of `fs3_write` handles when the
position is `pos` and `total` of the `count` bytes are written: what is left of the
request, at most up to the end of the sector of `pos` (lines 416-425). -/
def chunk (cfg : Config) (pos count total : Nat) : Nat :=
  if count - total > cfg.FS3_SECTOR_SIZE - pos % cfg.FS3_SECTOR_SIZE
  then cfg.FS3_SECTOR_SIZE - pos % cfg.FS3_SECTOR_SIZE else count - total
/-- The effect on the file table of one iteration of the loop of `fs3_write` on the file
in slot `fi` that goes through: `chunk` bytes are handled, the position advances by
them, the length is extended to the new position if that is larger, a sector is
appended exactly when the sector index of the position equals the sector count, and
nothing else in the table changes. -/
structure WriteStep {σ : Type} (cfg : Config) (fi count total : Nat) (s s' : State σ)
    (total' : Nat) : Prop where
  bytes : total' = total + chunk cfg (s.my_disk.files fi).pos count total
  others : ∀ j, j ≠ fi → s'.my_disk.files j = s.my_disk.files j
  name : (s'.my_disk.files fi).name = (s.my_disk.files fi).name
  handle : (s'.my_disk.files fi).fileHandle = (s.my_disk.files fi).fileHandle
  isOpen : (s'.my_disk.files fi).isOpen = (s.my_disk.files fi).isOpen
  pos : (s'.my_disk.files fi).pos =
    (s.my_disk.files fi).pos + chunk cfg (s.my_disk.files fi).pos count total
  length : (s'.my_disk.files fi).length =
    max (s.my_disk.files fi).length
      ((s.my_disk.files fi).pos + chunk cfg (s.my_disk.files fi).pos count total)
  sectors : (s'.my_disk.files fi).numOfSectors =
    if SECTOR_INDEX_NUMBER cfg (s.my_disk.files fi).pos = (s.my_disk.files fi).numOfSectors
    then (s.my_disk.files fi).numOfSectors + 1 else (s.my_disk.files fi).numOfSectors
  loc : ∀ j : Nat, (j : Int) < (s.my_disk.files fi).numOfSectors →
    (s'.my_disk.files fi).loc j = (s.my_disk.files fi).loc j
  newLoc : SECTOR_INDEX_NUMBER cfg (s.my_disk.files fi).pos = (s.my_disk.files fi).numOfSectors →
    (s'.my_disk.files fi).loc (s.my_disk.files fi).numOfSectors.toNat =
      ⟨s.my_disk.nextTrack, s.my_disk.nextSector⟩
  nextTrack : s'.my_disk.nextTrack =
    if SECTOR_INDEX_NUMBER cfg (s.my_disk.files fi).pos = (s.my_disk.files fi).numOfSectors
    then (get_free_track_sector_pair cfg s.my_disk).1.nextTrack else s.my_disk.nextTrack
  nextSector : s'.my_disk.nextSector =
    if SECTOR_INDEX_NUMBER cfg (s.my_disk.files fi).pos = (s.my_disk.files fi).numOfSectors
    then (get_free_track_sector_pair cfg s.my_disk).1.nextSector else s.my_disk.nextSector
  counter : s'.fileHandleCounter = s.fileHandleCounter
  mounted : s'.my_disk.mounted = s.my_disk.mounted

/-- Lines 386-406 of `fs3_write`, the first half of `fs3_write_body`: with the position
at the start of the sector of index `idx`, read the sector's present content into a
fresh `temp_buf`, or allocate a new sector. -/
def fs3_write_pre {σ : Type} (cfg : Config) (sys : Transport σ) (fd : Int) (fi : Nat)
    (idx : Int) (s1 : State σ) : Option (State σ × List Byte) :=
  let temp_buf := malloc cfg.FS3_SECTOR_SIZE
  let file := s1.my_disk.files fi
  if idx < file.numOfSectors - 1 then
    match fs3_read cfg sys s1 fd temp_buf cfg.FS3_SECTOR_SIZE with
    | none => none
    | some (s2, tb, _) => some (s2, tb)
  else if idx = file.numOfSectors - 1 then
    match fs3_read cfg sys s1 fd temp_buf
        (u32sub file.length (u32 (idx.toNat * cfg.FS3_SECTOR_SIZE))) with
    | none => none
    | some (s2, tb, _) => some (s2, tb)
  else
    let r := get_free_track_sector_pair cfg s1.my_disk
    let s2 : State σ := { s1 with my_disk := r.1 }
    if r.2.2 = 0 then
      if 0 ≤ file.numOfSectors ∧ file.numOfSectors < FS3_MAX_TRACK_SECTOR_PAIRS cfg then
        some (setFile s2 fi
          { file with
              loc := setLoc file.loc file.numOfSectors.toNat r.2.1
              numOfSectors := file.numOfSectors + 1 }, temp_buf)
      else none
    else some (s2, temp_buf)

/-- Lines 411-461 of `fs3_write`, the second half of `fs3_write_body`: lay the bytes of
`buf` over `temp_buf`, send the sector, refresh the cache and update the record. -/
def fs3_write_send {σ : Type} (cfg : Config) (sys : Transport σ) (fi : Nat)
    (buf : List Byte) (count total : Nat) (s3 : State σ) (temp_buf : List Byte) :
    Option (State σ ⊕ (State σ × Nat)) :=
  match memcpy (malloc (count - total)) 0 buf total (count - total) with
  | none => none
  | some write_buf =>
    let pos := (s3.my_disk.files fi).pos
    let room := cfg.FS3_SECTOR_SIZE - pos % cfg.FS3_SECTOR_SIZE
    let bytesWritten := if count - total > room then room else count - total
    match memcpy temp_buf (pos % cfg.FS3_SECTOR_SIZE) write_buf 0 bytesWritten with
    | none => none
    | some temp_buf1 =>
      let total1 := total + bytesWritten
      if SECTOR_INDEX_NUMBER cfg pos < FS3_MAX_TRACK_SECTOR_PAIRS cfg then
        let p := (s3.my_disk.files fi).loc (SECTOR_INDEX_NUMBER cfg pos).toNat
        let s4 := if p.trackIndex ≠ s3.my_disk.currentTrackIndex then (tseek sys s3 p.trackIndex).1 else s3
        let cmd := construct_fs3cmdblock FS3_OP_WRSECT p.sectorIndex 0 0
        let r := sys s4.net cmd temp_buf1
        let s5 : State σ := { s4 with net := r.net }
        if r.rc = -1 then some (.inl s5)
        else
          match fs3_put_cache cfg s5.myCache p.trackIndex p.sectorIndex r.buf with
          | none => none
          | some (c, _) =>
            let s6 : State σ := { s5 with myCache := c }
            let returnVal := (deconstruct_fs3cmdblock r.ret).2.ret
            if returnVal = 0 then
              let file6 := s6.my_disk.files fi
              let pos1 := u32 (file6.pos + bytesWritten)
              let len1 := if pos1 > file6.length then pos1 else file6.length
              some (.inr (setFile s6 fi { file6 with pos := pos1, length := len1 }, total1))
            else some (.inl s6)
      else none
/-- The effect on the file table of a write of `n` bytes to the open file in slot `fi`:
the position advances by `n`, the length becomes the larger of the old length and the
new position, the sector count is `max(1, ceil(length / FS3_SECTOR_SIZE))` for the new
length, the sectors the file had keep their `(track, sector)` pairs, and nothing else
in the table changes. -/
structure WriteEffect {σ : Type} (cfg : Config) (fi n : Nat) (s s' : State σ) : Prop where
  others : ∀ j, j ≠ fi → s'.my_disk.files j = s.my_disk.files j
  name : (s'.my_disk.files fi).name = (s.my_disk.files fi).name
  handle : (s'.my_disk.files fi).fileHandle = (s.my_disk.files fi).fileHandle
  isOpen : (s'.my_disk.files fi).isOpen = (s.my_disk.files fi).isOpen
  pos : (s'.my_disk.files fi).pos = (s.my_disk.files fi).pos + n
  length : (s'.my_disk.files fi).length =
    max (s.my_disk.files fi).length ((s.my_disk.files fi).pos + n)
  sectors : (s'.my_disk.files fi).numOfSectors =
    (sectorsFor cfg (s'.my_disk.files fi).length : Int)
  loc : ∀ j : Nat, (j : Int) < (s.my_disk.files fi).numOfSectors →
    (s'.my_disk.files fi).loc j = (s.my_disk.files fi).loc j
  counter : s'.fileHandleCounter = s.fileHandleCounter
  mounted : s'.my_disk.mounted = s.my_disk.mounted
/-- A call other than an open of the empty name. -/
def DriverOp.named : DriverOp → Prop
  | .fopen path => path ≠ ""
  | _ => True

/-- Every open slot holds a created (named) file, and every created file has
`max(1, ceil(length / FS3_SECTOR_SIZE))` sectors allocated. -/
structure SectorInv {σ : Type} (cfg : Config) (s : State σ) : Prop where
  openNamed : ∀ i, (s.my_disk.files i).isOpen ≠ 0 → (s.my_disk.files i).name ≠ ""
  sectors : ∀ i, (s.my_disk.files i).name ≠ "" →
    (s.my_disk.files i).numOfSectors = (sectorsFor cfg (s.my_disk.files i).length : Int)
/-- The calls `mount(); open("a"); open("b"); write(0, "HELLO", 5); write(1, "HELLO", 5);
seek(0, 2); write(0, "HELLO", 5); read(1, buf, 3)`. -/
def sectorOps : List DriverOp :=
  [.mount, .fopen "a", .fopen "b", .fwrite 0 hello 5, .fwrite 1 hello 5, .fseek 0 2,
   .fwrite 0 hello 5, .fread 1 (List.replicate 3 (some 0)) 3]

/-- Lines 273-303 of `fs3_read`: fetch the sector `p` into `temp_buf`, from the cache if
it is there, else from the controller (track seek if needed, READ-SECTOR, cache
refresh): `.inl` is the early `return(-1)`, `.inr` carries `temp_buf` afterwards. -/
def fs3_fetch {σ : Type} (cfg : Config) (sys : Transport σ) (p : TRACK_SECTOR_PAIR)
    (s : State σ) (temp_buf : List Byte) : Option (State σ ⊕ (State σ × List Byte)) :=
  match fs3_get_cache cfg s.myCache p.trackIndex p.sectorIndex with
  | none => none
  | some (c1, cacheReturn) =>
    let s1 : State σ := { s with myCache := c1 }
    match cacheReturn with
    | none =>
      let s2 := if p.trackIndex ≠ s1.my_disk.currentTrackIndex then (tseek sys s1 p.trackIndex).1 else s1
      let cmd := construct_fs3cmdblock FS3_OP_RDSECT p.sectorIndex 0 0
      let r := sys s2.net cmd temp_buf
      let s3 : State σ := { s2 with net := r.net }
      if r.rc = -1 then some (.inl s3)
      else
        let returnVal := (deconstruct_fs3cmdblock r.ret).2.ret
        if returnVal = 0 then
          match fs3_put_cache cfg s3.myCache p.trackIndex p.sectorIndex r.buf with
          | none => none
          | some (c2, _) => some (.inr ({ s3 with myCache := c2 }, r.buf))
        else some (.inl s3)
    | some bytes =>
      match memcpy temp_buf 0 bytes 0 cfg.FS3_SECTOR_SIZE with
      | none => none
      | some tb => some (.inr (s1, tb))
/-- The pair `p` names a sector of the disk: its track and sector indices are within
the bounds of the cache's presence index `containedSectors`. -/
def PairOK (cfg : Config) (p : TRACK_SECTOR_PAIR) : Prop :=
  p.trackIndex < cfg.FS3_MAX_TRACKS ∧ p.sectorIndex < cfg.FS3_TRACK_SIZE

/-- The cache can take `n` more calls: it is either not initialised (every call then
returns at once) or consistent with at least one line, and each of its four `int`
counters is at least `n` below `INT_MAX`. -/
def CacheReady (cfg : Config) (c : CACHE) (n : Nat) : Prop :=
  c.initialized = 1 →
    (∃ ls, CacheInv cfg c ls) ∧ 1 ≤ c.size ∧ c.stats.inserts + n ≤ INT_MAX ∧
    c.stats.gets + n ≤ INT_MAX ∧ c.stats.hits + n ≤ INT_MAX ∧ c.stats.misses + n ≤ INT_MAX

/-- The transport leaves the size of a payload buffer of one sector alone, as long as
the remote end is in a state of `I`; the requests of the driver (a track seek without
payload to a track of the disk, any request with a payload of one sector) keep the
remote end in `I`. -/
def KeepsSize {σ : Type} (cfg : Config) (sys : Transport σ) (I : σ → Prop) : Prop :=
  (∀ (w : σ) (t : Nat), I w → t < cfg.FS3_MAX_TRACKS →
    I (sys w (construct_fs3cmdblock FS3_OP_TSEEK 0 t 0) []).net) ∧
  ∀ (w : σ) (cmd : Nat) (buf : List Byte), I w → buf.length = cfg.FS3_SECTOR_SIZE →
    I (sys w cmd buf).net ∧ (sys w cmd buf).buf.length = cfg.FS3_SECTOR_SIZE
/-- The allocation cursor is on the disk and at least `k` sectors before its end: the
next `k` pairs that `get_free_track_sector_pair` hands out name sectors of the disk. -/
def DiskRoom (cfg : Config) (d : DISK) (k : Nat) : Prop :=
  d.nextSector < cfg.FS3_TRACK_SIZE ∧
  d.nextTrack * cfg.FS3_TRACK_SIZE + d.nextSector + k ≤ cfg.FS3_MAX_TRACKS * cfg.FS3_TRACK_SIZE

/-- The sectors of a write of `n` more bytes to the open file in slot `fi`: the
position is within the length; the sector count is `max(1, ceil(length /
FS3_SECTOR_SIZE))`; the sectors the file has are on the disk, and so are the sectors
that the allocator will hand out for those it still needs. -/
structure WritePlaced {σ : Type} (cfg : Config) (fi n : Nat) (s : State σ) : Prop where
  pos : (s.my_disk.files fi).pos ≤ (s.my_disk.files fi).length
  sectors : (s.my_disk.files fi).numOfSectors =
    (sectorsFor cfg (s.my_disk.files fi).length : Int)
  pairs : ∀ j : Nat, j < sectorsFor cfg (s.my_disk.files fi).length →
    PairOK cfg ((s.my_disk.files fi).loc j)
  room : DiskRoom cfg s.my_disk
    (sectorsFor cfg (max (s.my_disk.files fi).length ((s.my_disk.files fi).pos + n)) -
      sectorsFor cfg (s.my_disk.files fi).length)

/-- What a write of `n` more bytes to the open file in slot `fi` relies on: its sectors
are placed on the disk (`WritePlaced`); the file as it will be fits the `loc` array; the
cache can take three calls per byte; the remote end is in a state of `I`. -/
structure WriteReady {σ : Type} (cfg : Config) (I : σ → Prop) (fi n : Nat) (s : State σ) :
    Prop where
  placed : WritePlaced cfg fi n s
  capacity : sectorsFor cfg (max (s.my_disk.files fi).length ((s.my_disk.files fi).pos + n)) ≤
    FS3_MAX_TRACK_SECTOR_PAIRS cfg
  cache : CacheReady cfg s.myCache (3 * n)
  remote : I s.net

/-- A driver started with a cache of 4 lines against a blank faithful controller,
mounted, with `a.txt` opened: the file has handle 0, slot 0 and sector (0, 0). -/
def cachedFile (cfg : Config) : State Controller :=
  (driverRun cfg (controller cfg)
    (State.boot (fs3_init_cache CACHE.zero 4).1 (Controller.blank cfg))
    [.mount, .fopen "a.txt"]).getD (State.boot CACHE.zero (Controller.blank cfg))
/-- Every sector that an initialised cache holds is the sector of the same key in the
store `D`. -/
def CacheAgrees (c : CACHE) (D : Nat → Nat → List Byte) : Prop :=
  c.initialized = 1 → ∀ (t sct : Nat) (ls : List CACHE_LINE) (line : CACHE_LINE) (b : List Byte),
    c.cacheLines = some ls → (c.containedSectors t sct).contains = 1 →
    ls[(c.containedSectors t sct).loc]? = some line → line.sectorBytes = some b → b = D t sct
/-- The driver is in step with the faithful controller: the controller is on the track
the driver believes it to be on, every sector it stores has `FS3_SECTOR_SIZE` bytes, and
the cache, if initialised, is consistent and holds only copies of stored sectors. -/
structure InStep (cfg : Config) (s : State Controller) : Prop where
  track : s.my_disk.currentTrackIndex = s.net.track
  sized : ∀ t sct, (s.net.disk t sct).length = cfg.FS3_SECTOR_SIZE
  cache : s.myCache.initialized = 1 → ∃ ls, CacheInv cfg s.myCache ls
  agrees : CacheAgrees s.myCache s.net.disk
/-- The handle that the call `op` returns in state `s` if it is an `fs3_open` (none for
the other calls and for an undefined `fs3_open`). -/
def openResult {σ : Type} (cfg : Config) (s : State σ) : DriverOp → List Int
  | .fopen path => ((fs3_open cfg s path).map Prod.snd).toList
  | _ => []

/-- The handles that the `fs3_open` calls of a sequence of driver calls return from
state `s` on, in order: the handles assigned so far. -/
def handlesReturned {σ : Type} (cfg : Config) (sys : Transport σ) :
    State σ → List DriverOp → List Int
  | _, [] => []
  | s, op :: ops =>
    openResult cfg s op ++
      (match driverStep cfg sys s op with
        | none => []
        | some s1 => handlesReturned cfg sys s1 ops)

/-- The file table in relation to the handles `hs` that `fs3_open` has returned so far:
every open slot bears a name, that is, holds a created file, and every handle below the
handle counter has been returned. -/
structure HandleInv {σ : Type} (s : State σ) (hs : List Int) : Prop where
  openNamed : ∀ i, (s.my_disk.files i).isOpen ≠ 0 → (s.my_disk.files i).name ≠ ""
  assigned : ∀ i : Nat, (i : Int) < s.fileHandleCounter → (i : Int) ∈ hs

/-- The states `s` and `s'` have the same handle counter and, slot by slot, the same
names and open flags. -/
def SameLabels {σ : Type} (s s' : State σ) : Prop :=
  s'.fileHandleCounter = s.fileHandleCounter ∧
  ∀ i, (s'.my_disk.files i).name = (s.my_disk.files i).name ∧
    (s'.my_disk.files i).isOpen = (s.my_disk.files i).isOpen

/-- The calls `mount(); open("")`. -/
def emptyNameOps : List DriverOp :=
  [.mount, .fopen ""]

/-! # Theorems -/

set_option maxRecDepth 100000

/-! ## Command codec -/

theorem or_eq_add_of_lt (i a b : Nat) (hb : b < 2 ^ i) : (2 ^ i * a) ||| b = 2 ^ i * a + b :=
  (Nat.mul_add_lt_is_or hb a).symm

theorem construct_eq_sum (op sec trk ret : Nat) (hop : op < 16) (hsec : sec < 2 ^ 16)
    (htrk : trk < 2 ^ 32) (hret : ret < 2) :
    construct_fs3cmdblock op sec trk ret =
      op * 2 ^ 60 + sec * 2 ^ 44 + trk * 2 ^ 12 + ret * 2 ^ 11 := by
  unfold construct_fs3cmdblock
  simp only [Nat.shiftLeft_eq]
  have h1 : op * 2 ^ 60 % 2 ^ 64 = 2 ^ 60 * op := by omega
  have h2 : sec * 2 ^ 44 % 2 ^ 64 = sec * 2 ^ 44 := by omega
  have h3 : trk * 2 ^ 12 % 2 ^ 64 = trk * 2 ^ 12 := by omega
  have h4 : ret * 2 ^ 11 % 2 ^ 64 = ret * 2 ^ 11 := by omega
  rw [h1, h2, h3, h4]
  rw [or_eq_add_of_lt 60 op (sec * 2 ^ 44) (by omega)]
  have e1 : 2 ^ 60 * op + sec * 2 ^ 44 = 2 ^ 44 * (op * 2 ^ 16 + sec) := by omega
  rw [e1, or_eq_add_of_lt 44 _ (trk * 2 ^ 12) (by omega)]
  have e2 : 2 ^ 44 * (op * 2 ^ 16 + sec) + trk * 2 ^ 12 =
      2 ^ 12 * (op * 2 ^ 48 + sec * 2 ^ 32 + trk) := by omega
  rw [e2, or_eq_add_of_lt 12 _ (ret * 2 ^ 11) (by omega)]
  omega

theorem deconstruct_eq (w : Nat) :
    deconstruct_fs3cmdblock w =
      (0, { op := (w / 2 ^ 60) % 16, sec := (w / 2 ^ 44) % 2 ^ 16,
            trk := (w / 2 ^ 12) % 2 ^ 32, ret := (w / 2 ^ 11) % 2 }) := by
  unfold deconstruct_fs3cmdblock
  have a1 : (1 <<< 4) % 2 ^ 64 - 1 = 2 ^ 4 - 1 := by decide
  have a2 : (1 <<< 16) % 2 ^ 64 - 1 = 2 ^ 16 - 1 := by decide
  have a3 : (1 <<< 32) % 2 ^ 64 - 1 = 2 ^ 32 - 1 := by decide
  have a4 : (1 <<< 1) % 2 ^ 64 - 1 = 2 ^ 1 - 1 := by decide
  rw [a1, a2, a3, a4]
  simp only [Nat.and_comm (2 ^ _ - 1) _, Nat.and_pow_two_sub_one_eq_mod,
    Nat.shiftRight_eq_div_pow]
  congr 2 <;> omega

/-- C1 (codec round trip): for every opcode `op < 16`, sector `sec < 2^16`, track
`trk < 2^32` and return flag `ret` in `{0, 1}`, `deconstruct_fs3cmdblock` applied to
`construct_fs3cmdblock op sec trk ret` returns 0 and yields exactly
`(op, sec, trk, ret)`. -/
theorem codec_round_trip (op sec trk ret : Nat) (hop : op < 16) (hsec : sec < 2 ^ 16)
    (htrk : trk < 2 ^ 32) (hret : ret < 2) :
    deconstruct_fs3cmdblock (construct_fs3cmdblock op sec trk ret) =
      (0, { op := op, sec := sec, trk := trk, ret := ret }) := by
  rw [construct_eq_sum op sec trk ret hop hsec htrk hret, deconstruct_eq]
  congr 2 <;> omega

/-- C1 at the tuple named in the claim: op = WRITE-SECTOR, sector 1234, track 0,
return flag 0. -/
theorem codec_round_trip_witness :
    (FS3_OP_WRSECT < 16 ∧ 1234 < 2 ^ 16 ∧ 0 < 2 ^ 32 ∧ 0 < 2) ∧
    deconstruct_fs3cmdblock (construct_fs3cmdblock FS3_OP_WRSECT 1234 0 0) =
      (0, { op := FS3_OP_WRSECT, sec := 1234, trk := 0, ret := 0 }) :=
  ⟨by decide, codec_round_trip FS3_OP_WRSECT 1234 0 0 (by decide) (by decide) (by decide)
    (by decide)⟩

/-- C2 (wire layout): for every `op < 16`, `sec < 2^16`, `trk < 2^32` and `ret` in
`{0, 1}` the word built by `construct_fs3cmdblock` is
`op*2^60 + sec*2^44 + trk*2^12 + ret*2^11`, a 64-bit value: bits 63..60 hold the
opcode, bits 59..44 the sector, bits 43..12 the track, bit 11 the return flag, and
bits 10..0 are zero. -/
theorem wire_layout (op sec trk ret : Nat) (hop : op < 16) (hsec : sec < 2 ^ 16)
    (htrk : trk < 2 ^ 32) (hret : ret < 2) :
    construct_fs3cmdblock op sec trk ret =
      op * 2 ^ 60 + sec * 2 ^ 44 + trk * 2 ^ 12 + ret * 2 ^ 11 ∧
    construct_fs3cmdblock op sec trk ret < 2 ^ 64 ∧
    construct_fs3cmdblock op sec trk ret / 2 ^ 60 = op ∧
    construct_fs3cmdblock op sec trk ret / 2 ^ 44 % 2 ^ 16 = sec ∧
    construct_fs3cmdblock op sec trk ret / 2 ^ 12 % 2 ^ 32 = trk ∧
    construct_fs3cmdblock op sec trk ret / 2 ^ 11 % 2 = ret ∧
    construct_fs3cmdblock op sec trk ret % 2 ^ 11 = 0 ∧
    (∀ i, i < 11 → (construct_fs3cmdblock op sec trk ret).testBit i = false) := by
  have h := construct_eq_sum op sec trk ret hop hsec htrk hret
  have h7 : construct_fs3cmdblock op sec trk ret % 2 ^ 11 = 0 := by rw [h]; omega
  refine ⟨h, ?_, ?_, ?_, ?_, ?_, h7, ?_⟩
  · rw [h]; omega
  · rw [h]; omega
  · rw [h]; omega
  · rw [h]; omega
  · rw [h]; omega
  · intro i hi
    have hb := Nat.testBit_mod_two_pow (construct_fs3cmdblock op sec trk ret) 11 i
    rw [h7] at hb
    simp only [Nat.zero_testBit, hi, decide_True, Bool.true_and] at hb
    exact hb.symm

/-- C2 at a concrete word: READ-SECTOR of sector 513 on track 7 with the flag set. -/
theorem wire_layout_witness :
    (FS3_OP_RDSECT < 16 ∧ 513 < 2 ^ 16 ∧ 7 < 2 ^ 32 ∧ 1 < 2) ∧
    (construct_fs3cmdblock FS3_OP_RDSECT 513 7 1 =
      FS3_OP_RDSECT * 2 ^ 60 + 513 * 2 ^ 44 + 7 * 2 ^ 12 + 1 * 2 ^ 11 ∧
    construct_fs3cmdblock FS3_OP_RDSECT 513 7 1 < 2 ^ 64 ∧
    construct_fs3cmdblock FS3_OP_RDSECT 513 7 1 / 2 ^ 60 = FS3_OP_RDSECT ∧
    construct_fs3cmdblock FS3_OP_RDSECT 513 7 1 / 2 ^ 44 % 2 ^ 16 = 513 ∧
    construct_fs3cmdblock FS3_OP_RDSECT 513 7 1 / 2 ^ 12 % 2 ^ 32 = 7 ∧
    construct_fs3cmdblock FS3_OP_RDSECT 513 7 1 / 2 ^ 11 % 2 = 1 ∧
    construct_fs3cmdblock FS3_OP_RDSECT 513 7 1 % 2 ^ 11 = 0 ∧
    (∀ i, i < 11 → (construct_fs3cmdblock FS3_OP_RDSECT 513 7 1).testBit i = false)) :=
  ⟨by decide, wire_layout FS3_OP_RDSECT 513 7 1 (by decide) (by decide) (by decide)
    (by decide)⟩

/-! ## Sector cache -/

theorem memcpy_whole {dst src r : List Byte} {n : Nat} (h : memcpy dst 0 src 0 n = some r)
    (hd : dst.length = n) : r = src.take n ∧ r.length = n := by
  unfold memcpy at h
  split at h
  · rename_i hc
    simp only [Option.some.injEq] at h
    subst h
    have : List.drop (0 + n) dst = [] := List.drop_eq_nil_of_le (by omega)
    simp [this]
    omega
  · simp at h

theorem memcpy_whole_some (dst src : List Byte) (n : Nat) (hd : dst.length = n)
    (hs : n ≤ src.length) : memcpy dst 0 src 0 n = some (src.take n) := by
  unfold memcpy
  rw [if_pos (by omega)]
  have : List.drop (0 + n) dst = [] := List.drop_eq_nil_of_le (by omega)
  simp only [List.take_zero, List.drop_zero, this, List.append_nil, List.nil_append]

theorem init_inv (cfg : Config) (C : Nat) (hC : C < 65536) :
    CacheInv cfg (fs3_init_cache CACHE.zero C).1 (List.replicate C ⟨0, 0, none⟩) := by
  constructor <;> simp [fs3_init_cache, CACHE.zero, hC]

theorem get_inv {cfg : Config} {c c' : CACHE} {ls : List CACHE_LINE} {t s : Nat}
    {r : Option (List Byte)} (h : CacheInv cfg c ls)
    (hg : fs3_get_cache cfg c t s = some (c', r)) : CacheInv cfg c' ls := by
  unfold fs3_get_cache at hg
  rw [if_pos h.init] at hg
  split at hg
  · simp at hg
  · split at hg
    · split at hg
      · rename_i hc
        split at hg
        · simp at hg
        · rw [h.lines] at hg
          simp only at hg
          split at hg
          · simp at hg
          · simp only [Option.some.injEq, Prod.mk.injEq] at hg
            obtain ⟨rfl, -⟩ := hg
            exact ⟨h.init, rfl, h.len, h.size_lt, h.taken_le, Or.inl (h.index t s hc).1,
              h.slot, h.index⟩
      · split at hg
        · simp at hg
        · simp only [Option.some.injEq, Prod.mk.injEq] at hg
          obtain ⟨rfl, -⟩ := hg
          exact ⟨h.init, h.lines, h.len, h.size_lt, h.taken_le, h.last, h.slot, h.index⟩
    · simp at hg

/-- The three ways a defined `fs3_put_cache` on a consistent cache can go, with the
state each one produces. -/
theorem put_cases {cfg : Config} {c c' : CACHE} {ls : List CACHE_LINE} {t s : Nat}
    {buf : List Byte} {rc : Int} (h : CacheInv cfg c ls)
    (hp : fs3_put_cache cfg c t s buf = some (c', rc)) :
    rc = 0 ∧ t < cfg.FS3_MAX_TRACKS ∧ s < cfg.FS3_TRACK_SIZE ∧
    cfg.FS3_SECTOR_SIZE ≤ buf.length ∧
    (((c.containedSectors t s).contains = 1 ∧
        ∃ line, ls[(c.containedSectors t s).loc]? = some line ∧
          c' = { c with
                  cacheLines := some (ls.set (c.containedSectors t s).loc
                    { line with sectorBytes := some (buf.take cfg.FS3_SECTOR_SIZE) })
                  lastAccessedLine := (c.containedSectors t s).loc }) ∨
     ((c.containedSectors t s).contains ≠ 1 ∧ c.cacheLinesTaken = c.size ∧
        c.stats.inserts < INT_MAX ∧
        ∃ old, ls[c.lastAccessedLine]? = some old ∧
          c' = { c with
                  cacheLines := some (ls.set c.lastAccessedLine
                    ⟨t, s, some (buf.take cfg.FS3_SECTOR_SIZE)⟩)
                  containedSectors := setSector
                    (setSector c.containedSectors old.trackIndex old.sectorIndex
                      { c.containedSectors old.trackIndex old.sectorIndex with contains := 0 })
                    t s ⟨1, c.lastAccessedLine⟩
                  stats := { c.stats with inserts := c.stats.inserts + 1 } }) ∨
     ((c.containedSectors t s).contains ≠ 1 ∧ c.cacheLinesTaken < c.size ∧
        c.stats.inserts < INT_MAX ∧
        c' = { c with
                cacheLinesTaken := c.cacheLinesTaken + 1
                cacheLines := some (ls.set c.cacheLinesTaken
                  ⟨t, s, some (buf.take cfg.FS3_SECTOR_SIZE)⟩)
                containedSectors := setSector c.containedSectors t s ⟨1, c.cacheLinesTaken⟩
                stats := { c.stats with inserts := c.stats.inserts + 1 } })) := by
  unfold fs3_put_cache at hp
  rw [if_pos h.init] at hp
  by_cases hr : t < cfg.FS3_MAX_TRACKS ∧ s < cfg.FS3_TRACK_SIZE
  swap
  · rw [if_neg hr] at hp; simp at hp
  rw [if_pos hr] at hp
  by_cases hc : (c.containedSectors t s).contains = 1
  · rw [if_pos hc] at hp
    obtain ⟨hlt, line, hline, -, -⟩ := h.index t s hc
    obtain ⟨line', b, hline', -, -, -, hb, hbl⟩ := h.slot _ hlt
    have : line' = line := by rw [hline] at hline'; exact (Option.some.inj hline').symm
    subst this
    simp only [h.lines, hline, hb] at hp
    cases hm : memcpy b 0 buf 0 cfg.FS3_SECTOR_SIZE with
    | none => rw [hm] at hp; simp at hp
    | some bytes =>
      rw [hm] at hp
      simp only [Option.some.injEq, Prod.mk.injEq] at hp
      obtain ⟨hc', hrc⟩ := hp
      have hbytes := (memcpy_whole hm hbl).1
      have hlen : cfg.FS3_SECTOR_SIZE ≤ buf.length := by
        unfold memcpy at hm
        split at hm
        · omega
        · simp at hm
      refine ⟨hrc.symm, hr.1, hr.2, hlen, Or.inl ⟨hc, line', hline, ?_⟩⟩
      rw [← hc', hbytes]
  · rw [if_neg hc] at hp
    cases hm : memcpy (malloc cfg.FS3_SECTOR_SIZE) 0 buf 0 cfg.FS3_SECTOR_SIZE with
    | none => rw [hm] at hp; simp at hp
    | some bytes =>
      rw [hm] at hp
      have hbytes := (memcpy_whole hm (by simp [malloc])).1
      have hlen : cfg.FS3_SECTOR_SIZE ≤ buf.length := by
        unfold memcpy at hm
        split at hm
        · omega
        · simp at hm
      simp only [h.lines] at hp
      by_cases hfull : c.cacheLinesTaken = c.size
      · rw [if_pos hfull] at hp
        cases hold : ls[c.lastAccessedLine]? with
        | none => rw [hold] at hp; simp at hp
        | some old =>
          rw [hold] at hp
          simp only at hp
          split at hp
          · cases hi : incr c.stats.inserts with
            | none => rw [hi] at hp; simp at hp
            | some ins =>
              rw [hi] at hp
              simp only [Option.some.injEq, Prod.mk.injEq] at hp
              obtain ⟨hc', hrc⟩ := hp
              unfold incr at hi
              split at hi
              · rename_i hlt
                simp only [Option.some.injEq] at hi
                refine ⟨hrc.symm, hr.1, hr.2, hlen, Or.inr (Or.inl ⟨hc, hfull, hlt, old, rfl, ?_⟩)⟩
                rw [← hc', hbytes, ← hi]
              · simp at hi
          · simp at hp
      · rw [if_neg hfull] at hp
        have htk := h.taken_le
        have hsz := h.size_lt
        have hu : u16 (c.cacheLinesTaken + 1) = c.cacheLinesTaken + 1 := by
          unfold u16; omega
        rw [hu] at hp
        simp only [Nat.add_sub_cancel] at hp
        split at hp
        · cases hi : incr c.stats.inserts with
          | none => rw [hi] at hp; simp at hp
          | some ins =>
            rw [hi] at hp
            simp only [Option.some.injEq, Prod.mk.injEq] at hp
            obtain ⟨hc', hrc⟩ := hp
            unfold incr at hi
            split at hi
            · rename_i hlt
              simp only [Option.some.injEq] at hi
              refine ⟨hrc.symm, hr.1, hr.2, hlen, Or.inr (Or.inr ⟨hc, by omega, hlt, ?_⟩)⟩
              rw [← hc', hbytes, ← hi]
            · simp at hi
        · simp at hp

theorem setSector_same (f : Nat → Nat → CACHE_SECTOR) (t s : Nat) (v : CACHE_SECTOR) :
    setSector f t s v t s = v := by
  simp [setSector]

theorem setSector_other (f : Nat → Nat → CACHE_SECTOR) (t s t' s' : Nat) (v : CACHE_SECTOR)
    (h : ¬ (t' = t ∧ s' = s)) : setSector f t s v t' s' = f t' s' := by
  simp only [setSector, if_neg h]

theorem put_inv {cfg : Config} {c c' : CACHE} {ls : List CACHE_LINE} {t s : Nat}
    {buf : List Byte} {rc : Int} (h : CacheInv cfg c ls)
    (hp : fs3_put_cache cfg c t s buf = some (c', rc)) :
    ∃ ls', CacheInv cfg c' ls' := by
  obtain ⟨-, ht, hs, hlen, hcase⟩ := put_cases h hp
  have htake : (buf.take cfg.FS3_SECTOR_SIZE).length = cfg.FS3_SECTOR_SIZE := by
    rw [List.length_take]; omega
  rcases hcase with ⟨hc, line, hline, rfl⟩ | ⟨hc, hfull, -, old, hold, rfl⟩ | ⟨hc, hfree, -, rfl⟩
  · -- update in place
    obtain ⟨hlt, -⟩ := h.index t s hc
    have hll : (c.containedSectors t s).loc < ls.length := by
      have := h.taken_le; have := h.len; omega
    refine ⟨_, ⟨h.init, rfl, by simpa using h.len, h.size_lt, h.taken_le, Or.inl hlt, ?_, ?_⟩⟩
    · intro j hj
      obtain ⟨lj, b, hlj, h1, h2, h3, h4, h5⟩ := h.slot j hj
      by_cases hjl : j = (c.containedSectors t s).loc
      · subst hjl
        have : lj = line := by rw [hline] at hlj; exact (Option.some.inj hlj).symm
        subst this
        exact ⟨_, _, List.getElem?_set_self hll, h1, h2, h3, rfl, htake⟩
      · refine ⟨lj, b, ?_, h1, h2, h3, h4, h5⟩
        rw [List.getElem?_set_ne (Ne.symm hjl)]
        exact hlj
    · intro t' s' hc'
      obtain ⟨hlt', l', hl', hk1, hk2⟩ := h.index t' s' hc'
      refine ⟨hlt', ?_⟩
      by_cases hjl : (c.containedSectors t' s').loc = (c.containedSectors t s).loc
      · have : l' = line := by
          rw [hjl, hline] at hl'; exact (Option.some.inj hl').symm
        subst this
        refine ⟨{ l' with sectorBytes := some (buf.take cfg.FS3_SECTOR_SIZE) }, ?_, hk1, hk2⟩
        rw [hjl]
        exact List.getElem?_set_self hll
      · refine ⟨l', ?_, hk1, hk2⟩
        rw [List.getElem?_set_ne (Ne.symm hjl)]
        exact hl'
  · -- eviction of the last accessed line
    have hll : c.lastAccessedLine < ls.length := by
      obtain ⟨hh, -⟩ := List.getElem?_eq_some.mp hold
      exact hh
    have hlt : c.lastAccessedLine < c.cacheLinesTaken := by
      have := h.len; omega
    obtain ⟨lo, bo, hlo, ho1, ho2, ho3, -, -⟩ := h.slot _ hlt
    have : lo = old := by rw [hold] at hlo; exact (Option.some.inj hlo).symm
    subst this
    refine ⟨_, ⟨h.init, rfl, by simpa using h.len, h.size_lt, h.taken_le, h.last, ?_, ?_⟩⟩
    · intro j hj
      by_cases hjl : j = c.lastAccessedLine
      · subst hjl
        exact ⟨_, _, List.getElem?_set_self hll, ht, hs, setSector_same _ _ _ _, rfl, htake⟩
      · obtain ⟨lj, b, hlj, h1, h2, h3, h4, h5⟩ := h.slot j hj
        refine ⟨lj, b, ?_, h1, h2, ?_, h4, h5⟩
        · rw [List.getElem?_set_ne (Ne.symm hjl)]
          exact hlj
        · dsimp only
          rw [setSector_other, setSector_other]
          · exact h3
          · rintro ⟨e1, e2⟩
            rw [e1, e2, ho3] at h3
            simp only [CACHE_SECTOR.mk.injEq, true_and] at h3
            exact hjl h3.symm
          · rintro ⟨e1, e2⟩
            rw [e1, e2] at h3
            rw [h3] at hc
            exact hc rfl
    · intro t' s' hc'
      simp only at hc' ⊢
      by_cases hk : t' = t ∧ s' = s
      · obtain ⟨rfl, rfl⟩ := hk
        rw [setSector_same]
        exact ⟨hlt, _, List.getElem?_set_self hll, rfl, rfl⟩
      · rw [setSector_other _ _ _ _ _ _ hk] at hc' ⊢
        by_cases hk' : t' = lo.trackIndex ∧ s' = lo.sectorIndex
        · obtain ⟨rfl, rfl⟩ := hk'
          rw [setSector_same] at hc'
          simp at hc'
        · rw [setSector_other _ _ _ _ _ _ hk'] at hc' ⊢
          obtain ⟨hlt', l', hl', hk1, hk2⟩ := h.index t' s' hc'
          refine ⟨hlt', l', ?_, hk1, hk2⟩
          rw [List.getElem?_set_ne]
          · exact hl'
          · intro e
            rw [← e, hold] at hl'
            have := Option.some.inj hl'
            subst this
            exact hk' ⟨hk1.symm, hk2.symm⟩
  · -- append into free capacity
    have hll : c.cacheLinesTaken < ls.length := by
      have := h.len; omega
    refine ⟨_, ⟨h.init, rfl, by simpa using h.len, h.size_lt, ?_, ?_, ?_, ?_⟩⟩
    · simp only; omega
    · simp only
      rcases h.last with hl | hl
      · left; omega
      · right; exact hl
    · intro j hj
      simp only at hj ⊢
      by_cases hjl : j = c.cacheLinesTaken
      · subst hjl
        exact ⟨_, _, List.getElem?_set_self hll, ht, hs, setSector_same _ _ _ _, rfl, htake⟩
      · obtain ⟨lj, b, hlj, h1, h2, h3, h4, h5⟩ := h.slot j (by omega)
        refine ⟨lj, b, ?_, h1, h2, ?_, h4, h5⟩
        · rw [List.getElem?_set_ne (Ne.symm hjl)]
          exact hlj
        · rw [setSector_other]
          · exact h3
          · rintro ⟨e1, e2⟩
            rw [e1, e2] at h3
            rw [h3] at hc
            exact hc rfl
    · intro t' s' hc'
      simp only at hc' ⊢
      by_cases hk : t' = t ∧ s' = s
      · obtain ⟨rfl, rfl⟩ := hk
        rw [setSector_same]
        exact ⟨by simp, _, List.getElem?_set_self hll, rfl, rfl⟩
      · rw [setSector_other _ _ _ _ _ _ hk] at hc' ⊢
        obtain ⟨hlt', l', hl', hk1, hk2⟩ := h.index t' s' hc'
        refine ⟨by omega, l', ?_, hk1, hk2⟩
        rw [List.getElem?_set_ne (by omega)]
        exact hl'

/-- The two ways a defined `fs3_get_cache` on a consistent cache can go. -/
theorem get_cases {cfg : Config} {c c' : CACHE} {ls : List CACHE_LINE} {t s : Nat}
    {r : Option (List Byte)} (h : CacheInv cfg c ls)
    (hg : fs3_get_cache cfg c t s = some (c', r)) :
    t < cfg.FS3_MAX_TRACKS ∧ s < cfg.FS3_TRACK_SIZE ∧ c.stats.gets < INT_MAX ∧
    (((c.containedSectors t s).contains = 1 ∧ c.stats.hits < INT_MAX ∧
        (∃ line b, ls[(c.containedSectors t s).loc]? = some line ∧
          line.sectorBytes = some b ∧ r = some b) ∧
        c' = { c with
                lastAccessedLine := (c.containedSectors t s).loc
                stats := { c.stats with gets := c.stats.gets + 1, hits := c.stats.hits + 1 } }) ∨
     ((c.containedSectors t s).contains ≠ 1 ∧ c.stats.misses < INT_MAX ∧ r = none ∧
        c' = { c with
                stats := { c.stats with gets := c.stats.gets + 1,
                                        misses := c.stats.misses + 1 } })) := by
  unfold fs3_get_cache at hg
  rw [if_pos h.init] at hg
  cases hi : incr c.stats.gets with
  | none => rw [hi] at hg; simp at hg
  | some g =>
    rw [hi] at hg
    have hg1 : c.stats.gets < INT_MAX ∧ g = c.stats.gets + 1 := by
      unfold incr at hi
      split at hi
      · exact ⟨by assumption, (Option.some.inj hi).symm⟩
      · simp at hi
    obtain ⟨hglt, rfl⟩ := hg1
    simp only at hg
    by_cases hr : t < cfg.FS3_MAX_TRACKS ∧ s < cfg.FS3_TRACK_SIZE
    swap
    · rw [if_neg hr] at hg; simp at hg
    rw [if_pos hr] at hg
    refine ⟨hr.1, hr.2, hglt, ?_⟩
    by_cases hc : (c.containedSectors t s).contains = 1
    · rw [if_pos hc] at hg
      cases hh : incr c.stats.hits with
      | none => rw [hh] at hg; simp at hg
      | some hv =>
        rw [hh] at hg
        have hh1 : c.stats.hits < INT_MAX ∧ hv = c.stats.hits + 1 := by
          unfold incr at hh
          split at hh
          · exact ⟨by assumption, (Option.some.inj hh).symm⟩
          · simp at hh
        obtain ⟨hhlt, rfl⟩ := hh1
        obtain ⟨hlt, line, hline, -, -⟩ := h.index t s hc
        obtain ⟨line', b, hline', -, -, -, hb, -⟩ := h.slot _ hlt
        have : line' = line := by rw [hline] at hline'; exact (Option.some.inj hline').symm
        subst this
        simp only [h.lines, hline, Option.some.injEq, Prod.mk.injEq] at hg
        obtain ⟨hc', hrr⟩ := hg
        left
        refine ⟨hc, hhlt, ⟨line', b, hline, hb, ?_⟩, ?_⟩
        · rw [← hrr, hb]
        · rw [← hc', h.lines]
    · rw [if_neg hc] at hg
      cases hm : incr c.stats.misses with
      | none => rw [hm] at hg; simp at hg
      | some mv =>
        rw [hm] at hg
        have hm1 : c.stats.misses < INT_MAX ∧ mv = c.stats.misses + 1 := by
          unfold incr at hm
          split at hm
          · exact ⟨by assumption, (Option.some.inj hm).symm⟩
          · simp at hm
        obtain ⟨hmlt, rfl⟩ := hm1
        simp only [Option.some.injEq, Prod.mk.injEq] at hg
        obtain ⟨hc', hrr⟩ := hg
        right
        exact ⟨hc, hmlt, hrr.symm, hc'.symm⟩

/-- On a consistent cache with room in its counters, a put of an in-range key and a
sector-sized buffer is defined and returns 0. -/
theorem put_defined {cfg : Config} {c : CACHE} {ls : List CACHE_LINE} (t s : Nat)
    (buf : List Byte) (h : CacheInv cfg c ls) (hsz : 1 ≤ c.size)
    (ht : t < cfg.FS3_MAX_TRACKS) (hs : s < cfg.FS3_TRACK_SIZE)
    (hlen : cfg.FS3_SECTOR_SIZE ≤ buf.length) (hins : c.stats.inserts < INT_MAX) :
    ∃ c', fs3_put_cache cfg c t s buf = some (c', 0) := by
  unfold fs3_put_cache
  rw [if_pos h.init, if_pos ⟨ht, hs⟩]
  by_cases hc : (c.containedSectors t s).contains = 1
  · rw [if_pos hc]
    obtain ⟨hlt, line, hline, -, -⟩ := h.index t s hc
    obtain ⟨line', b, hline', -, -, -, hb, hbl⟩ := h.slot _ hlt
    have : line' = line := by rw [hline] at hline'; exact (Option.some.inj hline').symm
    subst this
    simp only [h.lines, hline, hb, memcpy_whole_some b buf _ hbl hlen]
    exact ⟨_, rfl⟩
  · rw [if_neg hc]
    rw [memcpy_whole_some _ buf _ (by simp [malloc]) hlen]
    simp only [h.lines]
    have hi : incr c.stats.inserts = some (c.stats.inserts + 1) := by
      unfold incr; rw [if_pos hins]
    by_cases hfull : c.cacheLinesTaken = c.size
    · rw [if_pos hfull]
      have hlt : c.lastAccessedLine < c.cacheLinesTaken := by
        rcases h.last with hl | hl <;> omega
      obtain ⟨old, b, hold, h1, h2, -, -, -⟩ := h.slot _ hlt
      simp only [hold, if_pos (And.intro h1 h2), hi]
      exact ⟨_, rfl⟩
    · rw [if_neg hfull]
      have htk := h.taken_le
      have hsz' := h.size_lt
      have hu : u16 (c.cacheLinesTaken + 1) = c.cacheLinesTaken + 1 := by
        unfold u16; omega
      rw [hu]
      have hl := h.len
      rw [if_pos (by constructor <;> omega), hi]
      exact ⟨_, rfl⟩

/-- On a consistent cache with room in its counters, a get of an in-range key is
defined. -/
theorem get_defined {cfg : Config} {c : CACHE} {ls : List CACHE_LINE} (t s : Nat)
    (h : CacheInv cfg c ls) (ht : t < cfg.FS3_MAX_TRACKS) (hs : s < cfg.FS3_TRACK_SIZE)
    (hg : c.stats.gets < INT_MAX) (hh : c.stats.hits < INT_MAX)
    (hm : c.stats.misses < INT_MAX) :
    ∃ c' r, fs3_get_cache cfg c t s = some (c', r) := by
  unfold fs3_get_cache
  have e1 : incr c.stats.gets = some (c.stats.gets + 1) := by unfold incr; rw [if_pos hg]
  have e2 : incr c.stats.hits = some (c.stats.hits + 1) := by unfold incr; rw [if_pos hh]
  have e3 : incr c.stats.misses = some (c.stats.misses + 1) := by unfold incr; rw [if_pos hm]
  rw [if_pos h.init, e1]
  simp only [if_pos (And.intro ht hs)]
  by_cases hc : (c.containedSectors t s).contains = 1
  · obtain ⟨hlt, line, hline, -, -⟩ := h.index t s hc
    simp only [if_pos hc, e2, h.lines, hline]
    exact ⟨_, _, rfl⟩
  · simp only [if_neg hc, e3]
    exact ⟨_, _, rfl⟩

theorem step_inv {cfg : Config} {c c' : CACHE} {ls : List CACHE_LINE} {op : CacheOp}
    (h : CacheInv cfg c ls) (hs : cacheStep cfg c op = some c') :
    ∃ ls', CacheInv cfg c' ls' := by
  cases op with
  | put t s b =>
    simp only [cacheStep, Option.map_eq_some'] at hs
    obtain ⟨⟨c1, rc⟩, hp, rfl⟩ := hs
    exact put_inv h hp
  | get t s =>
    simp only [cacheStep, Option.map_eq_some'] at hs
    obtain ⟨⟨c1, r⟩, hg, rfl⟩ := hs
    exact ⟨ls, get_inv h hg⟩

theorem step_size {cfg : Config} {c c' : CACHE} {ls : List CACHE_LINE} {op : CacheOp}
    (h : CacheInv cfg c ls) (hs : cacheStep cfg c op = some c') : c'.size = c.size := by
  cases op with
  | put t s b =>
    simp only [cacheStep, Option.map_eq_some'] at hs
    obtain ⟨⟨c1, rc⟩, hp, rfl⟩ := hs
    obtain ⟨-, -, -, -, hcase⟩ := put_cases h hp
    rcases hcase with ⟨-, -, -, rfl⟩ | ⟨-, -, -, -, -, rfl⟩ | ⟨-, -, -, rfl⟩ <;> rfl
  | get t s =>
    simp only [cacheStep, Option.map_eq_some'] at hs
    obtain ⟨⟨c1, r⟩, hg, rfl⟩ := hs
    obtain ⟨-, -, -, hcase⟩ := get_cases h hg
    rcases hcase with ⟨-, -, -, rfl⟩ | ⟨-, -, -, rfl⟩ <;> rfl

theorem run_inv {cfg : Config} {ops : List CacheOp} :
    ∀ {c c' : CACHE} {ls : List CACHE_LINE}, CacheInv cfg c ls →
      cacheRun cfg c ops = some c' → (∃ ls', CacheInv cfg c' ls') ∧ c'.size = c.size := by
  induction ops with
  | nil =>
    intro c c' ls h hr
    simp only [cacheRun, Option.some.injEq] at hr
    subst hr
    exact ⟨⟨ls, h⟩, rfl⟩
  | cons op ops ih =>
    intro c c' ls h hr
    simp only [cacheRun] at hr
    cases hs : cacheStep cfg c op with
    | none => rw [hs] at hr; simp at hr
    | some c1 =>
      rw [hs] at hr
      obtain ⟨ls1, h1⟩ := step_inv h hs
      obtain ⟨hinv, hsz⟩ := ih h1 hr
      exact ⟨hinv, by rw [hsz, step_size h hs]⟩

theorem reach_inv {cfg : Config} {C : Nat} {ops : List CacheOp} {c : CACHE} (hC : C < 65536)
    (hr : cacheRun cfg (fs3_init_cache CACHE.zero C).1 ops = some c) :
    (∃ ls, CacheInv cfg c ls) ∧ c.size = C := by
  obtain ⟨h1, h2⟩ := run_inv (init_inv cfg C hC) hr
  exact ⟨h1, by rw [h2]; rfl⟩

theorem step_counters {cfg : Config} {c c' : CACHE} {ls : List CACHE_LINE} {op : CacheOp}
    (h : CacheInv cfg c ls) (hs : cacheStep cfg c op = some c') :
    c'.stats.inserts ≤ c.stats.inserts + 1 ∧ c'.stats.gets ≤ c.stats.gets + 1 ∧
    c'.stats.hits ≤ c.stats.hits + 1 ∧ c'.stats.misses ≤ c.stats.misses + 1 := by
  cases op with
  | put t s b =>
    simp only [cacheStep, Option.map_eq_some'] at hs
    obtain ⟨⟨c1, rc⟩, hp, rfl⟩ := hs
    obtain ⟨-, -, -, -, hcase⟩ := put_cases h hp
    rcases hcase with ⟨-, -, -, rfl⟩ | ⟨-, -, -, -, -, rfl⟩ | ⟨-, -, -, rfl⟩ <;>
      dsimp only <;> omega
  | get t s =>
    simp only [cacheStep, Option.map_eq_some'] at hs
    obtain ⟨⟨c1, r⟩, hg, rfl⟩ := hs
    obtain ⟨-, -, -, hcase⟩ := get_cases h hg
    rcases hcase with ⟨-, -, -, rfl⟩ | ⟨-, -, -, rfl⟩ <;> dsimp only <;> omega

/-- A sequence of well-formed calls (in-range keys, sector-sized buffers) on a
consistent cache of capacity at least 1 is defined at every step, as long as the `int`
counters cannot overflow. -/
theorem run_defined {cfg : Config} (ops : List CacheOp) :
    ∀ (c : CACHE) (ls : List CACHE_LINE), CacheInv cfg c ls → 1 ≤ c.size →
      (∀ op ∈ ops, op.wellFormed cfg) →
      c.stats.inserts + ops.length < INT_MAX → c.stats.gets + ops.length < INT_MAX →
      c.stats.hits + ops.length < INT_MAX → c.stats.misses + ops.length < INT_MAX →
      ∃ c', cacheRun cfg c ops = some c' := by
  induction ops with
  | nil => intro c _ _ _ _ _ _ _ _; exact ⟨c, rfl⟩
  | cons op ops ih =>
    intro c ls h hsz hwf h1 h2 h3 h4
    simp only [List.length_cons] at h1 h2 h3 h4
    have hop := hwf op (List.mem_cons_self _ _)
    have hstep : ∃ c1, cacheStep cfg c op = some c1 := by
      cases op with
      | put t s b =>
        obtain ⟨ht, hs, hb⟩ := hop
        obtain ⟨c1, hp⟩ := put_defined t s b h hsz ht hs hb (by omega)
        exact ⟨c1, by simp only [cacheStep, hp, Option.map_some']⟩
      | get t s =>
        obtain ⟨ht, hs⟩ := hop
        obtain ⟨c1, r, hg⟩ := get_defined t s h ht hs (by omega) (by omega) (by omega)
        exact ⟨c1, by simp only [cacheStep, hg, Option.map_some']⟩
    obtain ⟨c1, hs1⟩ := hstep
    obtain ⟨ls1, hinv1⟩ := step_inv h hs1
    have hsize := step_size h hs1
    obtain ⟨k1, k2, k3, k4⟩ := step_counters h hs1
    obtain ⟨c', hrun⟩ := ih c1 ls1 hinv1 (by omega)
      (fun o ho => hwf o (List.mem_cons_of_mem _ ho))
      (by omega) (by omega) (by omega) (by omega)
    exact ⟨c', by simp only [cacheRun, hs1, hrun]⟩

/-- After a defined put the key is resident and its line holds the sector put. -/
theorem put_resident {cfg : Config} {c c' : CACHE} {ls : List CACHE_LINE} {t s : Nat}
    {buf : List Byte} {rc : Int} (h : CacheInv cfg c ls)
    (hp : fs3_put_cache cfg c t s buf = some (c', rc)) :
    (c'.containedSectors t s).contains = 1 ∧
    ∃ ls' line, c'.cacheLines = some ls' ∧
      ls'[(c'.containedSectors t s).loc]? = some line ∧
      line.sectorBytes = some (buf.take cfg.FS3_SECTOR_SIZE) := by
  obtain ⟨-, ht, hs, hlen, hcase⟩ := put_cases h hp
  rcases hcase with ⟨hc, line, hline, rfl⟩ | ⟨hc, hfull, -, old, hold, rfl⟩ | ⟨hc, hfree, -, rfl⟩
  · have hll : (c.containedSectors t s).loc < ls.length :=
      (List.getElem?_eq_some.mp hline).1
    exact ⟨hc, _, _, rfl, List.getElem?_set_self hll, rfl⟩
  · have hll : c.lastAccessedLine < ls.length := (List.getElem?_eq_some.mp hold).1
    refine ⟨by dsimp only; rw [setSector_same], _,
      ⟨t, s, some (buf.take cfg.FS3_SECTOR_SIZE)⟩, rfl, ?_, rfl⟩
    dsimp only
    rw [setSector_same]
    exact List.getElem?_set_self hll
  · have hll : c.cacheLinesTaken < ls.length := by
      have := h.len; omega
    refine ⟨by dsimp only; rw [setSector_same], _,
      ⟨t, s, some (buf.take cfg.FS3_SECTOR_SIZE)⟩, rfl, ?_, rfl⟩
    dsimp only
    rw [setSector_same]
    exact List.getElem?_set_self hll

theorem stats_step {cfg : Config} {c c' : CACHE} {ls : List CACHE_LINE} {op : CacheOp}
    (h : CacheInv cfg c ls) (hs : cacheStep cfg c op = some c')
    (hst : c.stats.hits + c.stats.misses = c.stats.gets) :
    c'.stats.hits + c'.stats.misses = c'.stats.gets := by
  cases op with
  | put t s b =>
    simp only [cacheStep, Option.map_eq_some'] at hs
    obtain ⟨⟨c1, rc⟩, hp, rfl⟩ := hs
    obtain ⟨-, -, -, -, hcase⟩ := put_cases h hp
    rcases hcase with ⟨-, -, -, rfl⟩ | ⟨-, -, -, -, -, rfl⟩ | ⟨-, -, -, rfl⟩ <;> exact hst
  | get t s =>
    simp only [cacheStep, Option.map_eq_some'] at hs
    obtain ⟨⟨c1, r⟩, hg, rfl⟩ := hs
    obtain ⟨-, -, -, hcase⟩ := get_cases h hg
    rcases hcase with ⟨-, -, -, rfl⟩ | ⟨-, -, -, rfl⟩ <;> dsimp only <;> omega

theorem stats_run {cfg : Config} {ops : List CacheOp} :
    ∀ {c c' : CACHE} {ls : List CACHE_LINE}, CacheInv cfg c ls →
      cacheRun cfg c ops = some c' → c.stats.hits + c.stats.misses = c.stats.gets →
      c'.stats.hits + c'.stats.misses = c'.stats.gets := by
  induction ops with
  | nil =>
    intro c c' ls _ hr hst
    simp only [cacheRun, Option.some.injEq] at hr
    subst hr
    exact hst
  | cons op ops ih =>
    intro c c' ls h hr hst
    simp only [cacheRun] at hr
    cases hs : cacheStep cfg c op with
    | none => rw [hs] at hr; simp at hr
    | some c1 =>
      rw [hs] at hr
      obtain ⟨ls1, h1⟩ := step_inv h hs
      exact ih h1 hr (stats_step h hs hst)

theorem reach_stats {cfg : Config} {C : Nat} {ops : List CacheOp} {c : CACHE} (hC : C < 65536)
    (hr : cacheRun cfg (fs3_init_cache CACHE.zero C).1 ops = some c) :
    c.stats.hits + c.stats.misses = c.stats.gets :=
  stats_run (init_inv cfg C hC) hr rfl

/-- C5 (cache get-after-put): in every state `c` that a sequence of defined put and
get calls reaches from `fs3_init_cache` with capacity `1 ≤ C`, for every in-range
`(t, s)` and every sector-sized buffer `bytes`, `fs3_put_cache(t, s, bytes)` is defined
and returns 0, and the `fs3_get_cache(t, s)` that follows returns a buffer equal to
`bytes`, whichever of update, append or eviction the put was. The two counters the
calls increment are below `INT_MAX`. -/
theorem get_after_put (cfg : Config) (C : Nat) (ops : List CacheOp) (c : CACHE) (t s : Nat)
    (bytes : List Byte) (hC1 : 1 ≤ C) (hC : C < 65536)
    (hrun : cacheRun cfg (fs3_init_cache CACHE.zero C).1 ops = some c)
    (ht : t < cfg.FS3_MAX_TRACKS) (hs : s < cfg.FS3_TRACK_SIZE)
    (hb : bytes.length = cfg.FS3_SECTOR_SIZE)
    (hins : c.stats.inserts < INT_MAX) (hgets : c.stats.gets < INT_MAX) :
    ∃ c1 c2, fs3_put_cache cfg c t s bytes = some (c1, 0) ∧
      fs3_get_cache cfg c1 t s = some (c2, some bytes) := by
  obtain ⟨⟨ls, h⟩, hsz⟩ := reach_inv hC hrun
  have hst := reach_stats hC hrun
  obtain ⟨c1, hp⟩ := put_defined t s bytes h (by omega) ht hs (by omega) hins
  obtain ⟨ls1, h1⟩ := put_inv h hp
  obtain ⟨hres, ls1', line, hl1, hline, hbytes⟩ := put_resident h hp
  have hkeep : c1.stats.gets = c.stats.gets ∧ c1.stats.hits = c.stats.hits ∧
      c1.stats.misses = c.stats.misses := by
    obtain ⟨-, -, -, -, hcase⟩ := put_cases h hp
    rcases hcase with ⟨-, -, -, rfl⟩ | ⟨-, -, -, -, -, rfl⟩ | ⟨-, -, -, rfl⟩ <;>
      exact ⟨rfl, rfl, rfl⟩
  obtain ⟨c2, r, hg⟩ := get_defined t s h1 ht hs (by omega) (by omega) (by omega)
  refine ⟨c1, c2, hp, ?_⟩
  obtain ⟨-, -, -, hcase⟩ := get_cases h1 hg
  rcases hcase with ⟨-, -, ⟨line2, b, hline2, hb2, hr⟩, -⟩ | ⟨hno, -⟩
  · have e : ls1' = ls1 := by
      rw [h1.lines] at hl1; exact (Option.some.inj hl1).symm
    subst e
    rw [hline] at hline2
    have e2 := Option.some.inj hline2
    subst e2
    rw [hbytes] at hb2
    have e3 := Option.some.inj hb2
    rw [hg, hr, ← e3, List.take_of_length_le (by omega)]
  · exact absurd hres hno

/-- C6 (cache capacity bound): for every capacity `C` given to `fs3_init_cache` and
every sequence of defined `fs3_put_cache` / `fs3_get_cache` calls after it, the number
of resident lines `cacheLinesTaken` and the number of in-range keys that the index
reports as present are at most `C`. -/
theorem capacity_bound (cfg : Config) (C : Nat) (ops : List CacheOp) (c : CACHE)
    (hC : C < 65536)
    (hrun : cacheRun cfg (fs3_init_cache CACHE.zero C).1 ops = some c) :
    c.cacheLinesTaken ≤ C ∧ (residentKeys cfg c).card ≤ C := by
  obtain ⟨⟨ls, h⟩, hsz⟩ := reach_inv hC hrun
  have htk : c.cacheLinesTaken ≤ C := by have := h.taken_le; omega
  refine ⟨htk, ?_⟩
  have hcard : (residentKeys cfg c).card ≤ (Finset.range c.cacheLinesTaken).card := by
    apply Finset.card_le_card_of_injOn (fun k => (c.containedSectors k.1 k.2).loc)
    · intro k hk
      have hk' : (c.containedSectors k.1 k.2).contains = 1 := by
        simp only [residentKeys, Finset.mem_filter] at hk
        exact hk.2
      simp only [Finset.mem_range]
      exact (h.index k.1 k.2 hk').1
    · intro a ha b hb hab
      have ha' : (c.containedSectors a.1 a.2).contains = 1 := by
        have := (Finset.mem_filter.mp ha).2
        exact this
      have hb' : (c.containedSectors b.1 b.2).contains = 1 := by
        have := (Finset.mem_filter.mp hb).2
        exact this
      obtain ⟨-, la, hla, ha1, ha2⟩ := h.index a.1 a.2 ha'
      obtain ⟨-, lb, hlb, hb1, hb2⟩ := h.index b.1 b.2 hb'
      dsimp only at hab
      rw [hab, hlb] at hla
      have e := Option.some.inj hla
      subst e
      exact Prod.ext (by rw [← ha1, hb1]) (by rw [← ha2, hb2])
  rw [Finset.card_range] at hcard
  omega

theorem lastTouched_run {cfg : Config} {ops : List CacheOp} :
    ∀ {c c' : CACHE} {ls : List CACHE_LINE}, CacheInv cfg c ls →
      cacheRun cfg c ops = some c' →
      c'.lastAccessedLine = lastTouched cfg c c.lastAccessedLine ops := by
  induction ops with
  | nil =>
    intro c c' ls _ hr
    simp only [cacheRun, Option.some.injEq] at hr
    subst hr
    rfl
  | cons op ops ih =>
    intro c c' ls h hr
    simp only [cacheRun] at hr
    cases hs : cacheStep cfg c op with
    | none => rw [hs] at hr; simp at hr
    | some c1 =>
      rw [hs] at hr
      obtain ⟨ls1, h1⟩ := step_inv h hs
      have hhot : c1.lastAccessedLine =
          (if (c.containedSectors op.key.1 op.key.2).contains = 1
            then (c.containedSectors op.key.1 op.key.2).loc else c.lastAccessedLine) := by
        cases op with
        | put t s b =>
          simp only [cacheStep, Option.map_eq_some'] at hs
          obtain ⟨⟨c2, rc⟩, hp, rfl⟩ := hs
          obtain ⟨-, -, -, -, hcase⟩ := put_cases h hp
          rcases hcase with ⟨hc, -, -, rfl⟩ | ⟨hc, -, -, -, -, rfl⟩ | ⟨hc, -, -, rfl⟩
          · simp only [CacheOp.key, if_pos hc]
          · simp only [CacheOp.key, if_neg hc]
          · simp only [CacheOp.key, if_neg hc]
        | get t s =>
          simp only [cacheStep, Option.map_eq_some'] at hs
          obtain ⟨⟨c2, r⟩, hg, rfl⟩ := hs
          obtain ⟨-, -, -, hcase⟩ := get_cases h hg
          rcases hcase with ⟨hc, -, -, rfl⟩ | ⟨hc, -, -, rfl⟩
          · simp only [CacheOp.key, if_pos hc]
          · simp only [CacheOp.key, if_neg hc]
      rw [ih h1 hr]
      simp only [lastTouched, hs]
      rw [hhot]

theorem inserts_run {cfg : Config} {ops : List CacheOp} :
    ∀ {c c' : CACHE} {ls : List CACHE_LINE}, CacheInv cfg c ls →
      cacheRun cfg c ops = some c' →
      c'.stats.inserts = c.stats.inserts + newEntryPuts cfg c ops := by
  induction ops with
  | nil =>
    intro c c' ls _ hr
    simp only [cacheRun, Option.some.injEq] at hr
    subst hr
    rfl
  | cons op ops ih =>
    intro c c' ls h hr
    simp only [cacheRun] at hr
    cases hs : cacheStep cfg c op with
    | none => rw [hs] at hr; simp at hr
    | some c1 =>
      rw [hs] at hr
      obtain ⟨ls1, h1⟩ := step_inv h hs
      rw [ih h1 hr]
      simp only [newEntryPuts, hs]
      cases op with
      | put t s b =>
        simp only [cacheStep, Option.map_eq_some'] at hs
        obtain ⟨⟨c2, rc⟩, hp, rfl⟩ := hs
        obtain ⟨-, -, -, -, hcase⟩ := put_cases h hp
        rcases hcase with ⟨hc, -, -, rfl⟩ | ⟨hc, -, -, -, -, rfl⟩ | ⟨hc, -, -, rfl⟩
        · simp only [if_pos hc]; omega
        · simp only [if_neg hc]; omega
        · simp only [if_neg hc]; omega
      | get t s =>
        simp only [cacheStep, Option.map_eq_some'] at hs
        obtain ⟨⟨c2, r⟩, hg, rfl⟩ := hs
        obtain ⟨-, -, -, hcase⟩ := get_cases h hg
        rcases hcase with ⟨-, -, -, rfl⟩ | ⟨-, -, -, rfl⟩ <;> dsimp only <;> omega

/-- C7 (eviction policy): in a reachable state of a cache of capacity `1 ≤ C` that is
full, a put of an in-range key `(t, s)` that is not resident is defined, returns 0 and
evicts exactly the line in the slot marked last-accessed, which is the slot of the
most recent get hit or update-put (slot 0 if there was none): the key `old` held there
is absent afterwards, `(t, s)` is resident in that same slot with the content put,
every other slot of the line array and every other index entry is unchanged, and the
occupancy is unchanged. -/
theorem eviction_policy (cfg : Config) (C : Nat) (ops : List CacheOp) (c : CACHE) (t s : Nat)
    (buf : List Byte) (hC1 : 1 ≤ C) (hC : C < 65536)
    (hrun : cacheRun cfg (fs3_init_cache CACHE.zero C).1 ops = some c)
    (hfull : c.cacheLinesTaken = C)
    (ht : t < cfg.FS3_MAX_TRACKS) (hs : s < cfg.FS3_TRACK_SIZE)
    (hnr : (c.containedSectors t s).contains ≠ 1)
    (hb : buf.length = cfg.FS3_SECTOR_SIZE) (hins : c.stats.inserts < INT_MAX) :
    c.lastAccessedLine = lastTouched cfg (fs3_init_cache CACHE.zero C).1 0 ops ∧
    ∃ c' ls old, c.cacheLines = some ls ∧ ls[c.lastAccessedLine]? = some old ∧
      c.containedSectors old.trackIndex old.sectorIndex = ⟨1, c.lastAccessedLine⟩ ∧
      fs3_put_cache cfg c t s buf = some (c', 0) ∧
      (c'.containedSectors old.trackIndex old.sectorIndex).contains = 0 ∧
      c'.containedSectors t s = ⟨1, c.lastAccessedLine⟩ ∧
      c'.cacheLines = some (ls.set c.lastAccessedLine ⟨t, s, some buf⟩) ∧
      (∀ j, j ≠ c.lastAccessedLine →
        (ls.set c.lastAccessedLine ⟨t, s, some buf⟩)[j]? = ls[j]?) ∧
      (∀ t' s', ¬ (t' = t ∧ s' = s) → ¬ (t' = old.trackIndex ∧ s' = old.sectorIndex) →
        c'.containedSectors t' s' = c.containedSectors t' s') ∧
      c'.cacheLinesTaken = c.cacheLinesTaken ∧
      c'.lastAccessedLine = c.lastAccessedLine ∧
      residentKeys cfg c' =
        insert (t, s) ((residentKeys cfg c).erase (old.trackIndex, old.sectorIndex)) := by
  obtain ⟨⟨ls, h⟩, hsz⟩ := reach_inv hC hrun
  refine ⟨lastTouched_run (init_inv cfg C hC) hrun, ?_⟩
  obtain ⟨c', hp⟩ := put_defined t s buf h (by omega) ht hs (by omega) hins
  obtain ⟨-, -, -, -, hcase⟩ := put_cases h hp
  have htake : buf.take cfg.FS3_SECTOR_SIZE = buf := List.take_of_length_le (by omega)
  rcases hcase with ⟨hc, -⟩ | ⟨-, -, -, old, hold, hc'⟩ | ⟨-, hfree, -⟩
  · exact absurd hc hnr
  · have hlt : c.lastAccessedLine < c.cacheLinesTaken := by
      have := (List.getElem?_eq_some.mp hold).1
      have := h.len; omega
    obtain ⟨lo, bo, hlo, ho1, ho2, ho3, -, -⟩ := h.slot _ hlt
    have e : lo = old := by rw [hold] at hlo; exact (Option.some.inj hlo).symm
    subst e
    have hne : ¬ (lo.trackIndex = t ∧ lo.sectorIndex = s) := by
      rintro ⟨e1, e2⟩
      rw [e1, e2] at ho3
      rw [ho3] at hnr
      exact hnr rfl
    rw [htake] at hc'
    have hidx_old : (c'.containedSectors lo.trackIndex lo.sectorIndex).contains = 0 := by
      rw [hc']; dsimp only
      rw [setSector_other _ _ _ _ _ _ hne, setSector_same]
    have hidx_new : c'.containedSectors t s = ⟨1, c.lastAccessedLine⟩ := by
      rw [hc']; dsimp only
      rw [setSector_same]
    have hidx_rest : ∀ t' s', ¬ (t' = t ∧ s' = s) →
        ¬ (t' = lo.trackIndex ∧ s' = lo.sectorIndex) →
        c'.containedSectors t' s' = c.containedSectors t' s' := by
      intro t' s' h1 h2
      rw [hc']; dsimp only
      rw [setSector_other _ _ _ _ _ _ h1, setSector_other _ _ _ _ _ _ h2]
    refine ⟨c', ls, lo, h.lines, hold, ho3, hp, hidx_old, hidx_new, by rw [hc'], ?_, hidx_rest,
      by rw [hc'], by rw [hc'], ?_⟩
    · intro j hj
      exact List.getElem?_set_ne (Ne.symm hj)
    · ext ⟨t', s'⟩
      simp only [residentKeys, Finset.mem_filter, Finset.mem_product, Finset.mem_range,
        Finset.mem_insert, Finset.mem_erase, Prod.mk.injEq, ne_eq]
      by_cases h1 : t' = t ∧ s' = s
      · obtain ⟨rfl, rfl⟩ := h1
        rw [hidx_new]
        simp [ht, hs]
      · by_cases h2 : t' = lo.trackIndex ∧ s' = lo.sectorIndex
        · obtain ⟨rfl, rfl⟩ := h2
          rw [hidx_old]
          simp [h1]
        · rw [hidx_rest t' s' h1 h2]
          simp [h1, h2]
  · omega

/-- C8, as stated, fails: on a cache of capacity 1 that holds key `(0, 0)` after one
put, a second put of `(0, 0)` is defined and returns 0, the insert counter is 1 before
it and still 1 after it, not incremented. -/
theorem insert_counter_counterexample :
    (cacheRun Config.standard (fs3_init_cache CACHE.zero 1).1
        [.put 0 0 (sectorOf Config.standard 7)]).bind
      (fun c1 => (fs3_put_cache Config.standard c1 0 0 (sectorOf Config.standard 8)).map
        (fun r => (r.2, c1.stats.inserts, r.1.stats.inserts,
          decide (r.1.stats.inserts = c1.stats.inserts + 1)))) =
      some (0, 1, 1, false) := by
  decide

/-- C8 (insert counter, amended): in every reachable state of an initialised cache a
defined `fs3_put_cache` returns 0 and increments the insert counter by exactly one
when it adds a new entry (append or eviction) and leaves it unchanged when it updates
an already-resident key; so the insert counter equals the number of puts since init
whose key was not resident when the put was made. -/
theorem insert_counter (cfg : Config) (C : Nat) (ops : List CacheOp) (c c' : CACHE)
    (t s : Nat) (buf : List Byte) (rc : Int) (hC : C < 65536)
    (hrun : cacheRun cfg (fs3_init_cache CACHE.zero C).1 ops = some c)
    (hp : fs3_put_cache cfg c t s buf = some (c', rc)) :
    rc = 0 ∧
    c'.stats.inserts =
      c.stats.inserts + (if (c.containedSectors t s).contains = 1 then 0 else 1) ∧
    c.stats.inserts = newEntryPuts cfg (fs3_init_cache CACHE.zero C).1 ops := by
  obtain ⟨⟨ls, h⟩, -⟩ := reach_inv hC hrun
  obtain ⟨hrc, -, -, -, hcase⟩ := put_cases h hp
  refine ⟨hrc, ?_, ?_⟩
  · rcases hcase with ⟨hc, -, -, rfl⟩ | ⟨hc, -, -, -, -, rfl⟩ | ⟨hc, -, -, rfl⟩
    · simp only [if_pos hc]; rfl
    · simp only [if_neg hc]
    · simp only [if_neg hc]
  · have := inserts_run (init_inv cfg C hC) hrun
    rw [this]
    simp [fs3_init_cache, CACHE.zero]

/-- C9 (cache statistics): in every state reachable from `fs3_init_cache` by defined
put and get calls, `hits + misses = gets`; a defined get increments `gets` by one and
exactly one of `hits` (key resident, a buffer is returned) or `misses` (key absent,
NULL is returned) by one; a defined put changes none of the three counters. -/
theorem stats_invariant (cfg : Config) (C : Nat) (ops : List CacheOp) (c : CACHE)
    (hC : C < 65536)
    (hrun : cacheRun cfg (fs3_init_cache CACHE.zero C).1 ops = some c) :
    c.stats.hits + c.stats.misses = c.stats.gets ∧
    (∀ t s c' r, fs3_get_cache cfg c t s = some (c', r) →
      c'.stats.gets = c.stats.gets + 1 ∧
      ((c.containedSectors t s).contains = 1 →
        r ≠ none ∧ c'.stats.hits = c.stats.hits + 1 ∧ c'.stats.misses = c.stats.misses) ∧
      ((c.containedSectors t s).contains ≠ 1 →
        r = none ∧ c'.stats.misses = c.stats.misses + 1 ∧ c'.stats.hits = c.stats.hits)) ∧
    (∀ t s buf c' rc, fs3_put_cache cfg c t s buf = some (c', rc) →
      c'.stats.gets = c.stats.gets ∧ c'.stats.hits = c.stats.hits ∧
      c'.stats.misses = c.stats.misses) := by
  obtain ⟨⟨ls, h⟩, -⟩ := reach_inv hC hrun
  refine ⟨reach_stats hC hrun, ?_, ?_⟩
  · intro t s c' r hg
    obtain ⟨-, -, -, hcase⟩ := get_cases h hg
    rcases hcase with ⟨hc, -, ⟨line, b, -, -, hr⟩, rfl⟩ | ⟨hc, -, hr, rfl⟩
    · exact ⟨rfl, fun _ => ⟨by rw [hr]; simp, rfl, rfl⟩, fun hn => absurd hc hn⟩
    · exact ⟨rfl, fun hy => absurd hy hc, fun _ => ⟨hr, rfl, rfl⟩⟩
  · intro t s buf c' rc hp
    obtain ⟨-, -, -, -, hcase⟩ := put_cases h hp
    rcases hcase with ⟨-, -, -, rfl⟩ | ⟨-, -, -, -, -, rfl⟩ | ⟨-, -, -, rfl⟩ <;>
      exact ⟨rfl, rfl, rfl⟩

/-! ## Witnesses for the cache theorems -/

/-- C5 at a concrete input: a cache of capacity 1 that already holds `(0, 0)`; the put
of `(0, 1)` evicts it and the get returns the sector put. -/
theorem get_after_put_witness :
    (1 ≤ 1 ∧ 1 < 65536 ∧ 0 < Config.standard.FS3_MAX_TRACKS ∧
      1 < Config.standard.FS3_TRACK_SIZE ∧
      (sectorOf Config.standard 8).length = Config.standard.FS3_SECTOR_SIZE) ∧
    ∃ c1 c2,
      fs3_put_cache Config.standard
        (cacheAfter Config.standard 1 [.put 0 0 (sectorOf Config.standard 7)]) 0 1
        (sectorOf Config.standard 8) = some (c1, 0) ∧
      fs3_get_cache Config.standard c1 0 1 = some (c2, some (sectorOf Config.standard 8)) :=
  ⟨by decide,
    get_after_put Config.standard 1 [.put 0 0 (sectorOf Config.standard 7)]
      (cacheAfter Config.standard 1 [.put 0 0 (sectorOf Config.standard 7)]) 0 1
      (sectorOf Config.standard 8) (by decide) (by decide) rfl (by decide) (by decide)
      (by decide) (by decide) (by decide)⟩

/-- C6 at a concrete input: capacity 1 and three puts of distinct keys followed by a
get. -/
theorem capacity_bound_witness :
    (1 < 65536) ∧
    (cacheAfter Config.standard 1
        [.put 0 0 (sectorOf Config.standard 7), .put 0 1 (sectorOf Config.standard 8),
          .put 1 0 (sectorOf Config.standard 9), .get 1 0]).cacheLinesTaken ≤ 1 ∧
    (residentKeys Config.standard (cacheAfter Config.standard 1
        [.put 0 0 (sectorOf Config.standard 7), .put 0 1 (sectorOf Config.standard 8),
          .put 1 0 (sectorOf Config.standard 9), .get 1 0])).card ≤ 1 :=
  ⟨by decide,
    capacity_bound Config.standard 1
      [.put 0 0 (sectorOf Config.standard 7), .put 0 1 (sectorOf Config.standard 8),
        .put 1 0 (sectorOf Config.standard 9), .get 1 0] _ (by decide) rfl⟩

/-- C7 at a concrete input: a full cache of capacity 1 holding `(0, 0)`; the put of
`(0, 1)` evicts slot 0. -/
theorem eviction_policy_witness :
    (1 ≤ 1 ∧ 1 < 65536 ∧
      (cacheAfter Config.standard 1 [.put 0 0 (sectorOf Config.standard 7)]).cacheLinesTaken = 1 ∧
      ((cacheAfter Config.standard 1
        [.put 0 0 (sectorOf Config.standard 7)]).containedSectors 0 1).contains ≠ 1) ∧
    ((cacheAfter Config.standard 1 [.put 0 0 (sectorOf Config.standard 7)]).lastAccessedLine =
      lastTouched Config.standard (fs3_init_cache CACHE.zero 1).1 0
        [.put 0 0 (sectorOf Config.standard 7)] ∧
    ∃ c' ls old,
      (cacheAfter Config.standard 1 [.put 0 0 (sectorOf Config.standard 7)]).cacheLines = some ls ∧
      ls[(cacheAfter Config.standard 1
        [.put 0 0 (sectorOf Config.standard 7)]).lastAccessedLine]? = some old ∧
      (cacheAfter Config.standard 1 [.put 0 0 (sectorOf Config.standard 7)]).containedSectors
        old.trackIndex old.sectorIndex =
        ⟨1, (cacheAfter Config.standard 1
          [.put 0 0 (sectorOf Config.standard 7)]).lastAccessedLine⟩ ∧
      fs3_put_cache Config.standard
        (cacheAfter Config.standard 1 [.put 0 0 (sectorOf Config.standard 7)]) 0 1
        (sectorOf Config.standard 8) = some (c', 0) ∧
      (c'.containedSectors old.trackIndex old.sectorIndex).contains = 0 ∧
      c'.containedSectors 0 1 =
        ⟨1, (cacheAfter Config.standard 1
          [.put 0 0 (sectorOf Config.standard 7)]).lastAccessedLine⟩ ∧
      c'.cacheLines = some (ls.set
        (cacheAfter Config.standard 1 [.put 0 0 (sectorOf Config.standard 7)]).lastAccessedLine
        ⟨0, 1, some (sectorOf Config.standard 8)⟩) ∧
      (∀ j, j ≠ (cacheAfter Config.standard 1
          [.put 0 0 (sectorOf Config.standard 7)]).lastAccessedLine →
        (ls.set
          (cacheAfter Config.standard 1 [.put 0 0 (sectorOf Config.standard 7)]).lastAccessedLine
          ⟨0, 1, some (sectorOf Config.standard 8)⟩)[j]? = ls[j]?) ∧
      (∀ t' s', ¬ (t' = 0 ∧ s' = 1) → ¬ (t' = old.trackIndex ∧ s' = old.sectorIndex) →
        c'.containedSectors t' s' =
          (cacheAfter Config.standard 1
            [.put 0 0 (sectorOf Config.standard 7)]).containedSectors t' s') ∧
      c'.cacheLinesTaken =
        (cacheAfter Config.standard 1 [.put 0 0 (sectorOf Config.standard 7)]).cacheLinesTaken ∧
      c'.lastAccessedLine =
        (cacheAfter Config.standard 1 [.put 0 0 (sectorOf Config.standard 7)]).lastAccessedLine ∧
      residentKeys Config.standard c' =
        insert (0, 1) ((residentKeys Config.standard
          (cacheAfter Config.standard 1 [.put 0 0 (sectorOf Config.standard 7)])).erase
            (old.trackIndex, old.sectorIndex))) :=
  ⟨by decide,
    eviction_policy Config.standard 1 [.put 0 0 (sectorOf Config.standard 7)]
      (cacheAfter Config.standard 1 [.put 0 0 (sectorOf Config.standard 7)]) 0 1
      (sectorOf Config.standard 8) (by decide) (by decide) rfl (by decide) (by decide)
      (by decide) (by decide) (by decide) (by decide)⟩

/-- C8 (amended) at a concrete input: the update-put of the counterexample. -/
theorem insert_counter_witness :
    (1 < 65536) ∧
    (0 : Int) = 0 ∧
    (cacheAfter Config.standard 1
      [.put 0 0 (sectorOf Config.standard 7), .put 0 0 (sectorOf Config.standard 8)]).stats.inserts =
      (cacheAfter Config.standard 1 [.put 0 0 (sectorOf Config.standard 7)]).stats.inserts +
        (if ((cacheAfter Config.standard 1
          [.put 0 0 (sectorOf Config.standard 7)]).containedSectors 0 0).contains = 1
          then 0 else 1) ∧
    (cacheAfter Config.standard 1 [.put 0 0 (sectorOf Config.standard 7)]).stats.inserts =
      newEntryPuts Config.standard (fs3_init_cache CACHE.zero 1).1
        [.put 0 0 (sectorOf Config.standard 7)] :=
  ⟨by decide,
    insert_counter Config.standard 1 [.put 0 0 (sectorOf Config.standard 7)]
      (cacheAfter Config.standard 1 [.put 0 0 (sectorOf Config.standard 7)])
      (cacheAfter Config.standard 1
        [.put 0 0 (sectorOf Config.standard 7), .put 0 0 (sectorOf Config.standard 8)])
      0 0 (sectorOf Config.standard 8) 0 (by decide) rfl rfl⟩

/-- C9 at a concrete input: capacity 2 after a put, a hit and a miss. -/
theorem stats_invariant_witness :
    (2 < 65536) ∧
    (cacheAfter Config.standard 2
      [.put 0 0 (sectorOf Config.standard 7), .get 0 0, .get 0 1]).stats.hits +
      (cacheAfter Config.standard 2
        [.put 0 0 (sectorOf Config.standard 7), .get 0 0, .get 0 1]).stats.misses =
      (cacheAfter Config.standard 2
        [.put 0 0 (sectorOf Config.standard 7), .get 0 0, .get 0 1]).stats.gets :=
  ⟨by decide,
    (stats_invariant Config.standard 2
      [.put 0 0 (sectorOf Config.standard 7), .get 0 0, .get 0 1]
      (cacheAfter Config.standard 2
        [.put 0 0 (sectorOf Config.standard 7), .get 0 0, .get 0 1]) (by decide) rfl).1⟩

/-! ## Storage driver -/

theorem room_bounds (SS p count total : Nat) (hss : 0 < SS)
    (hgt : count - total > SS - p % SS) :
    total < total + (SS - p % SS) ∧ total + (SS - p % SS) ≤ count := by
  have hm := Nat.mod_lt p hss
  omega

theorem fs3_write_body_progress {σ : Type} (cfg : Config) (sys : Transport σ) (fd : Int)
    (fi : Nat) (buf : List Byte) (count : Nat) (s s' : State σ) (total total1 : Nat)
    (hss : 0 < cfg.FS3_SECTOR_SIZE) (hlt : total < count)
    (h : fs3_write_body cfg sys fd fi buf count s total = some (.inr (s', total1))) :
    total < total1 ∧ total1 ≤ count := by
  unfold fs3_write_body at h
  simp only at h
  repeat' (split at h)
  all_goals first
    | (simp at h; done)
    | (simp only [Option.some.injEq, Sum.inr.injEq, Prod.mk.injEq] at h
       obtain ⟨-, rfl⟩ := h
       first
         | exact room_bounds _ _ _ _ hss (by assumption)
         | omega)

/-- The loop of `fs3_write` never runs out of iterations: with `count - total`
iterations allowed it returns `none` only if an iteration is itself undefined. -/
theorem fs3_write_loop_fuel {σ : Type} (cfg : Config) (sys : Transport σ) (fd : Int)
    (fi : Nat) (buf : List Byte) (count : Nat) (hss : 0 < cfg.FS3_SECTOR_SIZE) :
    ∀ (fuel : Nat) (s : State σ) (total : Nat), count - total ≤ fuel →
      fs3_write_loop cfg sys fd fi buf count fuel s total = none →
      ∃ s1 total1, total1 < count ∧ fs3_write_body cfg sys fd fi buf count s1 total1 = none := by
  intro fuel
  induction fuel with
  | zero =>
    intro s total hf hn
    simp only [fs3_write_loop] at hn
    split at hn
    · omega
    · simp at hn
  | succ n ih =>
    intro s total hf hn
    simp only [fs3_write_loop] at hn
    split at hn
    · rename_i hlt
      split at hn
      · rename_i hb
        exact ⟨s, total, hlt, hb⟩
      · simp at hn
      · rename_i s1 total1 hb
        have := fs3_write_body_progress cfg sys fd fi buf count s s1 total total1 hss hlt hb
        exact ih s1 total1 (by omega) hn
    · simp at hn

/-- Whatever the state, a defined `fs3_read` returns either -1 or the `count` it was
given, never a smaller number of bytes. -/
theorem fs3_read_result {σ : Type} (cfg : Config) (sys : Transport σ) (s s' : State σ)
    (fd : Int) (buf b : List Byte) (count : Nat) (rc : Int)
    (h : fs3_read cfg sys s fd buf count = some (s', b, rc)) :
    rc = -1 ∨ rc = (count : Int) := by
  unfold fs3_read at h
  simp only at h
  repeat' (split at h)
  all_goals first
    | (simp at h; done)
    | (simp only [Option.some.injEq, Prod.mk.injEq] at h
       obtain ⟨-, -, rfl⟩ := h
       first
         | exact Or.inl rfl
         | exact Or.inr rfl)

/-- C10 (seek): for every handle `fd` that `get_file` resolves to an open file (slot
`i`, length `L`) and every offset, `fs3_seek(fd, offset)` returns 0 and sets the file's
position to `offset`, changing nothing else, when `offset ≤ L` (equality included);
otherwise it returns -1 and leaves the whole driver state unchanged. -/
theorem seek_contract {σ : Type} (s : State σ) (fd : Int) (i offset : Nat)
    (hopen : get_file s.my_disk fd = some (some i)) :
    fs3_seek s fd offset =
      (if offset ≤ (s.my_disk.files i).length
        then some (setFile s i { s.my_disk.files i with pos := offset }, 0)
        else some (s, -1)) ∧
    ((setFile s i { s.my_disk.files i with pos := offset }).my_disk.files i).pos = offset := by
  constructor
  · unfold fs3_seek
    rw [hopen]
  · simp [setFile]

/-- C10 at a concrete input: the open five-byte file `a.txt`, offset 5 = length. -/
theorem seek_contract_witness :
    (get_file (fileState Config.standard hello).my_disk 0 = some (some 0)) ∧
    (fs3_seek (fileState Config.standard hello) 0 5 =
      (if 5 ≤ ((fileState Config.standard hello).my_disk.files 0).length
        then some (setFile (fileState Config.standard hello) 0
          { (fileState Config.standard hello).my_disk.files 0 with pos := 5 }, 0)
        else some (fileState Config.standard hello, -1)) ∧
    ((setFile (fileState Config.standard hello) 0
      { (fileState Config.standard hello).my_disk.files 0 with pos := 5 }).my_disk.files 0).pos
      = 5) :=
  ⟨by decide, seek_contract (fileState Config.standard hello) 0 0 5 (by decide)⟩

/-- C3 fails on the code. With 1024-byte sectors, on the open file `a.txt` of length 1,
the sequence `seek(fd, 1); write(fd, data, 1024); seek(fd, 1); read(fd, buf, 1024)`
with `data` 1024 bytes of value 7 is defined, the write returns 1024 and the read
returns 1024, the first 1023 bytes of `buf` are those of `data`, but the last byte of
`buf` is an indeterminate byte of the never-filled second half of the scratch buffer,
not the byte of `data`: the read loop stops at sector 0 although bytes 1..1024 reach
into sector 1. -/
theorem write_read_round_trip_fails :
    (fileWith Config.standard [some 9]).map
      (fun r => (get_file r.1.my_disk r.2, (r.1.my_disk.files 0).length)) =
      some (some (some 0), 1) ∧
    ((fileWith Config.standard [some 9]).bind
      (fun r => writeThenRead Config.standard (controller Config.standard) r.1 r.2 1
        (sectorOf Config.standard 7) 1024 (sectorOf Config.standard 0))).map
      (fun q => (q.1, q.2.1, q.2.2[1023]?)) = some (1024, 1024, some none) ∧
    ((fileWith Config.standard [some 9]).bind
      (fun r => writeThenRead Config.standard (controller Config.standard) r.1 r.2 1
        (sectorOf Config.standard 7) 1024 (sectorOf Config.standard 0))).map
      (fun q => q.2.2.take 1023) = some ((sectorOf Config.standard 7).take 1023) ∧
    (sectorOf Config.standard 7)[1023]? = some (some 7) := by
  refine ⟨by decide, by decide, by decide, by decide⟩

/-- C4 fails on the code. On the open five-byte file `a.txt` (content HELLO), after
`seek(fd, 0)` the call `fs3_read(fd, buf, 10)` copies the 5 bytes of the file into
`buf`, leaves the other 5 bytes of `buf` alone and moves the position to 5 = length,
but returns 10, the count asked for, not the 5 bytes copied. -/
theorem short_read_returns_count :
    (fileWith Config.standard hello).bind
      (fun r => seekThenRead Config.standard (controller Config.standard) r.1 r.2 0
        (List.replicate 10 (some 0)) 10) =
      some (10, 5, 5, hello ++ List.replicate 5 (some 0)) := by
  decide

/-! ## Handles, mount state and the allocator -/

theorem get_file_null {σ : Type} (s : State σ) (fd : Int)
    (hfd : 0 ≤ fd ∧ fd < FS3_MAX_TOTAL_FILES)
    (hbad : (s.my_disk.files fd.toNat).fileHandle ≠ fd ∨
      (s.my_disk.files fd.toNat).isOpen = 0) :
    get_file s.my_disk fd = some none := by
  unfold get_file
  rw [if_pos hfd]
  rcases hbad with h | h
  · rw [if_neg h]
  · by_cases h1 : (s.my_disk.files fd.toNat).fileHandle = fd
    · rw [if_pos h1, if_neg (by simp [h])]
    · rw [if_neg h1]

theorem rejected_handle {σ : Type} (cfg : Config) (sys : Transport σ) (s : State σ) (fd : Int)
    (buf : List Byte) (count : Nat) (hfd : 0 ≤ fd ∧ fd < FS3_MAX_TOTAL_FILES)
    (hbad : (s.my_disk.files fd.toNat).fileHandle ≠ fd ∨
      (s.my_disk.files fd.toNat).isOpen = 0) :
    fs3_close s fd = some (s, -1) ∧
    fs3_read cfg sys s fd buf count = some (s, buf, -1) ∧
    fs3_write cfg sys s fd buf count = some (s, -1) := by
  have h1 := get_file_null s fd hfd hbad
  refine ⟨?_, ?_, ?_⟩
  · unfold fs3_close; rw [h1]
  · unfold fs3_read; rw [h1]
  · unfold fs3_write; rw [h1]

/-- C12 (mount guards): `fs3_mount_disk` on a mounted disk and `fs3_unmount_disk` on a
disk that is not mounted return -1 and leave the whole state unchanged; with a
transport that logs every request the log is unchanged, so none is issued. -/
theorem mount_guards {σ : Type} (sys : Transport σ) (s : State σ) (log : List Nat) :
    (s.my_disk.mounted = 1 →
      fs3_mount_disk sys s = (s, -1) ∧
      fs3_mount_disk (traced sys) (withLog s log) = (withLog s log, -1)) ∧
    (s.my_disk.mounted = 0 →
      fs3_unmount_disk sys s = (s, -1) ∧
      fs3_unmount_disk (traced sys) (withLog s log) = (withLog s log, -1)) := by
  constructor
  · intro h
    have h' : (withLog s log).my_disk.mounted = 1 := h
    constructor
    · unfold fs3_mount_disk; rw [if_neg (by simp [h])]
    · unfold fs3_mount_disk; rw [if_neg (by simp [h'])]
  · intro h
    have h' : (withLog s log).my_disk.mounted = 0 := h
    constructor
    · unfold fs3_unmount_disk; rw [if_neg (by simp [h])]
    · unfold fs3_unmount_disk; rw [if_neg (by simp [h'])]

theorem allocAfter_cursor (cfg : Config) (d : DISK) (hts : 0 < cfg.FS3_TRACK_SIZE)
    (ht : d.nextTrack = 0) (hs : d.nextSector = 0) (k : Nat) :
    (allocAfter cfg k d).nextTrack = k / cfg.FS3_TRACK_SIZE ∧
    (allocAfter cfg k d).nextSector = k % cfg.FS3_TRACK_SIZE := by
  induction k with
  | zero => simp [allocAfter, ht, hs]
  | succ n ih =>
    obtain ⟨ih1, ih2⟩ := ih
    have hm := Nat.mod_lt n hts
    have hdm := Nat.div_add_mod n cfg.FS3_TRACK_SIZE
    simp only [allocAfter, get_free_track_sector_pair]
    by_cases hc : (allocAfter cfg n d).nextSector + 1 ≥ cfg.FS3_TRACK_SIZE
    · rw [if_pos hc]
      simp only
      rw [ih1]
      rw [ih2] at hc
      have key : (n + 1) / cfg.FS3_TRACK_SIZE = n / cfg.FS3_TRACK_SIZE + 1 ∧
          (n + 1) % cfg.FS3_TRACK_SIZE = 0 := by
        apply (Nat.div_mod_unique hts).mpr
        generalize n / cfg.FS3_TRACK_SIZE = q at *
        generalize n % cfg.FS3_TRACK_SIZE = r at *
        refine ⟨?_, hts⟩
        rw [Nat.mul_add, Nat.mul_one]
        omega
      exact ⟨key.1.symm, key.2.symm⟩
    · rw [if_neg hc]
      simp only
      rw [ih1, ih2]
      rw [ih2] at hc
      have key : (n + 1) / cfg.FS3_TRACK_SIZE = n / cfg.FS3_TRACK_SIZE ∧
          (n + 1) % cfg.FS3_TRACK_SIZE = n % cfg.FS3_TRACK_SIZE + 1 := by
        apply (Nat.div_mod_unique hts).mpr
        generalize n / cfg.FS3_TRACK_SIZE = q at *
        generalize n % cfg.FS3_TRACK_SIZE = r at *
        exact ⟨by omega, by omega⟩
      exact ⟨key.1.symm, key.2.symm⟩

/-- C15 (bump allocator): `get_free_track_sector_pair` always returns 0, writes the
current cursor `(nextTrack, nextSector)` to its output and advances the cursor to
`(nextTrack, nextSector + 1)` if `nextSector + 1 < FS3_TRACK_SIZE` and to
`(nextTrack + 1, 0)` otherwise, changing nothing else; hence, for a positive track
size and from the cursor `(0, 0)`, the `k`-th call (`k = 0, 1, 2, ...`) returns
`(k div FS3_TRACK_SIZE, k mod FS3_TRACK_SIZE)`. The cursor fields are of type `int`
and the sector index of a pair has 16 bits: the statement is for values in that range. -/
theorem bump_allocator (cfg : Config) (d d0 : DISK) (k : Nat)
    (_hd : d.nextTrack < INT_MAX ∧ d.nextSector < 2 ^ 16)
    (hts : 0 < cfg.FS3_TRACK_SIZE) (_hts16 : cfg.FS3_TRACK_SIZE ≤ 2 ^ 16)
    (ht : d0.nextTrack = 0) (hs : d0.nextSector = 0)
    (_hk : k / cfg.FS3_TRACK_SIZE < INT_MAX) :
    (get_free_track_sector_pair cfg d).2.2 = 0 ∧
    (get_free_track_sector_pair cfg d).2.1 = ⟨d.nextTrack, d.nextSector⟩ ∧
    (get_free_track_sector_pair cfg d).1 =
      (if d.nextSector + 1 < cfg.FS3_TRACK_SIZE
        then { d with nextSector := d.nextSector + 1 }
        else { d with nextSector := 0, nextTrack := d.nextTrack + 1 }) ∧
    (get_free_track_sector_pair cfg (allocAfter cfg k d0)).2.2 = 0 ∧
    (get_free_track_sector_pair cfg (allocAfter cfg k d0)).2.1 =
      ⟨k / cfg.FS3_TRACK_SIZE, k % cfg.FS3_TRACK_SIZE⟩ := by
  have hgen : ∀ e : DISK, (get_free_track_sector_pair cfg e).2.2 = 0 ∧
      (get_free_track_sector_pair cfg e).2.1 = ⟨e.nextTrack, e.nextSector⟩ := by
    intro e
    unfold get_free_track_sector_pair
    by_cases hc : e.nextSector + 1 ≥ cfg.FS3_TRACK_SIZE
    · simp only [if_pos hc, and_self]
    · simp only [if_neg hc, and_self]
  refine ⟨(hgen d).1, (hgen d).2, ?_, (hgen _).1, ?_⟩
  · unfold get_free_track_sector_pair
    by_cases hc : d.nextSector + 1 ≥ cfg.FS3_TRACK_SIZE
    · rw [if_pos hc, if_neg (by omega)]
    · rw [if_neg hc, if_pos (by omega)]
  · rw [(hgen _).2]
    obtain ⟨h1, h2⟩ := allocAfter_cursor cfg d0 hts ht hs k
    rw [h1, h2]

/-- C20 (unmount closes files but keeps records): after a successful
`fs3_unmount_disk` the mount flag and the current track are 0, every record of the file
table has open flag 0 and position 0 and is otherwise unchanged (name, handle, length,
allocated-sector count, `(track, sector)` list), the allocation cursor, the handle
counter and the cache are unchanged, and every handle in table range is rejected
(-1, no effect) by `fs3_close`, `fs3_read` and `fs3_write`. -/
theorem unmount_keeps_records {σ : Type} (cfg : Config) (sys sys2 : Transport σ)
    (s s' : State σ) (fd : Int) (buf : List Byte) (count : Nat)
    (h : fs3_unmount_disk sys s = (s', 0))
    (hfd : 0 ≤ fd ∧ fd < FS3_MAX_TOTAL_FILES) :
    s'.my_disk.mounted = 0 ∧ s'.my_disk.currentTrackIndex = 0 ∧
    (∀ i, i < FS3_MAX_TOTAL_FILES →
      s'.my_disk.files i = { s.my_disk.files i with isOpen := 0, pos := 0 }) ∧
    s'.my_disk.nextTrack = s.my_disk.nextTrack ∧
    s'.my_disk.nextSector = s.my_disk.nextSector ∧
    s'.fileHandleCounter = s.fileHandleCounter ∧ s'.myCache = s.myCache ∧
    fs3_close s' fd = some (s', -1) ∧
    fs3_read cfg sys2 s' fd buf count = some (s', buf, -1) ∧
    fs3_write cfg sys2 s' fd buf count = some (s', -1) := by
  have key : s'.my_disk.mounted = 0 ∧ s'.my_disk.currentTrackIndex = 0 ∧
      (∀ i, i < FS3_MAX_TOTAL_FILES →
        s'.my_disk.files i = { s.my_disk.files i with isOpen := 0, pos := 0 }) ∧
      s'.my_disk.nextTrack = s.my_disk.nextTrack ∧
      s'.my_disk.nextSector = s.my_disk.nextSector ∧
      s'.fileHandleCounter = s.fileHandleCounter ∧ s'.myCache = s.myCache := by
    unfold fs3_unmount_disk at h
    split at h
    · simp only at h
      split at h
      · simp at h
      · split at h
        · simp only [Prod.mk.injEq, and_true] at h
          subst h
          refine ⟨rfl, rfl, ?_, rfl, rfl, rfl, rfl⟩
          intro i hi
          simp only [if_pos hi]
        · simp at h
    · simp at h
  obtain ⟨k1, k2, k3, k4, k5, k6, k7⟩ := key
  have hclosed : (s'.my_disk.files fd.toNat).fileHandle ≠ fd ∨
      (s'.my_disk.files fd.toNat).isOpen = 0 := by
    right
    rw [k3 fd.toNat (by unfold FS3_MAX_TOTAL_FILES at *; omega)]
  obtain ⟨c1, c2, c3⟩ := rejected_handle cfg sys2 s' fd buf count hfd hclosed
  exact ⟨k1, k2, k3, k4, k5, k6, k7, c1, c2, c3⟩

/-! ## Consistency of the file table -/

theorem SameTable.refl {σ : Type} (s : State σ) : SameTable s s :=
  ⟨rfl, rfl, rfl, rfl, rfl⟩

theorem SameTable.trans {σ : Type} {a b c : State σ} (h1 : SameTable a b)
    (h2 : SameTable b c) : SameTable a c := by
  obtain ⟨a1, a2, a3, a4, a5⟩ := h1
  obtain ⟨b1, b2, b3, b4, b5⟩ := h2
  exact ⟨by rw [b1, a1], by rw [b2, a2], by rw [b3, a3], by rw [b4, a4], by rw [b5, a5]⟩

theorem DriverInv.of_eq {σ : Type} {s s' : State σ} (h : DriverInv s)
    (e1 : s'.my_disk.files = s.my_disk.files) (e2 : s'.my_disk.nextTrack = s.my_disk.nextTrack)
    (e3 : s'.my_disk.nextSector = s.my_disk.nextSector)
    (e4 : s'.fileHandleCounter = s.fileHandleCounter) : DriverInv s' := by
  constructor
  · rw [e4]; exact h.counter
  · intro i hi; rw [e1]; rw [e4] at hi; exact h.named i hi
  · intro i hi; rw [e1]; rw [e4] at hi; exact h.unnamed i hi
  · intro i j hi hj; rw [e1]; rw [e4] at hi hj; exact h.unique i j hi hj
  · intro i; rw [e1]; exact h.flag i
  · intro i; rw [e1]; exact h.posLe i
  · intro i j; rw [e1, e2, e3]; exact h.belowCursor i j
  · intro i j i' j'; rw [e1]; exact h.distinct i j i' j'

theorem DriverInv.of_same {σ : Type} {s s' : State σ} (h : DriverInv s)
    (hs : SameTable s s') : DriverInv s' :=
  h.of_eq hs.1 hs.2.1 hs.2.2.1 hs.2.2.2.1

theorem tseek_same {σ : Type} (sys : Transport σ) (s : State σ) (t : Nat) :
    SameTable s (tseek sys s t).1 := by
  unfold tseek
  simp only
  split
  · exact ⟨rfl, rfl, rfl, rfl, rfl⟩
  · split
    · exact ⟨rfl, rfl, rfl, rfl, rfl⟩
    · exact ⟨rfl, rfl, rfl, rfl, rfl⟩

theorem setFile_files_self {σ : Type} (s : State σ) (i : Nat) (f : FILE_INFO) :
    (setFile s i f).my_disk.files i = f := by
  simp [setFile]

theorem setFile_files_other {σ : Type} (s : State σ) (i j : Nat) (f : FILE_INFO)
    (h : j ≠ i) : (setFile s i f).my_disk.files j = s.my_disk.files j := by
  simp [setFile, h]

/-- Replacing a record by one with the same name, handle, sector list and sector count,
a position within its length and a 0/1 open flag keeps the table consistent. -/
theorem DriverInv.setFile {σ : Type} {s : State σ} (h : DriverInv s) (i : Nat) (f : FILE_INFO)
    (h1 : f.name = (s.my_disk.files i).name)
    (h2 : f.fileHandle = (s.my_disk.files i).fileHandle)
    (h3 : f.loc = (s.my_disk.files i).loc)
    (h4 : f.numOfSectors = (s.my_disk.files i).numOfSectors)
    (h5 : f.pos ≤ f.length) (h6 : f.isOpen = 0 ∨ f.isOpen = 1) :
    DriverInv (FS3.setFile s i f) := by
  have hf : ∀ j, ((FS3.setFile s i f).my_disk.files j).name = (s.my_disk.files j).name ∧
      ((FS3.setFile s i f).my_disk.files j).fileHandle = (s.my_disk.files j).fileHandle ∧
      ((FS3.setFile s i f).my_disk.files j).loc = (s.my_disk.files j).loc ∧
      ((FS3.setFile s i f).my_disk.files j).numOfSectors = (s.my_disk.files j).numOfSectors := by
    intro j
    by_cases hj : j = i
    · subst hj
      rw [setFile_files_self]
      exact ⟨h1, h2, h3, h4⟩
    · rw [setFile_files_other _ _ _ _ hj]
      exact ⟨rfl, rfl, rfl, rfl⟩
  constructor
  · exact h.counter
  · intro j hj
    rw [(hf j).1, (hf j).2.1]
    exact h.named j hj
  · intro j hj
    rw [(hf j).1]
    exact h.unnamed j hj
  · intro j k hj hk
    rw [(hf j).1, (hf k).1]
    exact h.unique j k hj hk
  · intro j
    by_cases hj : j = i
    · subst hj; rw [setFile_files_self]; exact h6
    · rw [setFile_files_other _ _ _ _ hj]; exact h.flag j
  · intro j
    by_cases hj : j = i
    · subst hj; rw [setFile_files_self]; exact h5
    · rw [setFile_files_other _ _ _ _ hj]; exact h.posLe j
  · intro j k
    rw [(hf j).2.2.1, (hf j).2.2.2]
    exact h.belowCursor j k
  · intro j k j' k'
    rw [(hf j).2.2.1, (hf j).2.2.2, (hf j').2.2.1, (hf j').2.2.2]
    exact h.distinct j k j' k'

theorem find_range_some (p : Nat → Bool) :
    ∀ (n i : Nat), (List.range n).find? p = some i →
      i < n ∧ p i = true ∧ ∀ j, j < i → p j = false := by
  intro n
  induction n with
  | zero => intro i h; simp at h
  | succ n ih =>
    intro i h
    rw [List.range_succ, List.find?_append] at h
    cases hf : (List.range n).find? p with
    | some k =>
      rw [hf] at h
      simp only [Option.or, Option.some.injEq] at h
      subst h
      obtain ⟨h1, h2, h3⟩ := ih k hf
      exact ⟨by omega, h2, h3⟩
    | none =>
      rw [hf] at h
      simp only [Option.or] at h
      have hnone := List.find?_eq_none.mp hf
      by_cases hp : p n = true
      · simp only [List.find?_cons, hp, Option.some.injEq] at h
        subst h
        refine ⟨by omega, hp, ?_⟩
        intro j hj
        have := hnone j (List.mem_range.mpr hj)
        simpa using this
      · simp [List.find?_cons, hp] at h

theorem find_range_none (p : Nat → Bool) (n : Nat) (h : (List.range n).find? p = none) :
    ∀ j, j < n → p j = false := by
  intro j hj
  have := List.find?_eq_none.mp h j (List.mem_range.mpr hj)
  simpa using this

theorem find_range_first (p : Nat → Bool) (n i : Nat) (hi : i < n) (hp : p i = true)
    (hfirst : ∀ j, j < i → p j = false) : (List.range n).find? p = some i := by
  cases hf : (List.range n).find? p with
  | none =>
    have := find_range_none p n hf i hi
    rw [hp] at this
    exact absurd this (by simp)
  | some k =>
    obtain ⟨h1, h2, h3⟩ := find_range_some p n k hf
    have : k = i := by
      rcases Nat.lt_trichotomy k i with hlt | heq | hgt
      · have := hfirst k hlt; rw [h2] at this; exact absurd this (by simp)
      · exact heq
      · have := h3 i hgt; rw [hp] at this; exact absurd this (by simp)
    rw [this]

theorem tseek_files {σ : Type} (sys : Transport σ) (s : State σ) (t : Nat) :
    (tseek sys s t).1.my_disk.files = s.my_disk.files := (tseek_same sys s t).1

theorem tseek_nextTrack {σ : Type} (sys : Transport σ) (s : State σ) (t : Nat) :
    (tseek sys s t).1.my_disk.nextTrack = s.my_disk.nextTrack := (tseek_same sys s t).2.1

theorem tseek_nextSector {σ : Type} (sys : Transport σ) (s : State σ) (t : Nat) :
    (tseek sys s t).1.my_disk.nextSector = s.my_disk.nextSector := (tseek_same sys s t).2.2.1

theorem tseek_counter {σ : Type} (sys : Transport σ) (s : State σ) (t : Nat) :
    (tseek sys s t).1.fileHandleCounter = s.fileHandleCounter := (tseek_same sys s t).2.2.2.1

theorem tseek_mounted {σ : Type} (sys : Transport σ) (s : State σ) (t : Nat) :
    (tseek sys s t).1.my_disk.mounted = s.my_disk.mounted := (tseek_same sys s t).2.2.2.2

/-- One iteration of the read loop changes neither the file table nor the cursor. -/
theorem fs3_read_body_same {σ : Type} (cfg : Config) (sys : Transport σ) (fi i : Nat)
    (s : State σ) (v : ReadVars) (r : State σ ⊕ (State σ × ReadVars))
    (h : fs3_read_body cfg sys fi i s v = some r) :
    SameTable s (match r with | .inl s1 => s1 | .inr (s1, _) => s1) := by
  unfold fs3_read_body at h
  simp only at h
  repeat' (split at h)
  all_goals first
    | (simp at h; done)
    | (simp only [Option.some.injEq] at h
       subst h
       simp only [SameTable, tseek_files, tseek_nextTrack, tseek_nextSector, tseek_counter,
         tseek_mounted, and_self])

theorem fs3_read_loop_same {σ : Type} (cfg : Config) (sys : Transport σ) (fi : Nat) :
    ∀ (n i : Nat) (s : State σ) (v : ReadVars) (r : State σ ⊕ (State σ × ReadVars)),
      fs3_read_loop cfg sys fi n i s v = some r →
      SameTable s (match r with | .inl s1 => s1 | .inr (s1, _) => s1) := by
  intro n
  induction n with
  | zero =>
    intro i s v r h
    simp only [fs3_read_loop, Option.some.injEq] at h
    subst h
    exact SameTable.refl s
  | succ n ih =>
    intro i s v r h
    simp only [fs3_read_loop] at h
    split at h
    · simp at h
    · rename_i s1 hb
      simp only [Option.some.injEq] at h
      subst h
      exact fs3_read_body_same cfg sys fi i s v _ hb
    · rename_i s1 v1 hb
      have h1 := fs3_read_body_same cfg sys fi i s v _ hb
      have h2 := ih (i + 1) s1 v1 r h
      exact SameTable.trans h1 h2

/-- What `fs3_read` can do to the state: nothing to the file table, or move the
position of the file read within its length. -/
theorem fs3_read_shape {σ : Type} (cfg : Config) (sys : Transport σ) (s s' : State σ)
    (fd : Int) (buf b : List Byte) (count : Nat) (rc : Int)
    (h : fs3_read cfg sys s fd buf count = some (s', b, rc)) :
    SameTable s s' ∨
    ∃ fi s1 p, get_file s.my_disk fd = some (some fi) ∧ SameTable s s1 ∧
      p ≤ (s1.my_disk.files fi).length ∧
      s' = setFile s1 fi { s1.my_disk.files fi with pos := p } := by
  unfold fs3_read at h
  split at h
  · simp at h
  · simp only [Option.some.injEq, Prod.mk.injEq] at h
    obtain ⟨rfl, -, -⟩ := h
    exact Or.inl (SameTable.refl _)
  · rename_i fi hgf
    simp only at h
    split at h
    · simp at h
    · split at h
      · simp at h
      · rename_i s1 hl
        simp only [Option.some.injEq, Prod.mk.injEq] at h
        obtain ⟨rfl, -, -⟩ := h
        exact Or.inl (fs3_read_loop_same cfg sys fi _ _ s _ _ hl)
      · rename_i s1 v hl
        have hs1 := fs3_read_loop_same cfg sys fi _ _ s _ _ hl
        split at h
        · split at h
          · simp at h
          · simp only [Option.some.injEq, Prod.mk.injEq] at h
            obtain ⟨rfl, -, -⟩ := h
            exact Or.inr ⟨fi, s1, _, hgf, hs1, Nat.le_refl _, rfl⟩
        · rename_i hle
          split at h
          · simp at h
          · simp only [Option.some.injEq, Prod.mk.injEq] at h
            obtain ⟨rfl, -, -⟩ := h
            exact Or.inr ⟨fi, s1, _, hgf, hs1, by omega, rfl⟩

theorem cursorLe_refl (d : DISK) : cursorLe d d := Or.inr ⟨rfl, Nat.le_refl _⟩

theorem cursorLe_trans {a b c : DISK} (h1 : cursorLe a b) (h2 : cursorLe b c) :
    cursorLe a c := by
  unfold cursorLe at *
  omega

theorem cursorLe_of_eq {a b : DISK} (h1 : b.nextTrack = a.nextTrack)
    (h2 : b.nextSector = a.nextSector) : cursorLe a b := by
  unfold cursorLe
  omega

theorem SameTable.cursorLe {σ : Type} {s s' : State σ} (h : SameTable s s') :
    cursorLe s.my_disk s'.my_disk := cursorLe_of_eq h.2.1 h.2.2.1

theorem fs3_read_keeps {σ : Type} (cfg : Config) (sys : Transport σ) (s s' : State σ)
    (fd : Int) (buf b : List Byte) (count : Nat) (rc : Int) (hinv : DriverInv s)
    (h : fs3_read cfg sys s fd buf count = some (s', b, rc)) :
    DriverInv s' ∧ cursorLe s.my_disk s'.my_disk := by
  rcases fs3_read_shape cfg sys s s' fd buf b count rc h with hs | ⟨fi, s1, p, -, hs1, hp, rfl⟩
  · exact ⟨hinv.of_same hs, hs.cursorLe⟩
  · have h1 := hinv.of_same hs1
    refine ⟨h1.setFile fi _ rfl rfl rfl rfl hp (h1.flag fi), ?_⟩
    exact hs1.cursorLe

theorem fs3_seek_keeps {σ : Type} (s s' : State σ) (fd : Int) (loc : Nat) (rc : Int)
    (hinv : DriverInv s) (h : fs3_seek s fd loc = some (s', rc)) :
    DriverInv s' ∧ cursorLe s.my_disk s'.my_disk := by
  unfold fs3_seek at h
  split at h
  · simp at h
  · simp only [Option.some.injEq, Prod.mk.injEq] at h
    obtain ⟨rfl, -⟩ := h
    exact ⟨hinv, cursorLe_refl _⟩
  · rename_i fi hgf
    simp only at h
    split at h
    · rename_i hle
      simp only [Option.some.injEq, Prod.mk.injEq] at h
      obtain ⟨rfl, -⟩ := h
      exact ⟨hinv.setFile fi _ rfl rfl rfl rfl hle (hinv.flag fi), cursorLe_refl _⟩
    · simp only [Option.some.injEq, Prod.mk.injEq] at h
      obtain ⟨rfl, -⟩ := h
      exact ⟨hinv, cursorLe_refl _⟩

theorem fs3_close_keeps {σ : Type} (s s' : State σ) (fd : Int) (rc : Int)
    (hinv : DriverInv s) (h : fs3_close s fd = some (s', rc)) :
    DriverInv s' ∧ cursorLe s.my_disk s'.my_disk := by
  unfold fs3_close at h
  split at h
  · simp at h
  · simp only [Option.some.injEq, Prod.mk.injEq] at h
    obtain ⟨rfl, -⟩ := h
    exact ⟨hinv, cursorLe_refl _⟩
  · rename_i fi hgf
    simp only [Option.some.injEq, Prod.mk.injEq] at h
    obtain ⟨rfl, -⟩ := h
    exact ⟨hinv.setFile fi _ rfl rfl rfl rfl (Nat.zero_le _) (Or.inl rfl), cursorLe_refl _⟩

theorem fs3_mount_disk_keeps {σ : Type} (sys : Transport σ) (s : State σ)
    (hinv : DriverInv s) :
    DriverInv (fs3_mount_disk sys s).1 ∧ cursorLe s.my_disk (fs3_mount_disk sys s).1.my_disk := by
  unfold fs3_mount_disk
  simp only
  split
  · split
    · exact ⟨hinv.of_eq rfl rfl rfl rfl, cursorLe_refl _⟩
    · split
      · refine ⟨hinv.of_eq ?_ ?_ ?_ ?_, cursorLe_of_eq ?_ ?_⟩ <;>
          simp only [tseek_files, tseek_nextTrack, tseek_nextSector, tseek_counter]
      · exact ⟨hinv.of_eq rfl rfl rfl rfl, cursorLe_refl _⟩
  · exact ⟨hinv, cursorLe_refl _⟩

theorem fs3_unmount_disk_keeps {σ : Type} (sys : Transport σ) (s : State σ)
    (hinv : DriverInv s) :
    DriverInv (fs3_unmount_disk sys s).1 ∧
      cursorLe s.my_disk (fs3_unmount_disk sys s).1.my_disk := by
  unfold fs3_unmount_disk
  simp only
  split
  · split
    · exact ⟨hinv.of_eq rfl rfl rfl rfl, cursorLe_refl _⟩
    · split
      · refine ⟨?_, cursorLe_refl _⟩
        constructor
        · exact hinv.counter
        · intro i hi
          have := hinv.named i hi
          dsimp only
          split <;> exact this
        · intro i hi
          have := hinv.unnamed i hi
          dsimp only
          split <;> exact this
        · intro i j hi hj
          have := hinv.unique i j hi hj
          dsimp only
          split <;> split <;> exact this
        · intro i
          dsimp only
          split
          · exact Or.inl rfl
          · exact hinv.flag i
        · intro i
          dsimp only
          split
          · exact Nat.zero_le _
          · exact hinv.posLe i
        · intro i j
          have := hinv.belowCursor i j
          dsimp only
          split <;> exact this
        · intro i j i' j'
          have := hinv.distinct i j i' j'
          dsimp only
          split <;> split <;> exact this
      · exact ⟨hinv.of_eq rfl rfl rfl rfl, cursorLe_refl _⟩
  · exact ⟨hinv, cursorLe_refl _⟩

theorem not_below_self (t s : Nat) : ¬ below ⟨t, s⟩ t s := by
  unfold below
  simp

theorem get_free_files (cfg : Config) (d : DISK) :
    (get_free_track_sector_pair cfg d).1.files = d.files := by
  unfold get_free_track_sector_pair
  simp only
  split <;> rfl

theorem get_free_pair (cfg : Config) (d : DISK) :
    (get_free_track_sector_pair cfg d).2.1 = ⟨d.nextTrack, d.nextSector⟩ := by
  unfold get_free_track_sector_pair
  simp only
  split <;> rfl

theorem get_free_below (cfg : Config) (d : DISK) (p : TRACK_SECTOR_PAIR)
    (h : below p d.nextTrack d.nextSector ∨ p = ⟨d.nextTrack, d.nextSector⟩) :
    below p (get_free_track_sector_pair cfg d).1.nextTrack
      (get_free_track_sector_pair cfg d).1.nextSector := by
  have hp : p.trackIndex < d.nextTrack ∨
      (p.trackIndex = d.nextTrack ∧ p.sectorIndex ≤ d.nextSector) := by
    rcases h with h | h
    · unfold below at h; omega
    · subst h; right; exact ⟨rfl, Nat.le_refl _⟩
  unfold get_free_track_sector_pair below
  by_cases hc : d.nextSector + 1 ≥ cfg.FS3_TRACK_SIZE
  · simp only [if_pos hc]
    omega
  · simp only [if_neg hc]
    omega

theorem get_free_cursorLe (cfg : Config) (d : DISK) :
    cursorLe d (get_free_track_sector_pair cfg d).1 := by
  unfold get_free_track_sector_pair cursorLe
  by_cases hc : d.nextSector + 1 ≥ cfg.FS3_TRACK_SIZE
  · simp only [if_pos hc]
    omega
  · simp only [if_neg hc]
    exact Or.inr ⟨trivial, Nat.le_succ _⟩

/-- Appending the pair handed out by the allocator to the sector list of file `fi`
keeps the table consistent. -/
theorem DriverInv.alloc_aux {σ : Type} {s s' : State σ} (h : DriverInv s) (cfg : Config)
    (fi : Nat) (hn : 0 ≤ (s.my_disk.files fi).numOfSectors)
    (hcnt : s'.fileHandleCounter = s.fileHandleCounter)
    (ht : s'.my_disk.nextTrack = (get_free_track_sector_pair cfg s.my_disk).1.nextTrack)
    (hs : s'.my_disk.nextSector = (get_free_track_sector_pair cfg s.my_disk).1.nextSector)
    (hother : ∀ j, j ≠ fi → s'.my_disk.files j = s.my_disk.files j)
    (hself : s'.my_disk.files fi =
      { s.my_disk.files fi with
          loc := setLoc (s.my_disk.files fi).loc (s.my_disk.files fi).numOfSectors.toNat
            (get_free_track_sector_pair cfg s.my_disk).2.1
          numOfSectors := (s.my_disk.files fi).numOfSectors + 1 }) :
    DriverInv s' := by
  have hmeta : ∀ j, (s'.my_disk.files j).name = (s.my_disk.files j).name ∧
      (s'.my_disk.files j).fileHandle = (s.my_disk.files j).fileHandle ∧
      (s'.my_disk.files j).isOpen = (s.my_disk.files j).isOpen ∧
      (s'.my_disk.files j).pos = (s.my_disk.files j).pos ∧
      (s'.my_disk.files j).length = (s.my_disk.files j).length := by
    intro j
    by_cases hj : j = fi
    · subst hj; rw [hself]; exact ⟨rfl, rfl, rfl, rfl, rfl⟩
    · rw [hother j hj]; exact ⟨rfl, rfl, rfl, rfl, rfl⟩
  have hloc : ∀ i j : Nat, (j : Int) < (s'.my_disk.files i).numOfSectors →
      (i = fi ∧ j = (s.my_disk.files fi).numOfSectors.toNat ∧
        (s'.my_disk.files i).loc j = ⟨s.my_disk.nextTrack, s.my_disk.nextSector⟩) ∨
      ((j : Int) < (s.my_disk.files i).numOfSectors ∧
        (s'.my_disk.files i).loc j = (s.my_disk.files i).loc j) := by
    intro i j hj
    by_cases hi : i = fi
    · subst hi
      rw [hself] at hj ⊢
      dsimp only at hj ⊢
      by_cases hjn : j = (s.my_disk.files i).numOfSectors.toNat
      · left
        refine ⟨rfl, hjn, ?_⟩
        simp only [setLoc, if_pos hjn, get_free_pair]
      · right
        refine ⟨by omega, ?_⟩
        simp only [setLoc, if_neg hjn]
    · right
      rw [hother i hi] at hj ⊢
      exact ⟨hj, rfl⟩
  constructor
  · rw [hcnt]; exact h.counter
  · intro i hi
    rw [(hmeta i).1, (hmeta i).2.1]
    rw [hcnt] at hi
    exact h.named i hi
  · intro i hi
    rw [(hmeta i).1]
    rw [hcnt] at hi
    exact h.unnamed i hi
  · intro i j hi hj
    rw [(hmeta i).1, (hmeta j).1]
    rw [hcnt] at hi hj
    exact h.unique i j hi hj
  · intro i
    rw [(hmeta i).2.2.1]
    exact h.flag i
  · intro i
    rw [(hmeta i).2.2.2.1, (hmeta i).2.2.2.2]
    exact h.posLe i
  · intro i j hj
    rw [ht, hs]
    rcases hloc i j hj with ⟨-, -, e⟩ | ⟨hlt, e⟩
    · rw [e]
      exact get_free_below cfg s.my_disk _ (Or.inr rfl)
    · rw [e]
      exact get_free_below cfg s.my_disk _ (Or.inl (h.belowCursor i j hlt))
  · intro i j i' j' hj hj' heq
    rcases hloc i j hj with ⟨e1, e2, e3⟩ | ⟨hlt, e3⟩ <;>
      rcases hloc i' j' hj' with ⟨f1, f2, f3⟩ | ⟨hlt', f3⟩
    · exact ⟨by rw [e1, f1], by rw [e2, f2]⟩
    · rw [e3, f3] at heq
      have := h.belowCursor i' j' hlt'
      rw [← heq] at this
      exact absurd this (not_below_self _ _)
    · rw [e3, f3] at heq
      have := h.belowCursor i j hlt
      rw [heq] at this
      exact absurd this (not_below_self _ _)
    · rw [e3, f3] at heq
      exact h.distinct i j i' j' hlt hlt' heq

theorem DriverInv.alloc {σ : Type} {s : State σ} (h : DriverInv s) (cfg : Config) (fi : Nat)
    (hn : 0 ≤ (s.my_disk.files fi).numOfSectors) :
    DriverInv (FS3.setFile { s with my_disk := (get_free_track_sector_pair cfg s.my_disk).1 } fi
      { s.my_disk.files fi with
          loc := setLoc (s.my_disk.files fi).loc (s.my_disk.files fi).numOfSectors.toNat
            (get_free_track_sector_pair cfg s.my_disk).2.1
          numOfSectors := (s.my_disk.files fi).numOfSectors + 1 }) := by
  refine DriverInv.alloc_aux h cfg fi hn ?_ ?_ ?_ ?_ ?_
  · rfl
  · rfl
  · rfl
  · intro j hj
    rw [setFile_files_other _ _ _ _ hj]
    exact congrFun (get_free_files cfg s.my_disk) j
  · exact setFile_files_self _ _ _

theorem get_free_rc (cfg : Config) (d : DISK) : (get_free_track_sector_pair cfg d).2.2 = 0 := by
  unfold get_free_track_sector_pair
  simp only
  split <;> rfl

theorem fs3_write_body_keeps {σ : Type} (cfg : Config) (sys : Transport σ) (fd : Int)
    (fi : Nat) (buf : List Byte) (count : Nat) (s : State σ) (total : Nat)
    (r : State σ ⊕ (State σ × Nat)) (hinv : DriverInv s)
    (h : fs3_write_body cfg sys fd fi buf count s total = some r) :
    DriverInv (match r with | .inl s1 => s1 | .inr (s1, _) => s1) ∧
    cursorLe s.my_disk (match r with | .inl s1 => s1 | .inr (s1, _) => s1).my_disk := by
  unfold fs3_write_body at h
  simp only at h
  split at h
  · simp at h
  · rename_i s1 rc hseek1
    obtain ⟨inv1, cur1⟩ := fs3_seek_keeps _ _ _ _ _ hinv hseek1
    split at h
    · split at h
      · simp at h
      · rename_i s2 tb hpre
        have k2 : DriverInv s2 ∧ cursorLe s1.my_disk s2.my_disk := by
          split at hpre
          · split at hpre
            · simp at hpre
            · rename_i s2' tb' rc' hread
              simp only [Option.some.injEq, Prod.mk.injEq] at hpre
              obtain ⟨rfl, -⟩ := hpre
              exact fs3_read_keeps _ _ _ _ _ _ _ _ _ inv1 hread
          · split at hpre
            · split at hpre
              · simp at hpre
              · rename_i s2' tb' rc' hread
                simp only [Option.some.injEq, Prod.mk.injEq] at hpre
                obtain ⟨rfl, -⟩ := hpre
                exact fs3_read_keeps _ _ _ _ _ _ _ _ _ inv1 hread
            · split at hpre
              · split at hpre
                · rename_i hrange
                  simp only [Option.some.injEq, Prod.mk.injEq] at hpre
                  obtain ⟨rfl, -⟩ := hpre
                  exact ⟨inv1.alloc cfg fi hrange.1, get_free_cursorLe cfg s1.my_disk⟩
                · simp at hpre
              · rename_i hne
                exact absurd (get_free_rc cfg s1.my_disk) hne
        obtain ⟨inv2, cur2⟩ := k2
        clear hpre
        split at h
        · simp at h
        · rename_i s3 rc3 hseek2
          obtain ⟨inv3, cur3⟩ := fs3_seek_keeps _ _ _ _ _ inv2 hseek2
          have cur := cursorLe_trans cur1 (cursorLe_trans cur2 cur3)
          clear hseek1 hseek2
          repeat' (split at h)
          all_goals first
            | (simp at h; done)
            | (simp only [Option.some.injEq] at h
               subst h
               dsimp only
               first
                 | (refine ⟨DriverInv.of_eq inv3 ?_ ?_ ?_ ?_,
                     cursorLe_trans cur (cursorLe_of_eq ?_ ?_)⟩ <;>
                    first
                      | rfl
                      | (simp only [tseek_files, tseek_nextTrack, tseek_nextSector,
                          tseek_counter]; done))
                 | (refine ⟨DriverInv.setFile (DriverInv.of_eq inv3 ?_ ?_ ?_ ?_) fi _ rfl rfl
                       rfl rfl ?_ ?_, cursorLe_trans cur (cursorLe_of_eq ?_ ?_)⟩ <;>
                    first
                      | rfl
                      | (simp only [tseek_files, tseek_nextTrack, tseek_nextSector,
                          tseek_counter]; done)
                      | exact Nat.le_of_not_gt (by assumption)
                      | exact Nat.le_refl _
                      | exact inv3.flag fi
                      | (simp only [tseek_files]; exact inv3.flag fi)
                      | simp only [FS3.setFile, tseek_nextTrack, tseek_nextSector]))
    · simp only [Option.some.injEq] at h
      subst h
      exact ⟨inv1, cur1⟩

theorem fs3_write_loop_keeps {σ : Type} (cfg : Config) (sys : Transport σ) (fd : Int)
    (fi : Nat) (buf : List Byte) (count : Nat) :
    ∀ (fuel : Nat) (s s' : State σ) (total : Nat) (rc : Int), DriverInv s →
      fs3_write_loop cfg sys fd fi buf count fuel s total = some (s', rc) →
      DriverInv s' ∧ cursorLe s.my_disk s'.my_disk := by
  intro fuel
  induction fuel with
  | zero =>
    intro s s' total rc hinv h
    simp only [fs3_write_loop] at h
    split at h
    · simp at h
    · simp only [Option.some.injEq, Prod.mk.injEq] at h
      obtain ⟨rfl, -⟩ := h
      exact ⟨hinv, cursorLe_refl _⟩
  | succ n ih =>
    intro s s' total rc hinv h
    simp only [fs3_write_loop] at h
    split at h
    · split at h
      · simp at h
      · rename_i s1 hb
        simp only [Option.some.injEq, Prod.mk.injEq] at h
        obtain ⟨rfl, -⟩ := h
        exact fs3_write_body_keeps cfg sys fd fi buf count s total _ hinv hb
      · rename_i s1 total1 hb
        obtain ⟨inv1, cur1⟩ := fs3_write_body_keeps cfg sys fd fi buf count s total _ hinv hb
        obtain ⟨inv2, cur2⟩ := ih s1 s' total1 rc inv1 h
        exact ⟨inv2, cursorLe_trans cur1 cur2⟩
    · simp only [Option.some.injEq, Prod.mk.injEq] at h
      obtain ⟨rfl, -⟩ := h
      exact ⟨hinv, cursorLe_refl _⟩

theorem fs3_write_keeps {σ : Type} (cfg : Config) (sys : Transport σ) (s s' : State σ)
    (fd : Int) (buf : List Byte) (count : Nat) (rc : Int) (hinv : DriverInv s)
    (h : fs3_write cfg sys s fd buf count = some (s', rc)) :
    DriverInv s' ∧ cursorLe s.my_disk s'.my_disk := by
  unfold fs3_write at h
  split at h
  · simp at h
  · simp only [Option.some.injEq, Prod.mk.injEq] at h
    obtain ⟨rfl, -⟩ := h
    exact ⟨hinv, cursorLe_refl _⟩
  · exact fs3_write_loop_keeps cfg sys fd _ buf count count s s' 0 rc hinv h

/-- Filling the first unnamed slot with a new open, empty file whose first sector is the
pair at the cursor, and advancing counter and cursor, keeps the table consistent. -/
theorem DriverInv.create_aux {σ : Type} {s s' : State σ} (h : DriverInv s) (k : Nat)
    (path : String) (hk : (k : Int) = s.fileHandleCounter) (hk' : k < FS3_MAX_TOTAL_FILES)
    (hp : path ≠ "")
    (hnew : ∀ j : Nat, (j : Int) < s.fileHandleCounter → (s.my_disk.files j).name ≠ path)
    (hcnt : s'.fileHandleCounter = s.fileHandleCounter + 1)
    (hbelow : ∀ p : TRACK_SECTOR_PAIR,
      below p s.my_disk.nextTrack s.my_disk.nextSector ∨
        p = ⟨s.my_disk.nextTrack, s.my_disk.nextSector⟩ →
      below p s'.my_disk.nextTrack s'.my_disk.nextSector)
    (hother : ∀ j, j ≠ k → s'.my_disk.files j = s.my_disk.files j)
    (hname : (s'.my_disk.files k).name = path)
    (hhandle : (s'.my_disk.files k).fileHandle = s.fileHandleCounter)
    (hopen : (s'.my_disk.files k).isOpen = 1)
    (hpos : (s'.my_disk.files k).pos = 0)
    (hnos : (s'.my_disk.files k).numOfSectors = 1)
    (hloc : (s'.my_disk.files k).loc 0 = ⟨s.my_disk.nextTrack, s.my_disk.nextSector⟩) :
    DriverInv s' := by
  have hloc' : ∀ i j : Nat, (j : Int) < (s'.my_disk.files i).numOfSectors →
      (i = k ∧ j = 0 ∧
        (s'.my_disk.files i).loc j = ⟨s.my_disk.nextTrack, s.my_disk.nextSector⟩) ∨
      (i ≠ k ∧ (j : Int) < (s.my_disk.files i).numOfSectors ∧
        (s'.my_disk.files i).loc j = (s.my_disk.files i).loc j) := by
    intro i j hj
    by_cases hi : i = k
    · subst hi
      rw [hnos] at hj
      have hj0 : j = 0 := by omega
      subst hj0
      exact Or.inl ⟨rfl, rfl, hloc⟩
    · right
      rw [hother i hi] at hj ⊢
      exact ⟨hi, hj, rfl⟩
  have hc := h.counter
  constructor
  · rw [hcnt]
    unfold FS3_MAX_TOTAL_FILES at *
    omega
  · intro i hi
    rw [hcnt] at hi
    by_cases hik : i = k
    · subst hik
      rw [hname, hhandle]
      exact ⟨hp, hk.symm⟩
    · rw [hother i hik]
      exact h.named i (by omega)
  · intro i hi
    rw [hcnt] at hi
    have hik : i ≠ k := by omega
    rw [hother i hik]
    exact h.unnamed i (by omega)
  · intro i j hi hj heq
    rw [hcnt] at hi hj
    by_cases hik : i = k <;> by_cases hjk : j = k
    · rw [hik, hjk]
    · rw [hik, hname, hother j hjk] at heq
      exact absurd heq.symm (hnew j (by omega))
    · rw [hjk, hname, hother i hik] at heq
      exact absurd heq (hnew i (by omega))
    · rw [hother i hik, hother j hjk] at heq
      exact h.unique i j (by omega) (by omega) heq
  · intro i
    by_cases hik : i = k
    · subst hik; exact Or.inr hopen
    · rw [hother i hik]; exact h.flag i
  · intro i
    by_cases hik : i = k
    · subst hik; rw [hpos]; exact Nat.zero_le _
    · rw [hother i hik]; exact h.posLe i
  · intro i j hj
    rcases hloc' i j hj with ⟨-, -, e⟩ | ⟨-, hlt, e⟩
    · rw [e]; exact hbelow _ (Or.inr rfl)
    · rw [e]; exact hbelow _ (Or.inl (h.belowCursor i j hlt))
  · intro i j i' j' hj hj' heq
    rcases hloc' i j hj with ⟨e1, e2, e3⟩ | ⟨-, hlt, e3⟩ <;>
      rcases hloc' i' j' hj' with ⟨f1, f2, f3⟩ | ⟨-, hlt', f3⟩
    · exact ⟨by rw [e1, f1], by rw [e2, f2]⟩
    · rw [e3, f3] at heq
      have := h.belowCursor i' j' hlt'
      rw [← heq] at this
      exact absurd this (not_below_self _ _)
    · rw [e3, f3] at heq
      have := h.belowCursor i j hlt
      rw [heq] at this
      exact absurd this (not_below_self _ _)
    · rw [e3, f3] at heq
      exact h.distinct i j i' j' hlt hlt' heq

theorem get_free_below_congr (cfg : Config) (d d1 : DISK) (p : TRACK_SECTOR_PAIR)
    (e1 : d1.nextTrack = d.nextTrack) (e2 : d1.nextSector = d.nextSector)
    (h : below p d.nextTrack d.nextSector ∨ p = ⟨d.nextTrack, d.nextSector⟩) :
    below p (get_free_track_sector_pair cfg d1).1.nextTrack
      (get_free_track_sector_pair cfg d1).1.nextSector := by
  apply get_free_below
  rw [e1, e2]
  exact h

/-- The first unnamed slot of a consistent table is the one numbered by the handle
counter. -/
theorem first_unnamed {σ : Type} {s : State σ} (h : DriverInv s) (i : Nat)
    (hf : (List.range FS3_MAX_TOTAL_FILES).find?
      (fun i => decide ((s.my_disk.files i).name = "")) = some i) :
    (i : Int) = s.fileHandleCounter ∧ i < FS3_MAX_TOTAL_FILES := by
  obtain ⟨h1, h2, h3⟩ := find_range_some _ _ _ hf
  have hc := h.counter
  simp only [decide_eq_true_eq] at h2
  refine ⟨?_, h1⟩
  by_contra hne
  rcases Int.lt_or_gt_of_ne hne with hlt | hgt
  · exact (h.named i hlt).1 h2
  · have hk : s.fileHandleCounter.toNat < i := by omega
    have := h3 _ hk
    simp only [decide_eq_false_iff_not] at this
    exact this (h.unnamed _ (by omega))

theorem fs3_open_keeps {σ : Type} (cfg : Config) (s s' : State σ) (path : String) (hnd : Int)
    (hinv : DriverInv s) (h : fs3_open cfg s path = some (s', hnd)) :
    DriverInv s' ∧ cursorLe s.my_disk s'.my_disk := by
  unfold fs3_open at h
  simp only at h
  split at h
  · rename_i i hfind
    split at h
    · simp only [Option.some.injEq, Prod.mk.injEq] at h
      obtain ⟨rfl, -⟩ := h
      exact ⟨hinv, cursorLe_refl _⟩
    · simp only [Option.some.injEq, Prod.mk.injEq] at h
      obtain ⟨rfl, -⟩ := h
      exact ⟨hinv.setFile i _ rfl rfl rfl rfl (Nat.zero_le _) (Or.inr rfl), cursorLe_refl _⟩
  · rename_i hnone
    split at h
    · simp at h
    · rename_i k hfind
      obtain ⟨hk, hk'⟩ := first_unnamed hinv k hfind
      have hkname : (s.my_disk.files k).name = "" := by
        have := (find_range_some _ _ _ hfind).2.1
        simpa using this
      have hall : ∀ j, j < FS3_MAX_TOTAL_FILES → (s.my_disk.files j).name ≠ path := by
        intro j hj
        have := find_range_none _ _ hnone j hj
        simpa using this
      have hp : path ≠ "" := by
        intro e
        exact hall k hk' (by rw [hkname, e])
      have hc := hinv.counter
      have hnew : ∀ j : Nat, (j : Int) < s.fileHandleCounter →
          (s.my_disk.files j).name ≠ path := by
        intro j hj
        exact hall j (by unfold FS3_MAX_TOTAL_FILES at *; omega)
      split at h
      · exact absurd h (by simp)
      split at h
      · simp only [Option.some.injEq, Prod.mk.injEq] at h
        obtain ⟨rfl, -⟩ := h
        refine ⟨DriverInv.create_aux hinv k path hk hk' hp hnew rfl ?_ ?_ ?_ ?_ ?_ ?_ ?_ ?_, ?_⟩
        · intro p hp'
          exact get_free_below_congr cfg s.my_disk _ p rfl rfl hp'
        · intro j hj
          simp only [FS3.setFile, if_neg hj]
          rw [get_free_files]
          simp only [if_neg hj]
        · simp [FS3.setFile]
        · simp [FS3.setFile]
        · simp [FS3.setFile]
        · simp [FS3.setFile]
        · simp [FS3.setFile]
        · simp only [FS3.setFile, if_pos, setLoc]
          simp [get_free_pair]
        · exact cursorLe_trans
            (get_free_cursorLe cfg (FS3.setFile s k
              { s.my_disk.files k with
                  name := path, fileHandle := s.fileHandleCounter, isOpen := 1, pos := 0,
                  length := 0, numOfSectors := 0 }).my_disk)
            (cursorLe_of_eq rfl rfl)
      · rename_i hne
        exact absurd (get_free_rc cfg _) hne

theorem driverStep_keeps {σ : Type} (cfg : Config) (sys : Transport σ) (s s' : State σ)
    (op : DriverOp) (hinv : DriverInv s) (h : driverStep cfg sys s op = some s') :
    DriverInv s' ∧ cursorLe s.my_disk s'.my_disk := by
  cases op with
  | mount =>
    simp only [driverStep, Option.some.injEq] at h
    subst h
    exact fs3_mount_disk_keeps sys s hinv
  | unmount =>
    simp only [driverStep, Option.some.injEq] at h
    subst h
    exact fs3_unmount_disk_keeps sys s hinv
  | fopen path =>
    simp only [driverStep, Option.map_eq_some'] at h
    obtain ⟨⟨s1, hnd⟩, h1, rfl⟩ := h
    exact fs3_open_keeps cfg s s1 path hnd hinv h1
  | fclose fd =>
    simp only [driverStep, Option.map_eq_some'] at h
    obtain ⟨⟨s1, rc⟩, h1, rfl⟩ := h
    exact fs3_close_keeps s s1 fd rc hinv h1
  | fread fd buf count =>
    simp only [driverStep, Option.map_eq_some'] at h
    obtain ⟨⟨s1, b, rc⟩, h1, rfl⟩ := h
    exact fs3_read_keeps cfg sys s s1 fd buf b count rc hinv h1
  | fwrite fd buf count =>
    simp only [driverStep, Option.map_eq_some'] at h
    obtain ⟨⟨s1, rc⟩, h1, rfl⟩ := h
    exact fs3_write_keeps cfg sys s s1 fd buf count rc hinv h1
  | fseek fd loc =>
    simp only [driverStep, Option.map_eq_some'] at h
    obtain ⟨⟨s1, rc⟩, h1, rfl⟩ := h
    exact fs3_seek_keeps s s1 fd loc rc hinv h1

theorem boot_inv {σ : Type} (c : CACHE) (w : σ) : DriverInv (State.boot c w) := by
  constructor
  · simp [State.boot, FS3_MAX_TOTAL_FILES]
  · intro i hi
    simp only [State.boot] at hi
    omega
  · intro i _; rfl
  · intro i j hi _
    simp only [State.boot] at hi
    omega
  · intro i; exact Or.inl rfl
  · intro i; exact Nat.le_refl _
  · intro i j hj
    simp only [State.boot, DISK.zero, FILE_INFO.zero] at hj
    omega
  · intro i j i' j' hj
    simp only [State.boot, DISK.zero, FILE_INFO.zero] at hj
    omega

theorem driverRun_keeps {σ : Type} (cfg : Config) (sys : Transport σ) (ops : List DriverOp) :
    ∀ (s s' : State σ), DriverInv s → driverRun cfg sys s ops = some s' →
      DriverInv s' ∧ cursorLe s.my_disk s'.my_disk := by
  induction ops with
  | nil =>
    intro s s' hinv h
    simp only [driverRun, Option.some.injEq] at h
    subst h
    exact ⟨hinv, cursorLe_refl _⟩
  | cons op ops ih =>
    intro s s' hinv h
    simp only [driverRun] at h
    split at h
    · simp at h
    · rename_i s1 hs
      obtain ⟨inv1, cur1⟩ := driverStep_keeps cfg sys s s1 op hinv hs
      obtain ⟨inv2, cur2⟩ := ih s1 s' inv1 h
      exact ⟨inv2, cursorLe_trans cur1 cur2⟩

theorem reach_driver_inv {σ : Type} (cfg : Config) (sys : Transport σ) (c : CACHE) (w : σ)
    (ops : List DriverOp) (s : State σ)
    (h : driverRun cfg sys (State.boot c w) ops = some s) : DriverInv s :=
  (driverRun_keeps cfg sys ops _ s (boot_inv c w) h).1

/-- C16 (no sector is shared): in every driver state reachable from the start-up state
by any sequence of defined mount, unmount, open, close, read, write and seek calls,
over any transport, the `(track, sector)` pairs stored at indices below `numOfSectors`
in all file records are pairwise distinct (across files and within a file) and each
lies lexicographically below the allocation cursor `(nextTrack, nextSector)`; and no
call ever moves the cursor backwards. -/
theorem no_shared_sector {σ : Type} (cfg : Config) (sys : Transport σ) (c : CACHE) (w : σ)
    (ops : List DriverOp) (s : State σ)
    (hrun : driverRun cfg sys (State.boot c w) ops = some s) :
    (∀ i j i' j' : Nat, (j : Int) < (s.my_disk.files i).numOfSectors →
      (j' : Int) < (s.my_disk.files i').numOfSectors →
      (s.my_disk.files i).loc j = (s.my_disk.files i').loc j' → i = i' ∧ j = j') ∧
    (∀ i j : Nat, (j : Int) < (s.my_disk.files i).numOfSectors →
      below ((s.my_disk.files i).loc j) s.my_disk.nextTrack s.my_disk.nextSector) ∧
    cursorLe (State.boot c w).my_disk s.my_disk ∧
    (∀ (op : DriverOp) (s' : State σ), driverStep cfg sys s op = some s' →
      cursorLe s.my_disk s'.my_disk) := by
  obtain ⟨hinv, hcur⟩ := driverRun_keeps cfg sys ops _ s (boot_inv c w) hrun
  exact ⟨hinv.distinct, hinv.belowCursor, hcur,
    fun op s' h => (driverStep_keeps cfg sys s s' op hinv h).2⟩

/-- C17 (position invariant): in every driver state reachable from the start-up state
by any sequence of defined mount, unmount, open, close, seek, read and write calls
(counts are non-negative), over any transport, failing ones included, every file
record satisfies `pos ≤ length`. -/
theorem position_invariant {σ : Type} (cfg : Config) (sys : Transport σ) (c : CACHE) (w : σ)
    (ops : List DriverOp) (s : State σ)
    (hrun : driverRun cfg sys (State.boot c w) ops = some s) :
    ∀ i : Nat, (s.my_disk.files i).pos ≤ (s.my_disk.files i).length :=
  (reach_driver_inv cfg sys c w ops s hrun).posLe

/-- Opening the name of a created file returns its handle, which is its slot number,
and at most sets the open flag and resets the position. -/
theorem fs3_open_existing {σ : Type} (cfg : Config) (s : State σ) (i : Nat)
    (hinv : DriverInv s) (hi : (i : Int) < s.fileHandleCounter) :
    fs3_open cfg s (s.my_disk.files i).name =
      some (if (s.my_disk.files i).isOpen = 1 then s
            else setFile s i { s.my_disk.files i with isOpen := 1, pos := 0 }, (i : Int)) := by
  have hc := hinv.counter
  have hlt : i < FS3_MAX_TOTAL_FILES := by unfold FS3_MAX_TOTAL_FILES at *; omega
  have hfind : (List.range FS3_MAX_TOTAL_FILES).find?
      (fun j => decide ((s.my_disk.files j).name = (s.my_disk.files i).name)) = some i := by
    apply find_range_first _ _ _ hlt
    · simp
    · intro j hj
      simp only [decide_eq_false_iff_not]
      intro e
      have := hinv.unique j i (by omega) hi e
      omega
  unfold fs3_open
  simp only [hfind]
  have hh := (hinv.named i hi).2
  split
  · rw [hh]
  · rw [hh]

/-- Opening a non-empty name that no created file bears, while the table has room,
creates the file in the slot numbered by the handle counter and returns that number. -/
theorem fs3_open_new {σ : Type} (cfg : Config) (s : State σ) (path : String)
    (hinv : DriverInv s) (hp : path ≠ "")
    (hnew : ∀ j : Nat, (j : Int) < s.fileHandleCounter → (s.my_disk.files j).name ≠ path)
    (hlen : path.utf8ByteSize < FS3_MAX_PATH_LENGTH)
    (hroom : s.fileHandleCounter < FS3_MAX_TOTAL_FILES) :
    ∃ s', fs3_open cfg s path = some (s', s.fileHandleCounter) ∧
      s'.fileHandleCounter = s.fileHandleCounter + 1 ∧
      (∀ j, j ≠ s.fileHandleCounter.toNat → s'.my_disk.files j = s.my_disk.files j) ∧
      (s'.my_disk.files s.fileHandleCounter.toNat).name = path := by
  have hc := hinv.counter
  have hall : ∀ j, j < FS3_MAX_TOTAL_FILES → (s.my_disk.files j).name ≠ path := by
    intro j hj
    by_cases hjk : (j : Int) < s.fileHandleCounter
    · exact hnew j hjk
    · rw [hinv.unnamed j (by omega)]
      exact fun e => hp e.symm
  have hfind1 : (List.range FS3_MAX_TOTAL_FILES).find?
      (fun j => decide ((s.my_disk.files j).name = path)) = none := by
    rw [List.find?_eq_none]
    intro j hj
    simp only [decide_eq_true_eq]
    exact hall j (List.mem_range.mp hj)
  have hfind2 : (List.range FS3_MAX_TOTAL_FILES).find?
      (fun j => decide ((s.my_disk.files j).name = "")) = some s.fileHandleCounter.toNat := by
    apply find_range_first
    · omega
    · simp only [decide_eq_true_eq]
      exact hinv.unnamed _ (by omega)
    · intro j hj
      simp only [decide_eq_false_iff_not]
      exact (hinv.named j (by omega)).1
  unfold fs3_open
  simp only [hfind1, hfind2]
  rw [if_neg (Nat.not_le.mpr hlen), if_pos (get_free_rc cfg _)]
  refine ⟨_, rfl, rfl, ?_, ?_⟩
  · intro j hj
    simp only [FS3.setFile, if_neg hj]
    rw [get_free_files]
    simp only [if_neg hj]
  · simp [FS3.setFile]

theorem setFile_setFile {σ : Type} (s : State σ) (i : Nat) (a b : FILE_INFO) :
    setFile (setFile s i a) i b = setFile s i b := by
  simp only [setFile]
  congr 2
  funext j
  by_cases h : j = i <;> simp [h]

/-- C13 (reopen): in every reachable driver state, for every file created by `fs3_open`
(slot and handle `i` below the handle counter, name `n`): if the file is closed, a
later `fs3_open(n)` returns the same handle `i`, sets the open flag to 1 and the
position to 0 and changes nothing else (length, allocated-sector count,
`(track, sector)` list, cache and remote end stay as they are); if the file is open,
`fs3_close(i)` followed by `fs3_open(n)` returns `i` and leaves exactly the state that
`fs3_seek(i, 0)` would have produced, so every read after the reopen returns what the
same read at position 0 returned before the close. -/
theorem reopen_preserves {σ : Type} (cfg : Config) (sys : Transport σ) (c : CACHE) (w : σ)
    (ops : List DriverOp) (s : State σ) (i : Nat)
    (hrun : driverRun cfg sys (State.boot c w) ops = some s)
    (hi : (i : Int) < s.fileHandleCounter) :
    (s.my_disk.files i).name ≠ "" ∧ (s.my_disk.files i).fileHandle = i ∧
    ((s.my_disk.files i).isOpen = 0 →
      fs3_open cfg s (s.my_disk.files i).name =
        some (setFile s i { s.my_disk.files i with isOpen := 1, pos := 0 }, (i : Int))) ∧
    ((s.my_disk.files i).isOpen = 1 →
      fs3_close s i = some (setFile s i { s.my_disk.files i with isOpen := 0, pos := 0 }, 0) ∧
      fs3_open cfg (setFile s i { s.my_disk.files i with isOpen := 0, pos := 0 })
          (s.my_disk.files i).name =
        some (setFile s i { s.my_disk.files i with pos := 0 }, (i : Int)) ∧
      fs3_seek s i 0 = some (setFile s i { s.my_disk.files i with pos := 0 }, 0)) := by
  have hinv := reach_driver_inv cfg sys c w ops s hrun
  have hc := hinv.counter
  obtain ⟨hname, hhandle⟩ := hinv.named i hi
  refine ⟨hname, hhandle, ?_, ?_⟩
  · intro hclosed
    rw [fs3_open_existing cfg s i hinv hi, if_neg (by rw [hclosed]; decide)]
  · intro hopen
    have hgf : get_file s.my_disk (i : Int) = some (some i) := by
      unfold get_file
      rw [if_pos (by unfold FS3_MAX_TOTAL_FILES at *; omega)]
      simp only [Int.toNat_ofNat]
      rw [if_pos hhandle, if_pos (by rw [hopen]; decide)]
    refine ⟨?_, ?_, ?_⟩
    · unfold fs3_close
      rw [hgf]
    · have inv1 : DriverInv (setFile s i { s.my_disk.files i with isOpen := 0, pos := 0 }) :=
        hinv.setFile i _ rfl rfl rfl rfl (Nat.zero_le _) (Or.inl rfl)
      have h1 := fs3_open_existing cfg _ i inv1 hi
      rw [setFile_files_self] at h1
      dsimp only at h1
      rw [h1, if_neg (by decide), setFile_setFile]
      dsimp only
      rw [hopen]
    · unfold fs3_seek
      rw [hgf]
      simp only [ge_iff_le, Nat.zero_le, if_true]

/-! ## Handle assignment -/

theorem firstSeen_extends (ps : List String) :
    ∀ seen : List String, ∃ rest, firstSeen seen ps = seen ++ rest := by
  induction ps with
  | nil => intro seen; exact ⟨[], by simp [firstSeen]⟩
  | cons p ps ih =>
    intro seen
    simp only [firstSeen]
    split
    · exact ih seen
    · obtain ⟨rest, hr⟩ := ih (seen ++ [p])
      exact ⟨p :: rest, by rw [hr]; simp⟩

theorem mem_firstSeen (ps : List String) :
    ∀ (seen : List String) (x : String), x ∈ firstSeen seen ps ↔ x ∈ seen ∨ x ∈ ps := by
  induction ps with
  | nil => intro seen x; simp [firstSeen]
  | cons p ps ih =>
    intro seen x
    simp only [firstSeen]
    split
    · rename_i hm
      rw [ih seen x]
      simp only [List.mem_cons]
      constructor
      · rintro (h | h)
        · exact Or.inl h
        · exact Or.inr (Or.inr h)
      · rintro (h | h | h)
        · exact Or.inl h
        · exact Or.inl (h ▸ hm)
        · exact Or.inr h
    · rw [ih (seen ++ [p]) x]
      simp only [List.mem_append, List.mem_singleton, List.mem_cons]
      tauto

theorem firstSeen_append (pre post : List String) :
    ∀ seen : List String, firstSeen seen (pre ++ post) = firstSeen (firstSeen seen pre) post := by
  induction pre with
  | nil => intro seen; simp [firstSeen]
  | cons p pre ih =>
    intro seen
    simp only [List.cons_append, firstSeen]
    split
    · exact ih seen
    · exact ih (seen ++ [p])

theorem specHandles_append (pre post : List String) :
    ∀ seen : List String, specHandles seen (pre ++ post) =
      specHandles seen pre ++ specHandles (firstSeen seen pre) post := by
  induction pre with
  | nil => intro seen; simp [firstSeen, specHandles]
  | cons p pre ih =>
    intro seen
    rw [List.cons_append]
    simp only [firstSeen, specHandles]
    split
    · have h1 := ih seen
      simp only [List.append_eq] at h1 ⊢
      rw [h1]; simp
    · have h1 := ih (seen ++ [p])
      simp only [List.append_eq] at h1 ⊢
      rw [h1]; simp

theorem specHandles_length (ps : List String) :
    ∀ seen : List String, (specHandles seen ps).length = ps.length := by
  induction ps with
  | nil => intro seen; simp [specHandles]
  | cons p ps ih =>
    intro seen
    simp only [specHandles]
    split
    · simp [ih seen]
    · simp [ih (seen ++ [p])]

theorem firstSeen_length_le (ps : List String) (seen : List String) :
    seen.length ≤ (firstSeen seen ps).length := by
  obtain ⟨rest, hr⟩ := firstSeen_extends ps seen
  rw [hr]
  simp

theorem specHandles_lt (ps : List String) :
    ∀ (seen : List String) (h : Int), h ∈ specHandles seen ps →
      h < ((firstSeen seen ps).length : Int) := by
  induction ps with
  | nil => intro seen h hm; simp [specHandles] at hm
  | cons p ps ih =>
    intro seen h hm
    simp only [specHandles, firstSeen] at hm ⊢
    split at hm
    · rename_i hp
      rw [if_pos hp]
      rcases List.mem_cons.mp hm with e | e
      · subst e
        have h1 := List.indexOf_lt_length.mpr hp
        have h2 := firstSeen_length_le ps seen
        omega
      · exact ih seen h e
    · rename_i hp
      rw [if_neg hp]
      rcases List.mem_cons.mp hm with e | e
      · subst e
        have h2 := firstSeen_length_le ps (seen ++ [p])
        simp only [List.length_append, List.length_singleton] at h2
        omega
      · exact ih (seen ++ [p]) h e

theorem specHandles_eq_map (ps : List String) :
    ∀ seen : List String, specHandles seen ps =
      ps.map (fun p => ((firstSeen seen ps).indexOf p : Int)) := by
  induction ps with
  | nil => intro seen; simp [specHandles]
  | cons p ps ih =>
    intro seen
    simp only [specHandles, firstSeen, List.map_cons]
    split
    · rename_i hp
      rw [ih seen]
      obtain ⟨rest, hr⟩ := firstSeen_extends ps seen
      congr 1
      rw [hr, List.indexOf_append_of_mem hp]
    · rename_i hp
      rw [ih (seen ++ [p])]
      obtain ⟨rest, hr⟩ := firstSeen_extends ps (seen ++ [p])
      congr 1
      rw [hr, List.indexOf_append_of_mem (by simp), List.indexOf_append_of_not_mem hp]
      simp

theorem tableNames_length {σ : Type} (s : State σ) :
    (tableNames s).length = s.fileHandleCounter.toNat := by
  simp [tableNames]

theorem mem_tableNames {σ : Type} (s : State σ) (p : String) :
    p ∈ tableNames s ↔ ∃ i : Nat, (i : Int) < s.fileHandleCounter ∧ (s.my_disk.files i).name = p := by
  simp only [tableNames, List.mem_map, List.mem_range]
  constructor
  · rintro ⟨i, hi, e⟩
    exact ⟨i, by omega, e⟩
  · rintro ⟨i, hi, e⟩
    exact ⟨i, by omega, e⟩

theorem tableNames_nodup {σ : Type} (s : State σ) (hinv : DriverInv s) :
    (tableNames s).Nodup := by
  unfold tableNames
  refine List.Nodup.map_on ?_ (List.nodup_range _)
  intro i hi j hj e
  rw [List.mem_range] at hi hj
  exact hinv.unique i j (by omega) (by omega) e

theorem tableNames_indexOf {σ : Type} (s : State σ) (hinv : DriverInv s) (i : Nat)
    (hi : (i : Int) < s.fileHandleCounter) :
    (tableNames s).indexOf (s.my_disk.files i).name = i := by
  have hlen : i < (tableNames s).length := by rw [tableNames_length]; omega
  have hget : (tableNames s)[i] = (s.my_disk.files i).name := by
    simp [tableNames]
  rw [← hget]
  exact List.indexOf_getElem (tableNames_nodup s hinv) i hlen

theorem tableNames_setFile {σ : Type} (s : State σ) (i : Nat) (fi : FILE_INFO)
    (hn : fi.name = (s.my_disk.files i).name) :
    tableNames (setFile s i fi) = tableNames s := by
  unfold tableNames
  have hc : (setFile s i fi).fileHandleCounter = s.fileHandleCounter := rfl
  rw [hc]
  apply List.map_congr_left
  intro j _
  by_cases h : j = i
  · subst h; rw [setFile_files_self]; exact hn
  · rw [setFile_files_other _ _ _ _ h]

theorem open_step {σ : Type} (cfg : Config) (s : State σ) (p : String)
    (hinv : DriverInv s) (hp : p ≠ "") (hlen : p.utf8ByteSize < FS3_MAX_PATH_LENGTH)
    (hroom : p ∈ tableNames s ∨ s.fileHandleCounter < FS3_MAX_TOTAL_FILES) :
    ∃ s', fs3_open cfg s p =
        some (s', if p ∈ tableNames s then ((tableNames s).indexOf p : Int)
                  else ((tableNames s).length : Int)) ∧
      DriverInv s' ∧
      tableNames s' = (if p ∈ tableNames s then tableNames s else tableNames s ++ [p]) := by
  by_cases hm : p ∈ tableNames s
  · rw [if_pos hm, if_pos hm]
    obtain ⟨i, hi, e⟩ := (mem_tableNames s p).mp hm
    have hopen := fs3_open_existing cfg s i hinv hi
    rw [e] at hopen
    have hidx := tableNames_indexOf s hinv i hi
    rw [e] at hidx
    rw [hidx]
    refine ⟨_, hopen, (fs3_open_keeps cfg s _ p _ hinv hopen).1, ?_⟩
    split
    · rfl
    · exact tableNames_setFile s i _ rfl
  · rw [if_neg hm, if_neg hm]
    have hroom' : s.fileHandleCounter < FS3_MAX_TOTAL_FILES := by
      rcases hroom with h | h
      · exact absurd h hm
      · exact h
    have hnew : ∀ j : Nat, (j : Int) < s.fileHandleCounter → (s.my_disk.files j).name ≠ p :=
      fun j hj e => hm ((mem_tableNames s p).mpr ⟨j, hj, e⟩)
    obtain ⟨s', hopen, hcnt, hother, hname⟩ := fs3_open_new cfg s p hinv hp hnew hlen hroom'
    have hc := hinv.counter
    have hlen : ((tableNames s).length : Int) = s.fileHandleCounter := by
      rw [tableNames_length]; omega
    rw [hlen]
    refine ⟨s', hopen, (fs3_open_keeps cfg s s' p _ hinv hopen).1, ?_⟩
    unfold tableNames
    have h1 : s'.fileHandleCounter.toNat = s.fileHandleCounter.toNat + 1 := by
      rw [hcnt]; omega
    rw [h1, List.range_succ, List.map_append, List.map_singleton, hname]
    congr 1
    apply List.map_congr_left
    intro j hj
    rw [List.mem_range] at hj
    rw [hother j (by omega)]

theorem openRun_spec {σ : Type} (cfg : Config) (ps : List String) :
    ∀ s : State σ, DriverInv s →
      (∀ p ∈ ps, p ≠ "" ∧ p.utf8ByteSize < FS3_MAX_PATH_LENGTH) →
      (firstSeen (tableNames s) ps).length ≤ FS3_MAX_TOTAL_FILES →
      ∃ s', openRun cfg s ps = some (s', specHandles (tableNames s) ps) ∧ DriverInv s' ∧
        tableNames s' = firstSeen (tableNames s) ps := by
  induction ps with
  | nil =>
    intro s hinv _ _
    exact ⟨s, rfl, hinv, rfl⟩
  | cons p ps ih =>
    intro s hinv hne hroom
    have hc := hinv.counter
    have hp := hne p (List.mem_cons_self _ _)
    have hne' : ∀ q ∈ ps, q ≠ "" ∧ q.utf8ByteSize < FS3_MAX_PATH_LENGTH :=
      fun q hq => hne q (List.mem_cons_of_mem _ hq)
    have hstep : p ∈ tableNames s ∨ s.fileHandleCounter < FS3_MAX_TOTAL_FILES := by
      by_cases hm : p ∈ tableNames s
      · exact Or.inl hm
      · right
        simp only [firstSeen, if_neg hm] at hroom
        have h2 := firstSeen_length_le ps (tableNames s ++ [p])
        simp only [List.length_append, List.length_singleton, tableNames_length] at h2
        omega
    obtain ⟨s1, hopen, hinv1, hnames1⟩ := open_step cfg s p hinv hp.1 hp.2 hstep
    have hroom1 : (firstSeen (tableNames s1) ps).length ≤ FS3_MAX_TOTAL_FILES := by
      rw [hnames1]
      simp only [firstSeen] at hroom
      split at hroom
      · rename_i hm; rw [if_pos hm]; exact hroom
      · rename_i hm; rw [if_neg hm]; exact hroom
    obtain ⟨s2, hrun, hinv2, hnames2⟩ := ih s1 hinv1 hne' hroom1
    refine ⟨s2, ?_, hinv2, ?_⟩
    · simp only [openRun, hopen, hrun, specHandles]
      rw [hnames1]
      split <;> rfl
    · rw [hnames2, hnames1]
      simp only [firstSeen]
      split <;> rfl

theorem firstSeen_nodup (ps : List String) :
    ∀ seen : List String, seen.Nodup → (firstSeen seen ps).Nodup := by
  induction ps with
  | nil => intro seen h; exact h
  | cons p ps ih =>
    intro seen h
    simp only [firstSeen]
    split
    · exact ih seen h
    · rename_i hp
      apply ih
      rw [List.nodup_append]
      refine ⟨h, List.nodup_singleton p, ?_⟩
      intro a ha hb
      rw [List.mem_singleton] at hb
      exact hp (hb ▸ ha)

theorem firstSeen_card (ps : List String) : (firstSeen [] ps).length = ps.toFinset.card := by
  rw [← List.toFinset_card_of_nodup (firstSeen_nodup ps [] List.nodup_nil)]
  congr 1
  ext x
  simp [mem_firstSeen]

theorem specHandles_index_inj (paths : List String) (a b : Nat) :
    (specHandles [] paths)[a]? = (specHandles [] paths)[b]? ↔ paths[a]? = paths[b]? := by
  rw [specHandles_eq_map, List.getElem?_map, List.getElem?_map]
  constructor
  · intro h
    cases ha : paths[a]? with
    | none =>
      cases hb : paths[b]? with
      | none => rfl
      | some y => rw [ha, hb] at h; simp at h
    | some x =>
      cases hb : paths[b]? with
      | none => rw [ha, hb] at h; simp at h
      | some y =>
        rw [ha, hb] at h
        simp only [Option.map_some', Option.some.injEq, Nat.cast_inj] at h
        have hx : x ∈ firstSeen [] paths :=
          (mem_firstSeen paths [] x).mpr (Or.inr (List.getElem?_mem ha))
        have hy : y ∈ firstSeen [] paths :=
          (mem_firstSeen paths [] y).mpr (Or.inr (List.getElem?_mem hb))
        rw [(List.indexOf_inj hx hy).mp h]
  · intro h
    rw [h]

theorem specHandles_new (pre post : List String) (p : String) (hp : p ∉ pre) :
    (specHandles [] (pre ++ p :: post))[pre.length]? = some (pre.toFinset.card : Int) ∧
    ∀ (a : Nat) (h : Int), a < pre.length →
      (specHandles [] (pre ++ p :: post))[a]? = some h → h < (pre.toFinset.card : Int) := by
  have hnew : p ∉ firstSeen [] pre := by
    rw [mem_firstSeen]
    simp [hp]
  rw [specHandles_append, ← firstSeen_card]
  constructor
  · rw [List.getElem?_append_right (by rw [specHandles_length])]
    simp [specHandles_length, specHandles, hnew]
  · intro a h ha hget
    rw [List.getElem?_append_left (by rw [specHandles_length]; exact ha)] at hget
    exact specHandles_lt pre [] h (List.getElem?_mem hget)

/-- C14 as stated fails: opening `"a"` and then `""` from the start-up state returns
handle 0 both times, although the two names differ (the empty name matches the first
unused slot, whose handle field is still zero). -/
theorem handle_assignment_counterexample :
    (openRun Config.standard (State.start ()) ["a", ""]).map Prod.snd = some [0, 0] ∧
    "a" ≠ "" := by
  decide

/-- C14 (amended): over any sequence of `fs3_open` calls from the start-up state whose
names are non-empty and shorter than `FS3_MAX_PATH_LENGTH` bytes, with fewer than
`FS3_MAX_TOTAL_FILES` distinct names, every call returns a handle, and two calls return
the same handle if and only if they were given the same name; the first open of an
unseen name returns the number of distinct names opened before it (0, 1, 2, ... in
creation order), which is strictly greater than every handle returned before. -/
theorem handle_assignment {σ : Type} (cfg : Config) (c : CACHE) (w : σ) (paths : List String)
    (hname : ∀ p ∈ paths, p ≠ "" ∧ p.utf8ByteSize < FS3_MAX_PATH_LENGTH)
    (hroom : paths.toFinset.card < FS3_MAX_TOTAL_FILES) :
    ∃ (s : State σ) (handles : List Int),
      openRun cfg (State.boot c w) paths = some (s, handles) ∧
      handles.length = paths.length ∧
      (∀ a b : Nat, handles[a]? = handles[b]? ↔ paths[a]? = paths[b]?) ∧
      (∀ (pre post : List String) (p : String), paths = pre ++ p :: post → p ∉ pre →
        handles[pre.length]? = some (pre.toFinset.card : Int) ∧
        ∀ (a : Nat) (h : Int), a < pre.length → handles[a]? = some h →
          h < (pre.toFinset.card : Int)) := by
  have hnames : tableNames (State.boot c w) = [] := by
    simp [tableNames, State.boot]
  have hroom' : (firstSeen (tableNames (State.boot c w)) paths).length ≤ FS3_MAX_TOTAL_FILES := by
    rw [hnames, firstSeen_card]
    exact Nat.le_of_lt hroom
  obtain ⟨s, hrun, -, -⟩ := openRun_spec cfg paths (State.boot c w) (boot_inv c w) hname hroom'
  rw [hnames] at hrun
  refine ⟨s, _, hrun, specHandles_length paths [], specHandles_index_inj paths, ?_⟩
  intro pre post p e hp
  subst e
  exact specHandles_new pre post p hp

/-- Witness for C14: the opens `"a"`, `"b"`, `"a"` over the standard configuration. -/
theorem handle_assignment_witness :
    ((∀ p ∈ ["a", "b", "a"], p ≠ "" ∧ p.utf8ByteSize < FS3_MAX_PATH_LENGTH) ∧
     ["a", "b", "a"].toFinset.card < FS3_MAX_TOTAL_FILES) ∧
    ∃ (s : State Unit) (handles : List Int),
      openRun Config.standard (State.boot CACHE.zero ()) ["a", "b", "a"] = some (s, handles) ∧
      handles.length = ["a", "b", "a"].length ∧
      (∀ a b : Nat, handles[a]? = handles[b]? ↔
        ["a", "b", "a"][a]? = ["a", "b", "a"][b]?) ∧
      (∀ (pre post : List String) (p : String), ["a", "b", "a"] = pre ++ p :: post → p ∉ pre →
        handles[pre.length]? = some (pre.toFinset.card : Int) ∧
        ∀ (a : Nat) (h : Int), a < pre.length → handles[a]? = some h →
          h < (pre.toFinset.card : Int)) :=
  ⟨⟨by decide, by decide⟩,
   handle_assignment Config.standard CACHE.zero () ["a", "b", "a"] (by decide) (by decide)⟩

/-- C18 (end-to-end scenario): from the start-up (unmounted) state against the faithful
controller, with the cache not initialised or initialised with 8 lines, the calls
`mount(); fd = open("a.txt"); write(fd, "HELLO", 5); seek(fd, 0); read(fd, buf, 5);
close(fd); unmount()` return 0, the handle 0, 5, 0, 5, 0 and 0 in this order, and
after the read `buf` holds the five bytes of HELLO. -/
theorem hello_scenario :
    helloScenario Config.standard (controller Config.standard) CACHE.zero
        (Controller.blank Config.standard) =
      some ([0, 0, 5, 0, 5, 0, 0], hello) ∧
    helloScenario Config.standard (controller Config.standard) (fs3_init_cache CACHE.zero 8).1
        (Controller.blank Config.standard) =
      some ([0, 0, 5, 0, 5, 0, 0], hello) := by
  refine ⟨by decide, by decide⟩

/-- C19 fails on the code. With every READ-SECTOR request refused (status flag set),
`write(fd, "X", 1)` on the open five-byte file `a.txt` issues the pre-read, which
fails, and then goes on: it issues a WRITE-SECTOR request and returns 1 instead of -1,
storing the uninitialised bytes of its scratch buffer over the five bytes HELLO of the
sector. With one sector per track and every SEEK-TRACK request refused, or lost in the
transport, a write to the file `b`, whose sector is on track 1, issues the failing
SEEK-TRACK and then a WRITE-SECTOR, returns 5, and stores its bytes on track 0, where
the controller still is. -/
theorem failure_not_propagated :
    writeAfterRefusedRead Config.standard =
      some (1, [FS3_OP_RDSECT, FS3_OP_WRSECT],
        [none, none, none, none, none, some 88], 6, 6) ∧
    (writeAfterFailedSeek ⟨1024, 1, 64⟩ true).map (fun r => (r.1, r.2.1, r.2.2.1)) =
      some (⟨1, 0⟩, 5, [FS3_OP_TSEEK, FS3_OP_WRSECT]) ∧
    (writeAfterFailedSeek ⟨1024, 1, 64⟩ true).map (fun r => r.2.2.2) = some (hello, 0, 0) ∧
    (writeAfterFailedSeek ⟨1024, 1, 64⟩ false).map (fun r => (r.1, r.2.1, r.2.2.1)) =
      some (⟨1, 0⟩, 5, [FS3_OP_TSEEK, FS3_OP_WRSECT]) ∧
    (writeAfterFailedSeek ⟨1024, 1, 64⟩ false).map (fun r => r.2.2.2) = some (hello, 0, 0) := by
  refine ⟨by decide, by decide, by decide, by decide, by decide⟩

/-! ## Instances of the driver theorems -/

theorem some_getD_of_isSome {α : Type} (o : Option α) (d : α) (h : o.isSome = true) :
    o = some (o.getD d) := by
  cases o with
  | none => simp at h
  | some x => rfl

/-- Witness for C12: a second mount after a mount, and an unmount at start-up. -/
theorem mount_guards_witness :
    ((driverAfter Config.standard [.mount]).my_disk.mounted = 1 ∧
      fs3_mount_disk (controller Config.standard) (driverAfter Config.standard [.mount]) =
        (driverAfter Config.standard [.mount], -1) ∧
      fs3_mount_disk (traced (controller Config.standard))
          (withLog (driverAfter Config.standard [.mount]) []) =
        (withLog (driverAfter Config.standard [.mount]) [], -1)) ∧
    ((driverAfter Config.standard []).my_disk.mounted = 0 ∧
      fs3_unmount_disk (controller Config.standard) (driverAfter Config.standard []) =
        (driverAfter Config.standard [], -1) ∧
      fs3_unmount_disk (traced (controller Config.standard))
          (withLog (driverAfter Config.standard []) []) =
        (withLog (driverAfter Config.standard []) [], -1)) :=
  ⟨⟨by decide,
    (mount_guards (controller Config.standard) (driverAfter Config.standard [.mount]) []).1
      (by decide)⟩,
   ⟨by decide,
    (mount_guards (controller Config.standard) (driverAfter Config.standard []) []).2
      (by decide)⟩⟩

/-- Evaluation for C13: `a.txt` written with HELLO, closed and opened again has the
same handle 0, and reading 5 bytes then returns 5 and HELLO. -/
theorem reopen_reads_back :
    reopenScenario Config.standard = some (0, 0, 5, hello) := by
  decide

/-- Witness for C13: the file `a.txt` after it has been written and closed. -/
theorem reopen_preserves_witness :
    (driverRun Config.standard (controller Config.standard)
        (State.boot CACHE.zero (Controller.blank Config.standard)) closedFileOps =
      some (driverAfter Config.standard closedFileOps) ∧
     ((0 : Nat) : Int) < (driverAfter Config.standard closedFileOps).fileHandleCounter) ∧
    ((driverAfter Config.standard closedFileOps).my_disk.files 0).isOpen = 0 ∧
    ((driverAfter Config.standard closedFileOps).my_disk.files 0).name = "a.txt" ∧
    fs3_open Config.standard (driverAfter Config.standard closedFileOps)
        ((driverAfter Config.standard closedFileOps).my_disk.files 0).name =
      some (setFile (driverAfter Config.standard closedFileOps) 0
        { (driverAfter Config.standard closedFileOps).my_disk.files 0 with
            isOpen := 1, pos := 0 }, ((0 : Nat) : Int)) :=
  ⟨⟨rfl, by decide⟩, by decide, by decide,
   (reopen_preserves Config.standard (controller Config.standard) CACHE.zero
      (Controller.blank Config.standard) closedFileOps
      (driverAfter Config.standard closedFileOps) 0 rfl (by decide)).2.2.1 (by decide)⟩

/-- Witness for C15: a single call at the cursor (0, 1023) and the call number 1500. -/
theorem bump_allocator_witness :
    (({ DISK.zero with nextSector := 1023 } : DISK).nextTrack < INT_MAX ∧
      ({ DISK.zero with nextSector := 1023 } : DISK).nextSector < 2 ^ 16) ∧
    0 < Config.standard.FS3_TRACK_SIZE ∧ Config.standard.FS3_TRACK_SIZE ≤ 2 ^ 16 ∧
    DISK.zero.nextTrack = 0 ∧ DISK.zero.nextSector = 0 ∧
    1500 / Config.standard.FS3_TRACK_SIZE < INT_MAX ∧
    (get_free_track_sector_pair Config.standard { DISK.zero with nextSector := 1023 }).2.1 =
      ⟨0, 1023⟩ ∧
    (get_free_track_sector_pair Config.standard
      { DISK.zero with nextSector := 1023 }).1.nextTrack = 1 ∧
    (get_free_track_sector_pair Config.standard
      { DISK.zero with nextSector := 1023 }).1.nextSector = 0 ∧
    (get_free_track_sector_pair Config.standard
      (allocAfter Config.standard 1500 DISK.zero)).2.1 = ⟨1, 476⟩ :=
  have h := bump_allocator Config.standard { DISK.zero with nextSector := 1023 } DISK.zero 1500
    (by decide) (by decide) (by decide) rfl rfl (by decide)
  ⟨by decide, by decide, by decide, rfl, rfl, by decide, h.2.1,
   by rw [h.2.2.1]; rfl, by rw [h.2.2.1]; rfl, h.2.2.2.2⟩

/-- Witness for C16: two files, each written once. -/
theorem no_shared_sector_witness :
    driverRun Config.standard (controller Config.standard)
        (State.boot CACHE.zero (Controller.blank Config.standard)) twoFileOps =
      some (driverAfter Config.standard twoFileOps) ∧
    ((∀ i j i' j' : Nat,
        (j : Int) < ((driverAfter Config.standard twoFileOps).my_disk.files i).numOfSectors →
        (j' : Int) < ((driverAfter Config.standard twoFileOps).my_disk.files i').numOfSectors →
        ((driverAfter Config.standard twoFileOps).my_disk.files i).loc j =
          ((driverAfter Config.standard twoFileOps).my_disk.files i').loc j' →
        i = i' ∧ j = j') ∧
     (∀ i j : Nat,
        (j : Int) < ((driverAfter Config.standard twoFileOps).my_disk.files i).numOfSectors →
        below (((driverAfter Config.standard twoFileOps).my_disk.files i).loc j)
          (driverAfter Config.standard twoFileOps).my_disk.nextTrack
          (driverAfter Config.standard twoFileOps).my_disk.nextSector) ∧
     cursorLe (State.boot CACHE.zero (Controller.blank Config.standard)).my_disk
       (driverAfter Config.standard twoFileOps).my_disk ∧
     (∀ (op : DriverOp) (s' : State Controller),
        driverStep Config.standard (controller Config.standard)
          (driverAfter Config.standard twoFileOps) op = some s' →
        cursorLe (driverAfter Config.standard twoFileOps).my_disk s'.my_disk)) :=
  ⟨some_getD_of_isSome _ _ (by decide),
   no_shared_sector Config.standard (controller Config.standard) CACHE.zero
    (Controller.blank Config.standard) twoFileOps (driverAfter Config.standard twoFileOps)
    (some_getD_of_isSome _ _ (by decide))⟩

/-- Witness for C17: two files after writes, a seek and a read. -/
theorem position_invariant_witness :
    driverRun Config.standard (controller Config.standard)
        (State.boot CACHE.zero (Controller.blank Config.standard)) twoFileOps =
      some (driverAfter Config.standard twoFileOps) ∧
    ∀ i : Nat, ((driverAfter Config.standard twoFileOps).my_disk.files i).pos ≤
      ((driverAfter Config.standard twoFileOps).my_disk.files i).length :=
  ⟨some_getD_of_isSome _ _ (by decide),
   position_invariant Config.standard (controller Config.standard) CACHE.zero
    (Controller.blank Config.standard) twoFileOps (driverAfter Config.standard twoFileOps)
    (some_getD_of_isSome _ _ (by decide))⟩

/-- Witness for C20: unmount while `a.txt` is open with five bytes written. -/
theorem unmount_keeps_records_witness :
    (fs3_unmount_disk (controller Config.standard) (driverAfter Config.standard openFileOps) =
        (unmountedState, 0) ∧
     ((0 : Int) ≤ 0 ∧ (0 : Int) < FS3_MAX_TOTAL_FILES)) ∧
    ((driverAfter Config.standard openFileOps).my_disk.files 0).isOpen = 1 ∧
    unmountedState.my_disk.mounted = 0 ∧ unmountedState.my_disk.currentTrackIndex = 0 ∧
    (∀ i, i < FS3_MAX_TOTAL_FILES →
      unmountedState.my_disk.files i =
        { (driverAfter Config.standard openFileOps).my_disk.files i with
            isOpen := 0, pos := 0 }) ∧
    unmountedState.my_disk.nextTrack =
      (driverAfter Config.standard openFileOps).my_disk.nextTrack ∧
    unmountedState.my_disk.nextSector =
      (driverAfter Config.standard openFileOps).my_disk.nextSector ∧
    unmountedState.fileHandleCounter =
      (driverAfter Config.standard openFileOps).fileHandleCounter ∧
    unmountedState.myCache = (driverAfter Config.standard openFileOps).myCache ∧
    fs3_close unmountedState 0 = some (unmountedState, -1) ∧
    fs3_read Config.standard (controller Config.standard) unmountedState 0 hello 5 =
      some (unmountedState, hello, -1) ∧
    fs3_write Config.standard (controller Config.standard) unmountedState 0 hello 5 =
      some (unmountedState, -1) :=
  ⟨⟨Prod.ext rfl (by decide), by decide⟩, by decide,
   unmount_keeps_records Config.standard (controller Config.standard)
     (controller Config.standard) (driverAfter Config.standard openFileOps) unmountedState 0
     hello 5 (Prod.ext rfl (by decide)) (by decide)⟩

/-! ## Codec: operands wider than their fields -/

theorem shiftLeft_or (a b i : Nat) : (a ||| b) <<< i = a <<< i ||| b <<< i := by
  apply Nat.eq_of_testBit_eq
  intro j
  simp only [Nat.testBit_shiftLeft, Nat.testBit_or]
  cases decide (j ≥ i) <;> simp

theorem ret_split :
    ∀ ret, ret < 256 → ret <<< 11 = ((ret / 2) <<< 12) ||| ((ret % 2) <<< 11) := by
  decide

theorem construct_reduce (op sec trk ret : Nat) (htrk : trk < 2 ^ 32)
    (hret : ret < 256) :
    construct_fs3cmdblock op sec trk ret =
      construct_fs3cmdblock (op % 16) sec (trk ||| ret / 2) (ret % 2) := by
  unfold construct_fs3cmdblock
  simp only
  have hor : trk ||| ret / 2 < 2 ^ 32 := Nat.or_lt_two_pow htrk (by omega)
  have h1 : (op <<< 60) % 2 ^ 64 = ((op % 16) <<< 60) % 2 ^ 64 := by
    simp only [Nat.shiftLeft_eq]; omega
  have h3 : (trk <<< 12) % 2 ^ 64 = trk <<< 12 := by
    simp only [Nat.shiftLeft_eq]; omega
  have h3' : ((trk ||| ret / 2) <<< 12) % 2 ^ 64 = (trk ||| ret / 2) <<< 12 := by
    simp only [Nat.shiftLeft_eq]
    generalize trk ||| ret / 2 = x at hor ⊢
    omega
  have h4 : (ret <<< 11) % 2 ^ 64 = ret <<< 11 := by
    simp only [Nat.shiftLeft_eq]; omega
  have h4' : ((ret % 2) <<< 11) % 2 ^ 64 = (ret % 2) <<< 11 := by
    simp only [Nat.shiftLeft_eq]; omega
  rw [h1, h3, h3', h4, h4', Nat.or_assoc _ (trk <<< 12), Nat.or_assoc _ ((trk ||| ret / 2) <<< 12),
    ret_split ret hret, ← Nat.or_assoc (trk <<< 12), ← shiftLeft_or]

/-- C29 as stated fails: with `ret = 2`, which the 8-bit parameter admits, the word for
`(op, sec, trk) = (0, 0, 0)` decodes to track 1, not 0: bit 1 of `ret` lands on bit 12
of the word, the lowest bit of the track field. -/
theorem codec_isolation_counterexample :
    (2 : Nat) < 2 ^ 8 ∧
    deconstruct_fs3cmdblock (construct_fs3cmdblock 0 0 0 2) =
      (0, { op := 0, sec := 0, trk := 1, ret := 0 }) := by
  decide

/-- C29 (amended): for every 8-bit `op`, 16-bit `sec`, 32-bit `trk` and 8-bit `ret`,
decoding `construct_fs3cmdblock op sec trk ret` returns 0 and gives opcode `op mod 16`,
sector `sec`, return flag `ret mod 2` and track `trk OR (ret div 2)`: `op` and `sec`
influence only their own fields, the bits of `ret` above bit 0 are or-ed into the low
bits of the track field, and for `ret` in `{0, 1}` the track decodes to `trk`. -/
theorem codec_isolation (op sec trk ret : Nat) (_hop : op < 2 ^ 8) (hsec : sec < 2 ^ 16)
    (htrk : trk < 2 ^ 32) (hret : ret < 2 ^ 8) :
    deconstruct_fs3cmdblock (construct_fs3cmdblock op sec trk ret) =
      (0, { op := op % 16, sec := sec, trk := trk ||| ret / 2, ret := ret % 2 }) ∧
    (ret < 2 → trk ||| ret / 2 = trk) := by
  have hor : trk ||| ret / 2 < 2 ^ 32 := Nat.or_lt_two_pow htrk (by omega)
  constructor
  · rw [construct_reduce op sec trk ret htrk hret,
      construct_eq_sum (op % 16) sec (trk ||| ret / 2) (ret % 2) (by omega) hsec hor (by omega),
      deconstruct_eq]
    generalize trk ||| ret / 2 = x at hor ⊢
    congr 2 <;> omega
  · intro h
    have : ret / 2 = 0 := by omega
    rw [this, Nat.or_zero]

/-- The amended C29 at `op = 0x15`, `sec = 1234`, `trk = 8`, `ret = 7`. -/
theorem codec_isolation_witness :
    ((0x15 : Nat) < 2 ^ 8 ∧ (1234 : Nat) < 2 ^ 16 ∧ (8 : Nat) < 2 ^ 32 ∧ (7 : Nat) < 2 ^ 8) ∧
    deconstruct_fs3cmdblock (construct_fs3cmdblock 0x15 1234 8 7) =
      (0, { op := 5, sec := 1234, trk := 11, ret := 1 }) :=
  ⟨by decide, (codec_isolation 0x15 1234 8 7 (by decide) (by decide) (by decide) (by decide)).1⟩

/-! ## Cache index and line array -/

/-- C27 (cache index consistency): in every state reached from `fs3_init_cache(C)` by
any sequence of defined put and get calls, the line array has `C` entries, of which the
first `cacheLinesTaken` are occupied, and the index and the line array agree: the index
marks `(t, s)` as present with slot `l` if and only if `l < cacheLinesTaken` and line
`l` has key `(t, s)` and a non-null buffer; hence no two occupied slots hold the same
`(track, sector)` key. -/
theorem index_consistency (cfg : Config) (C : Nat) (ops : List CacheOp) (c : CACHE)
    (hC : C < 65536)
    (hrun : cacheRun cfg (fs3_init_cache CACHE.zero C).1 ops = some c) :
    ∃ ls, c.cacheLines = some ls ∧ ls.length = C ∧ c.cacheLinesTaken ≤ C ∧
      (∀ t s l : Nat,
        ((c.containedSectors t s).contains = 1 ∧ (c.containedSectors t s).loc = l) ↔
        (l < c.cacheLinesTaken ∧ ∃ line b, ls[l]? = some line ∧
          line.trackIndex = t ∧ line.sectorIndex = s ∧ line.sectorBytes = some b)) ∧
      (∀ (j j' : Nat) (line line' : CACHE_LINE), j < c.cacheLinesTaken →
        j' < c.cacheLinesTaken → ls[j]? = some line → ls[j']? = some line' →
        line.trackIndex = line'.trackIndex → line.sectorIndex = line'.sectorIndex →
        j = j') := by
  obtain ⟨⟨ls, h⟩, hsz⟩ := reach_inv hC hrun
  have key : ∀ (j : Nat) (line : CACHE_LINE), j < c.cacheLinesTaken → ls[j]? = some line →
      c.containedSectors line.trackIndex line.sectorIndex = ⟨1, j⟩ ∧
      ∃ b, line.sectorBytes = some b := by
    intro j line hj hl
    obtain ⟨line', b, hl', -, -, hidx, hb, -⟩ := h.slot j hj
    rw [hl] at hl'
    have e := Option.some.inj hl'
    subst e
    exact ⟨hidx, b, hb⟩
  refine ⟨ls, h.lines, by rw [h.len, hsz], by have := h.taken_le; omega, ?_, ?_⟩
  · intro t s l
    constructor
    · rintro ⟨hc, rfl⟩
      obtain ⟨hlt, line, hline, h1, h2⟩ := h.index t s hc
      obtain ⟨-, b, hb⟩ := key _ line hlt hline
      exact ⟨hlt, line, b, hline, h1, h2, hb⟩
    · rintro ⟨hlt, line, b, hline, rfl, rfl, -⟩
      have := (key l line hlt hline).1
      rw [this]
      exact ⟨rfl, rfl⟩
  · intro j j' line line' hj hj' hl hl' ht hs
    have h1 := (key j line hj hl).1
    have h2 := (key j' line' hj' hl').1
    rw [ht, hs, h2] at h1
    exact (congrArg CACHE_SECTOR.loc h1).symm

/-- C27 at a concrete input: capacity 2, three puts of distinct keys and a get. -/
theorem index_consistency_witness :
    ((2 : Nat) < 65536 ∧
      cacheRun Config.standard (fs3_init_cache CACHE.zero 2).1
        [.put 0 0 (sectorOf Config.standard 7), .put 0 1 (sectorOf Config.standard 8),
          .get 0 0, .put 1 0 (sectorOf Config.standard 9)] =
        some (cacheAfter Config.standard 2
          [.put 0 0 (sectorOf Config.standard 7), .put 0 1 (sectorOf Config.standard 8),
            .get 0 0, .put 1 0 (sectorOf Config.standard 9)])) ∧
    ∃ ls, (cacheAfter Config.standard 2
          [.put 0 0 (sectorOf Config.standard 7), .put 0 1 (sectorOf Config.standard 8),
            .get 0 0, .put 1 0 (sectorOf Config.standard 9)]).cacheLines = some ls ∧
      ls.length = 2 ∧
      (cacheAfter Config.standard 2
          [.put 0 0 (sectorOf Config.standard 7), .put 0 1 (sectorOf Config.standard 8),
            .get 0 0, .put 1 0 (sectorOf Config.standard 9)]).cacheLinesTaken ≤ 2 ∧
      (∀ t s l : Nat,
        (((cacheAfter Config.standard 2
          [.put 0 0 (sectorOf Config.standard 7), .put 0 1 (sectorOf Config.standard 8),
            .get 0 0, .put 1 0 (sectorOf Config.standard 9)]).containedSectors t s).contains = 1 ∧
         ((cacheAfter Config.standard 2
          [.put 0 0 (sectorOf Config.standard 7), .put 0 1 (sectorOf Config.standard 8),
            .get 0 0, .put 1 0 (sectorOf Config.standard 9)]).containedSectors t s).loc = l) ↔
        (l < (cacheAfter Config.standard 2
          [.put 0 0 (sectorOf Config.standard 7), .put 0 1 (sectorOf Config.standard 8),
            .get 0 0, .put 1 0 (sectorOf Config.standard 9)]).cacheLinesTaken ∧
          ∃ line b, ls[l]? = some line ∧
          line.trackIndex = t ∧ line.sectorIndex = s ∧ line.sectorBytes = some b)) ∧
      (∀ (j j' : Nat) (line line' : CACHE_LINE),
        j < (cacheAfter Config.standard 2
          [.put 0 0 (sectorOf Config.standard 7), .put 0 1 (sectorOf Config.standard 8),
            .get 0 0, .put 1 0 (sectorOf Config.standard 9)]).cacheLinesTaken →
        j' < (cacheAfter Config.standard 2
          [.put 0 0 (sectorOf Config.standard 7), .put 0 1 (sectorOf Config.standard 8),
            .get 0 0, .put 1 0 (sectorOf Config.standard 9)]).cacheLinesTaken →
        ls[j]? = some line → ls[j']? = some line' →
        line.trackIndex = line'.trackIndex → line.sectorIndex = line'.sectorIndex →
        j = j') :=
  ⟨⟨by decide, rfl⟩,
   index_consistency Config.standard 2
     [.put 0 0 (sectorOf Config.standard 7), .put 0 1 (sectorOf Config.standard 8),
       .get 0 0, .put 1 0 (sectorOf Config.standard 9)] _ (by decide) rfl⟩

/-! ## Closing the cache -/

/-- C28 fails on the code. `fs3_close_cache` returns 0 on an initialised cache but
leaves `initialized = 1` and `cacheLinesTaken` as they were: on a freshly initialised
cache a second close returns 0 again, not -1, and a following `fs3_init_cache` returns
-1 (already initialised); after one put, the closed cache still marks the key as
present, and a second close or a get of that key dereferences the freed line array
(undefined). On a cache that was never initialised the close returns -1. -/
theorem close_lifecycle_broken :
    (fs3_close_cache CACHE.zero).map Prod.snd = some (-1) ∧
    closeLifecycle (cacheAfter Config.standard 2 []) 2 = some (0, 1, 0, some 0, -1) ∧
    closeLifecycle (cacheAfter Config.standard 2 [.put 0 0 (sectorOf Config.standard 7)]) 2 =
      some (0, 1, 1, none, -1) ∧
    closeThenGet Config.standard
      (cacheAfter Config.standard 2 [.put 0 0 (sectorOf Config.standard 7)]) 0 0 =
      some (1, none) := by
  refine ⟨by decide, by decide, by decide, by decide⟩

/-! ## Cache refresh on a refused write -/

/-- C22 fails on the code. `fs3_write` calls `fs3_put_cache` before it looks at the
status flag of the WRITE-SECTOR response. With every WRITE-SECTOR refused, the first
write to a new file returns -1 but has inserted a line for sector (0, 0) holding HELLO
(insert counter 1), while the controller still holds zeros. With only the overwrite of
HELLO by JELLY refused, that write returns -1, the controller still holds HELLO, the
cache holds JELLY, and the following read of 5 bytes returns JELLY from the cache. -/
theorem cache_refreshed_by_refused_write :
    (refusedFirstWrite Config.standard).map (fun r => (r.1, r.2.1, r.2.2.1)) =
      some (-1, 1, 1) ∧
    (refusedFirstWrite Config.standard).map (fun r => r.2.2.2) =
      some (some hello, List.replicate 5 (some 0)) ∧
    (refusedOverwrite Config.standard).map (fun r => (r.1, r.2.1, r.2.2.1)) =
      some (-1, some jelly, hello) ∧
    (refusedOverwrite Config.standard).map (fun r => r.2.2.2) = some (5, jelly) := by
  refine ⟨by decide, by decide, by decide, by decide⟩

/-! ## Sectors fetched by a read -/

/-- C21 fails on the code. On a file of two full sectors (sector size 1024), a read of
1024 bytes at position 1 covers bytes [1, 1025), sectors 0 and 1, but fetches sector 0
only; a read of 1023 bytes at position 1 covers bytes [1, 1024), sector 0 alone, but
fetches sectors 0 and 1. The last index is chosen by testing `count` instead of
`pos + count` against the sector size. -/
theorem read_span_wrong :
    readRequests Config.standard (sectorOf Config.standard 7 ++ sectorOf Config.standard 8)
      1 1024 = some (2, 1024, [0]) ∧
    (1 / 1024 = 0 ∧ (1 + 1024 - 1) / 1024 = 1) ∧
    readRequests Config.standard (sectorOf Config.standard 7 ++ sectorOf Config.standard 8)
      1 1023 = some (2, 1023, [0, 1]) ∧
    (1 / 1024 = 0 ∧ (1 + 1023 - 1) / 1024 = 0) := by
  refine ⟨by decide!, by decide!, by decide!, by decide!⟩

/-- C25 fails on the code. The file `b` has one allocated sector, `loc[0] = (0, 1)`, and
length 5; a read of 1025 bytes at position 0 fetches list index 0 and then list index
1, which is not below `numOfSectors = 1`: the never assigned entry `loc[1] = (0, 0)`
makes it request sector (0, 0), the sector of file `a`. With 4 list entries per file
(sector size 4, 2 sectors per track, 2 tracks) a read of 17 bytes on a one-sector file
runs the index up to 4, past the end of the `loc` array, which is undefined. -/
theorem read_index_past_allocation :
    readPastEnd Config.standard 1025 = some (⟨0, 1⟩, 1, 1025, [1, 0]) ∧
    FS3_MAX_TRACK_SECTOR_PAIRS ⟨4, 2, 2⟩ = 4 ∧
    readRequests ⟨4, 2, 2⟩ [some 7] 0 16 = some (1, 16, [0, 0, 0, 0]) ∧
    readRequests ⟨4, 2, 2⟩ [some 7] 0 17 = none := by
  refine ⟨by decide!, by decide!, by decide!, by decide!⟩

/-! ## File table effects of reads and writes -/

theorem get_file_open {σ : Type} (s : State σ) (fd : Int) (fi : Nat)
    (h : get_file s.my_disk fd = some (some fi)) :
    (0 ≤ fd ∧ fd < FS3_MAX_TOTAL_FILES) ∧ fi = fd.toNat ∧
    (s.my_disk.files fi).fileHandle = fd ∧ (s.my_disk.files fi).isOpen ≠ 0 := by
  unfold get_file at h
  split at h
  · rename_i hr
    split at h
    · rename_i hh
      split at h
      · rename_i ho
        simp only [Option.some.injEq] at h
        subst h
        exact ⟨hr, rfl, hh, ho⟩
      · simp at h
    · simp at h
  · simp at h

theorem get_file_of (d : DISK) (fd : Int) (fi : Nat)
    (hr : 0 ≤ fd ∧ fd < FS3_MAX_TOTAL_FILES) (hfi : fi = fd.toNat)
    (hh : (d.files fi).fileHandle = fd) (ho : (d.files fi).isOpen ≠ 0) :
    get_file d fd = some (some fi) := by
  subst hfi
  unfold get_file
  rw [if_pos hr, if_pos hh, if_pos ho]

theorem get_file_keep {σ : Type} (s s' : State σ) (fd : Int) (fi : Nat)
    (h : get_file s.my_disk fd = some (some fi))
    (hh : (s'.my_disk.files fi).fileHandle = (s.my_disk.files fi).fileHandle)
    (ho : (s'.my_disk.files fi).isOpen = (s.my_disk.files fi).isOpen) :
    get_file s'.my_disk fd = some (some fi) := by
  obtain ⟨hr, hfi, h1, h2⟩ := get_file_open s fd fi h
  exact get_file_of _ fd fi hr hfi (by rw [hh]; exact h1) (by rw [ho]; exact h2)

theorem fs3_seek_open {σ : Type} (s : State σ) (fd : Int) (fi loc : Nat)
    (hgf : get_file s.my_disk fd = some (some fi))
    (hle : loc ≤ (s.my_disk.files fi).length) :
    fs3_seek s fd loc = some (setFile s fi { s.my_disk.files fi with pos := loc }, 0) := by
  unfold fs3_seek
  rw [hgf]
  simp only
  rw [if_pos hle]

/-- A defined `fs3_read` on the open file in slot `fi` changes nothing in the file
table but the position of that file, which stays within the length. -/
theorem fs3_read_table {σ : Type} (cfg : Config) (sys : Transport σ) (s s' : State σ)
    (fd : Int) (fi : Nat) (buf b : List Byte) (count : Nat) (rc : Int)
    (hgf : get_file s.my_disk fd = some (some fi))
    (h : fs3_read cfg sys s fd buf count = some (s', b, rc)) :
    (∀ j, s'.my_disk.files j =
      if j = fi then { s.my_disk.files fi with pos := (s'.my_disk.files fi).pos }
      else s.my_disk.files j) ∧
    (s'.my_disk.files fi).pos ≤ max (s.my_disk.files fi).pos (s.my_disk.files fi).length ∧
    s'.my_disk.nextTrack = s.my_disk.nextTrack ∧
    s'.my_disk.nextSector = s.my_disk.nextSector ∧
    s'.fileHandleCounter = s.fileHandleCounter ∧ s'.my_disk.mounted = s.my_disk.mounted := by
  rcases fs3_read_shape cfg sys s s' fd buf b count rc h with hs | ⟨fi', s1, p, hgf', hs1, hp, rfl⟩
  · obtain ⟨h1, h2, h3, h4, h5⟩ := hs
    refine ⟨?_, ?_, h2, h3, h4, h5⟩
    · intro j
      rw [h1]
      by_cases hj : j = fi
      · subst hj; rw [if_pos rfl]
      · rw [if_neg hj]
    · rw [h1]; exact Nat.le_max_left _ _
  · rw [hgf] at hgf'
    have e : fi = fi' := by simpa using hgf'
    subst e
    obtain ⟨h1, h2, h3, h4, h5⟩ := hs1
    refine ⟨?_, ?_, h2, h3, h4, h5⟩
    · intro j
      by_cases hj : j = fi
      · subst hj
        simp only [FS3.setFile, if_pos, h1]
      · simp only [FS3.setFile, if_neg hj, h1]
    · simp only [FS3.setFile, if_pos]
      rw [h1] at hp
      exact Nat.le_trans hp (Nat.le_max_right _ _)

/-! ## Arithmetic of sector counts -/

theorem ceil_le_iff (SS x k : Nat) (hss : 0 < SS) : (x + SS - 1) / SS ≤ k ↔ x ≤ k * SS := by
  rw [← Nat.lt_succ_iff, Nat.div_lt_iff_lt_mul hss, Nat.succ_mul]
  omega

theorem sectorsFor_le_iff (cfg : Config) (L k : Nat) (hss : 0 < cfg.FS3_SECTOR_SIZE)
    (hk : 1 ≤ k) : sectorsFor cfg L ≤ k ↔ L ≤ k * cfg.FS3_SECTOR_SIZE := by
  unfold sectorsFor
  rw [Nat.max_le, ceil_le_iff _ _ _ hss]
  exact ⟨fun h => h.2, fun h => ⟨hk, h⟩⟩

theorem sectorsFor_pos (cfg : Config) (L : Nat) : 1 ≤ sectorsFor cfg L := by
  unfold sectorsFor
  exact Nat.le_max_left _ _

theorem sectorsFor_mono (cfg : Config) (L L' : Nat) (hss : 0 < cfg.FS3_SECTOR_SIZE)
    (h : L ≤ L') : sectorsFor cfg L ≤ sectorsFor cfg L' := by
  rw [sectorsFor_le_iff cfg L _ hss (sectorsFor_pos cfg L')]
  have := (sectorsFor_le_iff cfg L' _ hss (sectorsFor_pos cfg L')).mp (Nat.le_refl _)
  omega

theorem length_le_sectors (cfg : Config) (L : Nat) (hss : 0 < cfg.FS3_SECTOR_SIZE) :
    L ≤ sectorsFor cfg L * cfg.FS3_SECTOR_SIZE :=
  (sectorsFor_le_iff cfg L _ hss (sectorsFor_pos cfg L)).mp (Nat.le_refl _)

theorem index_le_sectors (cfg : Config) (pos L : Nat) (hss : 0 < cfg.FS3_SECTOR_SIZE)
    (hp : pos ≤ L) : pos / cfg.FS3_SECTOR_SIZE ≤ sectorsFor cfg L := by
  have h1 := length_le_sectors cfg L hss
  have h2 : pos / cfg.FS3_SECTOR_SIZE ≤ L / cfg.FS3_SECTOR_SIZE := Nat.div_le_div_right hp
  have h3 : L / cfg.FS3_SECTOR_SIZE ≤ sectorsFor cfg L := by
    rw [Nat.div_le_iff_le_mul_add_pred hss]
    rw [Nat.mul_comm]
    omega
  omega

theorem chunk_bounds (cfg : Config) (pos count total : Nat) (hss : 0 < cfg.FS3_SECTOR_SIZE)
    (hlt : total < count) :
    0 < chunk cfg pos count total ∧ total + chunk cfg pos count total ≤ count ∧
    pos % cfg.FS3_SECTOR_SIZE + chunk cfg pos count total ≤ cfg.FS3_SECTOR_SIZE := by
  have hm := Nat.mod_lt pos hss
  unfold chunk
  split <;> omega

/-- One iteration keeps `numOfSectors = max(1, ceil(length / FS3_SECTOR_SIZE))`: a sector
is added exactly when the sector index of the position equals the sector count. -/
theorem sectorsFor_step (cfg : Config) (pos L bw : Nat) (hss : 0 < cfg.FS3_SECTOR_SIZE)
    (hp : pos ≤ L) (hb : 0 < bw) (hroom : pos % cfg.FS3_SECTOR_SIZE + bw ≤ cfg.FS3_SECTOR_SIZE) :
    sectorsFor cfg (max L (pos + bw)) =
      if pos / cfg.FS3_SECTOR_SIZE = sectorsFor cfg L then sectorsFor cfg L + 1
      else sectorsFor cfg L := by
  have hdm := Nat.div_add_mod pos cfg.FS3_SECTOR_SIZE
  have hidx := index_le_sectors cfg pos L hss hp
  have hL := length_le_sectors cfg L hss
  have h1 := sectorsFor_pos cfg L
  by_cases hc : pos / cfg.FS3_SECTOR_SIZE = sectorsFor cfg L
  · rw [if_pos hc]
    rw [hc, Nat.mul_comm] at hdm
    have hLe : L = pos ∧ pos % cfg.FS3_SECTOR_SIZE = 0 := by omega
    have hmax : max L (pos + bw) = pos + bw := by omega
    rw [hmax]
    apply Nat.le_antisymm
    · rw [sectorsFor_le_iff cfg _ _ hss (by omega), Nat.succ_mul]
      omega
    · by_contra hcon
      have hle : sectorsFor cfg (pos + bw) ≤ sectorsFor cfg L := by omega
      rw [sectorsFor_le_iff cfg _ _ hss h1] at hle
      omega
  · rw [if_neg hc]
    have hlt : pos / cfg.FS3_SECTOR_SIZE + 1 ≤ sectorsFor cfg L := by omega
    have hmul : (pos / cfg.FS3_SECTOR_SIZE + 1) * cfg.FS3_SECTOR_SIZE ≤
        sectorsFor cfg L * cfg.FS3_SECTOR_SIZE := Nat.mul_le_mul_right _ hlt
    rw [Nat.succ_mul, Nat.mul_comm] at hmul
    apply Nat.le_antisymm
    · rw [sectorsFor_le_iff cfg _ _ hss h1]
      omega
    · exact sectorsFor_mono cfg _ _ hss (Nat.le_max_left _ _)

/-! ## One iteration of the write loop over a never-failing transport -/

theorem u32_le (x : Nat) : u32 x ≤ x := by
  unfold u32
  exact Nat.mod_le _ _

theorem u32_of_lt (x : Nat) (h : x < 4294967296) : u32 x = x := by
  unfold u32
  exact Nat.mod_eq_of_lt h

/-- The function `fs3_write_body` is its two halves one after the other, with the two
`fs3_seek` calls of lines 383 and 409 around the first. -/
theorem fs3_write_body_eq {σ : Type} (cfg : Config) (sys : Transport σ) (fd : Int)
    (fi : Nat) (buf : List Byte) (count : Nat) (s : State σ) (total : Nat) :
    fs3_write_body cfg sys fd fi buf count s total =
      match fs3_seek s fd (u32 ((SECTOR_INDEX_NUMBER cfg (s.my_disk.files fi).pos).toNat *
          cfg.FS3_SECTOR_SIZE)) with
      | none => none
      | some (s1, rc) =>
        if rc ≠ -1 then
          match fs3_write_pre cfg sys fd fi (SECTOR_INDEX_NUMBER cfg (s.my_disk.files fi).pos)
              s1 with
          | none => none
          | some (s2, temp_buf) =>
            match fs3_seek s2 fd (s.my_disk.files fi).pos with
            | none => none
            | some (s3, _) => fs3_write_send cfg sys fi buf count total s3 temp_buf
        else some (.inl s1) := by
  rfl

theorem fs3_write_pre_table {σ : Type} (cfg : Config) (sys : Transport σ) (fd : Int)
    (fi : Nat) (idx : Int) (s1 s2 : State σ) (tb : List Byte)
    (hgf : get_file s1.my_disk fd = some (some fi))
    (hidx : idx ≤ (s1.my_disk.files fi).numOfSectors)
    (h : fs3_write_pre cfg sys fd fi idx s1 = some (s2, tb)) :
    (∀ j, j ≠ fi → s2.my_disk.files j = s1.my_disk.files j) ∧
    (s2.my_disk.files fi).name = (s1.my_disk.files fi).name ∧
    (s2.my_disk.files fi).fileHandle = (s1.my_disk.files fi).fileHandle ∧
    (s2.my_disk.files fi).isOpen = (s1.my_disk.files fi).isOpen ∧
    (s2.my_disk.files fi).length = (s1.my_disk.files fi).length ∧
    (s2.my_disk.files fi).numOfSectors =
      (if idx = (s1.my_disk.files fi).numOfSectors then (s1.my_disk.files fi).numOfSectors + 1
       else (s1.my_disk.files fi).numOfSectors) ∧
    (∀ j : Nat, (j : Int) < (s1.my_disk.files fi).numOfSectors →
      (s2.my_disk.files fi).loc j = (s1.my_disk.files fi).loc j) ∧
    s2.fileHandleCounter = s1.fileHandleCounter ∧
    s2.my_disk.mounted = s1.my_disk.mounted ∧
    (idx = (s1.my_disk.files fi).numOfSectors →
      (s2.my_disk.files fi).loc (s1.my_disk.files fi).numOfSectors.toNat =
        ⟨s1.my_disk.nextTrack, s1.my_disk.nextSector⟩) ∧
    s2.my_disk.nextTrack =
      (if idx = (s1.my_disk.files fi).numOfSectors
       then (get_free_track_sector_pair cfg s1.my_disk).1.nextTrack else s1.my_disk.nextTrack) ∧
    s2.my_disk.nextSector =
      (if idx = (s1.my_disk.files fi).numOfSectors
       then (get_free_track_sector_pair cfg s1.my_disk).1.nextSector
       else s1.my_disk.nextSector) := by
  have hread : ∀ (s' : State σ) (b0 b : List Byte) (c : Nat) (rc : Int),
      idx ≠ (s1.my_disk.files fi).numOfSectors →
      fs3_read cfg sys s1 fd b0 c = some (s', b, rc) →
      (∀ j, j ≠ fi → s'.my_disk.files j = s1.my_disk.files j) ∧
      (s'.my_disk.files fi).name = (s1.my_disk.files fi).name ∧
      (s'.my_disk.files fi).fileHandle = (s1.my_disk.files fi).fileHandle ∧
      (s'.my_disk.files fi).isOpen = (s1.my_disk.files fi).isOpen ∧
      (s'.my_disk.files fi).length = (s1.my_disk.files fi).length ∧
      (s'.my_disk.files fi).numOfSectors =
        (if idx = (s1.my_disk.files fi).numOfSectors then (s1.my_disk.files fi).numOfSectors + 1
         else (s1.my_disk.files fi).numOfSectors) ∧
      (∀ j : Nat, (j : Int) < (s1.my_disk.files fi).numOfSectors →
        (s'.my_disk.files fi).loc j = (s1.my_disk.files fi).loc j) ∧
      s'.fileHandleCounter = s1.fileHandleCounter ∧
      s'.my_disk.mounted = s1.my_disk.mounted ∧
      (idx = (s1.my_disk.files fi).numOfSectors →
        (s'.my_disk.files fi).loc (s1.my_disk.files fi).numOfSectors.toNat =
          ⟨s1.my_disk.nextTrack, s1.my_disk.nextSector⟩) ∧
      s'.my_disk.nextTrack =
        (if idx = (s1.my_disk.files fi).numOfSectors
         then (get_free_track_sector_pair cfg s1.my_disk).1.nextTrack
         else s1.my_disk.nextTrack) ∧
      s'.my_disk.nextSector =
        (if idx = (s1.my_disk.files fi).numOfSectors
         then (get_free_track_sector_pair cfg s1.my_disk).1.nextSector
         else s1.my_disk.nextSector) := by
    intro s' b0 b c rc hne hr
    obtain ⟨hf, -, hnt, hns, hc, hm⟩ := fs3_read_table cfg sys s1 s' fd fi b0 b c rc hgf hr
    have hfi := hf fi
    rw [if_pos rfl] at hfi
    refine ⟨?_, ?_, ?_, ?_, ?_, ?_, ?_, hc, hm, fun e => absurd e hne,
      by rw [if_neg hne]; exact hnt, by rw [if_neg hne]; exact hns⟩
    · intro j hj
      rw [hf j, if_neg hj]
    · rw [hfi]
    · rw [hfi]
    · rw [hfi]
    · rw [hfi]
    · rw [hfi, if_neg hne]
    · intro j _
      rw [hfi]
  unfold fs3_write_pre at h
  simp only at h
  split at h
  · rename_i hlt
    split at h
    · simp at h
    · rename_i s2' tb' rc' hr
      simp only [Option.some.injEq, Prod.mk.injEq] at h
      obtain ⟨rfl, -⟩ := h
      exact hread _ _ _ _ _ (by omega) hr
  · split at h
    · rename_i heq
      split at h
      · simp at h
      · rename_i s2' tb' rc' hr
        simp only [Option.some.injEq, Prod.mk.injEq] at h
        obtain ⟨rfl, -⟩ := h
        exact hread _ _ _ _ _ (by omega) hr
    · rename_i hnlt hneq
      have he : idx = (s1.my_disk.files fi).numOfSectors := by omega
      split at h
      · split at h
        · rename_i hrange
          simp only [Option.some.injEq, Prod.mk.injEq] at h
          obtain ⟨rfl, -⟩ := h
          refine ⟨?_, ?_, ?_, ?_, ?_, ?_, ?_, rfl, ?_, ?_, ?_, ?_⟩
          · intro j hj
            simp only [FS3.setFile, if_neg hj, get_free_files]
          · simp only [FS3.setFile, if_pos]
          · simp only [FS3.setFile, if_pos]
          · simp only [FS3.setFile, if_pos]
          · simp only [FS3.setFile, if_pos]
          · simp only [FS3.setFile, if_pos]
            rw [if_pos he]
          · intro j hj
            simp only [FS3.setFile, if_pos, setLoc]
            rw [if_neg (by omega)]
          · simp only [FS3.setFile]
            unfold get_free_track_sector_pair
            simp only
            split <;> rfl
          · intro _
            simp only [FS3.setFile, if_pos, setLoc, get_free_pair]
          · rw [if_pos he]
            rfl
          · rw [if_pos he]
            rfl
        · simp at h
      · rename_i hne
        exact absurd (get_free_rc cfg s1.my_disk) hne

theorem fs3_write_send_table {σ : Type} (cfg : Config) (sys : Transport σ) (fi : Nat)
    (buf : List Byte) (count total : Nat) (s3 : State σ) (tb : List Byte)
    (r : State σ ⊕ (State σ × Nat))
    (hss : 0 < cfg.FS3_SECTOR_SIZE)
    (hfit : FS3_MAX_TRACK_SECTOR_PAIRS cfg * cfg.FS3_SECTOR_SIZE < 4294967296)
    (hnf : NeverFails sys) (hlt : total < count)
    (h : fs3_write_send cfg sys fi buf count total s3 tb = some r) :
    ∃ s', r = .inr (s', total + chunk cfg (s3.my_disk.files fi).pos count total) ∧
      (∀ j, j ≠ fi → s'.my_disk.files j = s3.my_disk.files j) ∧
      s'.my_disk.files fi =
        { s3.my_disk.files fi with
            pos := (s3.my_disk.files fi).pos + chunk cfg (s3.my_disk.files fi).pos count total
            length := max (s3.my_disk.files fi).length
              ((s3.my_disk.files fi).pos + chunk cfg (s3.my_disk.files fi).pos count total) } ∧
      s'.fileHandleCounter = s3.fileHandleCounter ∧
      s'.my_disk.mounted = s3.my_disk.mounted ∧
      s'.my_disk.nextTrack = s3.my_disk.nextTrack ∧
      s'.my_disk.nextSector = s3.my_disk.nextSector := by
  obtain ⟨hb0, -, hroom⟩ := chunk_bounds cfg (s3.my_disk.files fi).pos count total hss hlt
  unfold fs3_write_send at h
  simp only at h
  split at h
  · simp at h
  · split at h
    · simp at h
    · split at h
      · rename_i hidx
        have hu : u32 ((s3.my_disk.files fi).pos + chunk cfg (s3.my_disk.files fi).pos count total) =
            (s3.my_disk.files fi).pos + chunk cfg (s3.my_disk.files fi).pos count total := by
          apply u32_of_lt
          unfold SECTOR_INDEX_NUMBER at hidx
          have hi : (s3.my_disk.files fi).pos / cfg.FS3_SECTOR_SIZE + 1 ≤
              FS3_MAX_TRACK_SECTOR_PAIRS cfg := by omega
          have hmul := Nat.mul_le_mul_right cfg.FS3_SECTOR_SIZE hi
          have hdm := Nat.div_add_mod (s3.my_disk.files fi).pos cfg.FS3_SECTOR_SIZE
          rw [Nat.succ_mul, Nat.mul_comm] at hmul
          omega
        have hs4 : ∀ s4 : State σ,
            s4 = (if ((s3.my_disk.files fi).loc
                (SECTOR_INDEX_NUMBER cfg (s3.my_disk.files fi).pos).toNat).trackIndex ≠
                  s3.my_disk.currentTrackIndex
              then (tseek sys s3 ((s3.my_disk.files fi).loc
                (SECTOR_INDEX_NUMBER cfg (s3.my_disk.files fi).pos).toNat).trackIndex).1
              else s3) →
            s4.my_disk.files = s3.my_disk.files ∧ s4.fileHandleCounter = s3.fileHandleCounter ∧
            s4.my_disk.mounted = s3.my_disk.mounted ∧
            s4.my_disk.nextTrack = s3.my_disk.nextTrack ∧
            s4.my_disk.nextSector = s3.my_disk.nextSector := by
          intro s4 e
          subst e
          split
          · exact ⟨tseek_files _ _ _, tseek_counter _ _ _, tseek_mounted _ _ _,
              tseek_nextTrack _ _ _, tseek_nextSector _ _ _⟩
          · exact ⟨rfl, rfl, rfl, rfl, rfl⟩
        generalize hg : (if ((s3.my_disk.files fi).loc
                (SECTOR_INDEX_NUMBER cfg (s3.my_disk.files fi).pos).toNat).trackIndex ≠
                  s3.my_disk.currentTrackIndex
              then (tseek sys s3 ((s3.my_disk.files fi).loc
                (SECTOR_INDEX_NUMBER cfg (s3.my_disk.files fi).pos).toNat).trackIndex).1
              else s3) = s4 at h
        obtain ⟨e1, e2, e3, e4, e5⟩ := hs4 s4 hg.symm
        split at h
        · rename_i hrc
          exact absurd hrc (hnf _ _ _).1
        · split at h
          · simp at h
          · split at h
            · simp only [Option.some.injEq] at h
              subst h
              refine ⟨_, rfl, ?_, ?_, e2, e3, e4, e5⟩
              · intro j hj
                simp only [FS3.setFile, if_neg hj, e1]
              · simp only [FS3.setFile, if_pos, e1]
                show ({ s3.my_disk.files fi with
                    pos := u32 ((s3.my_disk.files fi).pos +
                      chunk cfg (s3.my_disk.files fi).pos count total)
                    length :=
                      if u32 ((s3.my_disk.files fi).pos +
                          chunk cfg (s3.my_disk.files fi).pos count total) >
                          (s3.my_disk.files fi).length
                      then u32 ((s3.my_disk.files fi).pos +
                          chunk cfg (s3.my_disk.files fi).pos count total)
                      else (s3.my_disk.files fi).length } : FILE_INFO) = _
                rw [hu]
                have hmax : (if (s3.my_disk.files fi).pos +
                      chunk cfg (s3.my_disk.files fi).pos count total >
                      (s3.my_disk.files fi).length
                    then (s3.my_disk.files fi).pos +
                      chunk cfg (s3.my_disk.files fi).pos count total
                    else (s3.my_disk.files fi).length) =
                    max (s3.my_disk.files fi).length ((s3.my_disk.files fi).pos +
                      chunk cfg (s3.my_disk.files fi).pos count total) := by
                  generalize (s3.my_disk.files fi).pos +
                    chunk cfg (s3.my_disk.files fi).pos count total = x
                  generalize (s3.my_disk.files fi).length = y
                  rw [Nat.max_def]
                  split <;> split <;> omega
                rw [hmax]
            · rename_i hret
              exact absurd (hnf _ _ _).2 hret
      · simp at h

theorem setFile_counter {σ : Type} (s : State σ) (i : Nat) (f : FILE_INFO) :
    (setFile s i f).fileHandleCounter = s.fileHandleCounter := rfl

theorem setFile_mounted {σ : Type} (s : State σ) (i : Nat) (f : FILE_INFO) :
    (setFile s i f).my_disk.mounted = s.my_disk.mounted := rfl

/-- Over a never-failing transport, an iteration of the loop of `fs3_write` on an open
file whose position is within its length and whose sector count is
`max(1, ceil(length / FS3_SECTOR_SIZE))` never takes an early return, and its effect on
the file table is that of `WriteStep`. -/
theorem fs3_write_body_table {σ : Type} (cfg : Config) (sys : Transport σ) (fd : Int)
    (fi : Nat) (buf : List Byte) (count : Nat) (s : State σ) (total : Nat)
    (r : State σ ⊕ (State σ × Nat))
    (hss : 0 < cfg.FS3_SECTOR_SIZE)
    (hfit : FS3_MAX_TRACK_SECTOR_PAIRS cfg * cfg.FS3_SECTOR_SIZE < 4294967296)
    (hnf : NeverFails sys)
    (hgf : get_file s.my_disk fd = some (some fi))
    (hpos : (s.my_disk.files fi).pos ≤ (s.my_disk.files fi).length)
    (hN : (s.my_disk.files fi).numOfSectors = (sectorsFor cfg (s.my_disk.files fi).length : Int))
    (hlt : total < count)
    (h : fs3_write_body cfg sys fd fi buf count s total = some r) :
    ∃ s', r = .inr (s', total + chunk cfg (s.my_disk.files fi).pos count total) ∧
      WriteStep cfg fi count total s s'
        (total + chunk cfg (s.my_disk.files fi).pos count total) := by
  have hidx := index_le_sectors cfg _ _ hss hpos
  have hle1 : u32 ((SECTOR_INDEX_NUMBER cfg (s.my_disk.files fi).pos).toNat *
      cfg.FS3_SECTOR_SIZE) ≤ (s.my_disk.files fi).length := by
    have h1 := u32_le ((SECTOR_INDEX_NUMBER cfg (s.my_disk.files fi).pos).toNat *
      cfg.FS3_SECTOR_SIZE)
    have h2 : (SECTOR_INDEX_NUMBER cfg (s.my_disk.files fi).pos).toNat * cfg.FS3_SECTOR_SIZE ≤
        (s.my_disk.files fi).pos := by
      unfold SECTOR_INDEX_NUMBER
      rw [Int.toNat_ofNat]
      exact Nat.div_mul_le_self _ _
    omega
  have hseek1 := fs3_seek_open s fd fi _ hgf hle1
  obtain ⟨s1, hs1⟩ : ∃ s1 : State σ, s1 = setFile s fi { s.my_disk.files fi with
      pos := u32 ((SECTOR_INDEX_NUMBER cfg (s.my_disk.files fi).pos).toNat *
        cfg.FS3_SECTOR_SIZE) } := ⟨_, rfl⟩
  rw [← hs1] at hseek1
  have f1 : s1.my_disk.files fi = { s.my_disk.files fi with
      pos := u32 ((SECTOR_INDEX_NUMBER cfg (s.my_disk.files fi).pos).toNat *
        cfg.FS3_SECTOR_SIZE) } := by
    rw [hs1]; simp only [FS3.setFile, if_pos]
  have o1 : ∀ j, j ≠ fi → s1.my_disk.files j = s.my_disk.files j := by
    intro j hj
    rw [hs1]; simp only [FS3.setFile, if_neg hj]
  have c1 : s1.fileHandleCounter = s.fileHandleCounter := by rw [hs1]; rfl
  have m1 : s1.my_disk.mounted = s.my_disk.mounted := by rw [hs1]; rfl
  have t1 : s1.my_disk.nextTrack = s.my_disk.nextTrack := by rw [hs1]; rfl
  have u1 : s1.my_disk.nextSector = s.my_disk.nextSector := by rw [hs1]; rfl
  have g1 : get_free_track_sector_pair cfg s1.my_disk =
      ({ (get_free_track_sector_pair cfg s.my_disk).1 with
          files := s1.my_disk.files, mounted := s1.my_disk.mounted,
          currentTrackIndex := s1.my_disk.currentTrackIndex },
        (get_free_track_sector_pair cfg s.my_disk).2) := by
    unfold get_free_track_sector_pair
    simp only [t1, u1]
    split <;> rfl
  have hgf1 : get_file s1.my_disk fd = some (some fi) :=
    get_file_keep s s1 fd fi hgf (by rw [f1]) (by rw [f1])
  rw [fs3_write_body_eq, hseek1] at h
  simp only at h
  rw [if_pos (by decide)] at h
  split at h
  · simp at h
  · rename_i s2 tb hpre
    have hidx1 : SECTOR_INDEX_NUMBER cfg (s.my_disk.files fi).pos ≤
        (s1.my_disk.files fi).numOfSectors := by
      rw [f1]
      simp only
      rw [hN]
      unfold SECTOR_INDEX_NUMBER
      exact_mod_cast hidx
    obtain ⟨o2, n2, h2, i2, l2, k2, loc2, c2, m2, nl2, t2, u2⟩ :=
      fs3_write_pre_table cfg sys fd fi _ s1 s2 tb hgf1 hidx1 hpre
    have hgf2 : get_file s2.my_disk fd = some (some fi) :=
      get_file_keep s1 s2 fd fi hgf1 h2 i2
    have hseek2 := fs3_seek_open s2 fd fi (s.my_disk.files fi).pos hgf2
      (by rw [l2, f1]; exact hpos)
    obtain ⟨s3, hs3⟩ : ∃ s3 : State σ, s3 = setFile s2 fi { s2.my_disk.files fi with
        pos := (s.my_disk.files fi).pos } := ⟨_, rfl⟩
    rw [← hs3] at hseek2
    have f3 : s3.my_disk.files fi = { s2.my_disk.files fi with
        pos := (s.my_disk.files fi).pos } := by
      rw [hs3]; simp only [FS3.setFile, if_pos]
    have o3 : ∀ j, j ≠ fi → s3.my_disk.files j = s2.my_disk.files j := by
      intro j hj
      rw [hs3]; simp only [FS3.setFile, if_neg hj]
    have c3 : s3.fileHandleCounter = s2.fileHandleCounter := by rw [hs3]; rfl
    have m3 : s3.my_disk.mounted = s2.my_disk.mounted := by rw [hs3]; rfl
    have t3 : s3.my_disk.nextTrack = s2.my_disk.nextTrack := by rw [hs3]; rfl
    have u3 : s3.my_disk.nextSector = s2.my_disk.nextSector := by rw [hs3]; rfl
    rw [hseek2] at h
    simp only at h
    obtain ⟨s', hr, o4, f4, c4, m4, t4, u4⟩ :=
      fs3_write_send_table cfg sys fi buf count total s3 tb r hss hfit hnf hlt h
    have p3 : (s3.my_disk.files fi).pos = (s.my_disk.files fi).pos := by rw [f3]
    rw [p3] at hr f4
    have n1 : (s1.my_disk.files fi).numOfSectors = (s.my_disk.files fi).numOfSectors := by
      rw [f1]
    refine ⟨s', hr, ⟨rfl, ?_, ?_, ?_, ?_, ?_, ?_, ?_, ?_, ?_, ?_, ?_, ?_, ?_⟩⟩
    · intro j hj
      rw [o4 j hj, o3 j hj, o2 j hj, o1 j hj]
    · rw [f4, f3]; simp only; rw [n2, f1]
    · rw [f4, f3]; simp only; rw [h2, f1]
    · rw [f4, f3]; simp only; rw [i2, f1]
    · rw [f4]
    · rw [f4, f3]; simp only; rw [l2, f1]
    · rw [f4, f3]; simp only; rw [k2, f1]
    · intro j hj
      rw [f4, f3]; simp only
      rw [loc2 j (by rw [f1]; exact hj), f1]
    · intro e
      rw [f4, f3]; simp only
      rw [← n1, nl2 (by rw [n1]; exact e), t1, u1]
    · rw [t4, t3, t2, n1, g1]
      split <;> first | rfl | exact t1
    · rw [u4, u3, u2, n1, g1]
      split <;> first | rfl | exact u1
    · rw [c4, c3, c2, c1]
    · rw [m4, m3, m2, m1]

/-! ## The whole write over a never-failing transport -/

theorem WriteStep.keeps_sectors {σ : Type} {cfg : Config} {fi count total : Nat}
    {s s' : State σ} {total' : Nat} (h : WriteStep cfg fi count total s s' total')
    (hss : 0 < cfg.FS3_SECTOR_SIZE) (hlt : total < count)
    (hpos : (s.my_disk.files fi).pos ≤ (s.my_disk.files fi).length)
    (hN : (s.my_disk.files fi).numOfSectors = (sectorsFor cfg (s.my_disk.files fi).length : Int)) :
    (s'.my_disk.files fi).numOfSectors =
      (FS3.sectorsFor cfg (s'.my_disk.files fi).length : Int) := by
  obtain ⟨hb0, -, hroom⟩ := chunk_bounds cfg (s.my_disk.files fi).pos count total hss hlt
  rw [h.sectors, h.length, sectorsFor_step cfg _ _ _ hss hpos hb0 hroom, hN]
  unfold SECTOR_INDEX_NUMBER
  by_cases hc : (s.my_disk.files fi).pos / cfg.FS3_SECTOR_SIZE =
      FS3.sectorsFor cfg (s.my_disk.files fi).length
  · rw [if_pos hc, if_pos (by exact_mod_cast hc)]
    push_cast
    rfl
  · rw [if_neg hc, if_neg (by exact_mod_cast hc)]

theorem WriteEffect.of_zero {σ : Type} (cfg : Config) (fi : Nat) (s : State σ)
    (hpos : (s.my_disk.files fi).pos ≤ (s.my_disk.files fi).length)
    (hN : (s.my_disk.files fi).numOfSectors = (sectorsFor cfg (s.my_disk.files fi).length : Int)) :
    WriteEffect cfg fi 0 s s :=
  ⟨fun _ _ => rfl, rfl, rfl, rfl, rfl, by rw [Nat.add_zero]; omega, hN, fun _ _ => rfl, rfl, rfl⟩

theorem fs3_write_loop_table {σ : Type} (cfg : Config) (sys : Transport σ) (fd : Int)
    (fi : Nat) (buf : List Byte) (count : Nat)
    (hss : 0 < cfg.FS3_SECTOR_SIZE)
    (hfit : FS3_MAX_TRACK_SECTOR_PAIRS cfg * cfg.FS3_SECTOR_SIZE < 4294967296)
    (hnf : NeverFails sys) :
    ∀ (fuel : Nat) (s s' : State σ) (total : Nat) (rc : Int),
      get_file s.my_disk fd = some (some fi) →
      (s.my_disk.files fi).pos ≤ (s.my_disk.files fi).length →
      (s.my_disk.files fi).numOfSectors = (sectorsFor cfg (s.my_disk.files fi).length : Int) →
      total ≤ count →
      fs3_write_loop cfg sys fd fi buf count fuel s total = some (s', rc) →
      rc = (count : Int) ∧ WriteEffect cfg fi (count - total) s s' := by
  intro fuel
  induction fuel with
  | zero =>
    intro s s' total rc hgf hpos hN hle h
    simp only [fs3_write_loop] at h
    split at h
    · simp at h
    · simp only [Option.some.injEq, Prod.mk.injEq] at h
      obtain ⟨rfl, rfl⟩ := h
      have e : total = count := by omega
      subst e
      rw [Nat.sub_self]
      exact ⟨rfl, WriteEffect.of_zero cfg fi s hpos hN⟩
  | succ n ih =>
    intro s s' total rc hgf hpos hN hle h
    simp only [fs3_write_loop] at h
    split at h
    · rename_i hlt
      cases hb : fs3_write_body cfg sys fd fi buf count s total with
      | none => rw [hb] at h; simp at h
      | some r =>
        obtain ⟨s1, hr, hstep⟩ := fs3_write_body_table cfg sys fd fi buf count s total r hss
          hfit hnf hgf hpos hN hlt hb
        subst hr
        rw [hb] at h
        simp only at h
        obtain ⟨hb0, hb1, -⟩ := chunk_bounds cfg (s.my_disk.files fi).pos count total hss hlt
        have hgf1 : get_file s1.my_disk fd = some (some fi) :=
          get_file_keep s s1 fd fi hgf hstep.handle hstep.isOpen
        have hpos1 : (s1.my_disk.files fi).pos ≤ (s1.my_disk.files fi).length := by
          rw [hstep.pos, hstep.length]; omega
        have hN1 := hstep.keeps_sectors hss hlt hpos hN
        obtain ⟨hrc, heff⟩ := ih s1 s' _ rc hgf1 hpos1 hN1 hb1 h
        refine ⟨hrc, ⟨?_, ?_, ?_, ?_, ?_, ?_, heff.sectors, ?_, ?_, ?_⟩⟩
        · intro j hj
          rw [heff.others j hj, hstep.others j hj]
        · rw [heff.name, hstep.name]
        · rw [heff.handle, hstep.handle]
        · rw [heff.isOpen, hstep.isOpen]
        · rw [heff.pos, hstep.pos]; omega
        · rw [heff.length, hstep.length, hstep.pos]; omega
        · intro j hj
          have hmono : (s.my_disk.files fi).numOfSectors ≤ (s1.my_disk.files fi).numOfSectors := by
            rw [hstep.sectors]
            split <;> omega
          rw [heff.loc j (by omega), hstep.loc j hj]
        · rw [heff.counter, hstep.counter]
        · rw [heff.mounted, hstep.mounted]
    · simp only [Option.some.injEq, Prod.mk.injEq] at h
      obtain ⟨rfl, rfl⟩ := h
      have e : total = count := by omega
      subst e
      rw [Nat.sub_self]
      exact ⟨rfl, WriteEffect.of_zero cfg fi s hpos hN⟩

/-- Over a never-failing transport, a defined `fs3_write` of `count` bytes on an open
file whose position is within its length and whose sector count fits its length returns
`count` and has the effect `WriteEffect` on the file table. -/
theorem fs3_write_table {σ : Type} (cfg : Config) (sys : Transport σ) (s s' : State σ)
    (fd : Int) (fi : Nat) (buf : List Byte) (count : Nat) (rc : Int)
    (hss : 0 < cfg.FS3_SECTOR_SIZE)
    (hfit : FS3_MAX_TRACK_SECTOR_PAIRS cfg * cfg.FS3_SECTOR_SIZE < 4294967296)
    (hnf : NeverFails sys)
    (hgf : get_file s.my_disk fd = some (some fi))
    (hpos : (s.my_disk.files fi).pos ≤ (s.my_disk.files fi).length)
    (hN : (s.my_disk.files fi).numOfSectors = (sectorsFor cfg (s.my_disk.files fi).length : Int))
    (h : fs3_write cfg sys s fd buf count = some (s', rc)) :
    rc = (count : Int) ∧ WriteEffect cfg fi count s s' := by
  unfold fs3_write at h
  rw [hgf] at h
  simp only at h
  exact fs3_write_loop_table cfg sys fd fi buf count hss hfit hnf count s s' 0 rc hgf hpos hN
    (Nat.zero_le _) h

/-! ## Allocated sectors and file length -/

theorem SectorInv.of_fields {σ : Type} {cfg : Config} {s s' : State σ} (h : SectorInv cfg s)
    (hf : ∀ i, (s'.my_disk.files i).name = (s.my_disk.files i).name ∧
      (s'.my_disk.files i).numOfSectors = (s.my_disk.files i).numOfSectors ∧
      (s'.my_disk.files i).length = (s.my_disk.files i).length ∧
      ((s'.my_disk.files i).isOpen ≠ 0 →
        (s.my_disk.files i).isOpen ≠ 0 ∨ (s.my_disk.files i).name ≠ "")) :
    SectorInv cfg s' := by
  constructor
  · intro i hi
    obtain ⟨h1, -, -, h4⟩ := hf i
    rw [h1]
    rcases h4 hi with h5 | h5
    · exact h.openNamed i h5
    · exact h5
  · intro i hi
    obtain ⟨h1, h2, h3, -⟩ := hf i
    rw [h2, h3]
    rw [h1] at hi
    exact h.sectors i hi

theorem SectorInv.of_same_files {σ : Type} {cfg : Config} {s s' : State σ} (h : SectorInv cfg s)
    (hs : s'.my_disk.files = s.my_disk.files) : SectorInv cfg s' :=
  h.of_fields (fun i => by rw [hs]; exact ⟨rfl, rfl, rfl, Or.inl⟩)

theorem sectorsFor_zero (cfg : Config) (hss : 0 < cfg.FS3_SECTOR_SIZE) : sectorsFor cfg 0 = 1 := by
  unfold sectorsFor
  have : (0 + cfg.FS3_SECTOR_SIZE - 1) / cfg.FS3_SECTOR_SIZE = 0 := by
    rw [Nat.div_eq_zero_iff hss]
    omega
  rw [this]
  rfl

theorem fs3_mount_disk_sectors {σ : Type} (cfg : Config) (sys : Transport σ) (s : State σ)
    (h : SectorInv cfg s) : SectorInv cfg (fs3_mount_disk sys s).1 := by
  apply h.of_same_files
  unfold fs3_mount_disk
  simp only
  split
  · split
    · rfl
    · split
      · simp only [tseek_files]
      · rfl
  · rfl

theorem fs3_unmount_disk_sectors {σ : Type} (cfg : Config) (sys : Transport σ) (s : State σ)
    (h : SectorInv cfg s) : SectorInv cfg (fs3_unmount_disk sys s).1 := by
  unfold fs3_unmount_disk
  simp only
  split
  · split
    · exact h.of_same_files rfl
    · split
      · apply h.of_fields
        intro i
        dsimp only
        split
        · exact ⟨rfl, rfl, rfl, fun hc => absurd rfl hc⟩
        · exact ⟨rfl, rfl, rfl, Or.inl⟩
      · exact h.of_same_files rfl
  · exact h

theorem fs3_close_sectors {σ : Type} (cfg : Config) (s s' : State σ) (fd : Int) (rc : Int)
    (h : SectorInv cfg s) (hc : fs3_close s fd = some (s', rc)) : SectorInv cfg s' := by
  unfold fs3_close at hc
  split at hc
  · simp at hc
  · simp only [Option.some.injEq, Prod.mk.injEq] at hc
    obtain ⟨rfl, -⟩ := hc
    exact h
  · rename_i i _
    simp only [Option.some.injEq, Prod.mk.injEq] at hc
    obtain ⟨rfl, -⟩ := hc
    apply h.of_fields
    intro j
    by_cases hj : j = i
    · subst hj
      rw [setFile_files_self]
      exact ⟨rfl, rfl, rfl, fun hc => absurd rfl hc⟩
    · rw [setFile_files_other _ _ _ _ hj]
      exact ⟨rfl, rfl, rfl, Or.inl⟩

theorem fs3_seek_sectors {σ : Type} (cfg : Config) (s s' : State σ) (fd : Int) (loc : Nat)
    (rc : Int) (h : SectorInv cfg s) (hc : fs3_seek s fd loc = some (s', rc)) :
    SectorInv cfg s' := by
  unfold fs3_seek at hc
  split at hc
  · simp at hc
  · simp only [Option.some.injEq, Prod.mk.injEq] at hc
    obtain ⟨rfl, -⟩ := hc
    exact h
  · rename_i i _
    simp only at hc
    split at hc
    · simp only [Option.some.injEq, Prod.mk.injEq] at hc
      obtain ⟨rfl, -⟩ := hc
      apply h.of_fields
      intro j
      by_cases hj : j = i
      · subst hj
        rw [setFile_files_self]
        exact ⟨rfl, rfl, rfl, Or.inl⟩
      · rw [setFile_files_other _ _ _ _ hj]
        exact ⟨rfl, rfl, rfl, Or.inl⟩
    · simp only [Option.some.injEq, Prod.mk.injEq] at hc
      obtain ⟨rfl, -⟩ := hc
      exact h

theorem fs3_read_sectors {σ : Type} (cfg : Config) (sys : Transport σ) (s s' : State σ)
    (fd : Int) (buf b : List Byte) (count : Nat) (rc : Int) (h : SectorInv cfg s)
    (hr : fs3_read cfg sys s fd buf count = some (s', b, rc)) : SectorInv cfg s' := by
  rcases fs3_read_shape cfg sys s s' fd buf b count rc hr with hs | ⟨fi, s1, p, -, hs1, -, rfl⟩
  · exact h.of_same_files hs.1
  · have h1 := h.of_same_files hs1.1
    apply h1.of_fields
    intro j
    by_cases hj : j = fi
    · subst hj
      rw [setFile_files_self]
      exact ⟨rfl, rfl, rfl, Or.inl⟩
    · rw [setFile_files_other _ _ _ _ hj]
      exact ⟨rfl, rfl, rfl, Or.inl⟩

theorem fs3_open_sectors {σ : Type} (cfg : Config) (s s' : State σ) (path : String)
    (hnd : Int) (hss : 0 < cfg.FS3_SECTOR_SIZE) (hp : path ≠ "") (h : SectorInv cfg s)
    (ho : fs3_open cfg s path = some (s', hnd)) : SectorInv cfg s' := by
  unfold fs3_open at ho
  simp only at ho
  split at ho
  · rename_i i hfind
    have hname : (s.my_disk.files i).name = path := by
      have := (find_range_some _ _ _ hfind).2.1
      simpa using this
    split at ho
    · simp only [Option.some.injEq, Prod.mk.injEq] at ho
      obtain ⟨rfl, -⟩ := ho
      exact h
    · simp only [Option.some.injEq, Prod.mk.injEq] at ho
      obtain ⟨rfl, -⟩ := ho
      apply h.of_fields
      intro j
      by_cases hj : j = i
      · subst hj
        rw [setFile_files_self]
        exact ⟨rfl, rfl, rfl, fun _ => Or.inr (by rw [hname]; exact hp)⟩
      · rw [setFile_files_other _ _ _ _ hj]
        exact ⟨rfl, rfl, rfl, Or.inl⟩
  · split at ho
    · simp at ho
    · rename_i k hfind
      split at ho
      · simp at ho
      · split at ho
        · simp only [Option.some.injEq, Prod.mk.injEq] at ho
          obtain ⟨rfl, -⟩ := ho
          constructor
          · intro j hj
            by_cases hjk : j = k
            · subst hjk
              simp only [FS3.setFile, if_pos]
              exact hp
            · simp only [FS3.setFile, if_neg hjk, get_free_files] at hj ⊢
              exact h.openNamed j hj
          · intro j hj
            by_cases hjk : j = k
            · subst hjk
              simp only [FS3.setFile, if_pos]
              rw [sectorsFor_zero cfg hss]
              rfl
            · simp only [FS3.setFile, if_neg hjk, get_free_files] at hj ⊢
              exact h.sectors j hj
        · rename_i hne
          exact absurd (get_free_rc cfg _) hne

theorem fs3_write_sectors {σ : Type} (cfg : Config) (sys : Transport σ) (s s' : State σ)
    (fd : Int) (buf : List Byte) (count : Nat) (rc : Int)
    (hss : 0 < cfg.FS3_SECTOR_SIZE)
    (hfit : FS3_MAX_TRACK_SECTOR_PAIRS cfg * cfg.FS3_SECTOR_SIZE < 4294967296)
    (hnf : NeverFails sys) (hinv : DriverInv s) (h : SectorInv cfg s)
    (hw : fs3_write cfg sys s fd buf count = some (s', rc)) : SectorInv cfg s' := by
  cases hgf : get_file s.my_disk fd with
  | none => unfold fs3_write at hw; rw [hgf] at hw; simp at hw
  | some o =>
    cases o with
    | none =>
      unfold fs3_write at hw
      rw [hgf] at hw
      simp only [Option.some.injEq, Prod.mk.injEq] at hw
      obtain ⟨rfl, -⟩ := hw
      exact h
    | some fi =>
      obtain ⟨-, -, -, hopen⟩ := get_file_open s fd fi hgf
      have hname := h.openNamed fi hopen
      obtain ⟨-, heff⟩ := fs3_write_table cfg sys s s' fd fi buf count rc hss hfit hnf hgf
        (hinv.posLe fi) (h.sectors fi hname) hw
      constructor
      · intro j hj
        by_cases hjf : j = fi
        · subst hjf
          rw [heff.name]
          exact hname
        · rw [heff.others j hjf] at hj ⊢
          exact h.openNamed j hj
      · intro j hj
        by_cases hjf : j = fi
        · subst hjf
          exact heff.sectors
        · rw [heff.others j hjf] at hj ⊢
          exact h.sectors j hj

theorem driverStep_sectors {σ : Type} (cfg : Config) (sys : Transport σ) (s s' : State σ)
    (op : DriverOp) (hss : 0 < cfg.FS3_SECTOR_SIZE)
    (hfit : FS3_MAX_TRACK_SECTOR_PAIRS cfg * cfg.FS3_SECTOR_SIZE < 4294967296)
    (hnf : NeverFails sys) (hop : op.named) (hinv : DriverInv s) (h : SectorInv cfg s)
    (hs : driverStep cfg sys s op = some s') : SectorInv cfg s' := by
  cases op with
  | mount =>
    simp only [driverStep, Option.some.injEq] at hs
    subst hs
    exact fs3_mount_disk_sectors cfg sys s h
  | unmount =>
    simp only [driverStep, Option.some.injEq] at hs
    subst hs
    exact fs3_unmount_disk_sectors cfg sys s h
  | fopen path =>
    simp only [driverStep, Option.map_eq_some'] at hs
    obtain ⟨⟨s1, hnd⟩, h1, rfl⟩ := hs
    exact fs3_open_sectors cfg s s1 path hnd hss hop h h1
  | fclose fd =>
    simp only [driverStep, Option.map_eq_some'] at hs
    obtain ⟨⟨s1, rc⟩, h1, rfl⟩ := hs
    exact fs3_close_sectors cfg s s1 fd rc h h1
  | fread fd buf count =>
    simp only [driverStep, Option.map_eq_some'] at hs
    obtain ⟨⟨s1, b, rc⟩, h1, rfl⟩ := hs
    exact fs3_read_sectors cfg sys s s1 fd buf b count rc h h1
  | fwrite fd buf count =>
    simp only [driverStep, Option.map_eq_some'] at hs
    obtain ⟨⟨s1, rc⟩, h1, rfl⟩ := hs
    exact fs3_write_sectors cfg sys s s1 fd buf count rc hss hfit hnf hinv h h1
  | fseek fd loc =>
    simp only [driverStep, Option.map_eq_some'] at hs
    obtain ⟨⟨s1, rc⟩, h1, rfl⟩ := hs
    exact fs3_seek_sectors cfg s s1 fd loc rc h h1

theorem driverRun_sectors {σ : Type} (cfg : Config) (sys : Transport σ)
    (hss : 0 < cfg.FS3_SECTOR_SIZE)
    (hfit : FS3_MAX_TRACK_SECTOR_PAIRS cfg * cfg.FS3_SECTOR_SIZE < 4294967296)
    (hnf : NeverFails sys) (ops : List DriverOp) :
    ∀ (s s' : State σ), (∀ op ∈ ops, op.named) → DriverInv s → SectorInv cfg s →
      driverRun cfg sys s ops = some s' → DriverInv s' ∧ SectorInv cfg s' := by
  induction ops with
  | nil =>
    intro s s' _ hinv h hr
    simp only [driverRun, Option.some.injEq] at hr
    subst hr
    exact ⟨hinv, h⟩
  | cons op ops ih =>
    intro s s' hn hinv h hr
    simp only [driverRun] at hr
    split at hr
    · simp at hr
    · rename_i s1 hs
      have inv1 := (driverStep_keeps cfg sys s s1 op hinv hs).1
      have h1 := driverStep_sectors cfg sys s s1 op hss hfit hnf
        (hn op (List.mem_cons_self _ _)) hinv h hs
      exact ih s1 s' (fun o ho => hn o (List.mem_cons_of_mem _ ho)) inv1 h1 hr

theorem boot_sectors {σ : Type} (cfg : Config) (c : CACHE) (w : σ) :
    SectorInv cfg (State.boot c w) := by
  constructor
  · intro i hi
    exact absurd rfl hi
  · intro i hi
    exact absurd rfl hi

theorem reach_sectors {σ : Type} (cfg : Config) (sys : Transport σ) (c : CACHE) (w : σ)
    (ops : List DriverOp) (s : State σ) (hss : 0 < cfg.FS3_SECTOR_SIZE)
    (hfit : FS3_MAX_TRACK_SECTOR_PAIRS cfg * cfg.FS3_SECTOR_SIZE < 4294967296)
    (hnf : NeverFails sys) (hnamed : ∀ op ∈ ops, op.named)
    (hrun : driverRun cfg sys (State.boot c w) ops = some s) :
    DriverInv s ∧ SectorInv cfg s :=
  driverRun_sectors cfg sys hss hfit hnf ops _ s hnamed (boot_inv c w) (boot_sectors cfg c w)
    hrun

theorem decoded_bounds (cmd : Nat) :
    (deconstruct_fs3cmdblock cmd).2.op < 16 ∧ (deconstruct_fs3cmdblock cmd).2.sec < 2 ^ 16 ∧
    (deconstruct_fs3cmdblock cmd).2.trk < 2 ^ 32 ∧ (deconstruct_fs3cmdblock cmd).2.ret < 2 := by
  rw [deconstruct_eq]
  simp only
  refine ⟨?_, ?_, ?_, ?_⟩ <;> omega

theorem ok_word_status (op sec trk : Nat) (hop : op < 16) (hsec : sec < 2 ^ 16)
    (htrk : trk < 2 ^ 32) :
    (deconstruct_fs3cmdblock (construct_fs3cmdblock op sec trk 0)).2.ret = 0 := by
  rw [construct_eq_sum op sec trk 0 hop hsec htrk (by decide), deconstruct_eq]
  simp only
  omega

theorem controller_never_fails (cfg : Config) : NeverFails (controller cfg) := by
  intro w cmd buf
  obtain ⟨h1, h2, h3, -⟩ := decoded_bounds cmd
  have hret := ok_word_status _ _ _ h1 h2 h3
  unfold controller
  simp only
  split
  · exact ⟨by simp, hret⟩
  · split
    · exact ⟨by simp, hret⟩
    · split
      · exact ⟨by simp, hret⟩
      · exact ⟨by simp, hret⟩

/-- C26 (write allocates exactly the sectors it needs): in every state reached from the
start-up state over a never-failing transport by defined calls that never open the
empty name, every created file record has
`numOfSectors = max(1, ceil(length / FS3_SECTOR_SIZE))`; and an iteration of the loop of
`fs3_write` on an open file goes through and appends a sector, the pair at the
allocation cursor, advancing the cursor, exactly when the sector index of the position
equals the sector count, leaving sector count and cursor unchanged otherwise. Sizes are
such that a file of `FS3_MAX_TRACK_SECTOR_PAIRS` sectors has a 32-bit length. -/
theorem sectors_match_length {σ : Type} (cfg : Config) (sys : Transport σ) (c : CACHE) (w : σ)
    (ops : List DriverOp) (s : State σ) (hss : 0 < cfg.FS3_SECTOR_SIZE)
    (hfit : FS3_MAX_TRACK_SECTOR_PAIRS cfg * cfg.FS3_SECTOR_SIZE < 4294967296)
    (hnf : NeverFails sys) (hnamed : ∀ op ∈ ops, op.named)
    (hrun : driverRun cfg sys (State.boot c w) ops = some s) :
    (∀ i : Nat, (i : Int) < s.fileHandleCounter →
      (s.my_disk.files i).numOfSectors =
        ((max 1 (((s.my_disk.files i).length + cfg.FS3_SECTOR_SIZE - 1) /
          cfg.FS3_SECTOR_SIZE) : Nat) : Int)) ∧
    (∀ (fd : Int) (fi : Nat) (buf : List Byte) (count total : Nat)
        (r : State σ ⊕ (State σ × Nat)),
      get_file s.my_disk fd = some (some fi) → total < count →
      fs3_write_body cfg sys fd fi buf count s total = some r →
      ∃ (s' : State σ) (total' : Nat), r = .inr (s', total') ∧
        (s'.my_disk.files fi).numOfSectors =
          (if SECTOR_INDEX_NUMBER cfg (s.my_disk.files fi).pos =
              (s.my_disk.files fi).numOfSectors
           then (s.my_disk.files fi).numOfSectors + 1 else (s.my_disk.files fi).numOfSectors) ∧
        (SECTOR_INDEX_NUMBER cfg (s.my_disk.files fi).pos = (s.my_disk.files fi).numOfSectors →
          (s'.my_disk.files fi).loc (s.my_disk.files fi).numOfSectors.toNat =
            ⟨s.my_disk.nextTrack, s.my_disk.nextSector⟩) ∧
        s'.my_disk.nextTrack =
          (if SECTOR_INDEX_NUMBER cfg (s.my_disk.files fi).pos =
              (s.my_disk.files fi).numOfSectors
           then (get_free_track_sector_pair cfg s.my_disk).1.nextTrack
           else s.my_disk.nextTrack) ∧
        s'.my_disk.nextSector =
          (if SECTOR_INDEX_NUMBER cfg (s.my_disk.files fi).pos =
              (s.my_disk.files fi).numOfSectors
           then (get_free_track_sector_pair cfg s.my_disk).1.nextSector
           else s.my_disk.nextSector)) := by
  obtain ⟨hinv, hsec⟩ := reach_sectors cfg sys c w ops s hss hfit hnf hnamed hrun
  constructor
  · intro i hi
    exact hsec.sectors i (hinv.named i hi).1
  · intro fd fi buf count total r hgf hlt hb
    obtain ⟨-, -, -, hopen⟩ := get_file_open s fd fi hgf
    obtain ⟨s', hr, hstep⟩ := fs3_write_body_table cfg sys fd fi buf count s total r hss hfit
      hnf hgf (hinv.posLe fi) (hsec.sectors fi (hsec.openNamed fi hopen)) hlt hb
    exact ⟨s', _, hr, hstep.sectors, hstep.newLoc, hstep.nextTrack, hstep.nextSector⟩

/-- Witness for C26: two files over the faithful controller, one written twice. -/
theorem sectors_match_length_witness :
    (0 < Config.standard.FS3_SECTOR_SIZE ∧
      FS3_MAX_TRACK_SECTOR_PAIRS Config.standard * Config.standard.FS3_SECTOR_SIZE <
        4294967296 ∧
      NeverFails (controller Config.standard) ∧
      (∀ op ∈ sectorOps, op.named) ∧
      driverRun Config.standard (controller Config.standard)
        (State.boot CACHE.zero (Controller.blank Config.standard)) sectorOps =
        some (driverAfter Config.standard sectorOps)) ∧
    (driverAfter Config.standard sectorOps).fileHandleCounter = 2 ∧
    ((driverAfter Config.standard sectorOps).my_disk.files 0).length = 7 ∧
    ∀ i : Nat, (i : Int) < (driverAfter Config.standard sectorOps).fileHandleCounter →
      ((driverAfter Config.standard sectorOps).my_disk.files i).numOfSectors =
        ((max 1 ((((driverAfter Config.standard sectorOps).my_disk.files i).length +
          Config.standard.FS3_SECTOR_SIZE - 1) / Config.standard.FS3_SECTOR_SIZE) : Nat) : Int) :=
  ⟨⟨by decide, by decide, controller_never_fails Config.standard,
      by simp [sectorOps, DriverOp.named], some_getD_of_isSome _ _ (by decide)⟩,
    by decide, by decide,
    (sectors_match_length Config.standard (controller Config.standard) CACHE.zero
      (Controller.blank Config.standard) sectorOps (driverAfter Config.standard sectorOps)
      (by decide) (by decide) (controller_never_fails Config.standard)
      (by simp [sectorOps, DriverOp.named]) (some_getD_of_isSome _ _ (by decide))).1⟩

/-! ## Reads that start on a sector boundary -/

/-- An iteration of the loop of `fs3_read` is the fetch of the sector followed by the
copy into `file_buf`. -/
theorem fs3_read_body_eq {σ : Type} (cfg : Config) (sys : Transport σ) (fi i : Nat)
    (s : State σ) (v : ReadVars) :
    fs3_read_body cfg sys fi i s v =
      if i < FS3_MAX_TRACK_SECTOR_PAIRS cfg then
        match fs3_fetch cfg sys ((s.my_disk.files fi).loc i) s v.temp_buf with
        | none => none
        | some (.inl s1) => some (.inl s1)
        | some (.inr (s1, tb)) =>
          match fs3_read_combine cfg { v with temp_buf := tb } with
          | none => none
          | some v1 => some (.inr (s1, v1))
      else none := by
  unfold fs3_read_body fs3_fetch
  simp only
  split
  · cases hg : fs3_get_cache cfg s.myCache ((s.my_disk.files fi).loc i).trackIndex
        ((s.my_disk.files fi).loc i).sectorIndex with
    | none => rfl
    | some r =>
      obtain ⟨c1, cr⟩ := r
      cases cr with
      | none =>
        simp only
        generalize (if ((s.my_disk.files fi).loc i).trackIndex ≠ s.my_disk.currentTrackIndex
          then (tseek sys ({ s with myCache := c1 } : State σ)
            ((s.my_disk.files fi).loc i).trackIndex).1
          else ({ s with myCache := c1 } : State σ)) = s2
        generalize sys s2.net (construct_fs3cmdblock FS3_OP_RDSECT
          ((s.my_disk.files fi).loc i).sectorIndex 0 0) v.temp_buf = r
        by_cases h1 : r.rc = -1
        · simp only [h1, if_true]
        · simp only [h1, if_false]
          by_cases h2 : (deconstruct_fs3cmdblock r.ret).2.ret = 0
          · simp only [h2, if_true]
            cases fs3_put_cache cfg s2.myCache ((s.my_disk.files fi).loc i).trackIndex
              ((s.my_disk.files fi).loc i).sectorIndex r.buf with
            | none => rfl
            | some q => rfl
          · simp only [h2, if_false]
      | some bytes =>
        simp only
        cases memcpy v.temp_buf 0 bytes 0 cfg.FS3_SECTOR_SIZE with
        | none => rfl
        | some tb => rfl
  · rfl

theorem fs3_fetch_same {σ : Type} (cfg : Config) (sys : Transport σ) (p : TRACK_SECTOR_PAIR)
    (s : State σ) (tb : List Byte) (r : State σ ⊕ (State σ × List Byte))
    (h : fs3_fetch cfg sys p s tb = some r) :
    SameTable s (match r with | .inl s1 => s1 | .inr (s1, _) => s1) := by
  unfold fs3_fetch at h
  simp only at h
  repeat' (split at h)
  all_goals first
    | (simp at h; done)
    | (simp only [Option.some.injEq] at h
       subst h
       simp only [SameTable, tseek_files, tseek_nextTrack, tseek_nextSector, tseek_counter,
         tseek_mounted, and_self])

theorem sector_index_aligned (cfg : Config) (q c : Nat) (hc : c < cfg.FS3_SECTOR_SIZE) :
    SECTOR_INDEX_NUMBER cfg (q * cfg.FS3_SECTOR_SIZE + c) = (q : Int) := by
  unfold SECTOR_INDEX_NUMBER
  have hss : 0 < cfg.FS3_SECTOR_SIZE := by omega
  rw [Nat.add_comm, Nat.add_mul_div_right _ _ hss, Nat.div_eq_of_lt hc, Nat.zero_add]

theorem sector_index_start (cfg : Config) (q : Nat) (hss : 0 < cfg.FS3_SECTOR_SIZE) :
    SECTOR_INDEX_NUMBER cfg (q * cfg.FS3_SECTOR_SIZE) = (q : Int) := by
  have h := sector_index_aligned cfg q 0 hss
  rwa [Nat.add_zero] at h

theorem sector_index_next (cfg : Config) (q : Nat) (hss : 0 < cfg.FS3_SECTOR_SIZE) :
    SECTOR_INDEX_NUMBER cfg (q * cfg.FS3_SECTOR_SIZE + cfg.FS3_SECTOR_SIZE) =
      ((q + 1 : Nat) : Int) := by
  have h := sector_index_start cfg (q + 1) hss
  rwa [Nat.add_mul, Nat.one_mul] at h

theorem malloc_length (n : Nat) : (malloc n).length = n := by
  unfold malloc
  exact List.length_replicate _ _

/-- Copying `n` bytes from the start of `src` to the start of `dst`. -/
theorem memcpy_head (dst src : List Byte) (n : Nat) (hd : n ≤ dst.length)
    (hs : n ≤ src.length) : memcpy dst 0 src 0 n = some (src.take n ++ dst.drop n) := by
  unfold memcpy
  rw [if_pos ⟨by omega, by omega⟩]
  simp

/-- A read of no bytes at the start of a sector fetches nothing and changes nothing but
the stored position, to the value it has. -/
theorem fs3_read_none {σ : Type} (cfg : Config) (sys : Transport σ) (s : State σ)
    (fd : Int) (fi q : Nat) (buf : List Byte)
    (hss : 0 < cfg.FS3_SECTOR_SIZE)
    (hgf : get_file s.my_disk fd = some (some fi))
    (hpos : (s.my_disk.files fi).pos = q * cfg.FS3_SECTOR_SIZE)
    (hlen : (s.my_disk.files fi).pos ≤ (s.my_disk.files fi).length)
    (h32 : (s.my_disk.files fi).pos < 4294967296) :
    fs3_read cfg sys s fd buf 0 =
      some (setFile s fi { s.my_disk.files fi with pos := (s.my_disk.files fi).pos }, buf, 0) := by
  unfold fs3_read
  rw [hgf]
  simp only [Nat.add_zero, Nat.zero_mod, if_true]
  rw [u32_of_lt _ h32, hpos, sector_index_start cfg q hss]
  simp only [sub_self, add_zero, one_mul, sub_add_cancel, Int.toNat_zero, fs3_read_loop,
    Int.toNat_ofNat]
  rw [if_neg (by omega)]
  rw [hpos] at h32 hlen
  have hoff : u32sub (q * cfg.FS3_SECTOR_SIZE) (u32 ((SECTOR_INDEX_NUMBER cfg
      (q * cfg.FS3_SECTOR_SIZE)).toNat * cfg.FS3_SECTOR_SIZE)) = 0 := by
    rw [sector_index_start cfg q hss, Int.toNat_ofNat, u32_of_lt _ h32]
    unfold u32sub u32
    omega
  rw [hpos, u32_of_lt _ h32, if_neg (by omega), hoff]
  have hm : memcpy buf 0 (malloc cfg.FS3_SECTOR_SIZE) 0 0 = some buf := by
    rw [memcpy_head _ _ _ (Nat.zero_le _) (Nat.zero_le _)]
    simp
  rw [hm]
  rfl

/-- One iteration of the loop of `fs3_read` that starts with an empty `file_buf` of at
least one sector: the sector fetched is at the front of `file_buf` afterwards. -/
theorem fs3_read_loop_once {σ : Type} (cfg : Config) (sys : Transport σ) (s s1 : State σ)
    (fi q T : Nat) (tb : List Byte)
    (hT : cfg.FS3_SECTOR_SIZE ≤ T)
    (hq : q < FS3_MAX_TRACK_SECTOR_PAIRS cfg)
    (hf : fs3_fetch cfg sys ((s.my_disk.files fi).loc q) s (malloc cfg.FS3_SECTOR_SIZE) =
      some (.inr (s1, tb)))
    (htb : cfg.FS3_SECTOR_SIZE ≤ tb.length) :
    ∃ v, fs3_read_loop cfg sys fi 1 q s ⟨malloc cfg.FS3_SECTOR_SIZE, malloc T, (T : Int), 0⟩ =
        some (.inr (s1, v)) ∧
      v.file_buf.take cfg.FS3_SECTOR_SIZE = tb.take cfg.FS3_SECTOR_SIZE ∧
      cfg.FS3_SECTOR_SIZE ≤ v.file_buf.length := by
  simp only [fs3_read_loop]
  rw [fs3_read_body_eq, if_pos hq]
  simp only
  rw [hf]
  simp only
  unfold fs3_read_combine
  simp only
  have hlen : ((tb.take cfg.FS3_SECTOR_SIZE) ++ (malloc T).drop cfg.FS3_SECTOR_SIZE).length = T := by
    rw [List.length_append, List.length_take, List.length_drop, malloc_length]
    omega
  have htake : ((tb.take cfg.FS3_SECTOR_SIZE) ++ (malloc T).drop cfg.FS3_SECTOR_SIZE).take
      cfg.FS3_SECTOR_SIZE = tb.take cfg.FS3_SECTOR_SIZE := by
    rw [List.take_append_of_le_length (by rw [List.length_take]; omega)]
    rw [List.take_take, Nat.min_self]
  by_cases hgt : (T : Int) > cfg.FS3_SECTOR_SIZE
  · rw [if_pos hgt, memcpy_head _ _ _ (by rw [malloc_length]; exact hT) htb]
    simp only
    exact ⟨_, rfl, htake, by rw [hlen]; exact hT⟩
  · have e : T = cfg.FS3_SECTOR_SIZE := by omega
    subst e
    rw [if_neg hgt, if_neg (by omega), Int.toNat_ofNat,
      memcpy_head _ _ _ (by rw [malloc_length]) htb]
    simp only
    exact ⟨_, rfl, htake, by rw [hlen]⟩

/-- A read of `c` bytes, `0 < c ≤ FS3_SECTOR_SIZE`, that starts at the first byte of the
sector of index `q` and ends within the file runs its loop once, for index `q`, and
delivers the first `c` bytes of what the fetch left in `temp_buf`. -/
theorem fs3_read_aligned {σ : Type} (cfg : Config) (sys : Transport σ) (s s1 : State σ)
    (fd : Int) (fi q c : Nat) (buf tb : List Byte)
    (hfit : FS3_MAX_TRACK_SECTOR_PAIRS cfg * cfg.FS3_SECTOR_SIZE < 4294967296)
    (hgf : get_file s.my_disk fd = some (some fi))
    (hpos : (s.my_disk.files fi).pos = q * cfg.FS3_SECTOR_SIZE)
    (hc0 : 0 < c) (hc : c ≤ cfg.FS3_SECTOR_SIZE)
    (hlen : q * cfg.FS3_SECTOR_SIZE + c ≤ (s.my_disk.files fi).length)
    (hq : q < FS3_MAX_TRACK_SECTOR_PAIRS cfg)
    (hf : fs3_fetch cfg sys ((s.my_disk.files fi).loc q) s (malloc cfg.FS3_SECTOR_SIZE) =
      some (.inr (s1, tb)))
    (htb : cfg.FS3_SECTOR_SIZE ≤ tb.length) (hbuf : c ≤ buf.length) :
    fs3_read cfg sys s fd buf c =
      some (setFile s1 fi { s1.my_disk.files fi with pos := q * cfg.FS3_SECTOR_SIZE + c },
        tb.take c ++ buf.drop c, (c : Int)) := by
  have hss : 0 < cfg.FS3_SECTOR_SIZE := by omega
  have hsame := fs3_fetch_same cfg sys _ s _ _ hf
  simp only at hsame
  have hfiles : s1.my_disk.files = s.my_disk.files := hsame.1
  have hq1 : q * cfg.FS3_SECTOR_SIZE + cfg.FS3_SECTOR_SIZE ≤
      FS3_MAX_TRACK_SECTOR_PAIRS cfg * cfg.FS3_SECTOR_SIZE := by
    have h1 : (q + 1) * cfg.FS3_SECTOR_SIZE ≤
        FS3_MAX_TRACK_SECTOR_PAIRS cfg * cfg.FS3_SECTOR_SIZE := Nat.mul_le_mul_right _ hq
    rwa [Nat.add_mul, Nat.one_mul] at h1
  have h32 : q * cfg.FS3_SECTOR_SIZE + c < 4294967296 := by omega
  have h32a : q * cfg.FS3_SECTOR_SIZE < 4294967296 := by omega
  have hoff : u32sub (q * cfg.FS3_SECTOR_SIZE) (u32 ((SECTOR_INDEX_NUMBER cfg
      (q * cfg.FS3_SECTOR_SIZE)).toNat * cfg.FS3_SECTOR_SIZE)) = 0 := by
    rw [sector_index_start cfg q hss, Int.toNat_ofNat, u32_of_lt _ h32a]
    unfold u32sub u32
    omega
  unfold fs3_read
  rw [hgf]
  simp only
  rw [hpos, u32_of_lt _ h32, sector_index_start cfg q hss]
  have hfin : ∀ (v : ReadVars), v.file_buf.take cfg.FS3_SECTOR_SIZE = tb.take cfg.FS3_SECTOR_SIZE →
      cfg.FS3_SECTOR_SIZE ≤ v.file_buf.length →
      memcpy buf 0 v.file_buf 0 c = some (tb.take c ++ buf.drop c) := by
    intro v h1 h2
    rw [memcpy_head _ _ _ hbuf (by omega)]
    have e : v.file_buf.take c = tb.take c := by
      have e1 : (v.file_buf.take cfg.FS3_SECTOR_SIZE).take c =
          (tb.take cfg.FS3_SECTOR_SIZE).take c := by rw [h1]
      rwa [List.take_take, List.take_take, Nat.min_eq_left hc] at e1
    rw [e]
  by_cases hcs : c = cfg.FS3_SECTOR_SIZE
  · subst hcs
    rw [sector_index_next cfg q hss]
    simp only [Nat.mod_self, if_true, Nat.cast_add, Nat.cast_one, add_sub_cancel_right,
      add_sub_cancel_left, Int.toNat_ofNat, Int.toNat_one]
    have e : ((1 : Int) + 1) * (cfg.FS3_SECTOR_SIZE : Int) =
        ((2 * cfg.FS3_SECTOR_SIZE : Nat) : Int) := by push_cast; ring
    rw [e, Int.toNat_ofNat, if_neg (by omega)]
    obtain ⟨v, hv, hv1, hv2⟩ := fs3_read_loop_once cfg sys s s1 fi q (2 * cfg.FS3_SECTOR_SIZE) tb
      (by omega) hq hf htb
    rw [hv]
    simp only
    rw [hfiles, hpos, u32_of_lt _ h32, if_neg (by omega), hoff, hfin v hv1 hv2]
  · have hlt : c < cfg.FS3_SECTOR_SIZE := by omega
    rw [sector_index_aligned cfg q c hlt]
    have hmod : c % cfg.FS3_SECTOR_SIZE ≠ 0 := by
      rw [Nat.mod_eq_of_lt hlt]; omega
    simp only [hmod, if_false, sub_self, add_zero, one_mul, add_sub_cancel_left,
      Int.toNat_ofNat, Int.toNat_one]
    rw [if_neg (by omega)]
    obtain ⟨v, hv, hv1, hv2⟩ := fs3_read_loop_once cfg sys s s1 fi q cfg.FS3_SECTOR_SIZE tb
      (Nat.le_refl _) hq hf htb
    rw [hv]
    simp only
    rw [hfiles, hpos, u32_of_lt _ h32, if_neg (by omega), hoff, hfin v hv1 hv2]

theorem CacheReady.mono {cfg : Config} {c : CACHE} {n m : Nat} (h : CacheReady cfg c n)
    (hm : m ≤ n) : CacheReady cfg c m := by
  intro hi
  obtain ⟨h1, h2, h3, h4, h5, h6⟩ := h hi
  exact ⟨h1, h2, by omega, by omega, by omega, by omega⟩

theorem get_ready (cfg : Config) (c : CACHE) (n : Nat) (p : TRACK_SECTOR_PAIR)
    (h : CacheReady cfg c (n + 1)) (hp : PairOK cfg p) :
    ∃ c' r, fs3_get_cache cfg c p.trackIndex p.sectorIndex = some (c', r) ∧
      CacheReady cfg c' n ∧ ∀ b, r = some b → b.length = cfg.FS3_SECTOR_SIZE := by
  by_cases hi : c.initialized = 1
  · obtain ⟨⟨ls, hinv⟩, hsz, hins, hg, hh, hm⟩ := h hi
    unfold INT_MAX at hins hg hh hm
    obtain ⟨c', r, e⟩ := get_defined p.trackIndex p.sectorIndex hinv hp.1 hp.2
      (by unfold INT_MAX; omega) (by unfold INT_MAX; omega) (by unfold INT_MAX; omega)
    have hinv' := get_inv hinv e
    obtain ⟨-, -, -, hcase⟩ := get_cases hinv e
    refine ⟨c', r, e, ?_, ?_⟩
    · intro _
      rcases hcase with ⟨-, -, -, rfl⟩ | ⟨-, -, -, rfl⟩
      · exact ⟨⟨ls, hinv'⟩, hsz, by unfold INT_MAX; dsimp only; omega,
          by unfold INT_MAX; dsimp only; omega, by unfold INT_MAX; dsimp only; omega,
          by unfold INT_MAX; dsimp only; omega⟩
      · exact ⟨⟨ls, hinv'⟩, hsz, by unfold INT_MAX; dsimp only; omega,
          by unfold INT_MAX; dsimp only; omega, by unfold INT_MAX; dsimp only; omega,
          by unfold INT_MAX; dsimp only; omega⟩
    · intro b hb
      rcases hcase with ⟨hc1, -, ⟨line, b', hl, hsb, hr⟩, -⟩ | ⟨-, -, hr, -⟩
      · obtain ⟨hlt, -⟩ := hinv.index _ _ hc1
        obtain ⟨line2, b2, hl2, -, -, -, hsb2, hlen2⟩ := hinv.slot _ hlt
        rw [hl] at hl2
        simp only [Option.some.injEq] at hl2
        subst hl2
        rw [hsb] at hsb2
        simp only [Option.some.injEq] at hsb2
        subst hsb2
        rw [hr] at hb
        simp only [Option.some.injEq] at hb
        subst hb
        exact hlen2
      · rw [hr] at hb
        simp at hb
  · refine ⟨c, none, ?_, fun h1 => absurd h1 hi, fun b hb => by simp at hb⟩
    unfold fs3_get_cache
    rw [if_neg hi]

theorem put_ready (cfg : Config) (c : CACHE) (n : Nat) (p : TRACK_SECTOR_PAIR)
    (buf : List Byte) (h : CacheReady cfg c (n + 1)) (hp : PairOK cfg p)
    (hlen : cfg.FS3_SECTOR_SIZE ≤ buf.length) :
    ∃ c' rc, fs3_put_cache cfg c p.trackIndex p.sectorIndex buf = some (c', rc) ∧
      CacheReady cfg c' n := by
  by_cases hi : c.initialized = 1
  · obtain ⟨⟨ls, hinv⟩, hsz, hins, hg, hh, hm⟩ := h hi
    unfold INT_MAX at hins hg hh hm
    obtain ⟨c', e⟩ := put_defined p.trackIndex p.sectorIndex buf hinv hsz hp.1 hp.2 hlen
      (by unfold INT_MAX; omega)
    obtain ⟨ls', hinv'⟩ := put_inv hinv e
    obtain ⟨-, -, -, -, hcase⟩ := put_cases hinv e
    have hcnt : c'.size = c.size ∧ c'.stats.inserts ≤ c.stats.inserts + 1 ∧
        c'.stats.gets = c.stats.gets ∧ c'.stats.hits = c.stats.hits ∧
        c'.stats.misses = c.stats.misses := by
      rcases hcase with ⟨-, _, -, hc⟩ | ⟨-, -, -, _, -, hc⟩ | ⟨-, -, -, hc⟩
      · rw [hc]; exact ⟨rfl, by dsimp only; omega, rfl, rfl, rfl⟩
      · rw [hc]; exact ⟨rfl, by dsimp only; omega, rfl, rfl, rfl⟩
      · rw [hc]; exact ⟨rfl, by dsimp only; omega, rfl, rfl, rfl⟩
    obtain ⟨k1, k2, k3, k4, k5⟩ := hcnt
    refine ⟨c', 0, e, ?_⟩
    intro _
    exact ⟨⟨ls', hinv'⟩, by omega, by unfold INT_MAX; omega, by unfold INT_MAX; omega,
      by unfold INT_MAX; omega, by unfold INT_MAX; omega⟩
  · refine ⟨c, -1, ?_, fun h1 => absurd h1 hi⟩
    unfold fs3_put_cache
    rw [if_neg hi]

theorem tseek_net {σ : Type} (sys : Transport σ) (s : State σ) (t : Nat) :
    (tseek sys s t).1.net = (sys s.net (construct_fs3cmdblock FS3_OP_TSEEK 0 t 0) []).net := by
  unfold tseek
  simp only
  split
  · rfl
  · split <;> rfl

theorem tseek_cache {σ : Type} (sys : Transport σ) (s : State σ) (t : Nat) :
    (tseek sys s t).1.myCache = s.myCache := by
  unfold tseek
  simp only
  split
  · rfl
  · split <;> rfl

/-- Over a never-failing, size-keeping transport, the fetch of an in-range sector into
a fresh `temp_buf` is defined, does not return early, and leaves a sector-sized
buffer; it uses up at most two calls of the cache. -/
theorem fs3_fetch_ready {σ : Type} (cfg : Config) (sys : Transport σ) (I : σ → Prop)
    (p : TRACK_SECTOR_PAIR) (s : State σ) (n : Nat)
    (hnf : NeverFails sys) (hk : KeepsSize cfg sys I) (hI : I s.net)
    (hc : CacheReady cfg s.myCache (n + 2)) (hp : PairOK cfg p) :
    ∃ s1 tb, fs3_fetch cfg sys p s (malloc cfg.FS3_SECTOR_SIZE) = some (.inr (s1, tb)) ∧
      tb.length = cfg.FS3_SECTOR_SIZE ∧ I s1.net ∧ CacheReady cfg s1.myCache n := by
  obtain ⟨c1, r, hg, hc1, hb⟩ := get_ready cfg s.myCache (n + 1) p hc hp
  unfold fs3_fetch
  rw [hg]
  cases r with
  | none =>
    simp only
    obtain ⟨s2, hs2⟩ : ∃ s2 : State σ, s2 =
        (if p.trackIndex ≠ s.my_disk.currentTrackIndex
          then (tseek sys ({ s with myCache := c1 } : State σ) p.trackIndex).1
          else ({ s with myCache := c1 } : State σ)) := ⟨_, rfl⟩
    rw [← hs2]
    have hI2 : I s2.net := by
      rw [hs2]
      split
      · rw [tseek_net]; exact hk.1 _ _ hI hp.1
      · exact hI
    have hc2 : s2.myCache = c1 := by
      rw [hs2]
      split
      · rw [tseek_cache]
      · rfl
    obtain ⟨hI3, hlen3⟩ := hk.2 s2.net (construct_fs3cmdblock FS3_OP_RDSECT p.sectorIndex 0 0)
      (malloc cfg.FS3_SECTOR_SIZE) hI2 (malloc_length _)
    obtain ⟨hrc, hret⟩ := hnf s2.net (construct_fs3cmdblock FS3_OP_RDSECT p.sectorIndex 0 0)
      (malloc cfg.FS3_SECTOR_SIZE)
    rw [if_neg hrc, if_pos hret]
    rw [hc2]
    obtain ⟨c2, rc2, hput, hc2r⟩ := put_ready cfg c1 n p
      (sys s2.net (construct_fs3cmdblock FS3_OP_RDSECT p.sectorIndex 0 0)
        (malloc cfg.FS3_SECTOR_SIZE)).buf hc1 hp (by rw [hlen3])
    rw [hput]
    exact ⟨_, _, rfl, hlen3, hI3, hc2r⟩
  | some bytes =>
    simp only
    have hbl := hb bytes rfl
    rw [memcpy_head _ _ _ (by rw [malloc_length]) (by rw [hbl])]
    refine ⟨_, _, rfl, ?_, hI, hc1.mono (Nat.le_succ _)⟩
    rw [List.length_append, List.length_take, List.length_drop, malloc_length]
    omega

/-! ## Definedness of a write over a never-failing transport -/

theorem DiskRoom.next {cfg : Config} {d : DISK} {k : Nat} (h : DiskRoom cfg d (k + 1)) :
    PairOK cfg ⟨d.nextTrack, d.nextSector⟩ ∧
    DiskRoom cfg (get_free_track_sector_pair cfg d).1 k := by
  obtain ⟨h1, h2⟩ := h
  have ht : d.nextTrack < cfg.FS3_MAX_TRACKS := by
    by_contra hc
    have h3 : cfg.FS3_MAX_TRACKS * cfg.FS3_TRACK_SIZE ≤ d.nextTrack * cfg.FS3_TRACK_SIZE :=
      Nat.mul_le_mul_right _ (by omega)
    omega
  refine ⟨⟨ht, h1⟩, ?_⟩
  unfold get_free_track_sector_pair DiskRoom
  by_cases hc : d.nextSector + 1 ≥ cfg.FS3_TRACK_SIZE
  · simp only [if_pos hc]
    rw [Nat.add_mul, Nat.one_mul]
    exact ⟨by omega, by omega⟩
  · simp only [if_neg hc]
    exact ⟨by omega, by omega⟩

theorem DiskRoom.of_cursor {cfg : Config} {d d' : DISK} {k : Nat} (h : DiskRoom cfg d k)
    (ht : d'.nextTrack = d.nextTrack) (hs : d'.nextSector = d.nextSector) :
    DiskRoom cfg d' k := by
  unfold DiskRoom at h ⊢
  rw [ht, hs]
  exact h

theorem sectorsFor_gt (cfg : Config) (L k : Nat) (hss : 0 < cfg.FS3_SECTOR_SIZE)
    (h : k + 1 < sectorsFor cfg L) : (k + 1) * cfg.FS3_SECTOR_SIZE < L := by
  by_contra hc
  have h1 := (sectorsFor_le_iff cfg L (k + 1) hss (by omega)).mpr (by omega)
  omega

/-- The first half of an iteration of the write loop is defined: the position is at the
start of the sector of index `q`, which the file has and which is on the disk, or which
is the next one to allocate. -/
theorem fs3_write_pre_ready {σ : Type} (cfg : Config) (sys : Transport σ) (I : σ → Prop)
    (fd : Int) (fi q : Nat) (s1 : State σ) (n : Nat)
    (hss : 0 < cfg.FS3_SECTOR_SIZE)
    (hfit : FS3_MAX_TRACK_SECTOR_PAIRS cfg * cfg.FS3_SECTOR_SIZE < 4294967296)
    (hnf : NeverFails sys) (hk : KeepsSize cfg sys I) (hI : I s1.net)
    (hgf : get_file s1.my_disk fd = some (some fi))
    (hpos : (s1.my_disk.files fi).pos = q * cfg.FS3_SECTOR_SIZE)
    (hle : q * cfg.FS3_SECTOR_SIZE ≤ (s1.my_disk.files fi).length)
    (hN : (s1.my_disk.files fi).numOfSectors =
      (sectorsFor cfg (s1.my_disk.files fi).length : Int))
    (hq : q < FS3_MAX_TRACK_SECTOR_PAIRS cfg)
    (hpairs : ∀ j : Nat, j < sectorsFor cfg (s1.my_disk.files fi).length →
      PairOK cfg ((s1.my_disk.files fi).loc j))
    (hc : CacheReady cfg s1.myCache (n + 2)) :
    ∃ s2 tb, fs3_write_pre cfg sys fd fi (q : Int) s1 = some (s2, tb) ∧
      tb.length = cfg.FS3_SECTOR_SIZE ∧ I s2.net ∧ CacheReady cfg s2.myCache n := by
  have hLs := length_le_sectors cfg (s1.my_disk.files fi).length hss
  have hS1 := sectorsFor_pos cfg (s1.my_disk.files fi).length
  unfold fs3_write_pre
  simp only
  rw [hN]
  by_cases hA : (q : Int) < (sectorsFor cfg (s1.my_disk.files fi).length : Int) - 1
  · rw [if_pos hA]
    have hA' : q + 1 < sectorsFor cfg (s1.my_disk.files fi).length := by omega
    have hlt := sectorsFor_gt cfg _ q hss hA'
    rw [Nat.add_mul, Nat.one_mul] at hlt
    obtain ⟨s2, tb, hf, htb, hI2, hc2⟩ := fs3_fetch_ready cfg sys I
      ((s1.my_disk.files fi).loc q) s1 n hnf hk hI hc (hpairs q (by omega))
    rw [fs3_read_aligned cfg sys s1 s2 fd fi q cfg.FS3_SECTOR_SIZE _ tb hfit hgf hpos hss
      (Nat.le_refl _) (by omega) hq hf (by omega) (by rw [malloc_length])]
    refine ⟨_, _, rfl, ?_, hI2, hc2⟩
    rw [List.length_append, List.length_take, List.length_drop, malloc_length]
    omega
  · rw [if_neg hA]
    by_cases hB : (q : Int) = (sectorsFor cfg (s1.my_disk.files fi).length : Int) - 1
    · rw [if_pos hB]
      have hB' : q + 1 = sectorsFor cfg (s1.my_disk.files fi).length := by omega
      rw [← hB', Nat.add_mul, Nat.one_mul] at hLs
      have h32 : (s1.my_disk.files fi).length < 4294967296 := by
        have h1 : (q + 1) * cfg.FS3_SECTOR_SIZE ≤
            FS3_MAX_TRACK_SECTOR_PAIRS cfg * cfg.FS3_SECTOR_SIZE := Nat.mul_le_mul_right _ hq
        rw [Nat.add_mul, Nat.one_mul] at h1
        omega
      have hcnt : u32sub (s1.my_disk.files fi).length
          (u32 ((q : Int).toNat * cfg.FS3_SECTOR_SIZE)) =
          (s1.my_disk.files fi).length - q * cfg.FS3_SECTOR_SIZE := by
        rw [Int.toNat_ofNat, u32_of_lt _ (by omega)]
        unfold u32sub u32
        omega
      rw [hcnt]
      by_cases h0 : (s1.my_disk.files fi).length - q * cfg.FS3_SECTOR_SIZE = 0
      · rw [h0, fs3_read_none cfg sys s1 fd fi q _ hss hgf hpos (by omega) (by omega)]
        exact ⟨_, _, rfl, malloc_length _, hI, hc.mono (by omega)⟩
      · obtain ⟨s2, tb, hf, htb, hI2, hc2⟩ := fs3_fetch_ready cfg sys I
          ((s1.my_disk.files fi).loc q) s1 n hnf hk hI hc (hpairs q (by omega))
        rw [fs3_read_aligned cfg sys s1 s2 fd fi q _ _ tb hfit hgf hpos (by omega)
          (by omega) (by omega) hq hf (by omega) (by rw [malloc_length]; omega)]
        refine ⟨_, _, rfl, ?_, hI2, hc2⟩
        rw [List.length_append, List.length_take, List.length_drop, malloc_length]
        omega
    · rw [if_neg hB, if_pos (get_free_rc cfg _), if_pos ⟨by omega, by omega⟩]
      exact ⟨_, _, rfl, malloc_length _, hI, hc.mono (by omega)⟩

theorem memcpy_length (dst : List Byte) (dOff : Nat) (src : List Byte) (sOff n : Nat)
    (r : List Byte) (h : memcpy dst dOff src sOff n = some r) : r.length = dst.length := by
  unfold memcpy at h
  split at h
  · rename_i hc
    simp only [Option.some.injEq] at h
    subst h
    simp only [List.length_append, List.length_take, List.length_drop]
    omega
  · simp at h

theorem memcpy_defined (dst : List Byte) (dOff : Nat) (src : List Byte) (sOff n : Nat)
    (hd : dOff + n ≤ dst.length) (hs : sOff + n ≤ src.length) :
    ∃ r, memcpy dst dOff src sOff n = some r := by
  unfold memcpy
  rw [if_pos ⟨hd, hs⟩]
  exact ⟨_, rfl⟩

/-- The second half of an iteration of the write loop is defined and goes through. -/
theorem fs3_write_send_ready {σ : Type} (cfg : Config) (sys : Transport σ) (I : σ → Prop)
    (fi : Nat) (buf : List Byte) (count total : Nat) (s3 : State σ) (tb : List Byte) (n : Nat)
    (hss : 0 < cfg.FS3_SECTOR_SIZE)
    (hnf : NeverFails sys) (hk : KeepsSize cfg sys I) (hI : I s3.net)
    (hlt : total < count) (hbuf : count ≤ buf.length)
    (htb : tb.length = cfg.FS3_SECTOR_SIZE)
    (hq : (s3.my_disk.files fi).pos / cfg.FS3_SECTOR_SIZE < FS3_MAX_TRACK_SECTOR_PAIRS cfg)
    (hp : PairOK cfg ((s3.my_disk.files fi).loc ((s3.my_disk.files fi).pos / cfg.FS3_SECTOR_SIZE)))
    (hc : CacheReady cfg s3.myCache (n + 1)) :
    ∃ s', fs3_write_send cfg sys fi buf count total s3 tb =
        some (.inr (s', total + chunk cfg (s3.my_disk.files fi).pos count total)) ∧
      I s'.net ∧ CacheReady cfg s'.myCache n := by
  obtain ⟨hb0, hb1, hroom⟩ := chunk_bounds cfg (s3.my_disk.files fi).pos count total hss hlt
  obtain ⟨wb, hwb⟩ := memcpy_defined (malloc (count - total)) 0 buf total (count - total)
    (by rw [malloc_length]; omega) (by omega)
  have hwbl := memcpy_length _ _ _ _ _ _ hwb
  rw [malloc_length] at hwbl
  obtain ⟨tb1, htb1⟩ := memcpy_defined tb ((s3.my_disk.files fi).pos % cfg.FS3_SECTOR_SIZE) wb 0
    (chunk cfg (s3.my_disk.files fi).pos count total) (by omega) (by omega)
  have htb1l := memcpy_length _ _ _ _ _ _ htb1
  rw [htb] at htb1l
  unfold fs3_write_send
  rw [hwb]
  simp only
  have hch : (if count - total > cfg.FS3_SECTOR_SIZE -
        (s3.my_disk.files fi).pos % cfg.FS3_SECTOR_SIZE
      then cfg.FS3_SECTOR_SIZE - (s3.my_disk.files fi).pos % cfg.FS3_SECTOR_SIZE
      else count - total) = chunk cfg (s3.my_disk.files fi).pos count total := rfl
  rw [hch, htb1]
  simp only
  have hqi : SECTOR_INDEX_NUMBER cfg (s3.my_disk.files fi).pos <
      (FS3_MAX_TRACK_SECTOR_PAIRS cfg : Int) := by
    unfold SECTOR_INDEX_NUMBER
    exact_mod_cast hq
  rw [if_pos hqi]
  have hsi : (SECTOR_INDEX_NUMBER cfg (s3.my_disk.files fi).pos).toNat =
      (s3.my_disk.files fi).pos / cfg.FS3_SECTOR_SIZE := by
    unfold SECTOR_INDEX_NUMBER
    rw [Int.toNat_ofNat]
  rw [hsi]
  obtain ⟨p, hpe⟩ : ∃ p, p = (s3.my_disk.files fi).loc
    ((s3.my_disk.files fi).pos / cfg.FS3_SECTOR_SIZE) := ⟨_, rfl⟩
  rw [← hpe] at hp ⊢
  obtain ⟨s4, hs4⟩ : ∃ s4 : State σ, s4 =
      (if p.trackIndex ≠ s3.my_disk.currentTrackIndex then (tseek sys s3 p.trackIndex).1
        else s3) := ⟨_, rfl⟩
  rw [← hs4]
  have hI4 : I s4.net := by
    rw [hs4]
    split
    · rw [tseek_net]; exact hk.1 _ _ hI hp.1
    · exact hI
  have hc4 : s4.myCache = s3.myCache := by
    rw [hs4]
    split
    · rw [tseek_cache]
    · rfl
  have hf4 : s4.my_disk.files = s3.my_disk.files := by
    rw [hs4]
    split
    · rw [tseek_files]
    · rfl
  obtain ⟨hI5, hlen5⟩ := hk.2 s4.net (construct_fs3cmdblock FS3_OP_WRSECT p.sectorIndex 0 0)
    tb1 hI4 htb1l
  obtain ⟨hrc, hret⟩ := hnf s4.net (construct_fs3cmdblock FS3_OP_WRSECT p.sectorIndex 0 0) tb1
  rw [if_neg hrc]
  rw [hc4]
  obtain ⟨c2, rc2, hput, hc2r⟩ := put_ready cfg s3.myCache n p
    (sys s4.net (construct_fs3cmdblock FS3_OP_WRSECT p.sectorIndex 0 0) tb1).buf hc hp
    (by rw [hlen5])
  rw [hput]
  simp only
  rw [if_pos hret]
  exact ⟨_, rfl, hI5, hc2r⟩

theorem setFile_net {σ : Type} (s : State σ) (i : Nat) (f : FILE_INFO) :
    (setFile s i f).net = s.net := rfl

theorem setFile_cache {σ : Type} (s : State σ) (i : Nat) (f : FILE_INFO) :
    (setFile s i f).myCache = s.myCache := rfl

theorem setFile_nextTrack {σ : Type} (s : State σ) (i : Nat) (f : FILE_INFO) :
    (setFile s i f).my_disk.nextTrack = s.my_disk.nextTrack := rfl

theorem setFile_nextSector {σ : Type} (s : State σ) (i : Nat) (f : FILE_INFO) :
    (setFile s i f).my_disk.nextSector = s.my_disk.nextSector := rfl

/-- A write of at least one more byte that fits the `loc` array is at a sector index
within the array. -/
theorem index_lt_capacity (cfg : Config) (P L n : Nat) (hss : 0 < cfg.FS3_SECTOR_SIZE)
    (hp : P ≤ L) (hn : 0 < n) :
    P / cfg.FS3_SECTOR_SIZE < sectorsFor cfg (max L (P + n)) ∧
    (P / cfg.FS3_SECTOR_SIZE = sectorsFor cfg L →
      sectorsFor cfg L < sectorsFor cfg (max L (P + n))) := by
  have hidx := index_le_sectors cfg P L hss hp
  have hmono := sectorsFor_mono cfg L (max L (P + n)) hss (Nat.le_max_left _ _)
  have hS1 := sectorsFor_pos cfg L
  have key : P / cfg.FS3_SECTOR_SIZE = sectorsFor cfg L →
      sectorsFor cfg L < sectorsFor cfg (max L (P + n)) := by
    intro he
    by_contra hc
    have h1 := (sectorsFor_le_iff cfg (max L (P + n)) (sectorsFor cfg L) hss hS1).mp (by omega)
    have h2 : P / cfg.FS3_SECTOR_SIZE * cfg.FS3_SECTOR_SIZE ≤ P := Nat.div_mul_le_self _ _
    rw [he] at h2
    have h3 : P + n ≤ max L (P + n) := Nat.le_max_right _ _
    omega
  refine ⟨?_, key⟩
  by_cases he : P / cfg.FS3_SECTOR_SIZE = sectorsFor cfg L
  · have := key he
    omega
  · omega

/-- After an iteration of the write loop that went through, the sectors of the file are
placed for the rest of the write, and the file as it will be is the same. -/
theorem WritePlaced.step {σ : Type} {cfg : Config} {fi count total : Nat}
    {s s' : State σ} (hr : WritePlaced cfg fi (count - total) s)
    (hstep : WriteStep cfg fi count total s s'
      (total + chunk cfg (s.my_disk.files fi).pos count total))
    (hss : 0 < cfg.FS3_SECTOR_SIZE) (hlt : total < count) :
    WritePlaced cfg fi (count - (total + chunk cfg (s.my_disk.files fi).pos count total)) s' ∧
    max (s'.my_disk.files fi).length ((s'.my_disk.files fi).pos +
        (count - (total + chunk cfg (s.my_disk.files fi).pos count total))) =
      max (s.my_disk.files fi).length ((s.my_disk.files fi).pos + (count - total)) := by
  obtain ⟨hb0, hb1, hroom⟩ := chunk_bounds cfg (s.my_disk.files fi).pos count total hss hlt
  obtain ⟨P, hP⟩ : ∃ P, P = (s.my_disk.files fi).pos := ⟨_, rfl⟩
  obtain ⟨L, hL⟩ : ∃ L, L = (s.my_disk.files fi).length := ⟨_, rfl⟩
  obtain ⟨q, hq⟩ : ∃ q, q = P / cfg.FS3_SECTOR_SIZE := ⟨_, rfl⟩
  have hpos : P ≤ L := by rw [hP, hL]; exact hr.pos
  have hN := hr.sectors
  obtain ⟨hqf, hqa⟩ := index_lt_capacity cfg P L (count - total) hss hpos (by omega)
  rw [← hq] at hqf hqa
  have hsi : SECTOR_INDEX_NUMBER cfg (s.my_disk.files fi).pos = (q : Int) := by
    unfold SECTOR_INDEX_NUMBER
    rw [← hP, hq]
  have hkeep := hstep.keeps_sectors hss hlt hr.pos hN
  have hloc := hstep.loc
  have hnew := hstep.newLoc
  have hnt := hstep.nextTrack
  have hns := hstep.nextSector
  have hpos0 := hstep.pos
  have hlen0 := hstep.length
  clear hstep
  generalize chunk cfg (s.my_disk.files fi).pos count total = b at *
  have hpos' : (s'.my_disk.files fi).pos = P + b := by rw [hpos0, ← hP]
  have hlen' : (s'.my_disk.files fi).length = max L (P + b) := by
    rw [hlen0, ← hP, ← hL]
  have htarget : max (max L (P + b)) (P + b + (count - (total + b))) =
      max L (P + (count - total)) := by omega
  have hsf := sectorsFor_step cfg P L b hss hpos hb0 (by rw [hP]; exact hroom)
  rw [← hq] at hsf
  have hroom2 := hr.room
  rw [← hP, ← hL] at hroom2
  have hNi : (SECTOR_INDEX_NUMBER cfg (s.my_disk.files fi).pos =
      (s.my_disk.files fi).numOfSectors) ↔ q = sectorsFor cfg L := by
    rw [hsi, hN, ← hL]
    exact Nat.cast_inj
  refine ⟨⟨?_, ?_, ?_, ?_⟩, ?_⟩
  · rw [hpos', hlen']; omega
  · exact hkeep
  · intro j hj
    rw [hlen', hsf] at hj
    by_cases hjl : j < sectorsFor cfg L
    · rw [hloc j (by rw [hN, ← hL]; exact_mod_cast hjl)]
      exact hr.pairs j (by rw [← hL]; exact hjl)
    · have hqe : q = sectorsFor cfg L := by
        by_contra hne
        rw [if_neg hne] at hj
        omega
      rw [if_pos hqe] at hj
      have hje : j = sectorsFor cfg L := by omega
      have h1 := hnew (hNi.mpr hqe)
      rw [hN, Int.toNat_ofNat, ← hL, ← hje] at h1
      rw [h1]
      have hk1 : sectorsFor cfg (max L (P + (count - total))) - sectorsFor cfg L =
          (sectorsFor cfg (max L (P + (count - total))) - sectorsFor cfg L - 1) + 1 := by
        have := hqa hqe
        omega
      rw [hk1] at hroom2
      exact hroom2.next.1
  · rw [hpos', hlen', htarget, hsf]
    by_cases hqe : q = sectorsFor cfg L
    · rw [if_pos hqe]
      have hk1 : sectorsFor cfg (max L (P + (count - total))) - sectorsFor cfg L =
          (sectorsFor cfg (max L (P + (count - total))) - (sectorsFor cfg L + 1)) + 1 := by
        have := hqa hqe
        omega
      rw [hk1] at hroom2
      refine hroom2.next.2.of_cursor ?_ ?_
      · rw [hnt, if_pos (hNi.mpr hqe)]
      · rw [hns, if_pos (hNi.mpr hqe)]
    · rw [if_neg hqe]
      refine hroom2.of_cursor ?_ ?_
      · rw [hnt, if_neg (fun h => hqe (hNi.mp h))]
      · rw [hns, if_neg (fun h => hqe (hNi.mp h))]
  · rw [hpos', hlen', htarget, ← hP, ← hL]

/-- Over a never-failing, size-keeping transport an iteration of the write loop on a
ready file is defined and goes through, has the effect `WriteStep` on the file table
and leaves the file ready for the rest of the write. -/
theorem fs3_write_body_ready {σ : Type} (cfg : Config) (sys : Transport σ) (I : σ → Prop)
    (fd : Int) (fi : Nat) (buf : List Byte) (count : Nat) (s : State σ) (total : Nat)
    (hss : 0 < cfg.FS3_SECTOR_SIZE)
    (hfit : FS3_MAX_TRACK_SECTOR_PAIRS cfg * cfg.FS3_SECTOR_SIZE < 4294967296)
    (hnf : NeverFails sys) (hk : KeepsSize cfg sys I)
    (hgf : get_file s.my_disk fd = some (some fi))
    (hbuf : count ≤ buf.length) (hlt : total < count)
    (hr : WriteReady cfg I fi (count - total) s) :
    ∃ s', fs3_write_body cfg sys fd fi buf count s total =
        some (.inr (s', total + chunk cfg (s.my_disk.files fi).pos count total)) ∧
      WriteStep cfg fi count total s s'
        (total + chunk cfg (s.my_disk.files fi).pos count total) ∧
      WriteReady cfg I fi (count - (total + chunk cfg (s.my_disk.files fi).pos count total)) s' := by
  obtain ⟨hb0, hb1, hroom⟩ := chunk_bounds cfg (s.my_disk.files fi).pos count total hss hlt
  obtain ⟨P, hP⟩ : ∃ P, P = (s.my_disk.files fi).pos := ⟨_, rfl⟩
  obtain ⟨L, hL⟩ : ∃ L, L = (s.my_disk.files fi).length := ⟨_, rfl⟩
  obtain ⟨q, hq⟩ : ∃ q, q = P / cfg.FS3_SECTOR_SIZE := ⟨_, rfl⟩
  have hpos : P ≤ L := by rw [hP, hL]; exact hr.placed.pos
  have hN := hr.placed.sectors
  have hcap := hr.capacity
  rw [← hP, ← hL] at hcap
  have hLs := length_le_sectors cfg L hss
  have hS1 := sectorsFor_pos cfg L
  have hmono := sectorsFor_mono cfg L (max L (P + (count - total))) hss (Nat.le_max_left _ _)
  obtain ⟨hqf, hqa⟩ := index_lt_capacity cfg P L (count - total) hss hpos (by omega)
  rw [← hq] at hqf hqa
  have hqm : q < FS3_MAX_TRACK_SECTOR_PAIRS cfg := by omega
  have hqP : q * cfg.FS3_SECTOR_SIZE ≤ P := by rw [hq]; exact Nat.div_mul_le_self _ _
  have hL32 : L < 4294967296 := by
    have h1 : sectorsFor cfg L * cfg.FS3_SECTOR_SIZE ≤
        FS3_MAX_TRACK_SECTOR_PAIRS cfg * cfg.FS3_SECTOR_SIZE :=
      Nat.mul_le_mul_right _ (by omega)
    omega
  have hsi : SECTOR_INDEX_NUMBER cfg (s.my_disk.files fi).pos = (q : Int) := by
    unfold SECTOR_INDEX_NUMBER
    rw [← hP, hq]
  -- the seek to the start of the sector
  obtain ⟨s1, hs1⟩ : ∃ s1 : State σ, s1 = setFile s fi { s.my_disk.files fi with
      pos := q * cfg.FS3_SECTOR_SIZE } := ⟨_, rfl⟩
  have hseek1 : fs3_seek s fd (u32 ((SECTOR_INDEX_NUMBER cfg (s.my_disk.files fi).pos).toNat *
      cfg.FS3_SECTOR_SIZE)) = some (s1, 0) := by
    rw [hsi, Int.toNat_ofNat, u32_of_lt _ (by omega), hs1]
    exact fs3_seek_open s fd fi _ hgf (by rw [← hL]; omega)
  have f1 : s1.my_disk.files fi = { s.my_disk.files fi with pos := q * cfg.FS3_SECTOR_SIZE } := by
    rw [hs1, setFile_files_self]
  have hgf1 : get_file s1.my_disk fd = some (some fi) :=
    get_file_keep s s1 fd fi hgf (by rw [f1]) (by rw [f1])
  have hpairs1 : ∀ j : Nat, j < sectorsFor cfg (s1.my_disk.files fi).length →
      PairOK cfg ((s1.my_disk.files fi).loc j) := by
    intro j hj
    rw [f1] at hj ⊢
    exact hr.placed.pairs j hj
  obtain ⟨s2, tb, hpre, htb, hI2, hc2⟩ := fs3_write_pre_ready cfg sys I fd fi q s1
    (3 * (count - total) - 3 + 1) hss hfit hnf hk (by rw [hs1]; exact hr.remote) hgf1
    (by rw [f1]) (by rw [f1]; show q * cfg.FS3_SECTOR_SIZE ≤ (s.my_disk.files fi).length
                     rw [← hL]; omega)
    (by rw [f1]; exact hN) hqm hpairs1
    (by rw [hs1, setFile_cache]; exact hr.cache.mono (by omega))
  have hidx1 : (q : Int) ≤ (s1.my_disk.files fi).numOfSectors := by
    rw [f1]
    show (q : Int) ≤ (s.my_disk.files fi).numOfSectors
    rw [hN, ← hL]
    have := index_le_sectors cfg P L hss hpos
    rw [← hq] at this
    exact_mod_cast this
  obtain ⟨t1, t2, t3, t4, t5, t6, t7, t8, t9, t10, t11, t12⟩ :=
    fs3_write_pre_table cfg sys fd fi (q : Int) s1 s2 tb hgf1 hidx1 hpre
  have hgf2 : get_file s2.my_disk fd = some (some fi) :=
    get_file_keep s1 s2 fd fi hgf1 t3 t4
  -- the seek back
  obtain ⟨s3, hs3⟩ : ∃ s3 : State σ, s3 = setFile s2 fi { s2.my_disk.files fi with
      pos := (s.my_disk.files fi).pos } := ⟨_, rfl⟩
  have hseek2 : fs3_seek s2 fd (s.my_disk.files fi).pos = some (s3, 0) := by
    rw [hs3]
    exact fs3_seek_open s2 fd fi _ hgf2 (by rw [t5, f1]; exact hr.placed.pos)
  have f3 : s3.my_disk.files fi = { s2.my_disk.files fi with pos := (s.my_disk.files fi).pos } := by
    rw [hs3, setFile_files_self]
  have hp3 : PairOK cfg ((s3.my_disk.files fi).loc
      ((s3.my_disk.files fi).pos / cfg.FS3_SECTOR_SIZE)) := by
    rw [f3]
    show PairOK cfg ((s2.my_disk.files fi).loc ((s.my_disk.files fi).pos / cfg.FS3_SECTOR_SIZE))
    rw [← hP, ← hq]
    by_cases hqe : q = sectorsFor cfg L
    · have hidx : (q : Int) = (s1.my_disk.files fi).numOfSectors := by
        rw [f1]
        show (q : Int) = (s.my_disk.files fi).numOfSectors
        rw [hN, ← hL, hqe]
      have h1 := t10 hidx
      rw [← hidx, Int.toNat_ofNat] at h1
      rw [h1, hs1, setFile_nextTrack, setFile_nextSector]
      have hroom2 := hr.placed.room
      rw [← hP, ← hL] at hroom2
      have hk1 : sectorsFor cfg (max L (P + (count - total))) - sectorsFor cfg L =
          (sectorsFor cfg (max L (P + (count - total))) - sectorsFor cfg L - 1) + 1 := by
        have := hqa hqe
        omega
      rw [hk1] at hroom2
      exact hroom2.next.1
    · have hidx := index_le_sectors cfg P L hss hpos
      rw [← hq] at hidx
      have hj : ((q : Nat) : Int) < (s1.my_disk.files fi).numOfSectors := by
        rw [f1]
        show (q : Int) < (s.my_disk.files fi).numOfSectors
        rw [hN, ← hL]
        have : q < sectorsFor cfg L := by omega
        exact_mod_cast this
      rw [t7 q hj, f1]
      exact hr.placed.pairs q (by rw [← hL]; omega)
  obtain ⟨s', hsend, hI', hc'⟩ := fs3_write_send_ready cfg sys I fi buf count total s3 tb
    (3 * (count - total) - 3) hss hnf hk (by rw [hs3]; exact hI2) hlt hbuf htb
    (by rw [f3]; show (s.my_disk.files fi).pos / cfg.FS3_SECTOR_SIZE < _
        rw [← hP, ← hq]; exact hqm)
    hp3 (by rw [hs3, setFile_cache]; exact hc2)
  have hpos3 : (s3.my_disk.files fi).pos = (s.my_disk.files fi).pos := by rw [f3]
  rw [hpos3] at hsend
  have hbody : fs3_write_body cfg sys fd fi buf count s total =
      some (.inr (s', total + chunk cfg (s.my_disk.files fi).pos count total)) := by
    rw [fs3_write_body_eq, hseek1]
    simp only
    rw [if_pos (by decide), hsi, hpre]
    simp only
    rw [hseek2]
    exact hsend
  obtain ⟨s'', hr', hstep⟩ := fs3_write_body_table cfg sys fd fi buf count s total _ hss hfit
    hnf hgf hr.placed.pos hN hlt hbody
  simp only [Sum.inr.injEq, Prod.mk.injEq, and_true] at hr'
  subst hr'
  refine ⟨s', hbody, hstep, ?_⟩
  obtain ⟨hpl, htgt⟩ := hr.placed.step hstep hss hlt
  obtain ⟨hb0', -, -⟩ := chunk_bounds cfg (s.my_disk.files fi).pos count total hss hlt
  exact ⟨hpl, by rw [htgt]; exact hr.capacity, hc'.mono (by omega), hI'⟩
theorem fs3_write_loop_ready {σ : Type} (cfg : Config) (sys : Transport σ) (I : σ → Prop)
    (fd : Int) (fi : Nat) (buf : List Byte) (count : Nat)
    (hss : 0 < cfg.FS3_SECTOR_SIZE)
    (hfit : FS3_MAX_TRACK_SECTOR_PAIRS cfg * cfg.FS3_SECTOR_SIZE < 4294967296)
    (hnf : NeverFails sys) (hk : KeepsSize cfg sys I) (hbuf : count ≤ buf.length) :
    ∀ (fuel : Nat) (s : State σ) (total : Nat), count - total ≤ fuel →
      get_file s.my_disk fd = some (some fi) →
      WriteReady cfg I fi (count - total) s →
      ∃ s' rc, fs3_write_loop cfg sys fd fi buf count fuel s total = some (s', rc) := by
  intro fuel
  induction fuel with
  | zero =>
    intro s total hf _ _
    simp only [fs3_write_loop]
    rw [if_neg (by omega)]
    exact ⟨_, _, rfl⟩
  | succ n ih =>
    intro s total hf hgf hr
    simp only [fs3_write_loop]
    by_cases hlt : total < count
    · rw [if_pos hlt]
      obtain ⟨s1, hb, hstep, hr1⟩ := fs3_write_body_ready cfg sys I fd fi buf count s total hss
        hfit hnf hk hgf hbuf hlt hr
      rw [hb]
      simp only
      obtain ⟨hb0, -, -⟩ := chunk_bounds cfg (s.my_disk.files fi).pos count total hss hlt
      exact ih s1 _ (by omega) (get_file_keep s s1 fd fi hgf hstep.handle hstep.isOpen) hr1
    · rw [if_neg hlt]
      exact ⟨_, _, rfl⟩

/-- The faithful controller on a SEEK-TRACK request. -/
theorem controller_tseek (cfg : Config) (w : Controller) (t : Nat) (buf : List Byte)
    (ht : t < 2 ^ 32) :
    controller cfg w (construct_fs3cmdblock FS3_OP_TSEEK 0 t 0) buf =
      ⟨0, construct_fs3cmdblock FS3_OP_TSEEK 0 t 0, buf, { w with track := t }⟩ := by
  unfold controller
  simp only
  rw [codec_round_trip FS3_OP_TSEEK 0 t 0 (by decide) (by decide) ht (by decide)]
  simp only [if_pos]

/-- The faithful controller keeps sector-sized payload buffers sector-sized as long as
every sector it stores has at least `FS3_SECTOR_SIZE` bytes, which then stays so. -/
theorem controller_keeps_size (cfg : Config) (hmt : cfg.FS3_MAX_TRACKS ≤ 2 ^ 32) :
    KeepsSize cfg (controller cfg)
      (fun w => ∀ t s, cfg.FS3_SECTOR_SIZE ≤ (w.disk t s).length) := by
  refine ⟨?_, ?_⟩
  · intro w t hI ht
    rw [controller_tseek cfg w t [] (by omega)]
    exact hI
  · intro w cmd buf hI hlen
    unfold controller
    simp only
    split
    · exact ⟨hI, hlen⟩
    · split
      · refine ⟨hI, ?_⟩
        dsimp only
        rw [List.length_append, List.length_take, List.length_drop]
        have := hI w.track (deconstruct_fs3cmdblock cmd).2.sec
        omega
      · split
        · refine ⟨?_, hlen⟩
          intro t s
          dsimp only
          split
          · rw [List.length_take]; omega
          · exact hI t s
        · exact ⟨hI, hlen⟩

theorem cachedFile_cache :
    (cachedFile Config.standard).myCache = (fs3_init_cache CACHE.zero 4).1 := by
  rfl

theorem cachedFile_net :
    (cachedFile Config.standard).net = Controller.blank Config.standard := by
  rfl

/-- C23 (write postcondition): over a transport and controller that never fail,
`fs3_write(fd, buf, count)` on the open file in slot `fi`, with position `P` and length
`L`, is defined, returns `count` and leaves position `P + count` and length
`max(L, P + count)`; for `count = 0` it returns 0 with the whole state, remote end
included, as it was, and over a logging transport the request log stays as it was: no
request is issued. The file and the cache are ready for the write (`WriteReady`: the
position is within the length, the file has `max(1, ceil(L / FS3_SECTOR_SIZE))`
sectors, all on the disk, the file as written fits the `loc` array and the disk, the
cache is uninitialised or consistent with counters `3 * count` below `INT_MAX`), `buf`
holds `count` bytes, the transport returns a payload buffer of one sector with the size
it had (`KeepsSize`), and a file of `FS3_MAX_TRACK_SECTOR_PAIRS` sectors has a 32-bit
length. -/
theorem write_postcondition {σ : Type} (cfg : Config) (sys : Transport σ) (I : σ → Prop)
    (s : State σ) (fd : Int) (fi : Nat) (buf : List Byte) (count : Nat)
    (hss : 0 < cfg.FS3_SECTOR_SIZE)
    (hfit : FS3_MAX_TRACK_SECTOR_PAIRS cfg * cfg.FS3_SECTOR_SIZE < 4294967296)
    (hnf : NeverFails sys) (hk : KeepsSize cfg sys I)
    (hgf : get_file s.my_disk fd = some (some fi))
    (hbuf : count ≤ buf.length)
    (hr : WriteReady cfg I fi count s) :
    (∃ s', fs3_write cfg sys s fd buf count = some (s', (count : Int)) ∧
      (s'.my_disk.files fi).pos = (s.my_disk.files fi).pos + count ∧
      (s'.my_disk.files fi).length =
        max (s.my_disk.files fi).length ((s.my_disk.files fi).pos + count)) ∧
    (count = 0 → fs3_write cfg sys s fd buf count = some (s, 0) ∧
      ∀ log : List Nat,
        fs3_write cfg (traced sys) (withLog s log) fd buf count = some (withLog s log, 0)) := by
  refine ⟨?_, ?_⟩
  · obtain ⟨s', rc, h⟩ := fs3_write_loop_ready cfg sys I fd fi buf count hss hfit hnf hk hbuf
      count s 0 (by omega) hgf hr
    have hw : fs3_write cfg sys s fd buf count = some (s', rc) := by
      unfold fs3_write
      rw [hgf]
      exact h
    obtain ⟨hrc, heff⟩ := fs3_write_table cfg sys s s' fd fi buf count rc hss hfit hnf hgf
      hr.placed.pos hr.placed.sectors hw
    subst hrc
    exact ⟨s', hw, heff.pos, heff.length⟩
  · intro h0
    subst h0
    refine ⟨?_, ?_⟩
    · unfold fs3_write
      rw [hgf]
      rfl
    · intro log
      unfold fs3_write
      have e : (withLog s log).my_disk = s.my_disk := rfl
      rw [e, hgf]
      rfl

/-- C23 at a file just created, with a cache of 4 lines and the faithful controller:
writing the 5 bytes of HELLO at position 0 of the empty file returns 5 and leaves
position 5 and length 5. -/
theorem write_postcondition_witness :
    (∃ s', fs3_write Config.standard (controller Config.standard)
        (cachedFile Config.standard) 0 hello 5 = some (s', ((5 : Nat) : Int)) ∧
      (s'.my_disk.files 0).pos = ((cachedFile Config.standard).my_disk.files 0).pos + 5 ∧
      (s'.my_disk.files 0).length =
        max ((cachedFile Config.standard).my_disk.files 0).length
          (((cachedFile Config.standard).my_disk.files 0).pos + 5)) ∧
    (5 = 0 → fs3_write Config.standard (controller Config.standard)
        (cachedFile Config.standard) 0 hello 5 = some (cachedFile Config.standard, 0) ∧
      ∀ log : List Nat,
        fs3_write Config.standard (traced (controller Config.standard))
          (withLog (cachedFile Config.standard) log) 0 hello 5 =
            some (withLog (cachedFile Config.standard) log, 0)) :=
  write_postcondition Config.standard (controller Config.standard)
    (fun w => ∀ t s, Config.standard.FS3_SECTOR_SIZE ≤ (w.disk t s).length)
    (cachedFile Config.standard) 0 0 hello 5 (by decide) (by decide)
    (controller_never_fails _) (controller_keeps_size _ (by decide)) (by decide) (by decide)
    { placed :=
        { pos := by decide
          sectors := by decide
          pairs := by
            have e : sectorsFor Config.standard
                ((cachedFile Config.standard).my_disk.files 0).length = 1 := by decide
            intro j hj
            rw [e] at hj
            have e0 : j = 0 := by omega
            subst e0
            exact ⟨by decide, by decide⟩
          room := ⟨by decide, by decide⟩ }
      capacity := by decide
      cache := fun _ => ⟨⟨_, by rw [cachedFile_cache]; exact init_inv _ 4 (by decide)⟩,
        by decide, by decide, by decide, by decide, by decide⟩
      remote := by
        rw [cachedFile_net]
        intro t s
        simp [Controller.blank] }

/-! ## A cache that agrees with the controller -/

theorem InStep.congr {cfg : Config} {s s' : State Controller} (h : InStep cfg s)
    (e1 : s'.my_disk.currentTrackIndex = s.my_disk.currentTrackIndex) (e2 : s'.net = s.net)
    (e3 : s'.myCache = s.myCache) : InStep cfg s' := by
  obtain ⟨h1, h2, h3, h4⟩ := h
  refine ⟨?_, ?_, ?_, ?_⟩
  · rw [e1, e2]; exact h1
  · rw [e2]; exact h2
  · rw [e3]; exact h3
  · rw [e2, e3]; exact h4

theorem sameLabels_refl {σ : Type} (s : State σ) : SameLabels s s :=
  ⟨rfl, fun _ => ⟨rfl, rfl⟩⟩

theorem sameLabels_trans {σ : Type} {s s1 s2 : State σ} (h1 : SameLabels s s1)
    (h2 : SameLabels s1 s2) : SameLabels s s2 := by
  refine ⟨by rw [h2.1, h1.1], fun i => ⟨?_, ?_⟩⟩
  · rw [(h2.2 i).1, (h1.2 i).1]
  · rw [(h2.2 i).2, (h1.2 i).2]

theorem sameLabels_of_eq {σ : Type} {s s' : State σ}
    (hf : s'.my_disk.files = s.my_disk.files)
    (hc : s'.fileHandleCounter = s.fileHandleCounter) : SameLabels s s' :=
  ⟨hc, fun i => by rw [hf]; exact ⟨rfl, rfl⟩⟩

theorem sameLabels_of_table {σ : Type} {s s' : State σ} (h : SameTable s s') :
    SameLabels s s' :=
  sameLabels_of_eq h.1 h.2.2.2.1

theorem sameLabels_setFile {σ : Type} {s s1 : State σ} (i : Nat) (f : FILE_INFO)
    (hf : s1.my_disk.files = s.my_disk.files)
    (hc : s1.fileHandleCounter = s.fileHandleCounter)
    (hn : f.name = (s.my_disk.files i).name) (ho : f.isOpen = (s.my_disk.files i).isOpen) :
    SameLabels s (setFile s1 i f) := by
  refine ⟨hc, fun j => ?_⟩
  by_cases hj : j = i
  · subst hj
    rw [setFile_files_self]
    exact ⟨hn, ho⟩
  · rw [setFile_files_other _ _ _ _ hj, hf]
    exact ⟨rfl, rfl⟩

theorem fs3_seek_labels {σ : Type} (s s' : State σ) (fd : Int) (loc : Nat) (rc : Int)
    (h : fs3_seek s fd loc = some (s', rc)) : SameLabels s s' := by
  unfold fs3_seek at h
  split at h
  · simp at h
  · simp only [Option.some.injEq, Prod.mk.injEq] at h
    obtain ⟨rfl, -⟩ := h
    exact sameLabels_refl _
  · simp only at h
    split at h
    · simp only [Option.some.injEq, Prod.mk.injEq] at h
      obtain ⟨rfl, -⟩ := h
      exact sameLabels_setFile _ _ rfl rfl rfl rfl
    · simp only [Option.some.injEq, Prod.mk.injEq] at h
      obtain ⟨rfl, -⟩ := h
      exact sameLabels_refl _

theorem fs3_read_labels {σ : Type} (cfg : Config) (sys : Transport σ) (s s' : State σ)
    (fd : Int) (buf b : List Byte) (count : Nat) (rc : Int)
    (h : fs3_read cfg sys s fd buf count = some (s', b, rc)) : SameLabels s s' := by
  rcases fs3_read_shape cfg sys s s' fd buf b count rc h with hs | ⟨fi, s1, p, -, hs1, -, rfl⟩
  · exact sameLabels_of_table hs
  · refine sameLabels_setFile _ _ hs1.1 hs1.2.2.2.1 ?_ ?_
    · show (s1.my_disk.files fi).name = _
      rw [hs1.1]
    · show (s1.my_disk.files fi).isOpen = _
      rw [hs1.1]

/-- An iteration of the write loop, over any transport and whatever its outcome, leaves
the handle counter and the names and open flags of all slots as they were. -/
theorem fs3_write_body_labels {σ : Type} (cfg : Config) (sys : Transport σ) (fd : Int)
    (fi : Nat) (buf : List Byte) (count : Nat) (s : State σ) (total : Nat)
    (r : State σ ⊕ (State σ × Nat))
    (h : fs3_write_body cfg sys fd fi buf count s total = some r) :
    SameLabels s (match r with | .inl s1 => s1 | .inr (s1, _) => s1) := by
  unfold fs3_write_body at h
  simp only at h
  split at h
  · simp at h
  · rename_i s1 rc hseek1
    have l1 := fs3_seek_labels _ _ _ _ _ hseek1
    split at h
    · split at h
      · simp at h
      · rename_i s2 tb hpre
        have l2 : SameLabels s1 s2 := by
          split at hpre
          · split at hpre
            · simp at hpre
            · rename_i s2' tb' rc' hread
              simp only [Option.some.injEq, Prod.mk.injEq] at hpre
              obtain ⟨rfl, -⟩ := hpre
              exact fs3_read_labels _ _ _ _ _ _ _ _ _ hread
          · split at hpre
            · split at hpre
              · simp at hpre
              · rename_i s2' tb' rc' hread
                simp only [Option.some.injEq, Prod.mk.injEq] at hpre
                obtain ⟨rfl, -⟩ := hpre
                exact fs3_read_labels _ _ _ _ _ _ _ _ _ hread
            · split at hpre
              · split at hpre
                · simp only [Option.some.injEq, Prod.mk.injEq] at hpre
                  obtain ⟨rfl, -⟩ := hpre
                  exact sameLabels_setFile _ _ (get_free_files cfg s1.my_disk) rfl rfl rfl
                · simp at hpre
              · simp only [Option.some.injEq, Prod.mk.injEq] at hpre
                obtain ⟨rfl, -⟩ := hpre
                exact sameLabels_of_eq (get_free_files cfg s1.my_disk) rfl
        clear hpre
        split at h
        · simp at h
        · rename_i s3 rc3 hseek2
          have l3 := fs3_seek_labels _ _ _ _ _ hseek2
          have l := sameLabels_trans l1 (sameLabels_trans l2 l3)
          clear hseek1 hseek2
          repeat' (split at h)
          all_goals first
            | (simp at h; done)
            | (simp only [Option.some.injEq] at h
               subst h
               dsimp only
               refine sameLabels_trans l ?_
               first
                 | (refine sameLabels_of_eq ?_ ?_ <;>
                    first
                      | rfl
                      | (simp only [tseek_files, tseek_counter]; done))
                 | (refine sameLabels_setFile _ _ ?_ ?_ ?_ ?_ <;>
                    first
                      | rfl
                      | simp only [tseek_files, tseek_counter]))
    · simp only [Option.some.injEq] at h
      subst h
      exact l1

theorem fs3_write_loop_labels {σ : Type} (cfg : Config) (sys : Transport σ) (fd : Int)
    (fi : Nat) (buf : List Byte) (count : Nat) :
    ∀ (fuel : Nat) (s s' : State σ) (total : Nat) (rc : Int),
      fs3_write_loop cfg sys fd fi buf count fuel s total = some (s', rc) →
      SameLabels s s' := by
  intro fuel
  induction fuel with
  | zero =>
    intro s s' total rc h
    simp only [fs3_write_loop] at h
    split at h
    · simp at h
    · simp only [Option.some.injEq, Prod.mk.injEq] at h
      obtain ⟨rfl, -⟩ := h
      exact sameLabels_refl _
  | succ n ih =>
    intro s s' total rc h
    simp only [fs3_write_loop] at h
    split at h
    · split at h
      · simp at h
      · rename_i s1 hb
        simp only [Option.some.injEq, Prod.mk.injEq] at h
        obtain ⟨rfl, -⟩ := h
        exact fs3_write_body_labels cfg sys fd fi buf count s total _ hb
      · rename_i s1 total1 hb
        exact sameLabels_trans (fs3_write_body_labels cfg sys fd fi buf count s total _ hb)
          (ih s1 s' total1 rc h)
    · simp only [Option.some.injEq, Prod.mk.injEq] at h
      obtain ⟨rfl, -⟩ := h
      exact sameLabels_refl _

theorem fs3_write_labels {σ : Type} (cfg : Config) (sys : Transport σ) (s s' : State σ)
    (fd : Int) (buf : List Byte) (count : Nat) (rc : Int)
    (h : fs3_write cfg sys s fd buf count = some (s', rc)) : SameLabels s s' := by
  unfold fs3_write at h
  split at h
  · simp at h
  · simp only [Option.some.injEq, Prod.mk.injEq] at h
    obtain ⟨rfl, -⟩ := h
    exact sameLabels_refl _
  · exact fs3_write_loop_labels cfg sys fd _ buf count count s s' 0 rc h

theorem HandleInv.of_labels {σ : Type} {s s' : State σ} {hs : List Int} (h : HandleInv s hs)
    (hl : SameLabels s s') (extra : List Int) : HandleInv s' (hs ++ extra) := by
  constructor
  · intro i hi
    rw [(hl.2 i).1]
    rw [(hl.2 i).2] at hi
    exact h.openNamed i hi
  · intro i hi
    rw [hl.1] at hi
    exact List.mem_append_left _ (h.assigned i hi)

/-- Closing slots keeps the relation between the table and the handles returned. -/
theorem HandleInv.of_closing {σ : Type} {s s' : State σ} {hs : List Int} (h : HandleInv s hs)
    (hc : s'.fileHandleCounter = s.fileHandleCounter)
    (hf : ∀ i, (s'.my_disk.files i).name = (s.my_disk.files i).name ∧
      ((s'.my_disk.files i).isOpen ≠ 0 → (s.my_disk.files i).isOpen ≠ 0))
    (extra : List Int) : HandleInv s' (hs ++ extra) := by
  constructor
  · intro i hi
    rw [(hf i).1]
    exact h.openNamed i ((hf i).2 hi)
  · intro i hi
    rw [hc] at hi
    exact List.mem_append_left _ (h.assigned i hi)

theorem tseek_labels {σ : Type} (sys : Transport σ) (s : State σ) (t : Nat) :
    SameLabels s (tseek sys s t).1 :=
  sameLabels_of_eq (tseek_files sys s t) (tseek_counter sys s t)

theorem fs3_mount_disk_labels {σ : Type} (sys : Transport σ) (s : State σ) :
    SameLabels s (fs3_mount_disk sys s).1 := by
  unfold fs3_mount_disk
  simp only
  split
  · split
    · exact sameLabels_refl _
    · split
      · exact sameLabels_of_eq (by simp only [tseek_files]) (by simp only [tseek_counter])
      · exact sameLabels_refl _
  · exact sameLabels_refl _

theorem fs3_unmount_disk_handles {σ : Type} (sys : Transport σ) (s : State σ)
    (hs : List Int) (h : HandleInv s hs) (extra : List Int) :
    HandleInv (fs3_unmount_disk sys s).1 (hs ++ extra) := by
  unfold fs3_unmount_disk
  simp only
  split
  · split
    · refine HandleInv.of_labels h ?_ extra
      exact ⟨rfl, fun _ => ⟨rfl, rfl⟩⟩
    · split
      · refine HandleInv.of_closing h ?_ ?_ extra
        · rfl
        · intro i
          dsimp only
          split
          · exact ⟨rfl, fun hc => absurd rfl hc⟩
          · exact ⟨rfl, id⟩
      · refine HandleInv.of_labels h ?_ extra
        exact ⟨rfl, fun _ => ⟨rfl, rfl⟩⟩
  · exact h.of_labels (sameLabels_refl _) extra

theorem fs3_close_handles {σ : Type} (s s' : State σ) (fd : Int) (rc : Int)
    (hs : List Int) (h : HandleInv s hs) (extra : List Int)
    (hc : fs3_close s fd = some (s', rc)) : HandleInv s' (hs ++ extra) := by
  unfold fs3_close at hc
  split at hc
  · simp at hc
  · simp only [Option.some.injEq, Prod.mk.injEq] at hc
    obtain ⟨rfl, -⟩ := hc
    exact h.of_labels (sameLabels_refl _) extra
  · rename_i i _
    simp only [Option.some.injEq, Prod.mk.injEq] at hc
    obtain ⟨rfl, -⟩ := hc
    refine HandleInv.of_closing h ?_ ?_ extra
    · rfl
    · intro j
      by_cases hj : j = i
      · subst hj
        rw [setFile_files_self]
        exact ⟨rfl, fun hc => absurd rfl hc⟩
      · rw [setFile_files_other _ _ _ _ hj]
        exact ⟨rfl, id⟩

/-- An `fs3_open` of a non-empty name keeps the relation, with the handle it returns
added to the handles returned: it opens a slot that bears the name, or creates the file
with the handle counter as its handle and returns that. -/
theorem fs3_open_handles {σ : Type} (cfg : Config) (s s' : State σ) (path : String)
    (hnd : Int) (hs : List Int) (hp : path ≠ "") (h : HandleInv s hs)
    (ho : fs3_open cfg s path = some (s', hnd)) : HandleInv s' (hs ++ [hnd]) := by
  unfold fs3_open at ho
  simp only at ho
  split at ho
  · rename_i i hfind
    have hname : (s.my_disk.files i).name = path := by
      have := (find_range_some _ _ _ hfind).2.1
      simpa using this
    split at ho
    · simp only [Option.some.injEq, Prod.mk.injEq] at ho
      obtain ⟨rfl, -⟩ := ho
      exact h.of_labels (sameLabels_refl _) _
    · simp only [Option.some.injEq, Prod.mk.injEq] at ho
      obtain ⟨rfl, -⟩ := ho
      constructor
      · intro j hj
        by_cases hji : j = i
        · subst hji
          rw [setFile_files_self]
          show (s.my_disk.files j).name ≠ ""
          rw [hname]
          exact hp
        · rw [setFile_files_other _ _ _ _ hji] at hj ⊢
          exact h.openNamed j hj
      · intro j hj
        exact List.mem_append_left _ (h.assigned j hj)
  · split at ho
    · simp at ho
    · rename_i k hfind
      split at ho
      · simp at ho
      · split at ho
        · simp only [Option.some.injEq, Prod.mk.injEq] at ho
          obtain ⟨rfl, rfl⟩ := ho
          constructor
          · intro j hj
            by_cases hjk : j = k
            · subst hjk
              simp only [FS3.setFile, if_pos]
              exact hp
            · simp only [FS3.setFile, if_neg hjk, get_free_files] at hj ⊢
              exact h.openNamed j hj
          · intro j hj
            have hj' : (j : Int) < s.fileHandleCounter + 1 := hj
            by_cases hlt : (j : Int) < s.fileHandleCounter
            · exact List.mem_append_left _ (h.assigned j hlt)
            · have e : (j : Int) = s.fileHandleCounter := by omega
              rw [e]
              exact List.mem_append_right _ (List.mem_singleton.mpr rfl)
        · rename_i hne
          exact absurd (get_free_rc cfg _) hne

/-- Every defined call other than an `fs3_open` of the empty name keeps the relation
between the table and the handles returned, with the handle the call returns added. -/
theorem driverStep_handles {σ : Type} (cfg : Config) (sys : Transport σ) (s s1 : State σ)
    (op : DriverOp) (hs : List Int) (h : HandleInv s hs) (hn : op.named)
    (hstep : driverStep cfg sys s op = some s1) :
    HandleInv s1 (hs ++ openResult cfg s op) := by
  cases op with
  | mount =>
    simp only [driverStep, Option.some.injEq] at hstep
    subst hstep
    exact h.of_labels (fs3_mount_disk_labels sys s) _
  | unmount =>
    simp only [driverStep, Option.some.injEq] at hstep
    subst hstep
    exact fs3_unmount_disk_handles sys s hs h _
  | fopen path =>
    simp only [driverStep] at hstep
    cases ho : fs3_open cfg s path with
    | none => rw [ho] at hstep; simp at hstep
    | some r =>
      rw [ho] at hstep
      simp only [Option.map_some', Option.some.injEq] at hstep
      subst hstep
      show HandleInv r.1 (hs ++ ((fs3_open cfg s path).map Prod.snd).toList)
      rw [ho]
      exact fs3_open_handles cfg s r.1 path r.2 hs hn h ho
  | fclose fd =>
    simp only [driverStep] at hstep
    cases ho : fs3_close s fd with
    | none => rw [ho] at hstep; simp at hstep
    | some r =>
      rw [ho] at hstep
      simp only [Option.map_some', Option.some.injEq] at hstep
      subst hstep
      exact fs3_close_handles s r.1 fd r.2 hs h _ ho
  | fread fd buf count =>
    simp only [driverStep] at hstep
    cases ho : fs3_read cfg sys s fd buf count with
    | none => rw [ho] at hstep; simp at hstep
    | some r =>
      rw [ho] at hstep
      simp only [Option.map_some', Option.some.injEq] at hstep
      subst hstep
      exact h.of_labels (fs3_read_labels cfg sys s r.1 fd buf r.2.1 count r.2.2 ho) _
  | fwrite fd buf count =>
    simp only [driverStep] at hstep
    cases ho : fs3_write cfg sys s fd buf count with
    | none => rw [ho] at hstep; simp at hstep
    | some r =>
      rw [ho] at hstep
      simp only [Option.map_some', Option.some.injEq] at hstep
      subst hstep
      exact h.of_labels (fs3_write_labels cfg sys s r.1 fd buf count r.2 ho) _
  | fseek fd loc =>
    simp only [driverStep] at hstep
    cases ho : fs3_seek s fd loc with
    | none => rw [ho] at hstep; simp at hstep
    | some r =>
      rw [ho] at hstep
      simp only [Option.map_some', Option.some.injEq] at hstep
      subst hstep
      exact h.of_labels (fs3_seek_labels s r.1 fd loc r.2 ho) _

theorem driverRun_handles {σ : Type} (cfg : Config) (sys : Transport σ)
    (ops : List DriverOp) :
    ∀ (s s' : State σ) (hs : List Int), HandleInv s hs → (∀ op ∈ ops, op.named) →
      driverRun cfg sys s ops = some s' →
      HandleInv s' (hs ++ handlesReturned cfg sys s ops) := by
  induction ops with
  | nil =>
    intro s s' hs hinv _ h
    simp only [driverRun, Option.some.injEq] at h
    subst h
    exact hinv.of_labels (sameLabels_refl _) _
  | cons op ops ih =>
    intro s s' hs hinv hn h
    simp only [driverRun] at h
    cases hstep : driverStep cfg sys s op with
    | none => rw [hstep] at h; simp at h
    | some s1 =>
      rw [hstep] at h
      have h1 := driverStep_handles cfg sys s s1 op hs hinv
        (hn op (List.mem_cons_self _ _)) hstep
      have h2 := ih s1 s' _ h1 (fun o ho => hn o (List.mem_cons_of_mem _ ho)) h
      simp only [handlesReturned, hstep]
      rw [← List.append_assoc]
      exact h2

theorem boot_handles {σ : Type} (c : CACHE) (w : σ) : HandleInv (State.boot c w) [] := by
  constructor
  · intro i hi
    exact absurd rfl hi
  · intro i hi
    simp only [State.boot] at hi
    omega

/-- In a state reached from start-up by calls that never open the empty name, every open
slot holds a created file and every handle below the handle counter was returned by an
`fs3_open` of the run. -/
theorem reach_handles {σ : Type} (cfg : Config) (sys : Transport σ) (c : CACHE) (w : σ)
    (ops : List DriverOp) (s : State σ) (hn : ∀ op ∈ ops, op.named)
    (h : driverRun cfg sys (State.boot c w) ops = some s) :
    HandleInv s (handlesReturned cfg sys (State.boot c w) ops) := by
  have := driverRun_handles cfg sys ops _ s [] (boot_handles c w) hn h
  simpa using this

/-- Rejection read off the run: a handle that no `fs3_open` of the run returned,
or whose created record is closed, fails the test of `get_file`. -/
theorem reach_rejects {σ : Type} (cfg : Config) (sys : Transport σ) (c : CACHE) (w : σ)
    (ops : List DriverOp) (s : State σ) (fd : Int)
    (hn : ∀ op ∈ ops, op.named)
    (hrun : driverRun cfg sys (State.boot c w) ops = some s)
    (hfd : 0 ≤ fd ∧ fd < FS3_MAX_TOTAL_FILES)
    (hbad : fd ∉ handlesReturned cfg sys (State.boot c w) ops ∨
      ∀ i, i < FS3_MAX_TOTAL_FILES → (s.my_disk.files i).name ≠ "" →
        (s.my_disk.files i).fileHandle = fd → (s.my_disk.files i).isOpen = 0) :
    (s.my_disk.files fd.toNat).fileHandle ≠ fd ∨ (s.my_disk.files fd.toNat).isOpen = 0 := by
  have hinv := reach_driver_inv cfg sys c w ops s hrun
  have hh := reach_handles cfg sys c w ops s hn hrun
  have hcast : ((fd.toNat : Nat) : Int) = fd := Int.toNat_of_nonneg hfd.1
  have hlt : fd.toNat < FS3_MAX_TOTAL_FILES := by
    have := hfd.2
    omega
  by_cases hname : (s.my_disk.files fd.toNat).name = ""
  · right
    by_contra hopen
    exact hh.openNamed _ hopen hname
  · rcases hbad with hnot | hclosed
    · exfalso
      apply hnot
      have hlt2 : ((fd.toNat : Nat) : Int) < s.fileHandleCounter := by
        by_contra hge
        exact hname (hinv.unnamed _ (by omega))
      have := hh.assigned _ hlt2
      rwa [hcast] at this
    · by_cases hfh : (s.my_disk.files fd.toNat).fileHandle = fd
      · exact Or.inr (hclosed _ hlt hname hfh)
      · exact Or.inl hfh

/-- C11 as stated fails: after `mount(); open("")` from the start-up state no file has
been created (the handle counter is 0 and every slot is still unnamed), so handle 0 was
never assigned to a file; yet slot 0 passes the test of `get_file`: `fs3_close(0)`
returns 0, and `fs3_write(0, "HELLO", 5)` returns 5, allocates a sector, sets the length
to 5 and stores the bytes on the controller. -/
theorem invalid_handle_counterexample :
    (driverRun Config.standard (controller Config.standard)
      (State.boot CACHE.zero (Controller.blank Config.standard)) emptyNameOps).isSome = true ∧
    (driverAfter Config.standard emptyNameOps).fileHandleCounter = 0 ∧
    (∀ i : Nat, ((driverAfter Config.standard emptyNameOps).my_disk.files i).name = "") ∧
    ((0 : Int) ≤ 0 ∧ (0 : Int) < FS3_MAX_TOTAL_FILES) ∧
    (fs3_close (driverAfter Config.standard emptyNameOps) 0).map Prod.snd = some 0 ∧
    (fs3_write Config.standard (controller Config.standard)
        (driverAfter Config.standard emptyNameOps) 0 hello 5).map
      (fun r => (r.2, (r.1.my_disk.files 0).length, (r.1.my_disk.files 0).numOfSectors,
        (r.1.net.disk 0 0).take 5)) = some (5, 5, 1, hello) := by
  have hrun : driverRun Config.standard (controller Config.standard)
      (State.boot CACHE.zero (Controller.blank Config.standard)) emptyNameOps =
      some (driverAfter Config.standard emptyNameOps) :=
    some_getD_of_isSome
      (driverRun Config.standard (controller Config.standard)
        (State.boot CACHE.zero (Controller.blank Config.standard)) emptyNameOps)
      (State.boot CACHE.zero (Controller.blank Config.standard)) (by decide)
  have hcnt : (driverAfter Config.standard emptyNameOps).fileHandleCounter = 0 := by decide
  refine ⟨by decide, hcnt, ?_, by decide, by decide, by decide⟩
  intro i
  apply (reach_driver_inv _ _ _ _ _ _ hrun).unnamed
  rw [hcnt]
  exact Int.ofNat_nonneg i

/-- C11 (amended): in every state reached from the start-up state by defined calls none
of which opens the empty name, over any transport, for every handle `fd` in table range
that no `fs3_open` of the run returned (it was never assigned to a file), or such that
every created file record bearing the handle `fd` is closed (`open = 0`), `fs3_close`,
`fs3_read` and `fs3_write` each return -1 and leave the whole state (disk, handle
counter, cache, remote end) and `buf` unchanged; with a transport that logs every
request the log is unchanged, so none is issued. -/
theorem invalid_handle {σ : Type} (cfg : Config) (sys : Transport σ) (c : CACHE) (w : σ)
    (ops : List DriverOp) (s : State σ) (fd : Int) (buf : List Byte) (count : Nat)
    (log : List Nat)
    (hnamed : ∀ op ∈ ops, op.named)
    (hrun : driverRun cfg sys (State.boot c w) ops = some s)
    (hfd : 0 ≤ fd ∧ fd < FS3_MAX_TOTAL_FILES)
    (hbad : fd ∉ handlesReturned cfg sys (State.boot c w) ops ∨
      ∀ i, i < FS3_MAX_TOTAL_FILES → (s.my_disk.files i).name ≠ "" →
        (s.my_disk.files i).fileHandle = fd → (s.my_disk.files i).isOpen = 0) :
    fs3_close s fd = some (s, -1) ∧
    fs3_read cfg sys s fd buf count = some (s, buf, -1) ∧
    fs3_write cfg sys s fd buf count = some (s, -1) ∧
    fs3_read cfg (traced sys) (withLog s log) fd buf count = some (withLog s log, buf, -1) ∧
    fs3_write cfg (traced sys) (withLog s log) fd buf count = some (withLog s log, -1) := by
  have hslot := reach_rejects cfg sys c w ops s fd hnamed hrun hfd hbad
  obtain ⟨c1, c2, c3⟩ := rejected_handle cfg sys s fd buf count hfd hslot
  obtain ⟨-, d2, d3⟩ :=
    rejected_handle cfg (traced sys) (withLog s log) fd buf count hfd hslot
  exact ⟨c1, c2, c3, d2, d3⟩

theorem closedFileOps_named : ∀ op ∈ closedFileOps, op.named := by
  intro op hop
  simp only [closedFileOps, List.mem_cons, List.mem_singleton, List.not_mem_nil,
    or_false] at hop
  rcases hop with rfl | rfl | rfl | rfl
  · trivial
  · show "a.txt" ≠ ""
    decide
  · trivial
  · trivial

theorem closedFileOps_run :
    driverRun Config.standard (controller Config.standard)
      (State.boot CACHE.zero (Controller.blank Config.standard)) closedFileOps =
      some (driverAfter Config.standard closedFileOps) :=
  some_getD_of_isSome
    (driverRun Config.standard (controller Config.standard)
      (State.boot CACHE.zero (Controller.blank Config.standard)) closedFileOps)
    (State.boot CACHE.zero (Controller.blank Config.standard)) (by decide)

/-- After `mount(); open("a.txt"); write(0, "HELLO", 5); close(0)` every created file
record with handle 0 is closed. -/
theorem closedFileOps_closed :
    ∀ i, i < FS3_MAX_TOTAL_FILES →
      ((driverAfter Config.standard closedFileOps).my_disk.files i).name ≠ "" →
      ((driverAfter Config.standard closedFileOps).my_disk.files i).fileHandle = 0 →
      ((driverAfter Config.standard closedFileOps).my_disk.files i).isOpen = 0 := by
  intro i _ hname _
  have hinv := reach_driver_inv _ _ _ _ _ _ closedFileOps_run
  have hcnt : (driverAfter Config.standard closedFileOps).fileHandleCounter = 1 := by decide
  have hi : i = 0 := by
    by_contra hne
    apply hname
    apply hinv.unnamed
    rw [hcnt]
    omega
  subst hi
  decide

/-- Witness for C11 after `mount(); open("a.txt"); write(0, "HELLO", 5); close(0)`:
handle 1 was returned by no `fs3_open` of the run, and the file of handle 0 is closed. -/
theorem invalid_handle_witness :
    (∀ op ∈ closedFileOps, op.named) ∧
    driverRun Config.standard (controller Config.standard)
      (State.boot CACHE.zero (Controller.blank Config.standard)) closedFileOps =
      some (driverAfter Config.standard closedFileOps) ∧
    ((0 : Int) ≤ 1 ∧ (1 : Int) < FS3_MAX_TOTAL_FILES) ∧
    (1 : Int) ∉ handlesReturned Config.standard (controller Config.standard)
      (State.boot CACHE.zero (Controller.blank Config.standard)) closedFileOps ∧
    (fs3_close (driverAfter Config.standard closedFileOps) 1 =
        some (driverAfter Config.standard closedFileOps, -1) ∧
     fs3_read Config.standard (controller Config.standard)
        (driverAfter Config.standard closedFileOps) 1 hello 5 =
        some (driverAfter Config.standard closedFileOps, hello, -1) ∧
     fs3_write Config.standard (controller Config.standard)
        (driverAfter Config.standard closedFileOps) 1 hello 5 =
        some (driverAfter Config.standard closedFileOps, -1) ∧
     fs3_read Config.standard (traced (controller Config.standard))
        (withLog (driverAfter Config.standard closedFileOps) []) 1 hello 5 =
        some (withLog (driverAfter Config.standard closedFileOps) [], hello, -1) ∧
     fs3_write Config.standard (traced (controller Config.standard))
        (withLog (driverAfter Config.standard closedFileOps) []) 1 hello 5 =
        some (withLog (driverAfter Config.standard closedFileOps) [], -1)) ∧
    ((0 : Int) ≤ 0 ∧ (0 : Int) < FS3_MAX_TOTAL_FILES) ∧
    (∀ i, i < FS3_MAX_TOTAL_FILES →
      ((driverAfter Config.standard closedFileOps).my_disk.files i).name ≠ "" →
      ((driverAfter Config.standard closedFileOps).my_disk.files i).fileHandle = 0 →
      ((driverAfter Config.standard closedFileOps).my_disk.files i).isOpen = 0) ∧
    ((driverAfter Config.standard closedFileOps).my_disk.files 0).name = "a.txt" ∧
    (fs3_close (driverAfter Config.standard closedFileOps) 0 =
        some (driverAfter Config.standard closedFileOps, -1) ∧
     fs3_read Config.standard (controller Config.standard)
        (driverAfter Config.standard closedFileOps) 0 hello 5 =
        some (driverAfter Config.standard closedFileOps, hello, -1) ∧
     fs3_write Config.standard (controller Config.standard)
        (driverAfter Config.standard closedFileOps) 0 hello 5 =
        some (driverAfter Config.standard closedFileOps, -1) ∧
     fs3_read Config.standard (traced (controller Config.standard))
        (withLog (driverAfter Config.standard closedFileOps) []) 0 hello 5 =
        some (withLog (driverAfter Config.standard closedFileOps) [], hello, -1) ∧
     fs3_write Config.standard (traced (controller Config.standard))
        (withLog (driverAfter Config.standard closedFileOps) []) 0 hello 5 =
        some (withLog (driverAfter Config.standard closedFileOps) [], -1)) :=
  ⟨closedFileOps_named, closedFileOps_run, by decide, by decide,
   invalid_handle Config.standard (controller Config.standard) CACHE.zero
     (Controller.blank Config.standard) closedFileOps
     (driverAfter Config.standard closedFileOps) 1 hello 5 []
     closedFileOps_named closedFileOps_run (by decide) (Or.inl (by decide)),
   by decide, closedFileOps_closed, by decide,
   invalid_handle Config.standard (controller Config.standard) CACHE.zero
     (Controller.blank Config.standard) closedFileOps
     (driverAfter Config.standard closedFileOps) 0 hello 5 []
     closedFileOps_named closedFileOps_run (by decide) (Or.inr closedFileOps_closed)⟩

end FS3
